import Mathlib

/-!
The libavg `Player`: timer queue, event capture table, canvas order, event routing,
frame loop.

A shallow embedding of the parts of `src/player/Player.cpp` that schedule
timeouts (`addTimeout`, `setTimeout`, `setInterval`, `clearInterval`,
`handleTimers`), keep the event capture table (`setEventCapture`,
`releaseEventCapture`, `isCaptured`), order the off-screen canvases
(`newCanvasDependency`, `deleteCanvas`), route events (`handleEvent`,
`handleCursorEvent`, `sendOver`, `sendFakeEvents`) and run the frames (`play`, `stop`,
`initPlayback`, `doFrame`, `cleanup`).
-/

namespace Avg

/-! ## Timeouts -/

/-- Modelled from the spec: the class `Timeout` (Timeout.h and Timeout.cpp are not among
the sources). The data model of the spec gives a timeout an id, an absolute fire time,
a periodic flag, a period and a callback. The callback is the identity of the Python
callable (`PyObject*`). -/
structure Timeout where
  id : Nat
  interval : Int
  nextTimeout : Int
  isInterval : Bool
  pyFunc : Nat
deriving DecidableEq, Repr

namespace Timeout

/-- Modelled from the spec: the constructor `Timeout(time, pyfunc, isInterval, startTime)`.
The fire time is `startTime + time`; ids come from a static counter `lastID`, so that
every timeout gets a fresh id. -/
def create (time : Int) (pyfunc : Nat) (isInterval : Bool) (startTime : Int)
    (lastID : Nat) : Timeout :=
  { id := lastID + 1, interval := time, nextTimeout := time + startTime,
    isInterval := isInterval, pyFunc := pyfunc }

/-- Modelled from the spec: `Timeout::IsReady(time)`, "fire time ≤ now". -/
def IsReady (t : Timeout) (time : Int) : Bool := decide (t.nextTimeout ≤ time)

/-- Modelled from the spec: `Timeout::operator<`, the ascending-by-fire-time order. -/
def lt (a b : Timeout) : Bool := decide (a.nextTimeout < b.nextTimeout)

/-- Modelled from the spec: the write to the fire time at the end of `Timeout::Fire(curTime)`:
"periodic timers are rebased to now + period". -/
def rebase (t : Timeout) (curTime : Int) : Timeout :=
  if t.isInterval then { t with nextTimeout := t.interval + curTime } else t

end Timeout

/-- The members of `Player` that the timer code reads and writes, the static id counter of
`Timeout`, and a trace `fired` of the timeouts whose callback has been invoked (each
recorded as it was when `Fire` was called). -/
structure Timers where
  m_PendingTimeouts : List Timeout
  m_NewTimeouts : List Timeout
  m_bInHandleTimers : Bool
  m_bCurrentTimeoutDeleted : Bool
  m_bStopping : Bool
  m_bIsPlaying : Bool
  m_FrameTime : Int
  lastID : Nat
  fired : List Timeout
deriving DecidableEq, Repr

/-- `Player::Player()`: the timer members after construction. -/
def Timers.init : Timers :=
  { m_PendingTimeouts := [], m_NewTimeouts := [], m_bInHandleTimers := false,
    m_bCurrentTimeoutDeleted := false, m_bStopping := false, m_bIsPlaying := false,
    m_FrameTime := 0, lastID := 0, fired := [] }

/-- `Player::addTimeout` on the vector `m_PendingTimeouts`: walk while the queued timeout
is `<` the new one, insert at the position reached. -/
def addTimeout (t : Timeout) : List Timeout → List Timeout
  | [] => [t]
  | x :: xs => if x.lt t then x :: addTimeout t xs else t :: x :: xs

/-- `Player::setInterval`. Returns the id of the new timeout. -/
def setInterval (time : Int) (pyfunc : Nat) (p : Timers) : Nat × Timers :=
  let t := Timeout.create time pyfunc true p.m_FrameTime p.lastID
  let p1 := { p with lastID := p.lastID + 1 }
  if p.m_bInHandleTimers then
    (t.id, { p1 with m_NewTimeouts := p1.m_NewTimeouts ++ [t] })
  else
    (t.id, { p1 with m_PendingTimeouts := addTimeout t p1.m_PendingTimeouts })

/-- `Player::setTimeout`. Returns the id of the new timeout. -/
def setTimeout (time : Int) (pyfunc : Nat) (p : Timers) : Nat × Timers :=
  let t := Timeout.create time pyfunc false p.m_FrameTime p.lastID
  let p1 := { p with lastID := p.lastID + 1 }
  if p.m_bInHandleTimers then
    (t.id, { p1 with m_NewTimeouts := p1.m_NewTimeouts ++ [t] })
  else
    (t.id, { p1 with m_PendingTimeouts := addTimeout t p1.m_PendingTimeouts })

/-- `Player::setOnFrameHandler`. -/
def setOnFrameHandler (pyfunc : Nat) (p : Timers) : Nat × Timers :=
  setInterval 0 pyfunc p

/-- The position of the first timeout with the given id: the scan of `clearInterval`. -/
def findID (id : Nat) : List Timeout → Option Nat
  | [] => none
  | t :: ts => if id = t.id then some 0 else (findID id ts).map (· + 1)

/-- `Player::clearInterval`. -/
def clearInterval (id : Nat) (p : Timers) : Bool × Timers :=
  match findID id p.m_PendingTimeouts with
  | some i =>
    (true, { p with
      m_bCurrentTimeoutDeleted :=
        if i = 0 ∧ p.m_bInHandleTimers = true then true else p.m_bCurrentTimeoutDeleted,
      m_PendingTimeouts := p.m_PendingTimeouts.eraseIdx i })
  | none =>
    match findID id p.m_NewTimeouts with
    | some i => (true, { p with m_NewTimeouts := p.m_NewTimeouts.eraseIdx i })
    | none => (false, p)

/-- `Player::cleanup`, as far as the timer members go: the pending timeouts are killed,
the frame time is reset, the player is not playing any more. -/
def cleanup (p : Timers) : Timers :=
  { p with m_PendingTimeouts := [], m_FrameTime := 0, m_bIsPlaying := false }

/-- `Player::stop`. -/
def stop (p : Timers) : Timers :=
  if p.m_bIsPlaying then { p with m_bStopping := true } else cleanup p

/-- What a Python callback may do to the scheduler while it runs. -/
inductive Call where
  | setTimeout (time : Int) (pyfunc : Nat)
  | setInterval (time : Int) (pyfunc : Nat)
  | clearInterval (id : Nat)
  | stop
deriving DecidableEq, Repr

/-- The Python side: for each callable, the calls it makes into the player, which may
depend on the state of the player when the callable is invoked. -/
abbrev PyEnv := Nat → Timers → List Call

/-- One call of a callback into the player. -/
def Call.run : Call → Timers → Timers
  | .setTimeout time f, p => (Avg.setTimeout time f p).2
  | .setInterval time f, p => (Avg.setInterval time f p).2
  | .clearInterval id, p => (Avg.clearInterval id p).2
  | .stop, p => Avg.stop p

/-- The calls of one callback, in order. -/
def runCalls : List Call → Timers → Timers
  | [], p => p
  | c :: cs, p => runCalls cs (c.run p)

/-- One iteration of the loop of `handleTimers`, from the return of the Python callable
inside `Fire` on: `Fire` rebases the timeout it was called on (`*it`, the head of the
queue; when the callback has deleted that timeout the write goes to a freed object and is
not modelled), then the loop either restarts at `begin()` or moves the head of the queue to
the front of `m_NewTimeouts` (periodic) or drops it (one-shot), and clears the flag. A
callback that calls `stop()` while the player is not playing clears the vector under the
iterator, which C++ leaves undefined; here the iteration then ends with the empty queue. -/
def afterCallback (now : Int) (p : Timers) : Timers :=
  if p.m_bCurrentTimeoutDeleted then
    { p with m_bCurrentTimeoutDeleted := false }
  else
    match p.m_PendingTimeouts with
    | [] => p
    | t :: rest =>
      if (t.rebase now).isInterval then
        { p with m_PendingTimeouts := rest,
                 m_NewTimeouts := t.rebase now :: p.m_NewTimeouts,
                 m_bCurrentTimeoutDeleted := false }
      else
        { p with m_PendingTimeouts := rest, m_bCurrentTimeoutDeleted := false }

/-- The trace entry for the invocation of the callback of `t`. -/
def recordFired (t : Timeout) (p : Timers) : Timers :=
  { p with fired := p.fired ++ [t] }

/-- The body of the loop of `handleTimers`: `(*it)->Fire(getFrameTime())` on the head of
the queue, which invokes the Python callable, then the bookkeeping of `afterCallback`. -/
def handleTimersBody (env : PyEnv) (p : Timers) : Timers :=
  match p.m_PendingTimeouts with
  | [] => p
  | t :: _ =>
    afterCallback p.m_FrameTime (runCalls (env t.pyFunc p) (recordFired t p))

/-- The condition of the loop of `handleTimers`, with `it == begin()`. -/
def handleTimersCond (p : Timers) : Bool :=
  match p.m_PendingTimeouts with
  | [] => false
  | t :: _ => t.IsReady p.m_FrameTime && !p.m_bStopping

/-- The loop of `handleTimers`; `none` when the fuel runs out before the loop ends. -/
def handleTimersLoop (env : PyEnv) : Nat → Timers → Option Timers
  | 0, p => if handleTimersCond p then none else some p
  | n + 1, p =>
    if handleTimersCond p then handleTimersLoop env n (handleTimersBody env p) else some p

/-- The end of `handleTimers`: every staged timeout is passed to `addTimeout`, in the
order of `m_NewTimeouts`, the staging buffer is cleared and the in-pass flag reset. -/
def finishHandleTimers (p : Timers) : Timers :=
  { p with
    m_PendingTimeouts := p.m_NewTimeouts.foldl (fun q t => addTimeout t q) p.m_PendingTimeouts,
    m_NewTimeouts := [],
    m_bInHandleTimers := false }

/-- `Player::handleTimers`. The loop gets one unit of fuel per queued timeout and one
more; `handleTimers_total` shows that this is always enough. -/
def handleTimers (env : PyEnv) (p : Timers) : Option Timers :=
  (handleTimersLoop env (p.m_PendingTimeouts.length + 1)
    { p with m_bInHandleTimers := true }).map finishHandleTimers

/-- The timeouts that a sequence of `setTimeout(time, pyfunc)` calls creates, the i-th
call being made at frame time `ft`: requests are triples `(ft, time, pyfunc)`. -/
def createdTimeouts : List (Int × Int × Nat) → Nat → List Timeout
  | [], _ => []
  | (ft, time, f) :: rs, lastID =>
    Timeout.create time f false ft lastID :: createdTimeouts rs (lastID + 1)

/-- A sequence of `setTimeout` calls made outside `handleTimers`, each at its own frame
time. -/
def scheduleAll : List (Int × Int × Nat) → Timers → Timers
  | [], p => p
  | (ft, time, f) :: rs, p =>
    scheduleAll rs (setTimeout time f { p with m_FrameTime := ft }).2

/-- The advance of the frame time at the start of `Player::doFrame`. -/
def setFrameTime (now : Int) (p : Timers) : Timers :=
  { p with m_FrameTime := now }

/-- `Player::initPlayback`, as far as the timer members go. -/
def initPlayback (p : Timers) : Timers :=
  { p with m_bIsPlaying := true, m_bStopping := false, m_FrameTime := 0 }

/-- The call by which a callback schedules a timeout: `setInterval` for a periodic one,
`setTimeout` for a one-shot one. -/
def scheduleCall (periodic : Bool) (time : Int) (pyfunc : Nat) : Call :=
  if periodic then .setInterval time pyfunc else .setTimeout time pyfunc

/-- A player inside `handleTimers` at frame time 10, in the callback of its only timeout
(id 1, callable 1, due at 0): the state in which that callback makes its calls. -/
def insideCallback : Timers :=
  { m_PendingTimeouts := [Timeout.mk 1 0 0 false 1], m_NewTimeouts := [],
    m_bInHandleTimers := true, m_bCurrentTimeoutDeleted := false, m_bStopping := false,
    m_bIsPlaying := true, m_FrameTime := 10, lastID := 1,
    fired := [Timeout.mk 1 0 0 false 1] }

/-- A Python side whose callbacks never call into the player. -/
def quietEnv : PyEnv := fun _ _ => []

/-! ## Event capture table -/

/-- `Player::EventCaptureInfo`: a weak pointer to the capturing node (nodes are named by
numbers) and the acquisition counter. The counter is an `int` in the source; it is
modelled without overflow. -/
structure EventCaptureInfo where
  m_pNode : Nat
  m_CaptureCount : Int
deriving DecidableEq, Repr

/-- `Player::EventCaptureInfo::EventCaptureInfo(pNode)`. -/
def EventCaptureInfo.create (pNode : Nat) : EventCaptureInfo :=
  { m_pNode := pNode, m_CaptureCount := 1 }

/-- `m_EventCaptureInfoMap`, a `std::map<int, EventCaptureInfoPtr>`. -/
abbrev CaptureMap := Int → Option EventCaptureInfo

/-- `m_EventCaptureInfoMap[cursorID] = info`. -/
def CaptureMap.set (m : CaptureMap) (cursorID : Int) (info : EventCaptureInfo) : CaptureMap :=
  fun c => if c = cursorID then some info else m c

/-- `m_EventCaptureInfoMap.erase(cursorID)`. -/
def CaptureMap.erase (m : CaptureMap) (cursorID : Int) : CaptureMap :=
  fun c => if c = cursorID then none else m c

/-- The two exceptions of the capture functions; both carry `AVG_ERR_INVALID_CAPTURE` and
differ in their message. `alreadyCaptured node oldNode` is "setEventCapture called for
node, but cursor already captured by oldNode", `notCaptured` is "releaseEventCapture
called, but cursor not captured". -/
inductive CaptureError where
  | alreadyCaptured (node oldNode : Nat)
  | notCaptured
deriving DecidableEq, Repr

/-- `Player::setEventCapture`. `live n` says that node `n` has not been destroyed, so
that `m_pNode.expired()` is `!live m_pNode`. Returns the outcome and the table after the
call. -/
def setEventCapture (live : Nat → Bool) (pNode : Nat) (cursorID : Int) (m : CaptureMap) :
    Except CaptureError Unit × CaptureMap :=
  match m cursorID with
  | some info =>
    if live info.m_pNode then
      if info.m_pNode = pNode then
        (.ok (), m.set cursorID { info with m_CaptureCount := info.m_CaptureCount + 1 })
      else
        (.error (.alreadyCaptured pNode info.m_pNode), m)
    else
      (.ok (), m.set cursorID (EventCaptureInfo.create pNode))
  | none => (.ok (), m.set cursorID (EventCaptureInfo.create pNode))

/-- `Player::releaseEventCapture`. -/
def releaseEventCapture (live : Nat → Bool) (cursorID : Int) (m : CaptureMap) :
    Except CaptureError Unit × CaptureMap :=
  match m cursorID with
  | none => (.error .notCaptured, m)
  | some info =>
    if live info.m_pNode then
      if info.m_CaptureCount - 1 = 0 then
        (.ok (), m.erase cursorID)
      else
        (.ok (), m.set cursorID { info with m_CaptureCount := info.m_CaptureCount - 1 })
    else
      (.error .notCaptured, m)

/-- `Player::isCaptured`. -/
def isCaptured (cursorID : Int) (m : CaptureMap) : Bool :=
  (m cursorID).isSome

/-- The choice of the destination nodes in `Player::handleCursorEvent`:
`pDestNodes` is the hit set `pCursorNodes` unless the cursor has a capture entry whose node
is alive, in which case it is the parent chain of that node; an entry whose node has
expired is erased. Returns `pDestNodes` and the table. -/
def handleCursorEvent_destNodes (live : Nat → Bool) (getParentChain : Nat → List Nat)
    (pCursorNodes : List Nat) (cursorID : Int) (m : CaptureMap) : List Nat × CaptureMap :=
  match m cursorID with
  | some info =>
    if live info.m_pNode then (getParentChain info.m_pNode, m)
    else (pCursorNodes, m.erase cursorID)
  | none => (pCursorNodes, m)

/-- As many `setEventCapture(pNode, cursorID)` calls as the first argument says; stops at
the first call that throws. -/
def setEventCaptureTimes (live : Nat → Bool) (pNode : Nat) (cursorID : Int) :
    Nat → CaptureMap → Except CaptureError Unit × CaptureMap
  | 0, m => (.ok (), m)
  | n + 1, m =>
    match setEventCapture live pNode cursorID m with
    | (.ok _, m1) => setEventCaptureTimes live pNode cursorID n m1
    | (.error e, m1) => (.error e, m1)

/-- As many `releaseEventCapture(cursorID)` calls as the first argument says; stops at the
first call that throws. -/
def releaseEventCaptureTimes (live : Nat → Bool) (cursorID : Int) :
    Nat → CaptureMap → Except CaptureError Unit × CaptureMap
  | 0, m => (.ok (), m)
  | n + 1, m =>
    match releaseEventCapture live cursorID m with
    | (.ok _, m1) => releaseEventCaptureTimes live cursorID n m1
    | (.error e, m1) => (.error e, m1)

/-! ## Off-screen canvases -/

/-- The ways `newCanvasDependency` can fail: the exception `AVG_ERR_INVALID_ARGS`
"Circular dependency between canvases.", and a failed `assert` / `AVG_ASSERT`. -/
inductive CanvasError where
  | circularDependency
  | assertion
deriving DecidableEq, Repr

/-- The first loop of `newCanvasDependency`: erase `pCanvas` from `m_pCanvases`. After an
erase the `continue` still runs `++i`, so the canvas that slid into position `i` is not
compared. Returns whether `pNewCanvas` was set, and the vector. -/
def eraseCanvas (pCanvas : Nat) : List Nat → Bool × List Nat
  | [] => (false, [])
  | [x] => if pCanvas = x then (true, []) else (false, [x])
  | x :: y :: rest =>
    if pCanvas = x then (true, y :: (eraseCanvas pCanvas rest).2)
    else ((eraseCanvas pCanvas (y :: rest)).1, x :: (eraseCanvas pCanvas (y :: rest)).2)

/-- The second loop of `newCanvasDependency`: the first position whose canvas is a
dependent of `pNewCanvas`. -/
def firstDependent (hasDependentCanvas : Nat → Nat → Bool) (pNewCanvas : Nat) :
    List Nat → Option Nat
  | [] => none
  | c :: cs =>
    if hasDependentCanvas pNewCanvas c then some 0
    else (firstDependent hasDependentCanvas pNewCanvas cs).map (· + 1)

/-- `Player::newCanvasDependency`. Canvases are named by numbers;
`hasDependentCanvas x y` is `x->hasDependentCanvas(y)` (canvas `y` uses the image of
canvas `x`, so `x` has to be rendered before `y`) and is a parameter, the class
`OffscreenCanvas` not being among the sources. Returns the outcome and `m_pCanvases`
after the call. -/
def newCanvasDependency (hasDependentCanvas : Nat → Nat → Bool) (mainCanvas : Nat)
    (pCanvas : Nat) (canvases : List Nat) : Except CanvasError Unit × List Nat :=
  let r := eraseCanvas pCanvas canvases
  if r.1 then
    match firstDependent hasDependentCanvas pCanvas r.2 with
    | some i =>
      if (r.2.drop i).any (fun c => hasDependentCanvas c pCanvas) then
        (.error .circularDependency, r.2)
      else
        (.ok (), r.2.take i ++ pCanvas :: r.2.drop i)
    | none =>
      if hasDependentCanvas pCanvas mainCanvas then (.ok (), r.2 ++ [pCanvas])
      else (.error .assertion, r.2)
  else (.error .assertion, r.2)

/-- The canvas sequence is a dependency order: every canvas of the sequence comes after
every canvas of the sequence that it depends on. -/
def DependencyOrder (hasDependentCanvas : Nat → Nat → Bool) (canvases : List Nat) : Prop :=
  ∀ x ∈ canvases, ∀ y ∈ canvases, hasDependentCanvas x y = true →
    canvases.indexOf x < canvases.indexOf y

/-- The queue is in ascending fire-time order. -/
def Ascending (q : List Timeout) : Prop :=
  q.Pairwise (fun a b => a.nextTimeout ≤ b.nextTimeout)

/-- The staged form of the periodic timeouts among the fired ones: rebased, last fired
first. -/
def restaged (now : Int) (l : List Timeout) : List Timeout :=
  ((l.filter (fun t => t.isInterval)).map (fun t => t.rebase now)).reverse

/-- The ids of the timeouts in the queue and in the staging buffer. -/
def Timers.ids (p : Timers) : List Nat :=
  (p.m_PendingTimeouts ++ p.m_NewTimeouts).map Timeout.id

/-- Ids are handed out by a counter: no two timeouts of the player share an id and no id
is above the counter. -/
def WellFormed (p : Timers) : Prop :=
  p.ids.Nodup ∧ ∀ x ∈ p.ids, x ≤ p.lastID

/-- What every iteration of the loop of `handleTimers` keeps when no callback stops the
player: the deleted flag is clear between iterations, the player is not stopping, the
frame time is `now`, ids are not shared, the queue is in ascending order. -/
def PassInvariant (now : Int) (s : Timers) : Prop :=
  s.m_bCurrentTimeoutDeleted = false ∧ s.m_bStopping = false ∧ s.m_FrameTime = now ∧
    WellFormed s ∧ Ascending s.m_PendingTimeouts

/-- How often the callback of a timeout with the given id has been invoked. -/
def firedCount (id : Nat) (s : Timers) : Nat :=
  (s.fired.map Timeout.id).count id

/-! ## Deleting a canvas -/

/-- The exceptions of `deleteCanvas`: `AVG_ERR_INVALID_ARGS` "deleteCanvas: Canvas with id
... is still referenced." and `AVG_ERR_OUT_OF_RANGE` "deleteCanvas: Canvas with id ... does
not exist." -/
inductive DeleteCanvasError where
  | invalidArgs
  | outOfRange
deriving DecidableEq, Repr

/-- `Player::deleteCanvas` on the vector `m_pCanvases`. `getID` and
`getNumDependentCanvases` are the methods of `OffscreenCanvas`, which is not among the
sources, and are parameters. The call `stopPlayback()` on the canvas that is erased does
not touch the vector. Returns the outcome and `m_pCanvases` after the call. -/
def deleteCanvas (getID : Nat → String) (getNumDependentCanvases : Nat → Nat)
    (sID : String) : List Nat → Except DeleteCanvasError Unit × List Nat
  | [] => (.error .outOfRange, [])
  | c :: cs =>
    if getID c = sID then
      if getNumDependentCanvases c > 0 then (.error .invalidArgs, c :: cs)
      else (.ok (), cs)
    else
      ((deleteCanvas getID getNumDependentCanvases sID cs).1,
        c :: (deleteCanvas getID getNumDependentCanvases sID cs).2)

/-! ## Events -/

/-- `Event::Type` (Event.h is not among the sources): the constants that `Player.cpp`
names; every other type is an `other n`. -/
inductive EventType where
  | KEYDOWN
  | CURSORMOTION
  | CURSORUP
  | CURSOROVER
  | CURSOROUT
  | QUIT
  | other (n : Nat)
deriving DecidableEq, Repr

/-- `Event::Source`: `MOUSE`, the one constant that `Player.cpp` names, and the others. -/
inductive EventSource where
  | MOUSE
  | other (n : Nat)
deriving DecidableEq, Repr

/-- The dynamic type of an event, as the `dynamic_pointer_cast`s of `handleEvent` tell it
apart: a `MouseEvent` is a `CursorEvent` too, a `cursorEvent` here is a `CursorEvent` that
is no `MouseEvent`. -/
inductive EventClass where
  | mouseEvent
  | cursorEvent
  | keyEvent
  | otherEvent
deriving DecidableEq, Repr

/-- An event, with what `Player.cpp` reads of it: `getType()`, `getSource()`,
`getCursorID()`, `getPos()`, `getKeyCode()`, `getNode()` (a null pointer is `none`),
`getInputDevice()->getEventReceiverNode()` (null is `none`), and `getContact()` (null is
`none`) with its `hasListeners()`. -/
structure Event where
  cls : EventClass
  type : EventType
  source : EventSource
  cursorID : Int
  pos : Int × Int
  keyCode : Nat
  node : Option Nat
  receiverNode : Option Nat
  contact : Option Bool
deriving DecidableEq, Repr

/-- `CursorEvent::cloneAs(type)` followed by `setNode(pNode)`. -/
def Event.cloneFor (ev : Event) (type : EventType) (pNode : Nat) : Event :=
  { ev with type := type, node := some pNode }

/-- `MouseEvent(Event::CURSORMOTION, false, false, false, IntPoint(-1, -1),
MouseEvent::NO_BUTTON, DPoint(-1, -1), 0)`, the value of `m_pLastMouseEvent` after
construction and after `cleanup`. The cursor id of a mouse event is written -1 here. -/
def Event.noMouseEvent : Event :=
  { cls := .mouseEvent, type := .CURSORMOTION, source := .MOUSE, cursorID := -1,
    pos := (-1, -1), keyCode := 0, node := none, receiverNode := none, contact := none }

/-- `CursorState`: the last event of a cursor and the nodes that were under it. -/
structure CursorState where
  m_pLastEvent : Event
  m_pNodes : List Nat
deriving DecidableEq, Repr

/-- `m_pLastCursorStates.find(cursorID)` on the `std::map<int, CursorStatePtr>`, kept as a
list of pairs in ascending key order, the order in which the map is iterated. -/
def cursorFind (k : Int) : List (Int × CursorState) → Option CursorState
  | [] => none
  | (k1, s) :: rest => if k1 = k then some s else cursorFind k rest

/-- `m_pLastCursorStates.erase(cursorID)`. -/
def cursorErase (k : Int) (l : List (Int × CursorState)) : List (Int × CursorState) :=
  l.filter (fun e => decide (e.1 ≠ k))

/-- `m_pLastCursorStates[cursorID] = state`, and `setInfo` on the entry when there is
one. -/
def cursorSet (k : Int) (s : CursorState) :
    List (Int × CursorState) → List (Int × CursorState)
  | [] => [(k, s)]
  | (k1, s1) :: rest =>
    if k < k1 then (k, s) :: (k1, s1) :: rest
    else if k = k1 then (k, s) :: rest
    else (k1, s1) :: cursorSet k s rest

/-- What the player does to the world outside `Player.cpp`, in the order in which it does
it: events handed to nodes, frames rendered, engines started and torn down. -/
inductive Action where
  | sendEvent (type : EventType) (node : Nat)
  | nodeHandleEvent (node : Nat) (type : EventType) (handled : Bool)
  | sendEventToListeners (node : Option Nat)
  | updateCameraImage (canvas : Nat)
  | canvasDoFrame (canvas : Nat)
  | mainCanvasDoFrame
  | frameWait
  | swapBuffers
  | checkJitter
  | displayInit
  | audioInit
  | audioPlay
  | canvasInitPlayback (canvas : Nat)
  | mainInitPlayback
  | initRender
  | multitouchStart
  | mainStopPlayback
  | canvasStopPlayback (canvas : Nat)
  | deinitRender
  | displayTeardown
  | audioTeardown
deriving DecidableEq, Repr

/-! ## The player -/

/-- The members of `Player` that event routing and the frame loop read and write.
`timers` holds the timer members together with `m_bStopping`, `m_bIsPlaying` and
`m_FrameTime`. `m_pMainCanvas` is the root node of the main canvas, `none` for a null
pointer; `m_pEventDispatcher`, `m_pMultitouchInputDevice` and `m_pDisplayEngine` say
whether the pointer is set, `audioEngine` whether `SDLAudioEngine::get()` is;
`m_EventHookPyFunc` is `none` for `Py_None`. The frame rate `m_FakeFPS` is a `double` in
the source and a rational number here. `trace` lists the actions so far. -/
structure Player where
  timers : Timers
  m_EventCaptureInfoMap : CaptureMap
  m_pLastCursorStates : List (Int × CursorState)
  m_pLastMouseEvent : Event
  m_bStopOnEscape : Bool
  m_EventHookPyFunc : Option Nat
  m_pMainCanvas : Option Nat
  m_pEventDispatcher : Bool
  m_pCanvases : List Nat
  m_pMultitouchInputDevice : Bool
  m_pDisplayEngine : Bool
  audioEngine : Bool
  m_bFakeFPS : Bool
  m_FakeFPS : ℚ
  m_NumFrames : Nat
  trace : List Action

/-- What a call of `Node::handleEvent`, or of the event hook, gives back: whether the node
reports the event handled (whether the hook returns `true`), and the calls that the Python
code makes into the player while it runs. -/
structure HandlerResult where
  handled : Bool
  calls : List Call
deriving DecidableEq, Repr

/-- The exceptions of `play`: `AVG_ERR_NO_NODE` "Play called, but no xml file loaded.",
and the exception of an engine call that failed. -/
inductive PlayError where
  | noNode
  | failed (a : Action)
deriving DecidableEq, Repr

/-- The world around the player: the scene (`live n` says that node `n` has not been
destroyed, `getElementsByPos receiver pos` is the hit test below a receiver node,
`getParentChain` the parent chain of a node), the Python side (the handlers of the nodes,
the listeners of a contact, the event hook, the callbacks of the timeouts), the key code
`avg::key::KEY_ESCAPE`, the off-screen canvases (`getAutoRender`, `hasRegisteredCamera`),
and the engine calls that throw. -/
structure World where
  live : Nat → Bool
  getElementsByPos : Nat → Int × Int → List Nat
  getParentChain : Nat → List Nat
  nodeHandleEvent : Nat → Event → Player → HandlerResult
  sendEventToListeners : Event → Player → List Call
  eventHook : Nat → Event → Player → HandlerResult
  pyEnv : PyEnv
  KEY_ESCAPE : Nat
  getAutoRender : Nat → Bool
  hasRegisteredCamera : Nat → Bool
  fails : Action → Bool

/-- What one frame gets from outside: the display time, the events that the input devices
have queued, in the order of their arrival, and for each off-screen canvas with a camera
the number of camera images that are available. -/
structure FrameInput where
  displayTime : Int
  events : List Event
  cameraImages : Nat → Nat

/-- The player with other timer members. -/
def Player.setTimers (t : Timers) (p : Player) : Player := { p with timers := t }

/-- The player with more actions on its trace. -/
def Player.log (acts : List Action) (p : Player) : Player :=
  { p with trace := p.trace ++ acts }

/-- The player with another table of cursor states. -/
def Player.setCursorStates (l : List (Int × CursorState)) (p : Player) : Player :=
  { p with m_pLastCursorStates := l }

/-- The player with another capture table. -/
def Player.setCapture (m : CaptureMap) (p : Player) : Player :=
  { p with m_EventCaptureInfoMap := m }

/-- The player with another last mouse event. -/
def Player.setLastMouseEvent (ev : Event) (p : Player) : Player :=
  { p with m_pLastMouseEvent := ev }

/-- The player with `m_bIsPlaying` set to `b`. -/
def Player.setPlaying (b : Bool) (p : Player) : Player :=
  p.setTimers { p.timers with m_bIsPlaying := b }

/-- The player with `m_bStopping` set to `b`. -/
def Player.setStopping (b : Bool) (p : Player) : Player :=
  p.setTimers { p.timers with m_bStopping := b }

/-- The teardown actions of `Player::cleanup`, in its order: the main canvas, the
off-screen canvases, the display engine, the audio engine. -/
def Player.cleanupActions (p : Player) : List Action :=
  (if p.m_pMainCanvas.isSome then [Action.mainStopPlayback] else []) ++
  p.m_pCanvases.map Action.canvasStopPlayback ++
  (if p.m_pDisplayEngine then [Action.deinitRender, Action.displayTeardown] else []) ++
  (if p.audioEngine then [Action.audioTeardown] else [])

/-- `Player::cleanup`. -/
def Player.cleanup (p : Player) : Player :=
  { p with
    timers := Avg.cleanup p.timers
    m_EventCaptureInfoMap := fun _ => none
    m_pLastCursorStates := []
    m_pMainCanvas := none
    m_pMultitouchInputDevice := false
    m_pCanvases := []
    m_pEventDispatcher := false
    m_pLastMouseEvent := Event.noMouseEvent
    trace := p.trace ++ Player.cleanupActions p }

/-- `Player::stop`. -/
def Player.stop (p : Player) : Player :=
  if p.timers.m_bIsPlaying then p.setStopping true
  else Player.cleanup p

/-- One call of a Python handler into the player. -/
def Player.runCall (c : Call) (p : Player) : Player :=
  match c with
  | .stop => Player.stop p
  | c => p.setTimers (c.run p.timers)

/-- The calls of one Python handler, in order. -/
def Player.runCalls : List Call → Player → Player
  | [], p => p
  | c :: cs, p => Player.runCalls cs (Player.runCall c p)

/-! ## Event routing -/

/-- `lock()` on the weak pointer to node `n`: a null pointer when the node has been
destroyed. -/
def lock (w : World) (n : Nat) : Option Nat := if w.live n then some n else none

/-- A call `pNode->handleEvent(ev)`: the handlers of the node run and make their calls
into the player; the result is what the node reports. -/
def Player.nodeHandleEvent (w : World) (node : Nat) (ev : Event) (p : Player) :
    Bool × Player :=
  ((w.nodeHandleEvent node ev p).handled,
    Player.runCalls (w.nodeHandleEvent node ev p).calls
      (p.log [Action.nodeHandleEvent node ev.type (w.nodeHandleEvent node ev p).handled]))

/-- Modelled from the spec: `EventDispatcher::sendEvent` (EventDispatcher.cpp is not among
the sources). The node of the notification receives it at once: "a targeted notification
(no bubbling, no other nodes notified)", "dispatched immediately and unconditionally".
The handlers of the node run; what they report is not looked at. `none` stands for the
call through a null `m_pEventDispatcher`. -/
def Player.sendEvent (w : World) (ev : Event) (p : Player) : Option Player :=
  if p.m_pEventDispatcher then
    match ev.node with
    | some n =>
      some (Player.runCalls (w.nodeHandleEvent n ev p).calls
        (p.log [Action.sendEvent ev.type n]))
    | none => some p
  else none

/-- `Player::sendOver`. -/
def Player.sendOver (w : World) (pOtherEvent : Event) (type : EventType)
    (pNode : Option Nat) (p : Player) : Option Player :=
  match pNode with
  | some n => Player.sendEvent w (pOtherEvent.cloneFor type n) p
  | none => some p

/-- A loop over a vector or map, with a body that may end in a null dereference. -/
def forEach {α : Type} (f : α → Player → Option Player) : List α → Player → Option Player
  | [], p => some p
  | n :: ns, p =>
    match f n p with
    | some p1 => forEach f ns p1
    | none => none

/-- The loop "Send out events" of `handleCursorEvent`: a node of `pLastCursorNodes` gets
`CURSOROUT` when no node of `pCursorNodes` locks to the same pointer. -/
def Player.sendOutEvents (w : World) (pEvent : Event) (pCursorNodes pLastCursorNodes : List Nat)
    (p : Player) : Option Player :=
  forEach (fun last q =>
    if pCursorNodes.any (fun cur => lock w cur == lock w last) then some q
    else Player.sendOver w pEvent .CURSOROUT (lock w last) q) pLastCursorNodes p

/-- The loop "Send over events" of `handleCursorEvent`: a node of `pCursorNodes` gets
`CURSOROVER` when no node of `pLastCursorNodes` locks to the same pointer. -/
def Player.sendOverEvents (w : World) (pEvent : Event) (pCursorNodes pLastCursorNodes : List Nat)
    (p : Player) : Option Player :=
  forEach (fun cur q =>
    if pLastCursorNodes.any (fun last => lock w last == lock w cur) then some q
    else Player.sendOver w pEvent .CURSOROVER (lock w cur) q) pCursorNodes p

/-- The loop of `handleCursorEvent` that sends the event itself to the nodes of
`pDestNodes`: destroyed nodes are skipped, and the loop ends after the first node that
reports the event handled. -/
def Player.deliver (w : World) (pEvent : Event) : List Nat → Player → Player
  | [], p => p
  | n :: rest, p =>
    match lock w n with
    | some node =>
      if (Player.nodeHandleEvent w node (pEvent.cloneFor pEvent.type node) p).1 then
        (Player.nodeHandleEvent w node (pEvent.cloneFor pEvent.type node) p).2
      else
        Player.deliver w pEvent rest
          (Player.nodeHandleEvent w node (pEvent.cloneFor pEvent.type node) p).2
    | none => Player.deliver w pEvent rest p

/-- The start of `handleCursorEvent`: when the event has a contact with listeners, is no
re-delivery and hits a node, the event gets the first hit node as its node and goes to the
listeners of the contact, whose Python code runs. Returns the event and the player. -/
def Player.notifyContact (w : World) (pEvent : Event) (bOnlyCheckCursorOver : Bool)
    (pCursorNodes : List Nat) (p : Player) : Event × Player :=
  match pCursorNodes with
  | [] => (pEvent, p)
  | first :: _ =>
    if pEvent.contact = some true ∧ bOnlyCheckCursorOver = false then
      ({ pEvent with node := lock w first },
        Player.runCalls (w.sendEventToListeners { pEvent with node := lock w first } p)
          (p.log [Action.sendEventToListeners (lock w first)]))
    else (pEvent, p)

/-- The end of `handleCursorEvent`: after a `CURSORUP` that does not come from the mouse
every node under the cursor gets `CURSOROUT` and the state of the cursor is erased;
otherwise the state of the cursor becomes the event and the nodes under the cursor. -/
def Player.finishCursorEvent (w : World) (pEvent : Event) (pCursorNodes : List Nat)
    (p : Player) : Option Player :=
  if pEvent.type = .CURSORUP ∧ pEvent.source ≠ .MOUSE then
    (forEach (fun n q => Player.sendOver w pEvent .CURSOROUT (lock w n) q) pCursorNodes p).map
      (fun q => q.setCursorStates (cursorErase pEvent.cursorID q.m_pLastCursorStates))
  else
    some (p.setCursorStates
      (cursorSet pEvent.cursorID (CursorState.mk pEvent pCursorNodes) p.m_pLastCursorStates))

/-- The nodes of the stored state of a cursor, `pLastCursorNodes`; none when there is no
state. -/
def Player.lastCursorNodes (cursorID : Int) (p : Player) : List Nat :=
  match cursorFind cursorID p.m_pLastCursorStates with
  | some st => st.m_pNodes
  | none => []

/-- The middle of `handleCursorEvent`, from the choice of the destination nodes to the
delivery of the event. -/
def Player.routeCursorEvent (w : World) (pEvent : Event) (bOnlyCheckCursorOver : Bool)
    (pCursorNodes : List Nat) (p : Player) : Option Player :=
  let dest := handleCursorEvent_destNodes w.live w.getParentChain pCursorNodes
    pEvent.cursorID p.m_EventCaptureInfoMap
  let p1 : Player := p.setCapture dest.2
  let pLastCursorNodes := Player.lastCursorNodes pEvent.cursorID p1
  match Player.sendOutEvents w pEvent pCursorNodes pLastCursorNodes p1 with
  | none => none
  | some p2 =>
    match Player.sendOverEvents w pEvent pCursorNodes pLastCursorNodes p2 with
    | none => none
    | some p3 =>
      some (if bOnlyCheckCursorOver then p3 else Player.deliver w pEvent dest.1 p3)

/-- The node `pEventReceiverNode` of `handleCursorEvent`: the receiver node of the input
device of the event, or else `getRootNode()`, which is null without a main canvas. -/
def Player.eventReceiverNode (pEvent : Event) (p : Player) : Option Nat :=
  match pEvent.receiverNode with
  | some r => some r
  | none => p.m_pMainCanvas

/-- `Player::handleCursorEvent`. `none` stands for a call through a null pointer: the
root node when there is no main canvas, the event dispatcher when there is none. -/
def Player.handleCursorEvent (w : World) (pEvent : Event) (bOnlyCheckCursorOver : Bool)
    (p : Player) : Option Player :=
  match Player.eventReceiverNode pEvent p with
  | none => none
  | some receiver =>
    let pCursorNodes := w.getElementsByPos receiver pEvent.pos
    let ep := Player.notifyContact w pEvent bOnlyCheckCursorOver pCursorNodes p
    match Player.routeCursorEvent w ep.1 bOnlyCheckCursorOver pCursorNodes ep.2 with
    | none => none
    | some p1 => Player.finishCursorEvent w ep.1 pCursorNodes p1

/-- The call of the event hook in `handleEvent`,
`boost::python::call<bool>(pEventHook, pEvent)`: the hook is a Python callable, it makes
its calls into the player and then returns its verdict. Without a hook (`Py_None`) nothing
is called and the verdict is `false`. -/
def Player.callEventHook (w : World) (pEvent : Event) (p : Player) : Bool × Player :=
  match p.m_EventHookPyFunc with
  | some hook =>
    ((w.eventHook hook pEvent p).handled, Player.runCalls (w.eventHook hook pEvent p).calls p)
  | none => (false, p)

/-- The routing in `handleEvent`, after the hook has let the event pass and the last mouse
event has been stored. `none` stands for a call through a null pointer (the node of the
event, the root node). -/
def Player.routeEvent (w : World) (pEvent : Event) (p : Player) : Option (Bool × Player) :=
  if pEvent.cls = .mouseEvent ∨ pEvent.cls = .cursorEvent then
    if pEvent.type = .CURSOROUT ∨ pEvent.type = .CURSOROVER then
      match pEvent.node with
      | some n => some (true, (Player.nodeHandleEvent w n pEvent p).2)
      | none => none
    else
      (Player.handleCursorEvent w pEvent false p).map (fun q => (true, q))
  else if pEvent.cls = .keyEvent then
    match p.m_pMainCanvas with
    | some root =>
      if (Player.nodeHandleEvent w root pEvent p).2.m_bStopOnEscape = true ∧
          pEvent.type = .KEYDOWN ∧ pEvent.keyCode = w.KEY_ESCAPE then
        some (true, Player.stop (Player.nodeHandleEvent w root pEvent p).2)
      else
        some (true, (Player.nodeHandleEvent w root pEvent p).2)
    | none => none
  else
    if pEvent.type ≠ .QUIT then
      match p.m_pMainCanvas with
      | some root => some (true, (Player.nodeHandleEvent w root pEvent p).2)
      | none => none
    else
      some (true, Player.stop p)

/-- `Player::handleEvent`: the hook, the last mouse event, the routing. -/
def Player.handleEvent (w : World) (pEvent : Event) (p : Player) : Option (Bool × Player) :=
  if (Player.callEventHook w pEvent p).1 then some (true, (Player.callEventHook w pEvent p).2)
  else
    Player.routeEvent w pEvent
      (if pEvent.cls = .mouseEvent then
        (Player.callEventHook w pEvent p).2.setLastMouseEvent pEvent
      else (Player.callEventHook w pEvent p).2)

/-! ## The frame loop -/

/-- Modelled from the spec: `EventDispatcher::dispatch` (EventDispatcher.cpp is not among
the sources): the input sources give "an arrival-ordered queue of raw input events", and
each event of the queue is routed by `handleEvent`. `none` stands for a call through a
null pointer. -/
def Player.dispatch (w : World) (events : List Event) (p : Player) : Option Player :=
  if p.m_pEventDispatcher then
    forEach (fun ev q => (Player.handleEvent w ev q).map (fun r => r.2)) events p
  else none

/-- `Player::sendFakeEvents`: the last event of every cursor that has a state goes through
`handleCursorEvent` once more, for the over and out notifications only. -/
def Player.sendFakeEvents (w : World) (p : Player) : Option Player :=
  forEach (fun (e : Int × CursorState) q => Player.handleCursorEvent w e.2.m_pLastEvent true q)
    p.m_pLastCursorStates p

/-- The cast `(long long)` of a number that is written as a fraction: the digits behind
the point are cut off. -/
def truncate (q : ℚ) : Int := q.num.tdiv q.den

/-- The player with another frame count. -/
def Player.setNumFrames (n : Nat) (p : Player) : Player := { p with m_NumFrames := n }

/-- The start of `doFrame` on every frame but the first: with a fake frame rate the frame
count goes up by one and the frame time is `(long long)((m_NumFrames*1000.0)/m_FakeFPS)`,
computed here without rounding errors; otherwise the frame time is the display time. -/
def Player.advanceFrameTime (inp : FrameInput) (p : Player) : Player :=
  if p.m_bFakeFPS then
    (p.setNumFrames (p.m_NumFrames + 1)).setTimers
      (setFrameTime (truncate (((p.m_NumFrames + 1 : Nat) : ℚ) * 1000 / p.m_FakeFPS)) p.timers)
  else p.setTimers (setFrameTime inp.displayTime p.timers)

/-- `Player::dispatchOffscreenRendering` for one canvas: the frames it renders. A canvas
with a camera renders once per available camera image. -/
def dispatchOffscreenRendering (w : World) (inp : FrameInput) (canvas : Nat) : List Action :=
  if w.getAutoRender canvas then
    if w.hasRegisteredCamera canvas then
      Action.updateCameraImage canvas ::
        (List.replicate (inp.cameraImages canvas)
          [Action.canvasDoFrame canvas, Action.updateCameraImage canvas]).flatten
    else [Action.canvasDoFrame canvas]
  else []

/-- `Player::endFrame`. -/
def endFrame : List Action := [Action.frameWait, Action.swapBuffers, Action.checkJitter]

/-- The actions of the second half of `doFrame`: the off-screen canvases render in the
order of `m_pCanvases`, then the main canvas, then `endFrame`. -/
def renderActions (w : World) (inp : FrameInput) (canvases : List Nat) : List Action :=
  (canvases.map (dispatchOffscreenRendering w inp)).flatten ++
    [Action.mainCanvasDoFrame] ++ endFrame

/-- The second half of `doFrame`. `none` stands for a call through a null `m_pMainCanvas`
or `m_pDisplayEngine`. -/
def Player.renderFrame (w : World) (inp : FrameInput) (p : Player) : Option Player :=
  if p.m_pMainCanvas.isSome ∧ p.m_pDisplayEngine = true then
    some (p.log (renderActions w inp p.m_pCanvases))
  else none

/-- The first half of `doFrame` on every frame but the first: the frame time advances,
`handleTimers` runs, the queued events are dispatched, `sendFakeEvents` runs. The
callbacks of the timeouts act on the timer members, `stop` included, which is all that
`stop` does while the player is playing. -/
def Player.handleInput (w : World) (inp : FrameInput) (p : Player) : Option Player :=
  match handleTimers w.pyEnv (Player.advanceFrameTime inp p).timers with
  | none => none
  | some t =>
    match Player.dispatch w inp.events ((Player.advanceFrameTime inp p).setTimers t) with
    | none => none
    | some p1 => Player.sendFakeEvents w p1

/-- `Player::doFrame`. -/
def Player.doFrame (w : World) (inp : FrameInput) (bFirstFrame : Bool) (p : Player) :
    Option Player :=
  if bFirstFrame then Player.renderFrame w inp p
  else
    match Player.handleInput w inp p with
    | none => none
    | some p1 => Player.renderFrame w inp p1

/-- An engine call that may throw: when it does not, it is on the trace. -/
def Player.attempt (w : World) (a : Action) (p : Player) : Except PlayError Unit × Player :=
  if w.fails a then (.error (.failed a), p) else (.ok (), p.log [a])

/-- The player with the display engine created. -/
def Player.createDisplayEngine (p : Player) : Player := { p with m_pDisplayEngine := true }

/-- The player with the audio engine created. -/
def Player.createAudioEngine (p : Player) : Player := { p with audioEngine := true }

/-- `Player::initGraphics`. -/
def Player.initGraphics (w : World) (p : Player) : Except PlayError Unit × Player :=
  Player.attempt w .displayInit p.createDisplayEngine

/-- `Player::initAudio`. -/
def Player.initAudio (w : World) (p : Player) : Except PlayError Unit × Player :=
  match Player.attempt w .audioInit p.createAudioEngine with
  | (.ok _, p1) => Player.attempt w .audioPlay p1
  | (.error e, p1) => (.error e, p1)

/-- The loop of `initPlayback` over the off-screen canvases. -/
def Player.initCanvases (w : World) : List Nat → Player → Except PlayError Unit × Player
  | [], p => (.ok (), p)
  | c :: cs, p =>
    match Player.attempt w (.canvasInitPlayback c) p with
    | (.ok _, p1) => Player.initCanvases w cs p1
    | (.error e, p1) => (.error e, p1)

/-- The end of `initPlayback`, after the `try` block: `initRender`, the stopping flag, the
multitouch device, the frame time and the frame count. The two `addInputDevice` calls
before `initRender` register the display engine and the test helper with the event
dispatcher and leave the members of the player alone. -/
def Player.startInput (w : World) (p : Player) : Except PlayError Unit × Player :=
  match Player.attempt w .initRender p with
  | (.error e, p1) => (.error e, p1)
  | (.ok _, p1) =>
    match (if p1.m_pMultitouchInputDevice then
        Player.attempt w .multitouchStart (p1.setStopping false)
      else (.ok (), p1.setStopping false)) with
    | (.error e, p2) => (.error e, p2)
    | (.ok _, p2) => (.ok (), (p2.setTimers (setFrameTime 0 p2.timers)).setNumFrames 0)

/-- `Player::initPlayback`; `play` calls it with a main canvas. Only an exception of the
`try` block around the canvases is followed by `cleanup`. -/
def Player.initPlayback (w : World) (p : Player) : Except PlayError Unit × Player :=
  match Player.initGraphics w (p.setPlaying true) with
  | (.error e, p1) => (.error e, p1)
  | (.ok _, p1) =>
    match Player.initAudio w p1 with
    | (.error e, p2) => (.error e, p2)
    | (.ok _, p2) =>
      match Player.initCanvases w p2.m_pCanvases p2 with
      | (.error e, p3) => (.error e, Player.cleanup p3)
      | (.ok _, p3) =>
        match Player.attempt w .mainInitPlayback p3 with
        | (.error e, p4) => (.error e, Player.cleanup p4)
        | (.ok _, p4) => Player.startInput w p4

/-- The loop `while (!m_bStopping) doFrame(false)` of `play`, frame `k` being the next;
`none` when the fuel runs out before the loop ends, or a frame ends in a null
dereference. -/
def Player.playLoop (w : World) (inp : Nat → FrameInput) : Nat → Nat → Player → Option Player
  | 0, _, p => if p.timers.m_bStopping then some p else none
  | n + 1, k, p =>
    if p.timers.m_bStopping then some p
    else
      match Player.doFrame w (inp k) false p with
      | none => none
      | some p1 => Player.playLoop w inp n (k + 1) p1

/-- `Player::play`: the outcome and the player when `play` returns or throws. The handler
`catch (Exception& ex)` resets `m_bIsPlaying`. -/
def Player.play (w : World) (inp : Nat → FrameInput) (fuel : Nat) (p : Player) :
    Option (Except PlayError Unit × Player) :=
  match p.m_pMainCanvas with
  | none => some (.error .noNode, p.setPlaying false)
  | some _ =>
    match Player.initPlayback w p with
    | (.error e, p1) => some (.error e, p1.setPlaying false)
    | (.ok _, p1) =>
      match Player.doFrame w (inp 0) true p1 with
      | none => none
      | some p2 =>
        (Player.playLoop w inp fuel 1 p2).map (fun p3 => (.ok (), Player.cleanup p3))

/-! ## Notions for the statements about routing and frames -/

/-- The player is playing and has its event dispatcher: the state in which `doFrame`
routes events. -/
def Player.Ready (p : Player) : Prop :=
  p.timers.m_bIsPlaying = true ∧ p.m_pEventDispatcher = true

/-- The player `q` is `p` with `acts` more on the trace and with other timer members, and
it is playing. -/
def Player.Step (acts : List Action) (p q : Player) : Prop :=
  ∃ t : Timers, t.m_bIsPlaying = true ∧ q = (p.setTimers t).log acts

/-- The action is a notification sent through `sendOver`. -/
def Action.isNotification : Action → Bool
  | .sendEvent _ _ => true
  | _ => false

/-- The action is a delivery of an event to a node through `handleEvent` of the node. -/
def Action.isDelivery : Action → Bool
  | .nodeHandleEvent _ _ _ => true
  | _ => false

/-- The deliveries `ds`, each a node and what it reported, go down the list of targets
and end after the first node that reports the event handled. -/
def DeliveredUpTo : List Nat → List (Nat × Bool) → Prop
  | [], ds => ds = []
  | _ :: _, [] => False
  | n :: ns, (m, h) :: ds => m = n ∧ (if h then ds = [] else DeliveredUpTo ns ds)

/-- The nodes to which the loop "Send out events" sends `CURSOROUT`. -/
def outNodes (w : World) (pCursorNodes pLastCursorNodes : List Nat) : List Nat :=
  (pLastCursorNodes.filter
    (fun last => !(pCursorNodes.any (fun cur => lock w cur == lock w last)))).filterMap (lock w)

/-- The nodes to which the loop "Send over events" sends `CURSOROVER`. -/
def overNodes (w : World) (pCursorNodes pLastCursorNodes : List Nat) : List Nat :=
  (pCursorNodes.filter
    (fun cur => !(pLastCursorNodes.any (fun last => lock w last == lock w cur)))).filterMap (lock w)

/-- The event is a `CURSORUP` that does not come from the mouse. -/
def Event.isRelease (ev : Event) : Bool :=
  decide (ev.type = .CURSORUP ∧ ev.source ≠ .MOUSE)

/-- The action of the start of `handleCursorEvent`: the listeners of the contact get the
event, if the event has a contact with listeners, is no re-delivery and hits a node. -/
def contactActions (w : World) (ev : Event) (bOnlyCheckCursorOver : Bool)
    (pCursorNodes : List Nat) : List Action :=
  match pCursorNodes with
  | [] => []
  | first :: _ =>
    if ev.contact = some true ∧ bOnlyCheckCursorOver = false then
      [Action.sendEventToListeners (lock w first)]
    else []

/-- The event after the start of `handleCursorEvent`: its node is the first hit node when
the listeners of its contact got it. -/
def contactEvent (w : World) (ev : Event) (bOnlyCheckCursorOver : Bool)
    (pCursorNodes : List Nat) : Event :=
  match pCursorNodes with
  | [] => ev
  | first :: _ =>
    if ev.contact = some true ∧ bOnlyCheckCursorOver = false then
      { ev with node := lock w first }
    else ev

/-- The actions of one `handleCursorEvent`, given the hit set `C`, the stored hit set `P`
and the deliveries `ds` of the event: contact listeners, `CURSOROUT` and `CURSOROVER`
notifications, deliveries, and the `CURSOROUT` notifications of a release. -/
def cursorEventActions (w : World) (ev : Event) (bOnlyCheckCursorOver : Bool)
    (C P : List Nat) (ds : List (Nat × Bool)) : List Action :=
  contactActions w ev bOnlyCheckCursorOver C ++
  (outNodes w C P).map (Action.sendEvent .CURSOROUT) ++
  (overNodes w C P).map (Action.sendEvent .CURSOROVER) ++
  ds.map (fun d => Action.nodeHandleEvent d.1 ev.type d.2) ++
  (if ev.isRelease then (C.filterMap (lock w)).map (Action.sendEvent .CURSOROUT) else [])

/-- The table of cursor states after one `handleCursorEvent`. -/
def cursorStatesAfter (w : World) (ev : Event) (bOnlyCheckCursorOver : Bool)
    (C : List Nat) (l : List (Int × CursorState)) : List (Int × CursorState) :=
  if ev.isRelease then cursorErase ev.cursorID l
  else cursorSet ev.cursorID (CursorState.mk (contactEvent w ev bOnlyCheckCursorOver C) C) l

/-- An event that `handleEvent` can route: a cursor event of type `CURSOROUT` or
`CURSOROVER` has a node. -/
def Event.Routable (ev : Event) : Prop :=
  (ev.cls = .mouseEvent ∨ ev.cls = .cursorEvent) →
    (ev.type = .CURSOROUT ∨ ev.type = .CURSOROVER) → ev.node.isSome = true

/-- The state in which `play` runs its frames: the player is playing and has its event
dispatcher, its main canvas and its display engine. -/
def Player.InFrame (p : Player) : Prop :=
  p.timers.m_bIsPlaying = true ∧ p.m_pEventDispatcher = true ∧
  p.m_pMainCanvas.isSome = true ∧ p.m_pDisplayEngine = true

/-- What timers and events leave alone in a frame: the player `q` is playing and has the
event dispatcher, the main canvas, the display engine and the off-screen canvases of
`p`. -/
def Player.FrameKeeps (p q : Player) : Prop :=
  q.timers.m_bIsPlaying = true ∧ q.m_pEventDispatcher = p.m_pEventDispatcher ∧
  q.m_pMainCanvas = p.m_pMainCanvas ∧ q.m_pDisplayEngine = p.m_pDisplayEngine ∧
  q.m_pCanvases = p.m_pCanvases

/-- The notifications sent between the states `p` and `q` of the player. -/
def Player.notificationsSince (p q : Player) : List Action :=
  (q.trace.drop p.trace.length).filter Action.isNotification

/-- The deliveries to nodes between the states `p` and `q` of the player. -/
def Player.deliveriesSince (p q : Player) : List Action :=
  (q.trace.drop p.trace.length).filter Action.isDelivery

/-! ## A small scene for the examples -/

/-- A scene with the root node 0 and the nodes 1 and 2, all alive: node 1 lies under the
point (1, 0), node 2 under (2, 0), the root under every point. No Python code calls into
the player, no node reports an event handled, no engine call throws. -/
def demoWorld : World :=
  { live := fun _ => true
    getElementsByPos := fun _ pos =>
      if pos = (1, 0) then [1, 0] else if pos = (2, 0) then [2, 0] else [0]
    getParentChain := fun n => if n = 0 then [0] else [n, 0]
    nodeHandleEvent := fun _ _ _ => { handled := false, calls := [] }
    sendEventToListeners := fun _ _ => []
    eventHook := fun _ _ _ => { handled := false, calls := [] }
    pyEnv := quietEnv
    KEY_ESCAPE := 27
    getAutoRender := fun _ => true
    hasRegisteredCamera := fun _ => false
    fails := fun _ => false }

/-- A player that is playing the scene of `demoWorld`: no timeouts, no captures, no cursor
states, no hook, no off-screen canvases, nothing on the trace. -/
def demoPlayer : Player :=
  { timers := initPlayback Timers.init
    m_EventCaptureInfoMap := fun _ => none
    m_pLastCursorStates := []
    m_pLastMouseEvent := Event.noMouseEvent
    m_bStopOnEscape := true
    m_EventHookPyFunc := none
    m_pMainCanvas := some 0
    m_pEventDispatcher := true
    m_pCanvases := []
    m_pMultitouchInputDevice := false
    m_pDisplayEngine := true
    audioEngine := true
    m_bFakeFPS := false
    m_FakeFPS := 0
    m_NumFrames := 0
    trace := [] }

/-- The scene of `demoWorld` with a node 1 that reports every event handled. -/
def demoHandling : World :=
  { demoWorld with nodeHandleEvent := fun n _ _ => { handled := decide (n = 1), calls := [] } }

/-- The scene of `demoWorld` with nodes that report every event handled. -/
def demoAllHandling : World :=
  { demoWorld with nodeHandleEvent := fun _ _ _ => { handled := true, calls := [] } }

/-- The scene of `demoWorld` with an event hook that consumes every event. -/
def demoConsuming : World :=
  { demoWorld with eventHook := fun _ _ _ => { handled := true, calls := [] } }

/-- The scene of `demoWorld` with an event hook that schedules a timeout for callable 3 and
consumes the event. -/
def demoHookSchedules : World :=
  { demoWorld with
    eventHook := fun _ _ _ => { handled := true, calls := [Call.setTimeout 5 3] } }

/-- The scene of `demoWorld` with an event hook that calls `stop()` and consumes the
event. -/
def demoHookStops : World :=
  { demoWorld with eventHook := fun _ _ _ => { handled := true, calls := [Call.stop] } }

/-- The player of `demoPlayer` with an event hook, the callable 7. -/
def demoHooked : Player :=
  { demoPlayer with m_EventHookPyFunc := some 7 }

/-- A key event. -/
def keyEvent (type : EventType) (keyCode : Nat) : Event :=
  { cls := .keyEvent, type := type, source := .other 1, cursorID := 0, pos := (0, 0),
    keyCode := keyCode, node := none, receiverNode := none, contact := none }

/-- A motion of the mouse to a point. -/
def mouseMotion (pos : Int × Int) : Event :=
  { cls := .mouseEvent, type := .CURSORMOTION, source := .MOUSE, cursorID := -1, pos := pos,
    keyCode := 0, node := none, receiverNode := none, contact := none }

/-- The scene of `demoWorld` with a root node whose handler calls `stop()`. -/
def demoStopping : World :=
  { demoWorld with nodeHandleEvent := fun _ _ _ => { handled := false, calls := [Call.stop] } }

/-- The scene of `demoStopping` with off-screen canvases that are fed by a camera. -/
def demoCameraStopping : World :=
  { demoStopping with hasRegisteredCamera := fun _ => true }

/-- The scene of `demoWorld` with an audio engine whose `init` throws. -/
def demoAudioFails : World :=
  { demoWorld with fails := fun a => decide (a = Action.audioInit) }

/-- The scene of `demoWorld` with a main canvas whose `initPlayback` throws. -/
def demoCanvasFails : World :=
  { demoWorld with fails := fun a => decide (a = Action.mainInitPlayback) }

/-- The player of `demoPlayer` with the off-screen canvas 7. -/
def demoWithCanvas : Player :=
  { demoPlayer with m_pCanvases := [7] }

/-- The player after the scene of `demoWorld` has been loaded, before `play`: it is not
playing and has no engines yet. -/
def demoLoaded : Player :=
  { demoPlayer with timers := Timers.init, m_pDisplayEngine := false, audioEngine := false }

/-- Frames in which one key goes down, at display time 0. -/
def demoFrames : Nat → FrameInput :=
  fun _ => { displayTime := 0, events := [keyEvent .KEYDOWN 65], cameraImages := fun _ => 0 }

/-- A touch event of cursor 5 at a point. -/
def touchEvent (type : EventType) (pos : Int × Int) : Event :=
  { cls := .cursorEvent, type := type, source := .other 0, cursorID := 5, pos := pos,
    keyCode := 0, node := none, receiverNode := none, contact := none }

/-- The player of `demoPlayer` after a touch of cursor 5 has been seen over node 1. -/
def demoTouched : Player :=
  demoPlayer.setCursorStates [(5, CursorState.mk (touchEvent .CURSORMOTION (1, 0)) [1, 0])]

/-! ## More of the small scene -/

/-- The event `Event(Event::QUIT, ...)`: no cursor event and no key event. -/
def quitEvent : Event :=
  { cls := .otherEvent, type := .QUIT, source := .other 2, cursorID := 0, pos := (0, 0),
    keyCode := 0, node := none, receiverNode := none, contact := none }

/-- The table of cursor states as a `std::map` that `handleCursorEvent` has filled: the
keys ascend, every state is stored under the cursor id of its event, and no state is
that of a `CURSORUP` that does not come from the mouse. -/
def Player.StatesOk (p : Player) : Prop :=
  (p.m_pLastCursorStates.map Prod.fst).Pairwise (fun a b => a < b) ∧
  ∀ e ∈ p.m_pLastCursorStates,
    e.2.m_pLastEvent.cursorID = e.1 ∧ e.2.m_pLastEvent.isRelease = false

/-! ## Notions for the statements about a pass that is stopped -/

/-- The timer members with the stopping flag set to `b`. -/
def withStopping (b : Bool) (p : Timers) : Timers := { p with m_bStopping := b }

/-- The calls of a callback other than `stop()`. -/
def withoutStop (cs : List Call) : List Call := cs.filter (fun c => decide (c ≠ Call.stop))

/-- The Python side with every `stop()` call left out. -/
def noStop (env : PyEnv) : PyEnv := fun f s => withoutStop (env f s)

/-- The Python side that knows only the calls that callable `f` makes in state `s`, with
`stop()` left out. -/
def onlyCallback (env : PyEnv) (f : Nat) (s : Timers) : PyEnv :=
  fun g s1 => if g = f ∧ s1 = s then withoutStop (env g s1) else []

/-- A playing player inside `handleTimers` at frame time 10, between two iterations of the
loop: the one-shot timeouts 1 and 2 (callables 1 and 2, due at 1 and 2) are queued. -/
def stoppingPass : Timers :=
  { m_PendingTimeouts := [Timeout.mk 1 1 1 false 1, Timeout.mk 2 2 2 false 2],
    m_NewTimeouts := [], m_bInHandleTimers := true, m_bCurrentTimeoutDeleted := false,
    m_bStopping := false, m_bIsPlaying := true, m_FrameTime := 10, lastID := 2, fired := [] }

/-- A playing player at frame time 10 with a per-frame handler (timeout 1, period 0,
callable 1) and the one-shot timeouts 2 and 3, all due. -/
def busyQueue : Timers :=
  { m_PendingTimeouts := [Timeout.mk 1 0 0 true 1, Timeout.mk 2 2 2 false 2,
      Timeout.mk 3 3 3 false 3],
    m_NewTimeouts := [], m_bInHandleTimers := false, m_bCurrentTimeoutDeleted := false,
    m_bStopping := false, m_bIsPlaying := true, m_FrameTime := 10, lastID := 3, fired := [] }

/-! ## Notions for the statement about periodic timeouts with the same period -/

/-- What the loop of `handleTimers` keeps for two periodic timeouts `a` and `b` of the pass
that began in state `p`, `a` ahead of `b` in the queue: each of them is still queued, or
has fired and is staged in its rebased form; `b` is staged only when `a` is; and in the
staging buffer `a` is never ahead of `b`. -/
def OrderKept (p : Timers) (a b : Timeout) (s : Timers) : Prop :=
  s.m_bCurrentTimeoutDeleted = false ∧ s.m_bIsPlaying = true ∧
  s.m_FrameTime = p.m_FrameTime ∧ WellFormed s ∧
  ∃ new, s.fired = p.fired ++ new ∧
    (new ++ s.m_PendingTimeouts).Sublist p.m_PendingTimeouts ∧
    (a ∈ s.m_PendingTimeouts ∨ a.rebase p.m_FrameTime ∈ s.m_NewTimeouts) ∧
    ((b ∈ s.m_PendingTimeouts ∧ b ∉ new) ∨ b.rebase p.m_FrameTime ∈ s.m_NewTimeouts) ∧
    (b.rebase p.m_FrameTime ∈ s.m_NewTimeouts → a.rebase p.m_FrameTime ∈ s.m_NewTimeouts) ∧
    s.m_NewTimeouts.Pairwise
      (fun x y => ¬(x = a.rebase p.m_FrameTime ∧ y = b.rebase p.m_FrameTime))

/-- A playing player at frame time 0 with two per-frame handlers: callable 1 registered
first (timeout 1), callable 2 second (timeout 2). -/
def twoHandlers : Timers :=
  (setOnFrameHandler 2 (setOnFrameHandler 1 (initPlayback Timers.init)).2).2

/-! ## A callback that fails -/

/-- Modelled from the spec: a Python callable that fails. "Callback failure: propagates
out of the frame loop, aborts the current frame, and triggers full teardown";
`Timeout::Fire`, which turns the Python error into a C++ exception, is not among the
sources. `raises f s` tells whether callable `f`, invoked in state `s`, ends with an
exception after it has made its calls. -/
abbrev Raises := Nat → Timers → Bool

/-- How `handleTimers` was left: by its `return` or by an exception thrown out of `Fire`,
and the timer members at that moment. -/
structure PassEnd where
  threw : Bool
  state : Timers
deriving DecidableEq, Repr

/-- The loop of `handleTimers` with callbacks that may fail. `handleTimers` has no `try`
block: the exception leaves the function from inside `Fire`, after the calls that the
callback has made, and nothing of the rest of the iteration is run. -/
def handleTimersLoopRaising (env : PyEnv) (raises : Raises) : Nat → Timers → Option PassEnd
  | 0, p => if handleTimersCond p then none else some ⟨false, p⟩
  | n + 1, p =>
    if handleTimersCond p then
      match p.m_PendingTimeouts with
      | [] => some ⟨false, p⟩
      | t :: _ =>
        if raises t.pyFunc p then some ⟨true, runCalls (env t.pyFunc p) (recordFired t p)⟩
        else handleTimersLoopRaising env raises n (handleTimersBody env p)
    else some ⟨false, p⟩

/-- `Player::handleTimers` with callbacks that may fail: the merge of the staging buffer
and the reset of the in-pass flag are reached only when the loop ends without an
exception. -/
def handleTimersRaising (env : PyEnv) (raises : Raises) (p : Timers) : Option PassEnd :=
  (handleTimersLoopRaising env raises (p.m_PendingTimeouts.length + 1)
    { p with m_bInHandleTimers := true }).map
      (fun r => if r.threw then r else ⟨false, finishHandleTimers r.state⟩)

/-- The pass inside the frame loop of `Player::play`:
`try { ... doFrame(false) ... } catch (...) { cleanup(); throw; }`. -/
def passInPlay (env : PyEnv) (raises : Raises) (p : Timers) : Option PassEnd :=
  (handleTimersRaising env raises p).map
    (fun r => if r.threw then ⟨true, cleanup r.state⟩ else r)

/-- A playing player at frame time 10 that has registered a per-frame handler (timeout 1,
callable 1) and a timeout of 5 ms (timeout 2, callable 2) at frame time 0. -/
def beforeFailure : Timers :=
  setFrameTime 10 (setTimeout 5 2 (setOnFrameHandler 1 (initPlayback Timers.init)).2).2

/-- Callable 2 cancels its own timeout and then fails. -/
def failingEnv : PyEnv := fun f _ => if f = 2 then [Call.clearInterval 2] else []

/-- Callable 2 fails. -/
def failingRaises : Raises := fun f _ => decide (f = 2)

/-! ## The mouse cursor bitmap -/

/-- What `setCursor` reads of its `Bitmap` argument (the class is not among the sources):
`getSize()`, whether `getPixelFormat()` is `R8G8B8A8`, and the alpha and red values of the
pixel in column `x` of line `y`, which the code reaches through `getPixels()` and
`getStride()`. -/
structure Bitmap where
  size : Nat × Nat
  isR8G8B8A8 : Bool
  getA : Nat → Nat → Nat
  getR : Nat → Nat → Nat

/-- An array from `new unsigned char[size]`: its length and its bytes. -/
structure Bytes where
  size : Nat
  get : Nat → Nat

/-- A read-modify-write of the byte at index `i`; `none` when `i` is outside the array. -/
def Bytes.modify (a : Bytes) (i : Int) (f : Nat → Nat) : Option Bytes :=
  if 0 ≤ i ∧ i < a.size then
    some { a with get := Function.update a.get i.toNat (f (a.get i.toNat)) }
  else none

/-- The statement `pData[i] <<= 1` on an `unsigned char`. -/
def shl1 (v : Nat) : Nat := (v * 2) % 256

/-- The statement `pData[i] |= 0x01`. -/
def or1 (v : Nat) : Nat := v ||| 1

/-- The local variables of `setCursor` inside its loops. -/
structure CursorLoop where
  i : Int
  pData : Bytes
  pMask : Bytes

/-- The body of the inner loop of `setCursor` for the pixel in column `x` of line `y`. -/
def setCursorPixel (bmp : Bitmap) (y x : Nat) (s : CursorLoop) : Option CursorLoop :=
  (if x % 8 = 0 then
    (s.pData.modify (s.i + 1) (fun _ => 0)).bind (fun d =>
      (s.pMask.modify (s.i + 1) (fun _ => 0)).bind (fun m =>
        some { i := s.i + 1, pData := d, pMask := m }))
  else
    (s.pData.modify s.i shl1).bind (fun d =>
      (s.pMask.modify s.i shl1).bind (fun m =>
        some { i := s.i, pData := d, pMask := m }))).bind (fun s1 =>
  if bmp.getA x y > 127 then
    (s1.pMask.modify s1.i or1).bind (fun m =>
      if bmp.getR x y < 128 then
        (s1.pData.modify s1.i or1).bind (fun d => some { i := s1.i, pData := d, pMask := m })
      else some { i := s1.i, pData := s1.pData, pMask := m })
  else some s1)

/-- The inner loop of `setCursor`, `for (int x = 0; x < n; ++x)`, on line `y`. -/
def setCursorPixels (bmp : Bitmap) (y : Nat) : Nat → CursorLoop → Option CursorLoop
  | 0, s => some s
  | n + 1, s => (setCursorPixels bmp y n s).bind (setCursorPixel bmp y n)

/-- The outer loop of `setCursor`, `for (int y = 0; y < n; ++y)`. -/
def setCursorLines (bmp : Bitmap) : Nat → CursorLoop → Option CursorLoop
  | 0, s => some s
  | n + 1, s => (setCursorLines bmp n s).bind (setCursorPixels bmp n bmp.size.1)

/-- The ways `setCursor` can go wrong: the exception `AVG_ERR_INVALID_ARGS` "setCursor:
Bitmap size must be divisible by 8 and in RGBA format.", an access outside `pData` or
`pMask`, and a product `size.x*size.y` that does not fit an `int`. -/
inductive CursorError where
  | invalidArgs
  | outOfBounds
  | overflow
deriving DecidableEq, Repr

/-- `Player::setCursor`, up to the call of `SDL_CreateCursor`: the result is the pair
`(pData, pMask)` that is passed to it. The arrays come from `new` with arbitrary contents,
`garbageData` and `garbageMask`. -/
def setCursor (bmp : Bitmap) (garbageData garbageMask : Nat → Nat) :
    Except CursorError (Bytes × Bytes) :=
  if bmp.size.1 % 8 ≠ 0 ∨ bmp.size.2 % 8 ≠ 0 ∨ bmp.isR8G8B8A8 = false then
    .error .invalidArgs
  else if 2 ^ 31 ≤ bmp.size.1 * bmp.size.2 then .error .overflow
  else
    match setCursorLines bmp bmp.size.2
      { i := -1, pData := ⟨bmp.size.1 * bmp.size.2 / 8, garbageData⟩,
        pMask := ⟨bmp.size.1 * bmp.size.2 / 8, garbageMask⟩ } with
    | some s => .ok (s.pData, s.pMask)
    | none => .error .outOfBounds

/-- The number whose binary digits are `f 0`, ..., `f (c - 1)`, the first one in the
highest place. -/
def packBits (f : Nat → Bool) : Nat → Nat
  | 0 => 0
  | c + 1 => Nat.bit (f c) (packBits f c)

/-- The mask bit of the pixel with number `n` in scan order: its alpha is above 127. -/
def maskBit (bmp : Bitmap) (n : Nat) : Bool :=
  decide (bmp.getA (n % bmp.size.1) (n / bmp.size.1) > 127)

/-- The data bit of the pixel with number `n` in scan order: its alpha is above 127 and its
red is below 128 (a black pixel). -/
def dataBit (bmp : Bitmap) (n : Nat) : Bool :=
  decide (bmp.getA (n % bmp.size.1) (n / bmp.size.1) > 127) &&
    decide (bmp.getR (n % bmp.size.1) (n / bmp.size.1) < 128)

/-- The bytes of an array are right for the first `n` pixels in scan order: every
complete byte holds the bits of its eight pixels, the byte in progress those of the pixels
seen so far. -/
def Packed (g : Nat → Bool) (n : Nat) (a : Bytes) : Prop :=
  (∀ j, j < n / 8 → a.get j = packBits (fun k => g (8 * j + k)) 8) ∧
  (n % 8 ≠ 0 → a.get (n / 8) = packBits (fun k => g (8 * (n / 8) + k)) (n % 8))

/-- A bitmap of 8 by 8 pixels: opaque on and below the diagonal, black in the even
columns. -/
def demoBitmap : Bitmap :=
  { size := (8, 8), isR8G8B8A8 := true,
    getA := fun x y => if x ≤ y then 255 else 0,
    getR := fun x _ => if x % 2 = 0 then 0 else 255 }

/-- What the loops of `setCursor` keep, `n` pixels having been handled: the index `i` is
that of the byte of the last pixel, the arrays have their `N` bytes, and both are right
for the first `n` pixels. -/
def CursorInv (bmp : Bitmap) (N n : Nat) (s : CursorLoop) : Prop :=
  s.i = (((n + 7) / 8 : Nat) : Int) - 1 ∧ s.pData.size = N ∧ s.pMask.size = N ∧
  Packed (dataBit bmp) n s.pData ∧ Packed (maskBit bmp) n s.pMask

/-- The bytes of the two arrays of a call of `setCursor` that went through, as lists. -/
def cursorBytes : Except CursorError (Bytes × Bytes) → Option (List Nat × List Nat)
  | .ok (pData, pMask) =>
    some ((List.range pData.size).map pData.get, (List.range pMask.size).map pMask.get)
  | .error _ => none

/-! ## The timer queue: insertion and cancellation -/

theorem addTimeout_eq (t : Timeout) (q : List Timeout) :
    addTimeout t q
      = q.takeWhile (fun x => x.lt t) ++ t :: q.dropWhile (fun x => x.lt t) := by
  induction q with
  | nil => rfl
  | cons x xs ih =>
    by_cases h : x.lt t = true
    · simp [addTimeout, h, ih, List.takeWhile, List.dropWhile]
    · simp [addTimeout, h, List.takeWhile, List.dropWhile]

theorem addTimeout_perm (t : Timeout) (q : List Timeout) :
    (addTimeout t q).Perm (t :: q) := by
  rw [addTimeout_eq]
  refine List.perm_middle.trans ?_
  rw [List.takeWhile_append_dropWhile]

theorem mem_addTimeout {t x : Timeout} {q : List Timeout} :
    x ∈ addTimeout t q ↔ x = t ∨ x ∈ q := by
  rw [(addTimeout_perm t q).mem_iff]; simp

theorem addTimeout_ascending (t : Timeout) (q : List Timeout) (h : Ascending q) :
    Ascending (addTimeout t q) := by
  induction q with
  | nil => simp [addTimeout, Ascending]
  | cons x xs ih =>
    unfold Ascending at h ih ⊢
    rw [List.pairwise_cons] at h
    by_cases hx : x.lt t = true
    · simp only [addTimeout, hx, if_true, List.pairwise_cons]
      refine ⟨?_, ih h.2⟩
      intro y hy
      rcases mem_addTimeout.1 hy with rfl | hy
      · have : x.nextTimeout < y.nextTimeout := by simpa [Timeout.lt] using hx
        exact le_of_lt this
      · exact h.1 y hy
    · have hle : t.nextTimeout ≤ x.nextTimeout := by
        have : ¬ x.nextTimeout < t.nextTimeout := by simpa [Timeout.lt] using hx
        exact not_lt.1 this
      have hx2 : x.lt t = false := by simpa using hx
      simp only [addTimeout, hx2, Bool.false_eq_true, if_false, List.pairwise_cons]
      refine ⟨?_, h.1, h.2⟩
      intro y hy
      rcases List.mem_cons.1 hy with rfl | hy
      · exact hle
      · exact le_trans hle (h.1 y hy)

theorem foldl_addTimeout_perm (ts q : List Timeout) :
    (ts.foldl (fun q t => addTimeout t q) q).Perm (ts ++ q) := by
  induction ts generalizing q with
  | nil => simp
  | cons t ts ih =>
    simp only [List.foldl_cons, List.cons_append]
    refine (ih (addTimeout t q)).trans ?_
    refine (List.Perm.append_left ts (addTimeout_perm t q)).trans ?_
    exact List.perm_middle

theorem foldl_addTimeout_ascending (ts q : List Timeout) (h : Ascending q) :
    Ascending (ts.foldl (fun q t => addTimeout t q) q) := by
  induction ts generalizing q with
  | nil => simpa using h
  | cons t ts ih => exact ih _ (addTimeout_ascending t q h)

theorem findID_none {id : Nat} {l : List Timeout} :
    findID id l = none ↔ ∀ x ∈ l, x.id ≠ id := by
  induction l with
  | nil => simp [findID]
  | cons t ts ih =>
    by_cases h : id = t.id
    · simp [findID, h]
    · have h2 : ¬ t.id = id := fun e => h e.symm
      simp [findID, h, h2, ih]

theorem findID_some {id i : Nat} {l : List Timeout} (h : findID id l = some i) :
    ∃ l1 t l2, l = l1 ++ t :: l2 ∧ t.id = id ∧ l1.length = i ∧
      (∀ x ∈ l1, x.id ≠ id) ∧ l.eraseIdx i = l1 ++ l2 := by
  induction l generalizing i with
  | nil => simp [findID] at h
  | cons t ts ih =>
    by_cases hid : id = t.id
    · simp only [findID, hid, if_true, Option.some.injEq] at h
      subst h
      exact ⟨[], t, ts, by simp, hid.symm, rfl, by simp, by simp⟩
    · simp only [findID, hid, if_false, Option.map_eq_some'] at h
      obtain ⟨j, hj, rfl⟩ := h
      obtain ⟨l1, u, l2, e, hu, hl, hne, her⟩ := ih hj
      refine ⟨t :: l1, u, l2, by simp [e], hu, by simp [hl], ?_, by simp [her]⟩
      intro x hx
      rcases List.mem_cons.1 hx with rfl | hx
      · exact fun e => hid e.symm
      · exact hne x hx

theorem clearInterval_cases (id : Nat) (p : Timers) :
    (∃ l1 t l2, t.id = id ∧ p.m_PendingTimeouts = l1 ++ t :: l2 ∧ (∀ x ∈ l1, x.id ≠ id) ∧
      clearInterval id p = (true, { p with
        m_bCurrentTimeoutDeleted :=
          if l1.length = 0 ∧ p.m_bInHandleTimers = true then true
          else p.m_bCurrentTimeoutDeleted,
        m_PendingTimeouts := l1 ++ l2 })) ∨
    (∃ l1 t l2, t.id = id ∧ p.m_NewTimeouts = l1 ++ t :: l2 ∧
      (∀ x ∈ p.m_PendingTimeouts, x.id ≠ id) ∧ (∀ x ∈ l1, x.id ≠ id) ∧
      clearInterval id p = (true, { p with m_NewTimeouts := l1 ++ l2 })) ∨
    ((∀ x ∈ p.m_PendingTimeouts, x.id ≠ id) ∧ (∀ x ∈ p.m_NewTimeouts, x.id ≠ id) ∧
      clearInterval id p = (false, p)) := by
  cases h1 : findID id p.m_PendingTimeouts with
  | some i =>
    obtain ⟨l1, t, l2, e, ht, hl, hne, her⟩ := findID_some h1
    left
    refine ⟨l1, t, l2, ht, e, hne, ?_⟩
    simp only [clearInterval, h1, her, hl]
  | none =>
    right
    have hp := findID_none.1 h1
    cases h2 : findID id p.m_NewTimeouts with
    | some i =>
      obtain ⟨l1, t, l2, e, ht, hl, hne, her⟩ := findID_some h2
      left
      refine ⟨l1, t, l2, ht, e, hp, hne, ?_⟩
      simp only [clearInterval, h1, h2, her]
    | none =>
      right
      exact ⟨hp, findID_none.1 h2, by simp only [clearInterval, h1, h2]⟩

/-! ## Calls made by a callback while `handleTimers` runs -/

/-- What one call of a callback does to the player while `m_bInHandleTimers` is set. -/
theorem run_shape (c : Call) (p : Timers) (h : p.m_bInHandleTimers = true) :
    (∃ T : Timeout, T.id = p.lastID + 1 ∧
      (c = .setTimeout T.interval T.pyFunc ∨ c = .setInterval T.interval T.pyFunc) ∧
      c.run p = { p with lastID := p.lastID + 1, m_NewTimeouts := p.m_NewTimeouts ++ [T] }) ∨
    (∃ l1 t l2, c = .clearInterval t.id ∧ p.m_PendingTimeouts = l1 ++ t :: l2 ∧
      (∀ x ∈ l1, x.id ≠ t.id) ∧
      c.run p = { p with
        m_PendingTimeouts := l1 ++ l2,
        m_bCurrentTimeoutDeleted := if l1 = [] then true else p.m_bCurrentTimeoutDeleted }) ∨
    (∃ l1 t l2, c = .clearInterval t.id ∧ p.m_NewTimeouts = l1 ++ t :: l2 ∧
      (∀ x ∈ p.m_PendingTimeouts, x.id ≠ t.id) ∧ (∀ x ∈ l1, x.id ≠ t.id) ∧
      c.run p = { p with m_NewTimeouts := l1 ++ l2 }) ∨
    (∃ id, c = .clearInterval id ∧ (∀ x ∈ p.m_PendingTimeouts, x.id ≠ id) ∧
      (∀ x ∈ p.m_NewTimeouts, x.id ≠ id) ∧ c.run p = p) ∨
    (c = .stop ∧ c.run p = stop p) := by
  cases c with
  | setTimeout time f =>
    left
    exact ⟨Timeout.create time f false p.m_FrameTime p.lastID, rfl, Or.inl rfl,
      by simp [Call.run, Avg.setTimeout, h]⟩
  | setInterval time f =>
    left
    exact ⟨Timeout.create time f true p.m_FrameTime p.lastID, rfl, Or.inr rfl,
      by simp [Call.run, Avg.setInterval, h]⟩
  | clearInterval id =>
    right
    rcases clearInterval_cases id p with ⟨l1, t, l2, ht, e, hne, hr⟩ |
      ⟨l1, t, l2, ht, e, hp, hne, hr⟩ | ⟨hp, hn, hr⟩
    · left
      subst ht
      refine ⟨l1, t, l2, rfl, e, hne, ?_⟩
      simp only [Call.run, hr, h, and_true, List.length_eq_zero]
    · right; left
      subst ht
      exact ⟨l1, t, l2, rfl, e, hp, hne, by simp only [Call.run, hr]⟩
    · right; right; left
      exact ⟨id, rfl, hp, hn, by simp only [Call.run, hr]⟩
  | stop =>
    right; right; right; right
    exact ⟨rfl, rfl⟩

theorem stop_cases (p : Timers) :
    stop p = { p with m_bStopping := true } ∨
    stop p = { p with m_PendingTimeouts := [], m_FrameTime := 0, m_bIsPlaying := false } := by
  unfold stop cleanup
  split
  · exact Or.inl rfl
  · exact Or.inr rfl

theorem run_inHandle (c : Call) (p : Timers) (h : p.m_bInHandleTimers = true) :
    (c.run p).m_bInHandleTimers = true := by
  rcases run_shape c p h with ⟨T, _, _, hr⟩ | ⟨l1, t, l2, _, _, _, hr⟩ |
    ⟨l1, t, l2, _, _, _, _, hr⟩ | ⟨id, _, _, _, hr⟩ | ⟨_, hr⟩
  · rw [hr]; exact h
  · rw [hr]; exact h
  · rw [hr]; exact h
  · rw [hr]; exact h
  · rcases stop_cases p with hs | hs <;> (rw [hr, hs]; exact h)

theorem run_fired (c : Call) (p : Timers) (h : p.m_bInHandleTimers = true) :
    (c.run p).fired = p.fired := by
  rcases run_shape c p h with ⟨T, _, _, hr⟩ | ⟨l1, t, l2, _, _, _, hr⟩ |
    ⟨l1, t, l2, _, _, _, _, hr⟩ | ⟨id, _, _, _, hr⟩ | ⟨_, hr⟩
  · rw [hr]
  · rw [hr]
  · rw [hr]
  · rw [hr]
  · rcases stop_cases p with hs | hs <;> rw [hr, hs]

theorem run_sublist (c : Call) (p : Timers) (h : p.m_bInHandleTimers = true) :
    (c.run p).m_PendingTimeouts.Sublist p.m_PendingTimeouts := by
  rcases run_shape c p h with ⟨T, _, _, hr⟩ | ⟨l1, t, l2, _, e, _, hr⟩ |
    ⟨l1, t, l2, _, _, _, _, hr⟩ | ⟨id, _, _, _, hr⟩ | ⟨_, hr⟩
  · rw [hr]
  · rw [hr, e]
    exact List.Sublist.append_left (List.sublist_cons_self t l2) l1
  · rw [hr]
  · rw [hr]
  · rcases stop_cases p with hs | hs
    · rw [hr, hs]
    · rw [hr, hs]; exact List.nil_sublist _

theorem run_flag (c : Call) (p : Timers) (h : p.m_bInHandleTimers = true) :
    (p.m_bCurrentTimeoutDeleted = true → (c.run p).m_bCurrentTimeoutDeleted = true) ∧
    (p.m_bCurrentTimeoutDeleted = false → (c.run p).m_bCurrentTimeoutDeleted = true →
      (c.run p).m_PendingTimeouts.length < p.m_PendingTimeouts.length) := by
  rcases run_shape c p h with ⟨T, _, _, hr⟩ | ⟨l1, t, l2, _, e, _, hr⟩ |
    ⟨l1, t, l2, _, _, _, _, hr⟩ | ⟨id, _, _, _, hr⟩ | ⟨_, hr⟩
  · rw [hr]; exact ⟨fun a => a, fun a b => by simp [a] at b⟩
  · rw [hr]; exact ⟨fun a => by simp [a], fun _ _ => by simp [e]⟩
  · rw [hr]; exact ⟨fun a => a, fun a b => by simp [a] at b⟩
  · rw [hr]; exact ⟨fun a => a, fun a b => by rw [a] at b; cases b⟩
  · rcases stop_cases p with hs | hs
    · rw [hr, hs]; exact ⟨fun a => a, fun a b => by simp [a] at b⟩
    · rw [hr, hs]; exact ⟨fun a => a, fun a b => by simp [a] at b⟩

/-- An invariant of every call made while `handleTimers` runs is an invariant of the
whole callback. -/
theorem runCalls_induct (J : Timers → Prop) (cs : List Call) (p : Timers)
    (hin : p.m_bInHandleTimers = true) (hJ : J p)
    (hstep : ∀ c ∈ cs, ∀ s, s.m_bInHandleTimers = true → J s → J (c.run s)) :
    J (runCalls cs p) ∧ (runCalls cs p).m_bInHandleTimers = true := by
  induction cs generalizing p with
  | nil => exact ⟨hJ, hin⟩
  | cons c cs ih =>
    simp only [runCalls]
    refine ih (c.run p) (run_inHandle c p hin) (hstep c (List.mem_cons_self _ _) p hin hJ) ?_
    intro d hd s hs hjs
    exact hstep d (List.mem_cons_of_mem _ hd) s hs hjs

theorem runCalls_inHandle (cs : List Call) (p : Timers) (hin : p.m_bInHandleTimers = true) :
    (runCalls cs p).m_bInHandleTimers = true :=
  (runCalls_induct (fun _ => True) cs p hin trivial (fun _ _ _ _ _ => trivial)).2

theorem runCalls_fired (cs : List Call) (p : Timers) (hin : p.m_bInHandleTimers = true) :
    (runCalls cs p).fired = p.fired :=
  (runCalls_induct (fun s => s.fired = p.fired) cs p hin rfl
    (fun c _ s hs hj => (run_fired c s hs).trans hj)).1

theorem runCalls_sublist (cs : List Call) (p : Timers) (hin : p.m_bInHandleTimers = true) :
    (runCalls cs p).m_PendingTimeouts.Sublist p.m_PendingTimeouts :=
  (runCalls_induct (fun s => s.m_PendingTimeouts.Sublist p.m_PendingTimeouts) cs p hin
    (List.Sublist.refl _) (fun c _ s hs hj => (run_sublist c s hs).trans hj)).1

theorem runCalls_flag (cs : List Call) (p : Timers) (hin : p.m_bInHandleTimers = true) :
    (p.m_bCurrentTimeoutDeleted = true → (runCalls cs p).m_bCurrentTimeoutDeleted = true) ∧
    (p.m_bCurrentTimeoutDeleted = false → (runCalls cs p).m_bCurrentTimeoutDeleted = true →
      (runCalls cs p).m_PendingTimeouts.length < p.m_PendingTimeouts.length) := by
  have key := (runCalls_induct
    (fun s => s.m_PendingTimeouts.length ≤ p.m_PendingTimeouts.length ∧
      (p.m_bCurrentTimeoutDeleted = true → s.m_bCurrentTimeoutDeleted = true) ∧
      (p.m_bCurrentTimeoutDeleted = false → s.m_bCurrentTimeoutDeleted = true →
        s.m_PendingTimeouts.length < p.m_PendingTimeouts.length)) cs p hin
    ⟨le_refl _, fun a => a, fun a b => by rw [a] at b; cases b⟩ ?_).1
  · exact key.2
  · intro c _ s hs hj
    have hf := run_flag c s hs
    have hl := (run_sublist c s hs).length_le
    refine ⟨le_trans hl hj.1, fun a => hf.1 (hj.2.1 a), fun a b => ?_⟩
    cases hsf : s.m_bCurrentTimeoutDeleted with
    | true => exact lt_of_le_of_lt hl (hj.2.2 a hsf)
    | false => exact lt_of_lt_of_le (hf.2 hsf b) hj.1

theorem afterCallback_basic (now : Int) (p : Timers) :
    (afterCallback now p).m_bCurrentTimeoutDeleted = false ∧
    (afterCallback now p).m_bInHandleTimers = p.m_bInHandleTimers ∧
    (afterCallback now p).m_bStopping = p.m_bStopping ∧
    (afterCallback now p).m_FrameTime = p.m_FrameTime ∧
    (afterCallback now p).fired = p.fired ∧
    (afterCallback now p).lastID = p.lastID ∧
    (afterCallback now p).m_bIsPlaying = p.m_bIsPlaying := by
  unfold afterCallback
  cases hf : p.m_bCurrentTimeoutDeleted with
  | true => simp
  | false =>
    by_cases hne : p.m_PendingTimeouts = []
    · simp [hne, hf]
    · obtain ⟨t, rest, hp⟩ := List.exists_cons_of_ne_nil hne
      by_cases hi : (t.rebase now).isInterval = true <;> simp [hp, hi]

theorem rebase_isInterval (t : Timeout) (now : Int) :
    (t.rebase now).isInterval = t.isInterval := by
  unfold Timeout.rebase; split <;> simp_all

theorem rebase_id (t : Timeout) (now : Int) : (t.rebase now).id = t.id := by
  unfold Timeout.rebase; split <;> rfl

theorem afterCallback_deleted (now : Int) (p : Timers)
    (hf : p.m_bCurrentTimeoutDeleted = true) :
    (afterCallback now p).m_PendingTimeouts = p.m_PendingTimeouts ∧
    (afterCallback now p).m_NewTimeouts = p.m_NewTimeouts := by
  simp [afterCallback, hf]

theorem afterCallback_nil (now : Int) (p : Timers) (hp : p.m_PendingTimeouts = []) :
    (afterCallback now p).m_PendingTimeouts = [] ∧
    (afterCallback now p).m_NewTimeouts = p.m_NewTimeouts := by
  unfold afterCallback
  cases hf : p.m_bCurrentTimeoutDeleted <;> simp [hp]

theorem afterCallback_cons (now : Int) (p : Timers) (t : Timeout) (rest : List Timeout)
    (hf : p.m_bCurrentTimeoutDeleted = false) (hp : p.m_PendingTimeouts = t :: rest) :
    (afterCallback now p).m_PendingTimeouts = rest ∧
    (afterCallback now p).m_NewTimeouts
      = if t.isInterval then t.rebase now :: p.m_NewTimeouts else p.m_NewTimeouts := by
  unfold afterCallback
  by_cases hi : t.isInterval = true <;> simp [hf, hp, hi, rebase_isInterval]

theorem afterCallback_length (now : Int) (p : Timers) :
    (afterCallback now p).m_PendingTimeouts.length ≤ p.m_PendingTimeouts.length ∧
    (p.m_bCurrentTimeoutDeleted = false → p.m_PendingTimeouts ≠ [] →
      (afterCallback now p).m_PendingTimeouts.length < p.m_PendingTimeouts.length) := by
  cases hf : p.m_bCurrentTimeoutDeleted with
  | true => simp [(afterCallback_deleted now p hf).1]
  | false =>
    by_cases hne : p.m_PendingTimeouts = []
    · simp [(afterCallback_nil now p hne).1, hne]
    · obtain ⟨t, rest, hp⟩ := List.exists_cons_of_ne_nil hne
      simp [(afterCallback_cons now p t rest hf hp).1, hp]

theorem handleTimersBody_nil (env : PyEnv) (p : Timers) (hp : p.m_PendingTimeouts = []) :
    handleTimersBody env p = p := by
  simp [handleTimersBody, hp]

theorem handleTimersBody_cons (env : PyEnv) (p : Timers) (t : Timeout) (rest : List Timeout)
    (hp : p.m_PendingTimeouts = t :: rest) :
    handleTimersBody env p
      = afterCallback p.m_FrameTime (runCalls (env t.pyFunc p) (recordFired t p)) := by
  simp [handleTimersBody, hp]

/-- One iteration of the loop shortens the queue, unless the deleted flag was set when the
iteration began. -/
theorem handleTimersBody_measure (env : PyEnv) (p : Timers)
    (hin : p.m_bInHandleTimers = true) :
    (handleTimersBody env p).m_bInHandleTimers = true ∧
    (p.m_PendingTimeouts ≠ [] → (handleTimersBody env p).m_bCurrentTimeoutDeleted = false) ∧
    (handleTimersBody env p).m_PendingTimeouts.length ≤ p.m_PendingTimeouts.length ∧
    (p.m_bCurrentTimeoutDeleted = false → p.m_PendingTimeouts ≠ [] →
      (handleTimersBody env p).m_PendingTimeouts.length < p.m_PendingTimeouts.length) := by
  by_cases hne : p.m_PendingTimeouts = []
  · rw [handleTimersBody_nil env p hne]
    exact ⟨hin, fun h => absurd hne h, le_refl _, fun _ h => absurd hne h⟩
  · obtain ⟨t, rest, hp⟩ := List.exists_cons_of_ne_nil hne
    rw [handleTimersBody_cons env p t rest hp]
    have hin1 : (recordFired t p).m_bInHandleTimers = true := hin
    have h1 := runCalls_inHandle (env t.pyFunc p) _ hin1
    have h2 := (runCalls_sublist (env t.pyFunc p) _ hin1).length_le
    have h3 := runCalls_flag (env t.pyFunc p) _ hin1
    have hb := afterCallback_basic p.m_FrameTime (runCalls (env t.pyFunc p) (recordFired t p))
    have hl := afterCallback_length p.m_FrameTime (runCalls (env t.pyFunc p) (recordFired t p))
    have e1 : (recordFired t p).m_PendingTimeouts = p.m_PendingTimeouts := rfl
    have e2 : (recordFired t p).m_bCurrentTimeoutDeleted = p.m_bCurrentTimeoutDeleted := rfl
    rw [e1] at h2 h3
    rw [e2] at h3
    refine ⟨by rw [hb.2.1]; exact h1, fun _ => hb.1, le_trans hl.1 h2, ?_⟩
    intro hfp _
    cases hf : (runCalls (env t.pyFunc p) (recordFired t p)).m_bCurrentTimeoutDeleted with
    | true => exact lt_of_le_of_lt hl.1 (h3.2 hfp hf)
    | false =>
      by_cases hne2 : (runCalls (env t.pyFunc p) (recordFired t p)).m_PendingTimeouts = []
      · rw [(afterCallback_nil _ _ hne2).1, hp]; simp
      · exact lt_of_lt_of_le (hl.2 hf hne2) h2

theorem handleTimersCond_nil (p : Timers) (hp : p.m_PendingTimeouts = []) :
    handleTimersCond p = false := by
  simp [handleTimersCond, hp]

/-- An invariant of the loop body holds when the loop of `handleTimers` ends, and the loop
does end when it has one unit of fuel per queued timeout (and one more if the deleted
flag is set at the start). -/
theorem handleTimersLoop_induct (env : PyEnv) (I : Timers → Prop)
    (hI : ∀ s, s.m_bInHandleTimers = true → I s → handleTimersCond s = true →
      I (handleTimersBody env s)) :
    ∀ (fuel : Nat) (p : Timers), p.m_bInHandleTimers = true → I p →
      p.m_PendingTimeouts.length + (if p.m_bCurrentTimeoutDeleted then 1 else 0) ≤ fuel →
      ∃ q, handleTimersLoop env fuel p = some q ∧ I q ∧ handleTimersCond q = false ∧
        q.m_bInHandleTimers = true := by
  intro fuel
  induction fuel with
  | zero =>
    intro p hin hp hf
    have hnil : p.m_PendingTimeouts = [] := by
      apply List.eq_nil_of_length_eq_zero; omega
    have hc := handleTimersCond_nil p hnil
    exact ⟨p, by simp [handleTimersLoop, hc], hp, hc, hin⟩
  | succ n ih =>
    intro p hin hp hf
    cases hc : handleTimersCond p with
    | false => exact ⟨p, by simp [handleTimersLoop, hc], hp, hc, hin⟩
    | true =>
      have hne : p.m_PendingTimeouts ≠ [] := by
        intro h; rw [handleTimersCond_nil p h] at hc; cases hc
      have hm := handleTimersBody_measure env p hin
      have hfuel : (handleTimersBody env p).m_PendingTimeouts.length
          + (if (handleTimersBody env p).m_bCurrentTimeoutDeleted then 1 else 0) ≤ n := by
        rw [hm.2.1 hne]
        simp only [Bool.false_eq_true, if_false, add_zero]
        cases hfl : p.m_bCurrentTimeoutDeleted with
        | true => rw [hfl] at hf; simp only [if_true] at hf; have := hm.2.2.1; omega
        | false => have := hm.2.2.2 hfl hne; omega
      obtain ⟨q, hq, hIq, hcq, hinq⟩ := ih (handleTimersBody env p) hm.1 (hI p hin hp hc) hfuel
      exact ⟨q, by simp [handleTimersLoop, hc, hq], hIq, hcq, hinq⟩

/-- The loop of `handleTimers` always ends: `handleTimers` returns from every state. -/
theorem handleTimers_total (env : PyEnv) (p : Timers) :
    ∃ q, handleTimers env p = some q := by
  obtain ⟨q, hq, _⟩ := handleTimersLoop_induct env (fun _ => True) (fun _ _ _ _ => trivial)
    (p.m_PendingTimeouts.length + 1) { p with m_bInHandleTimers := true } rfl trivial
    (by simp only; split <;> omega)
  exact ⟨finishHandleTimers q, by simp [handleTimers, hq]⟩

/-! ## What the calls of a callback keep -/

theorem run_frame (c : Call) (p : Timers) (h : p.m_bInHandleTimers = true)
    (hc : c ≠ .stop) :
    (c.run p).m_FrameTime = p.m_FrameTime ∧ (c.run p).m_bStopping = p.m_bStopping := by
  rcases run_shape c p h with ⟨T, _, _, hr⟩ | ⟨l1, t, l2, _, _, _, hr⟩ |
    ⟨l1, t, l2, _, _, _, _, hr⟩ | ⟨id, _, _, _, hr⟩ | ⟨hs, _⟩
  · rw [hr]; exact ⟨rfl, rfl⟩
  · rw [hr]; exact ⟨rfl, rfl⟩
  · rw [hr]; exact ⟨rfl, rfl⟩
  · rw [hr]; exact ⟨rfl, rfl⟩
  · exact absurd hs hc

theorem run_lastID (c : Call) (p : Timers) (h : p.m_bInHandleTimers = true) :
    p.lastID ≤ (c.run p).lastID := by
  rcases run_shape c p h with ⟨T, _, _, hr⟩ | ⟨l1, t, l2, _, _, _, hr⟩ |
    ⟨l1, t, l2, _, _, _, _, hr⟩ | ⟨id, _, _, _, hr⟩ | ⟨_, hr⟩
  · rw [hr]; exact Nat.le_succ _
  · rw [hr]
  · rw [hr]
  · rw [hr]
  · rcases stop_cases p with hs | hs <;> rw [hr, hs]

/-- A queued timeout stays in the queue unless the call cancels its id or stops. -/
theorem run_mem_pending (c : Call) (p : Timers) (h : p.m_bInHandleTimers = true)
    (t : Timeout) (ht : t ∈ p.m_PendingTimeouts) (hc : c ≠ .clearInterval t.id)
    (hs : c ≠ .stop) : t ∈ (c.run p).m_PendingTimeouts := by
  rcases run_shape c p h with ⟨T, _, _, hr⟩ | ⟨l1, u, l2, hcu, e, _, hr⟩ |
    ⟨l1, u, l2, _, _, _, _, hr⟩ | ⟨id, _, _, _, hr⟩ | ⟨hst, _⟩
  · rw [hr]; exact ht
  · rw [hr]
    rw [e] at ht
    have hne : t ≠ u := fun e2 => hc (by rw [hcu, e2])
    simp only [List.mem_append, List.mem_cons] at ht ⊢
    rcases ht with h1 | h1 | h1
    · exact Or.inl h1
    · exact absurd h1 hne
    · exact Or.inr h1
  · rw [hr]; exact ht
  · rw [hr]; exact ht
  · exact absurd hst hs

/-- A staged timeout stays in the staging buffer unless the call cancels its id. -/
theorem run_mem_new (c : Call) (p : Timers) (h : p.m_bInHandleTimers = true)
    (t : Timeout) (ht : t ∈ p.m_NewTimeouts) (hc : c ≠ .clearInterval t.id) :
    t ∈ (c.run p).m_NewTimeouts := by
  rcases run_shape c p h with ⟨T, _, _, hr⟩ | ⟨l1, u, l2, _, _, _, hr⟩ |
    ⟨l1, u, l2, hcu, e, _, _, hr⟩ | ⟨id, _, _, _, hr⟩ | ⟨_, hr⟩
  · rw [hr]; exact List.mem_append_left _ ht
  · rw [hr]; exact ht
  · rw [hr]
    rw [e] at ht
    have hne : t ≠ u := fun e2 => hc (by rw [hcu, e2])
    simp only [List.mem_append, List.mem_cons] at ht ⊢
    rcases ht with h1 | h1 | h1
    · exact Or.inl h1
    · exact absurd h1 hne
    · exact Or.inr h1
  · rw [hr]; exact ht
  · rcases stop_cases p with hs | hs <;> (rw [hr, hs]; exact ht)

/-- While the deleted flag stays clear, the head of the queue stays where it is. -/
theorem run_head (c : Call) (p : Timers) (h : p.m_bInHandleTimers = true)
    (hs : c ≠ .stop) (hf : (c.run p).m_bCurrentTimeoutDeleted = false) :
    (c.run p).m_PendingTimeouts.head? = p.m_PendingTimeouts.head? := by
  rcases run_shape c p h with ⟨T, _, _, hr⟩ | ⟨l1, u, l2, _, e, _, hr⟩ |
    ⟨l1, u, l2, _, _, _, _, hr⟩ | ⟨id, _, _, _, hr⟩ | ⟨hst, _⟩
  · rw [hr]
  · rw [hr] at hf ⊢
    cases l1 with
    | nil => simp at hf
    | cons a l1 => simp [e]
  · rw [hr]
  · rw [hr]
  · exact absurd hst hs

/-- The ids of the player after a call: some of the ids before, or the ids before and the
next id of the counter. -/
theorem run_ids (c : Call) (p : Timers) (h : p.m_bInHandleTimers = true) :
    ((c.run p).ids.Sublist p.ids ∧ (c.run p).lastID = p.lastID) ∨
    ((c.run p).ids.Perm ((p.lastID + 1) :: p.ids) ∧ (c.run p).lastID = p.lastID + 1) := by
  rcases run_shape c p h with ⟨T, hT, _, hr⟩ | ⟨l1, u, l2, _, e, _, hr⟩ |
    ⟨l1, u, l2, _, e, _, _, hr⟩ | ⟨id, _, _, _, hr⟩ | ⟨_, hr⟩
  · right
    rw [hr]
    refine ⟨?_, rfl⟩
    simp only [Timers.ids, hT.symm, List.map_append, List.map_cons, List.map_nil]
    rw [← List.append_assoc]
    exact List.perm_append_singleton _ _
  · left
    rw [hr]
    refine ⟨?_, rfl⟩
    simp only [Timers.ids, e]
    refine List.Sublist.map _ (List.Sublist.append_right ?_ _)
    exact List.Sublist.append_left (List.sublist_cons_self u l2) l1
  · left
    rw [hr]
    refine ⟨?_, rfl⟩
    simp only [Timers.ids, e]
    refine List.Sublist.map _ (List.Sublist.append_left ?_ _)
    exact List.Sublist.append_left (List.sublist_cons_self u l2) l1
  · left; rw [hr]; exact ⟨List.Sublist.refl _, rfl⟩
  · left
    rcases stop_cases p with hs | hs
    · rw [hr, hs]; exact ⟨List.Sublist.refl _, rfl⟩
    · rw [hr, hs]
      refine ⟨?_, rfl⟩
      simp only [Timers.ids, List.nil_append]
      exact List.Sublist.map _ (List.sublist_append_right _ _)

theorem run_wellFormed (c : Call) (p : Timers) (h : p.m_bInHandleTimers = true)
    (hw : WellFormed p) : WellFormed (c.run p) := by
  rcases run_ids c p h with ⟨hsub, hl⟩ | ⟨hperm, hl⟩
  · exact ⟨hw.1.sublist hsub, fun x hx => by rw [hl]; exact hw.2 x (hsub.subset hx)⟩
  · refine ⟨(hperm.nodup_iff).2 (List.nodup_cons.2 ⟨?_, hw.1⟩), ?_⟩
    · intro hm
      have := hw.2 _ hm
      omega
    · intro x hx
      rw [hl]
      rcases List.mem_cons.1 (hperm.mem_iff.1 hx) with e | hm
      · omega
      · have := hw.2 x hm; omega

/-- An id that no timeout has, and that the counter has passed, stays unused. -/
theorem run_absent (c : Call) (p : Timers) (h : p.m_bInHandleTimers = true) (x : Nat)
    (hx : x ∉ p.ids) (hl : x ≤ p.lastID) :
    x ∉ (c.run p).ids ∧ x ≤ (c.run p).lastID := by
  rcases run_ids c p h with ⟨hsub, hl2⟩ | ⟨hperm, hl2⟩
  · exact ⟨fun hm => hx (hsub.subset hm), by rw [hl2]; exact hl⟩
  · refine ⟨fun hm => ?_, by rw [hl2]; omega⟩
    rcases List.mem_cons.1 (hperm.mem_iff.1 hm) with e | hm
    · omega
    · exact hx hm

/-- After `clearInterval(x)` no timeout has the id `x`, when ids are not shared. -/
theorem run_clearInterval_absent (p : Timers) (h : p.m_bInHandleTimers = true) (x : Nat)
    (hw : WellFormed p) : x ∉ ((Call.clearInterval x).run p).ids := by
  have hnd := hw.1
  rcases run_shape (.clearInterval x) p h with ⟨T, _, hc, _⟩ | ⟨l1, u, l2, hcu, e, hne, hr⟩ |
    ⟨l1, u, l2, hcu, e, hp, hne, hr⟩ | ⟨id, hcu, hp, hn, hr⟩ | ⟨hst, _⟩
  · rcases hc with hc | hc <;> cases hc
  · have hxu : x = u.id := by injection hcu
    rw [hr]
    simp only [Timers.ids, e, List.map_append, List.map_cons] at hnd ⊢
    rw [List.append_assoc, List.nodup_append] at hnd
    have h2 := hnd.2.1
    rw [List.cons_append, List.nodup_cons] at h2
    intro hm
    rw [List.append_assoc, List.mem_append] at hm
    rcases hm with hm | hm
    · obtain ⟨y, hy, hyx⟩ := List.mem_map.1 hm
      exact hne y hy (hyx.trans hxu)
    · exact h2.1 (hxu ▸ hm)
  · have hxu : x = u.id := by injection hcu
    rw [hr]
    simp only [Timers.ids, e, List.map_append, List.map_cons] at hnd ⊢
    rw [List.nodup_append] at hnd
    have h2 := hnd.2.1
    rw [List.nodup_append] at h2
    have h3 := h2.2.1
    rw [List.nodup_cons] at h3
    intro hm
    simp only [List.mem_append, List.mem_map] at hm
    rcases hm with ⟨y, hy, hyx⟩ | ⟨y, hy, hyx⟩ | hm
    · exact hp y hy (hyx.trans hxu)
    · exact hne y hy (hyx.trans hxu)
    · exact h3.1 (hxu ▸ List.mem_map.2 hm)
  · have hxu : x = id := by injection hcu
    rw [hr]
    intro hm
    simp only [Timers.ids, List.map_append, List.mem_append, List.mem_map] at hm
    rcases hm with ⟨y, hy, hyx⟩ | ⟨y, hy, hyx⟩
    · exact hp y hy (hyx.trans hxu)
    · exact hn y hy (hyx.trans hxu)
  · cases hst

theorem runCalls_wellFormed (cs : List Call) (p : Timers) (hin : p.m_bInHandleTimers = true)
    (hw : WellFormed p) : WellFormed (runCalls cs p) :=
  (runCalls_induct WellFormed cs p hin hw (fun c _ s hs hj => run_wellFormed c s hs hj)).1

theorem runCalls_lastID (cs : List Call) (p : Timers) (hin : p.m_bInHandleTimers = true) :
    p.lastID ≤ (runCalls cs p).lastID :=
  (runCalls_induct (fun s => p.lastID ≤ s.lastID) cs p hin (le_refl _)
    (fun c _ s hs hj => le_trans hj (run_lastID c s hs))).1

theorem runCalls_absent (cs : List Call) (p : Timers) (hin : p.m_bInHandleTimers = true)
    (x : Nat) (hx : x ∉ p.ids) (hl : x ≤ p.lastID) :
    x ∉ (runCalls cs p).ids ∧ x ≤ (runCalls cs p).lastID :=
  (runCalls_induct (fun s => x ∉ s.ids ∧ x ≤ s.lastID) cs p hin ⟨hx, hl⟩
    (fun c _ s hs hj => run_absent c s hs x hj.1 hj.2)).1

theorem runCalls_frame (cs : List Call) (p : Timers) (hin : p.m_bInHandleTimers = true)
    (hs : Call.stop ∉ cs) :
    (runCalls cs p).m_FrameTime = p.m_FrameTime ∧
    (runCalls cs p).m_bStopping = p.m_bStopping :=
  (runCalls_induct (fun s => s.m_FrameTime = p.m_FrameTime ∧ s.m_bStopping = p.m_bStopping)
    cs p hin ⟨rfl, rfl⟩
    (fun c hc s hin2 hj => by
      have := run_frame c s hin2 (fun e => hs (e ▸ hc))
      exact ⟨this.1.trans hj.1, this.2.trans hj.2⟩)).1

theorem runCalls_mem_pending (cs : List Call) (p : Timers)
    (hin : p.m_bInHandleTimers = true) (t : Timeout) (ht : t ∈ p.m_PendingTimeouts)
    (hc : Call.clearInterval t.id ∉ cs) (hs : Call.stop ∉ cs) :
    t ∈ (runCalls cs p).m_PendingTimeouts :=
  (runCalls_induct (fun s => t ∈ s.m_PendingTimeouts) cs p hin ht
    (fun c hm s hin2 hj =>
      run_mem_pending c s hin2 t hj (fun e => hc (e ▸ hm)) (fun e => hs (e ▸ hm)))).1

theorem runCalls_mem_new (cs : List Call) (p : Timers)
    (hin : p.m_bInHandleTimers = true) (t : Timeout) (ht : t ∈ p.m_NewTimeouts)
    (hc : Call.clearInterval t.id ∉ cs) :
    t ∈ (runCalls cs p).m_NewTimeouts :=
  (runCalls_induct (fun s => t ∈ s.m_NewTimeouts) cs p hin ht
    (fun c hm s hin2 hj => run_mem_new c s hin2 t hj (fun e => hc (e ▸ hm)))).1

/-- A callback that does not cancel the timeout at the head of the queue (and does not
stop the player) leaves the deleted flag clear and the head of the queue in place. -/
theorem runCalls_head (cs : List Call) (p : Timers) (hin : p.m_bInHandleTimers = true)
    (h : Timeout) (hf : p.m_bCurrentTimeoutDeleted = false)
    (hh : p.m_PendingTimeouts.head? = some h)
    (hc : Call.clearInterval h.id ∉ cs) (hs : Call.stop ∉ cs) :
    (runCalls cs p).m_bCurrentTimeoutDeleted = false ∧
    (runCalls cs p).m_PendingTimeouts.head? = some h := by
  refine (runCalls_induct (fun s => s.m_bCurrentTimeoutDeleted = false ∧
    s.m_PendingTimeouts.head? = some h) cs p hin ⟨hf, hh⟩ ?_).1
  intro c hm s hin2 hj
  have hcs : c ≠ .stop := fun e => hs (e ▸ hm)
  have hcc : c ≠ .clearInterval h.id := fun e => hc (e ▸ hm)
  have hflag : (c.run s).m_bCurrentTimeoutDeleted = false := by
    rcases run_shape c s hin2 with ⟨T, _, _, hr⟩ | ⟨l1, u, l2, hcu, e, _, hr⟩ |
      ⟨l1, u, l2, _, _, _, _, hr⟩ | ⟨id, _, _, _, hr⟩ | ⟨hst, _⟩
    · rw [hr]; exact hj.1
    · rw [hr]
      cases l1 with
      | nil =>
        have : u = h := by
          have := hj.2
          rw [e] at this
          simpa using this
        exact absurd (this ▸ hcu) hcc
      | cons a l1 => simpa using hj.1
    · rw [hr]; exact hj.1
    · rw [hr]; exact hj.1
    · exact absurd hst hcs
  exact ⟨hflag, (run_head c s hin2 hcs hflag).trans hj.2⟩

/-- Whatever the callback of the head `h` does, what is left of the queue after it is
part of the queue behind `h`, or is `h` followed by part of that. -/
theorem runCalls_tail (cs : List Call) (p : Timers) (hin : p.m_bInHandleTimers = true)
    (h : Timeout) (rest : List Timeout) (hf : p.m_bCurrentTimeoutDeleted = false)
    (hp : p.m_PendingTimeouts = h :: rest) :
    (runCalls cs p).m_PendingTimeouts.Sublist rest ∨
    ((runCalls cs p).m_bCurrentTimeoutDeleted = false ∧
      ∃ rest1, (runCalls cs p).m_PendingTimeouts = h :: rest1 ∧ rest1.Sublist rest) := by
  refine (runCalls_induct (fun s => s.m_PendingTimeouts.Sublist rest ∨
    (s.m_bCurrentTimeoutDeleted = false ∧
      ∃ rest1, s.m_PendingTimeouts = h :: rest1 ∧ rest1.Sublist rest)) cs p hin
    (Or.inr ⟨hf, rest, hp, List.Sublist.refl _⟩) ?_).1
  intro c _ s hin2 hj
  rcases hj with hj | ⟨hfs, rest1, hps, hsub⟩
  · exact Or.inl ((run_sublist c s hin2).trans hj)
  · rcases run_shape c s hin2 with ⟨T, _, _, hr⟩ | ⟨l1, u, l2, _, e, _, hr⟩ |
      ⟨l1, u, l2, _, _, _, _, hr⟩ | ⟨id, _, _, _, hr⟩ | ⟨_, hr⟩
    · rw [hr]; exact Or.inr ⟨hfs, rest1, hps, hsub⟩
    · rw [hr]
      rw [hps] at e
      cases l1 with
      | nil =>
        left
        simp only [List.nil_append, List.cons.injEq] at e
        simp only [List.nil_append]
        rw [← e.2]; exact hsub
      | cons a l1 =>
        right
        simp only [List.cons_append, List.cons.injEq] at e
        refine ⟨by simpa using hfs, l1 ++ l2, by simp [e.1], ?_⟩
        refine List.Sublist.trans ?_ hsub
        rw [e.2]
        exact List.Sublist.append_left (List.sublist_cons_self u l2) l1
    · rw [hr]; exact Or.inr ⟨hfs, rest1, hps, hsub⟩
    · rw [hr]; exact Or.inr ⟨hfs, rest1, hps, hsub⟩
    · rcases stop_cases s with hs | hs
      · rw [hr, hs]; exact Or.inr ⟨hfs, rest1, hps, hsub⟩
      · rw [hr, hs]; exact Or.inl (List.nil_sublist _)

/-- Once a callback has called `clearInterval(x)`, no timeout has the id `x`. -/
theorem runCalls_cancelled (cs : List Call) (p : Timers) (hin : p.m_bInHandleTimers = true)
    (x : Nat) (hw : WellFormed p) (hl : x ≤ p.lastID) (hc : Call.clearInterval x ∈ cs) :
    x ∉ (runCalls cs p).ids := by
  induction cs generalizing p with
  | nil => cases hc
  | cons c cs ih =>
    simp only [runCalls]
    by_cases e : c = .clearInterval x
    · subst e
      have h1 := run_clearInterval_absent p hin x hw
      have h2 := le_trans hl (run_lastID (.clearInterval x) p hin)
      exact (runCalls_absent cs _ (run_inHandle _ p hin) x h1 h2).1
    · have hc2 : Call.clearInterval x ∈ cs := by
        rcases List.mem_cons.1 hc with h1 | h1
        · exact absurd h1.symm e
        · exact h1
      exact ih (c.run p) (run_inHandle c p hin) (run_wellFormed c p hin hw)
        (le_trans hl (run_lastID c p hin)) hc2

/-- A queued timeout is still queued after a callback that does not stop the player, or
its id has been cancelled and no timeout has it. -/
theorem runCalls_mem_or_absent (cs : List Call) (p : Timers)
    (hin : p.m_bInHandleTimers = true) (t : Timeout) (hw : WellFormed p)
    (ht : t ∈ p.m_PendingTimeouts ∨ (t.id ∉ p.ids ∧ t.id ≤ p.lastID))
    (hs : Call.stop ∉ cs) :
    t ∈ (runCalls cs p).m_PendingTimeouts ∨
      (t.id ∉ (runCalls cs p).ids ∧ t.id ≤ (runCalls cs p).lastID) := by
  refine (runCalls_induct (fun s => WellFormed s ∧ (t ∈ s.m_PendingTimeouts ∨
    (t.id ∉ s.ids ∧ t.id ≤ s.lastID))) cs p hin ⟨hw, ht⟩ ?_).1.2
  intro c hm s hin2 hj
  refine ⟨run_wellFormed c s hin2 hj.1, ?_⟩
  rcases hj.2 with hmem | habs
  · by_cases e : c = .clearInterval t.id
    · right
      subst e
      refine ⟨run_clearInterval_absent s hin2 t.id hj.1, ?_⟩
      have : t.id ≤ s.lastID :=
        hj.1.2 _ (by simp only [Timers.ids, List.map_append, List.mem_append, List.mem_map]
                     exact Or.inl ⟨t, hmem, rfl⟩)
      exact le_trans this (run_lastID _ s hin2)
    · exact Or.inl (run_mem_pending c s hin2 t hmem e (fun e2 => hs (e2 ▸ hm)))
  · exact Or.inr (run_absent c s hin2 t.id habs.1 habs.2)

/-! ## What one iteration of the loop keeps -/

theorem afterCallback_sublist (now : Int) (p : Timers) :
    (afterCallback now p).m_PendingTimeouts.Sublist p.m_PendingTimeouts := by
  cases hf : p.m_bCurrentTimeoutDeleted with
  | true => rw [(afterCallback_deleted now p hf).1]
  | false =>
    by_cases hne : p.m_PendingTimeouts = []
    · rw [(afterCallback_nil now p hne).1]; exact List.nil_sublist _
    · obtain ⟨t, rest, hp⟩ := List.exists_cons_of_ne_nil hne
      rw [(afterCallback_cons now p t rest hf hp).1, hp]
      exact List.sublist_cons_self t rest

theorem afterCallback_mem_new (now : Int) (p : Timers) (t : Timeout)
    (ht : t ∈ p.m_NewTimeouts) : t ∈ (afterCallback now p).m_NewTimeouts := by
  cases hf : p.m_bCurrentTimeoutDeleted with
  | true => rw [(afterCallback_deleted now p hf).2]; exact ht
  | false =>
    by_cases hne : p.m_PendingTimeouts = []
    · rw [(afterCallback_nil now p hne).2]; exact ht
    · obtain ⟨u, rest, hp⟩ := List.exists_cons_of_ne_nil hne
      rw [(afterCallback_cons now p u rest hf hp).2]
      split
      · exact List.mem_cons_of_mem _ ht
      · exact ht

/-- The ids after the bookkeeping of an iteration are ids from before it, without
repetition if there was none. -/
theorem afterCallback_ids (now : Int) (p : Timers) :
    (afterCallback now p).ids.Subperm p.ids := by
  cases hf : p.m_bCurrentTimeoutDeleted with
  | true =>
    have h := afterCallback_deleted now p hf
    simp only [Timers.ids, h.1, h.2]
    exact List.Subperm.refl _
  | false =>
    by_cases hne : p.m_PendingTimeouts = []
    · have h := afterCallback_nil now p hne
      simp only [Timers.ids, h.1, h.2, hne]
      exact List.Subperm.refl _
    · obtain ⟨t, rest, hp⟩ := List.exists_cons_of_ne_nil hne
      have h := afterCallback_cons now p t rest hf hp
      simp only [Timers.ids, h.1, h.2, hp]
      by_cases hi : t.isInterval = true
      · simp only [hi, if_true, List.map_append, List.map_cons, rebase_id, List.cons_append]
        exact List.perm_middle.subperm
      · simp only [hi, Bool.false_eq_true, if_false, List.map_append, List.map_cons,
          List.cons_append]
        exact (List.sublist_cons_self _ _).subperm

theorem afterCallback_wellFormed (now : Int) (p : Timers) (hw : WellFormed p) :
    WellFormed (afterCallback now p) := by
  have h := afterCallback_ids now p
  refine ⟨?_, fun x hx => ?_⟩
  · obtain ⟨l, hl, hsub⟩ := h
    exact (hl.nodup_iff).1 (hw.1.sublist hsub)
  · rw [(afterCallback_basic now p).2.2.2.2.2.1]
    exact hw.2 x (h.subset hx)

theorem handleTimersBody_fired (env : PyEnv) (p : Timers) (h : Timeout)
    (rest : List Timeout) (hin : p.m_bInHandleTimers = true)
    (hp : p.m_PendingTimeouts = h :: rest) :
    (handleTimersBody env p).fired = p.fired ++ [h] := by
  rw [handleTimersBody_cons env p h rest hp, (afterCallback_basic _ _).2.2.2.2.1,
    runCalls_fired _ (recordFired h p) hin]
  rfl

theorem handleTimersBody_sublist (env : PyEnv) (p : Timers)
    (hin : p.m_bInHandleTimers = true) :
    (handleTimersBody env p).m_PendingTimeouts.Sublist p.m_PendingTimeouts := by
  by_cases hne : p.m_PendingTimeouts = []
  · rw [handleTimersBody_nil env p hne]
  · obtain ⟨h, rest, hp⟩ := List.exists_cons_of_ne_nil hne
    rw [handleTimersBody_cons env p h rest hp]
    exact (afterCallback_sublist _ _).trans (runCalls_sublist _ (recordFired h p) hin)

/-- After an iteration that began with the deleted flag clear, the queue is part of what
was queued behind the head: the head is gone, fired or cancelled. -/
theorem handleTimersBody_tail (env : PyEnv) (p : Timers) (h : Timeout)
    (rest : List Timeout) (hin : p.m_bInHandleTimers = true)
    (hf : p.m_bCurrentTimeoutDeleted = false) (hp : p.m_PendingTimeouts = h :: rest) :
    (handleTimersBody env p).m_PendingTimeouts.Sublist rest := by
  rw [handleTimersBody_cons env p h rest hp]
  rcases runCalls_tail (env h.pyFunc p) (recordFired h p) hin h rest hf hp with
    hsub | ⟨hf1, rest1, hp1, hsub⟩
  · exact (afterCallback_sublist _ _).trans hsub
  · rw [(afterCallback_cons _ _ h rest1 hf1 hp1).1]; exact hsub

theorem handleTimersBody_wellFormed (env : PyEnv) (p : Timers)
    (hin : p.m_bInHandleTimers = true) (hw : WellFormed p) :
    WellFormed (handleTimersBody env p) := by
  by_cases hne : p.m_PendingTimeouts = []
  · rw [handleTimersBody_nil env p hne]; exact hw
  · obtain ⟨h, rest, hp⟩ := List.exists_cons_of_ne_nil hne
    rw [handleTimersBody_cons env p h rest hp]
    exact afterCallback_wellFormed _ _ (runCalls_wellFormed _ (recordFired h p) hin hw)

theorem handleTimersBody_absent (env : PyEnv) (p : Timers)
    (hin : p.m_bInHandleTimers = true) (x : Nat) (hx : x ∉ p.ids) (hl : x ≤ p.lastID) :
    x ∉ (handleTimersBody env p).ids ∧ x ≤ (handleTimersBody env p).lastID := by
  by_cases hne : p.m_PendingTimeouts = []
  · rw [handleTimersBody_nil env p hne]; exact ⟨hx, hl⟩
  · obtain ⟨h, rest, hp⟩ := List.exists_cons_of_ne_nil hne
    rw [handleTimersBody_cons env p h rest hp]
    have h1 := runCalls_absent (env h.pyFunc p) (recordFired h p) hin x hx hl
    exact ⟨fun hm => h1.1 ((afterCallback_ids _ _).subset hm),
      by rw [(afterCallback_basic _ _).2.2.2.2.2.1]; exact h1.2⟩

theorem handleTimersBody_mem_new (env : PyEnv) (p : Timers)
    (hin : p.m_bInHandleTimers = true) (t : Timeout) (ht : t ∈ p.m_NewTimeouts)
    (hc : ∀ f s, Call.clearInterval t.id ∉ env f s) :
    t ∈ (handleTimersBody env p).m_NewTimeouts := by
  by_cases hne : p.m_PendingTimeouts = []
  · rw [handleTimersBody_nil env p hne]; exact ht
  · obtain ⟨h, rest, hp⟩ := List.exists_cons_of_ne_nil hne
    rw [handleTimersBody_cons env p h rest hp]
    exact afterCallback_mem_new _ _ t
      (runCalls_mem_new _ (recordFired h p) hin t ht (hc _ _))

theorem handleTimersBody_frame (env : PyEnv) (p : Timers)
    (hin : p.m_bInHandleTimers = true) (hs : ∀ f s, Call.stop ∉ env f s) :
    (handleTimersBody env p).m_FrameTime = p.m_FrameTime ∧
    (handleTimersBody env p).m_bStopping = p.m_bStopping := by
  by_cases hne : p.m_PendingTimeouts = []
  · rw [handleTimersBody_nil env p hne]; exact ⟨rfl, rfl⟩
  · obtain ⟨h, rest, hp⟩ := List.exists_cons_of_ne_nil hne
    rw [handleTimersBody_cons env p h rest hp]
    have h1 := runCalls_frame (env h.pyFunc p) (recordFired h p) hin (hs _ _)
    have h2 := afterCallback_basic p.m_FrameTime (runCalls (env h.pyFunc p) (recordFired h p))
    exact ⟨h2.2.2.2.1.trans h1.1, h2.2.2.1.trans h1.2⟩

theorem handleTimersBody_lastID (env : PyEnv) (p : Timers)
    (hin : p.m_bInHandleTimers = true) : p.lastID ≤ (handleTimersBody env p).lastID := by
  by_cases hne : p.m_PendingTimeouts = []
  · rw [handleTimersBody_nil env p hne]
  · obtain ⟨h, rest, hp⟩ := List.exists_cons_of_ne_nil hne
    rw [handleTimersBody_cons env p h rest hp, (afterCallback_basic _ _).2.2.2.2.2.1]
    exact runCalls_lastID _ (recordFired h p) hin

theorem runCalls_head_of_flag (cs : List Call) (p : Timers)
    (hin : p.m_bInHandleTimers = true) (hs : Call.stop ∉ cs)
    (hf : (runCalls cs p).m_bCurrentTimeoutDeleted = false) :
    (runCalls cs p).m_PendingTimeouts.head? = p.m_PendingTimeouts.head? := by
  induction cs generalizing p with
  | nil => rfl
  | cons c cs ih =>
    simp only [runCalls] at hf ⊢
    have hin2 := run_inHandle c p hin
    have hfc : (c.run p).m_bCurrentTimeoutDeleted = false := by
      by_contra hcon
      have := (runCalls_flag cs (c.run p) hin2).1 (by simpa using hcon)
      rw [this] at hf
      cases hf
    rw [ih (c.run p) hin2 (fun h => hs (List.mem_cons_of_mem _ h)) hf]
    exact run_head c p hin (fun e => hs (e ▸ List.mem_cons_self _ _)) hfc

theorem mem_ids_pending {p : Timers} {t : Timeout} (ht : t ∈ p.m_PendingTimeouts) :
    t.id ∈ p.ids := by
  simp only [Timers.ids, List.map_append, List.mem_append, List.mem_map]
  exact Or.inl ⟨t, ht, rfl⟩

theorem mem_ids_new {p : Timers} {t : Timeout} (ht : t ∈ p.m_NewTimeouts) :
    t.id ∈ p.ids := by
  simp only [Timers.ids, List.map_append, List.mem_append, List.mem_map]
  exact Or.inr ⟨t, ht, rfl⟩

/-- In a queue whose ids are not shared, no timeout behind the head has the id of the
head. -/
theorem head_id_unique {p : Timers} {h : Timeout} {rest : List Timeout}
    (hw : WellFormed p) (hp : p.m_PendingTimeouts = h :: rest) :
    h.id ∉ (rest ++ p.m_NewTimeouts).map Timeout.id := by
  have := hw.1
  simp only [Timers.ids, hp, List.cons_append, List.map_cons, List.nodup_cons] at this
  exact this.1

/-- A timeout queued behind the head stays queued through the iteration when no callback
cancels it or stops the player. -/
theorem handleTimersBody_mem_pending (env : PyEnv) (p : Timers) (h t : Timeout)
    (rest : List Timeout) (hin : p.m_bInHandleTimers = true) (hw : WellFormed p)
    (hp : p.m_PendingTimeouts = h :: rest) (ht : t ∈ rest)
    (hc : ∀ f s, Call.clearInterval t.id ∉ env f s) (hs : ∀ f s, Call.stop ∉ env f s) :
    t ∈ (handleTimersBody env p).m_PendingTimeouts := by
  rw [handleTimersBody_cons env p h rest hp]
  have hin1 : (recordFired h p).m_bInHandleTimers = true := hin
  have hmem : t ∈ (recordFired h p).m_PendingTimeouts := by
    show t ∈ p.m_PendingTimeouts
    rw [hp]; exact List.mem_cons_of_mem _ ht
  have h1 := runCalls_mem_pending (env h.pyFunc p) (recordFired h p) hin1 t hmem
    (hc _ _) (hs _ _)
  cases hf : (runCalls (env h.pyFunc p) (recordFired h p)).m_bCurrentTimeoutDeleted with
  | true => rw [(afterCallback_deleted _ _ hf).1]; exact h1
  | false =>
    have hh := runCalls_head_of_flag (env h.pyFunc p) (recordFired h p) hin1 (hs _ _) hf
    have hh2 : (recordFired h p).m_PendingTimeouts.head? = some h := by
      show p.m_PendingTimeouts.head? = some h
      rw [hp]; rfl
    rw [hh2] at hh
    obtain ⟨rest1, hp1⟩ : ∃ rest1,
        (runCalls (env h.pyFunc p) (recordFired h p)).m_PendingTimeouts = h :: rest1 := by
      cases hl : (runCalls (env h.pyFunc p) (recordFired h p)).m_PendingTimeouts with
      | nil => rw [hl] at hh; cases hh
      | cons a l => rw [hl] at hh; simp only [List.head?_cons, Option.some.injEq] at hh
                    exact ⟨l, by rw [hh]⟩
    rw [(afterCallback_cons _ _ h rest1 hf hp1).1]
    rw [hp1] at h1
    rcases List.mem_cons.1 h1 with e | h2
    · exfalso
      apply head_id_unique hw hp
      rw [← e]
      exact List.mem_map.2 ⟨t, List.mem_append_left _ ht, rfl⟩
    · exact h2

/-- The iteration that fires the head `h`, when no callback cancels `h` or stops the
player: `h` leaves the queue; if it is periodic it is staged with its fire time rebased to
the frame time plus its period, otherwise no timeout has its id any more. -/
theorem handleTimersBody_head (env : PyEnv) (p : Timers) (h : Timeout)
    (rest : List Timeout) (hin : p.m_bInHandleTimers = true) (hw : WellFormed p)
    (hf : p.m_bCurrentTimeoutDeleted = false) (hp : p.m_PendingTimeouts = h :: rest)
    (hc : ∀ f s, Call.clearInterval h.id ∉ env f s) (hs : ∀ f s, Call.stop ∉ env f s) :
    h.id ∉ (handleTimersBody env p).m_PendingTimeouts.map Timeout.id ∧
    (h.isInterval = true →
      h.rebase p.m_FrameTime ∈ (handleTimersBody env p).m_NewTimeouts) ∧
    (h.isInterval = false → h.id ∉ (handleTimersBody env p).ids) := by
  rw [handleTimersBody_cons env p h rest hp]
  have hin1 : (recordFired h p).m_bInHandleTimers = true := hin
  have hh2 : (recordFired h p).m_PendingTimeouts.head? = some h := by
    show p.m_PendingTimeouts.head? = some h
    rw [hp]; rfl
  obtain ⟨hf1, hh⟩ := runCalls_head (env h.pyFunc p) (recordFired h p) hin1 h hf hh2
    (hc _ _) (hs _ _)
  have hw1 := runCalls_wellFormed (env h.pyFunc p) (recordFired h p) hin1 hw
  obtain ⟨rest1, hp1⟩ : ∃ rest1,
      (runCalls (env h.pyFunc p) (recordFired h p)).m_PendingTimeouts = h :: rest1 := by
    cases hl : (runCalls (env h.pyFunc p) (recordFired h p)).m_PendingTimeouts with
    | nil => rw [hl] at hh; cases hh
    | cons a l => rw [hl] at hh; simp only [List.head?_cons, Option.some.injEq] at hh
                  exact ⟨l, by rw [hh]⟩
  have hu := head_id_unique hw1 hp1
  obtain ⟨e1, e2⟩ := afterCallback_cons p.m_FrameTime _ h rest1 hf1 hp1
  refine ⟨?_, ?_, ?_⟩
  · rw [e1]
    intro hm
    apply hu
    rw [List.map_append]
    exact List.mem_append_left _ hm
  · intro hi
    rw [e2, hi]
    exact List.mem_cons_self _ _
  · intro hi
    simp only [Timers.ids, e1, e2, hi, Bool.false_eq_true, if_false]
    exact hu

/-- The iteration that fires a head `h` whose callback cancels `h`: afterwards no timeout
has the id of `h`. -/
theorem handleTimersBody_head_cancelled (env : PyEnv) (p : Timers) (h : Timeout)
    (rest : List Timeout) (hin : p.m_bInHandleTimers = true) (hw : WellFormed p)
    (hp : p.m_PendingTimeouts = h :: rest)
    (hc : Call.clearInterval h.id ∈ env h.pyFunc p) :
    h.id ∉ (handleTimersBody env p).ids ∧ h.id ≤ (handleTimersBody env p).lastID := by
  have hl : h.id ≤ p.lastID := hw.2 _ (mem_ids_pending (by rw [hp]; exact List.mem_cons_self _ _))
  refine ⟨?_, le_trans hl (handleTimersBody_lastID env p hin)⟩
  rw [handleTimersBody_cons env p h rest hp]
  intro hm
  exact runCalls_cancelled (env h.pyFunc p) (recordFired h p) hin h.id hw hl hc
    ((afterCallback_ids _ _).subset hm)

/-- A timeout queued behind the head is, after the iteration, still queued or cancelled
for good, when no callback stops the player. -/
theorem handleTimersBody_mem_or_absent (env : PyEnv) (p : Timers) (h t : Timeout)
    (rest : List Timeout) (hin : p.m_bInHandleTimers = true) (hw : WellFormed p)
    (hp : p.m_PendingTimeouts = h :: rest) (ht : t ∈ rest)
    (hs : ∀ f s, Call.stop ∉ env f s) :
    t ∈ (handleTimersBody env p).m_PendingTimeouts ∨
      (t.id ∉ (handleTimersBody env p).ids ∧ t.id ≤ (handleTimersBody env p).lastID) := by
  rw [handleTimersBody_cons env p h rest hp]
  have hin1 : (recordFired h p).m_bInHandleTimers = true := hin
  have hmem : t ∈ (recordFired h p).m_PendingTimeouts := by
    show t ∈ p.m_PendingTimeouts
    rw [hp]; exact List.mem_cons_of_mem _ ht
  rcases runCalls_mem_or_absent (env h.pyFunc p) (recordFired h p) hin1 t hw (Or.inl hmem)
    (hs _ _) with h1 | h1
  · left
    cases hf : (runCalls (env h.pyFunc p) (recordFired h p)).m_bCurrentTimeoutDeleted with
    | true => rw [(afterCallback_deleted _ _ hf).1]; exact h1
    | false =>
      have hh := runCalls_head_of_flag (env h.pyFunc p) (recordFired h p) hin1 (hs _ _) hf
      have hh2 : (recordFired h p).m_PendingTimeouts.head? = some h := by
        show p.m_PendingTimeouts.head? = some h
        rw [hp]; rfl
      rw [hh2] at hh
      obtain ⟨rest1, hp1⟩ : ∃ rest1,
          (runCalls (env h.pyFunc p) (recordFired h p)).m_PendingTimeouts = h :: rest1 := by
        cases hl : (runCalls (env h.pyFunc p) (recordFired h p)).m_PendingTimeouts with
        | nil => rw [hl] at hh; cases hh
        | cons a l => rw [hl] at hh; simp only [List.head?_cons, Option.some.injEq] at hh
                      exact ⟨l, by rw [hh]⟩
      rw [(afterCallback_cons _ _ h rest1 hf hp1).1]
      rw [hp1] at h1
      rcases List.mem_cons.1 h1 with e | h2
      · exfalso
        apply head_id_unique hw hp
        rw [← e]
        exact List.mem_map.2 ⟨t, List.mem_append_left _ ht, rfl⟩
      · exact h2
  · right
    exact ⟨fun hm => h1.1 ((afterCallback_ids _ _).subset hm),
      by rw [(afterCallback_basic _ _).2.2.2.2.2.1]; exact h1.2⟩

/-! ## The whole pass, callbacks that do not stop the player -/

theorem passInvariant_step (env : PyEnv) (hs : ∀ f s, Call.stop ∉ env f s) (now : Int)
    (s : Timers) (hin : s.m_bInHandleTimers = true) (hI : PassInvariant now s)
    (hc : handleTimersCond s = true) : PassInvariant now (handleTimersBody env s) := by
  obtain ⟨hf, hst, hft, hw, hasc⟩ := hI
  have hne : s.m_PendingTimeouts ≠ [] := by
    intro h; rw [handleTimersCond_nil s h] at hc; cases hc
  have hfr := handleTimersBody_frame env s hin hs
  exact ⟨(handleTimersBody_measure env s hin).2.1 hne, hfr.2.trans hst, hfr.1.trans hft,
    handleTimersBody_wellFormed env s hin hw,
    List.Pairwise.sublist (handleTimersBody_sublist env s hin) hasc⟩

/-- While a ready timeout is queued and the player is not stopping, the loop goes on. -/
theorem handleTimersCond_of_ready (now : Int) (s : Timers) (t : Timeout)
    (hI : PassInvariant now s) (ht : t ∈ s.m_PendingTimeouts)
    (hr : t.nextTimeout ≤ now) : handleTimersCond s = true := by
  obtain ⟨_, hst, hft, _, hasc⟩ := hI
  obtain ⟨h, rest, hp⟩ := List.exists_cons_of_ne_nil (List.ne_nil_of_mem ht)
  have hle : h.nextTimeout ≤ t.nextTimeout := by
    rw [hp] at ht hasc
    rcases List.mem_cons.1 ht with e | hm
    · rw [e]
    · exact (List.pairwise_cons.1 hasc).1 t hm
  have : h.nextTimeout ≤ s.m_FrameTime := by rw [hft]; exact le_trans hle hr
  simp [handleTimersCond, hp, Timeout.IsReady, this, hst]

/-- The whole of `handleTimers` from an invariant of its loop body. -/
theorem handleTimers_induct (env : PyEnv) (I : Timers → Prop)
    (hI : ∀ s, s.m_bInHandleTimers = true → I s → handleTimersCond s = true →
      I (handleTimersBody env s))
    (p : Timers) (hf : p.m_bCurrentTimeoutDeleted = false)
    (h0 : I { p with m_bInHandleTimers := true }) :
    ∃ q, handleTimers env p = some (finishHandleTimers q) ∧ I q ∧
      handleTimersCond q = false ∧ q.m_bInHandleTimers = true := by
  obtain ⟨q, hq, hIq, hc, hin⟩ := handleTimersLoop_induct env I hI
    (p.m_PendingTimeouts.length + 1) { p with m_bInHandleTimers := true } rfl h0
    (by simp [hf])
  exact ⟨q, by simp [handleTimers, hq], hIq, hc, hin⟩

theorem finishHandleTimers_perm (q : Timers) :
    (finishHandleTimers q).m_PendingTimeouts.Perm (q.m_NewTimeouts ++ q.m_PendingTimeouts) :=
  foldl_addTimeout_perm _ _

theorem finishHandleTimers_ascending (q : Timers) (h : Ascending q.m_PendingTimeouts) :
    Ascending (finishHandleTimers q).m_PendingTimeouts :=
  foldl_addTimeout_ascending _ _ h

theorem finishHandleTimers_ids (q : Timers) :
    ((finishHandleTimers q).m_PendingTimeouts.map Timeout.id).Perm q.ids := by
  refine ((finishHandleTimers_perm q).map _).trans ?_
  simp only [Timers.ids, List.map_append]
  exact List.perm_append_comm

theorem firedCount_body (env : PyEnv) (p : Timers) (h : Timeout) (rest : List Timeout)
    (hin : p.m_bInHandleTimers = true) (hp : p.m_PendingTimeouts = h :: rest) (x : Nat) :
    firedCount x (handleTimersBody env p)
      = firedCount x p + (if h.id = x then 1 else 0) := by
  unfold firedCount
  rw [handleTimersBody_fired env p h rest hin hp]
  simp only [List.map_append, List.map_cons, List.map_nil, List.count_append,
    List.count_singleton]
  by_cases e : h.id = x <;> simp [e]

/-- The loop of `handleTimers`, seen from one queued timeout `t` that is ready: when no
callback stops the player or cancels `t`, the callback of `t` is invoked once, and `t`
ends in the staging buffer, rebased, if it is periodic, and is gone if it is not. -/
theorem handleTimers_fires_once (env : PyEnv) (hs : ∀ f s, Call.stop ∉ env f s)
    (p : Timers) (t : Timeout) (hc : ∀ f s, Call.clearInterval t.id ∉ env f s)
    (hI : PassInvariant p.m_FrameTime p) (ht : t ∈ p.m_PendingTimeouts)
    (hr : t.nextTimeout ≤ p.m_FrameTime) :
    ∃ q, handleTimers env p = some (finishHandleTimers q) ∧
      PassInvariant p.m_FrameTime q ∧
      firedCount t.id q = firedCount t.id p + 1 ∧
      t.id ∉ q.m_PendingTimeouts.map Timeout.id ∧
      (t.isInterval = true → t.rebase p.m_FrameTime ∈ q.m_NewTimeouts) ∧
      (t.isInterval = false → t.id ∉ q.ids) := by
  have hstep : ∀ s, s.m_bInHandleTimers = true →
      (PassInvariant p.m_FrameTime s ∧
      ((t ∈ s.m_PendingTimeouts ∧ firedCount t.id s = firedCount t.id p) ∨
       (t.id ∉ s.m_PendingTimeouts.map Timeout.id ∧
        firedCount t.id s = firedCount t.id p + 1 ∧
        (t.isInterval = true → t.rebase p.m_FrameTime ∈ s.m_NewTimeouts) ∧
        (t.isInterval = false → t.id ∉ s.ids ∧ t.id ≤ s.lastID)))) →
      handleTimersCond s = true →
      (PassInvariant p.m_FrameTime (handleTimersBody env s) ∧
      ((t ∈ (handleTimersBody env s).m_PendingTimeouts ∧
          firedCount t.id (handleTimersBody env s) = firedCount t.id p) ∨
       (t.id ∉ (handleTimersBody env s).m_PendingTimeouts.map Timeout.id ∧
        firedCount t.id (handleTimersBody env s) = firedCount t.id p + 1 ∧
        (t.isInterval = true →
          t.rebase p.m_FrameTime ∈ (handleTimersBody env s).m_NewTimeouts) ∧
        (t.isInterval = false → t.id ∉ (handleTimersBody env s).ids ∧
          t.id ≤ (handleTimersBody env s).lastID)))) := by
    intro s hin hIs hcond
    obtain ⟨hP, hphase⟩ := hIs
    refine ⟨passInvariant_step env hs _ s hin hP hcond, ?_⟩
    obtain ⟨hf, _, hft, hw, _⟩ := hP
    have hne : s.m_PendingTimeouts ≠ [] := by
      intro h; rw [handleTimersCond_nil s h] at hcond; cases hcond
    obtain ⟨h, rest, hp⟩ := List.exists_cons_of_ne_nil hne
    have hcount := firedCount_body env s h rest hin hp t.id
    rcases hphase with ⟨hm, hcnt⟩ | ⟨h1, h2, h3, h4⟩
    · rw [hp] at hm
      rcases List.mem_cons.1 hm with e | hm2
      · -- the head is `t`: it is fired now
        right
        subst e
        have hb := handleTimersBody_head env s t rest hin hw hf hp hc hs
        rw [hft] at hb
        refine ⟨hb.1, by rw [hcount, hcnt]; simp, hb.2.1, fun hi => ⟨hb.2.2 hi, ?_⟩⟩
        exact le_trans (hw.2 _ (mem_ids_pending (by rw [hp]; exact List.mem_cons_self _ _)))
          (handleTimersBody_lastID env s hin)
      · -- `t` waits behind the head
        left
        have hne2 : h.id ≠ t.id := by
          intro e
          apply head_id_unique hw hp
          rw [e]
          exact List.mem_map.2 ⟨t, List.mem_append_left _ hm2, rfl⟩
        exact ⟨handleTimersBody_mem_pending env s h t rest hin hw hp hm2 hc hs,
          by rw [hcount, hcnt]; simp [hne2]⟩
    · right
      have hne2 : h.id ≠ t.id := by
        intro e
        apply h1
        rw [← e, hp]
        exact List.mem_map.2 ⟨h, List.mem_cons_self _ _, rfl⟩
      refine ⟨?_, by rw [hcount, h2]; simp [hne2], ?_, ?_⟩
      · intro hm
        exact h1 ((handleTimersBody_sublist env s hin).map _ |>.subset hm)
      · intro hi
        exact handleTimersBody_mem_new env s hin _ (h3 hi) (by rw [rebase_id]; exact hc)
      · intro hi
        exact handleTimersBody_absent env s hin t.id (h4 hi).1 (h4 hi).2
  obtain ⟨q, hq, hIq, hcq, _⟩ := handleTimers_induct env _ hstep p hI.1
    ⟨hI, Or.inl ⟨ht, rfl⟩⟩
  refine ⟨q, hq, hIq.1, ?_⟩
  rcases hIq.2 with ⟨hm, _⟩ | ⟨h1, h2, h3, h4⟩
  · rw [handleTimersCond_of_ready _ q t hIq.1 hm hr] at hcq
    cases hcq
  · exact ⟨h2, h1, h3, fun hi => (h4 hi).1⟩

/-! ## A pass whose callbacks leave the scheduler alone -/

theorem handleTimersBody_quiet (env : PyEnv) (henv : ∀ f s, env f s = []) (p : Timers)
    (t : Timeout) (rest : List Timeout) (hp : p.m_PendingTimeouts = t :: rest)
    (hf : p.m_bCurrentTimeoutDeleted = false) :
    handleTimersBody env p = { p with
      m_PendingTimeouts := rest,
      fired := p.fired ++ [t],
      m_NewTimeouts :=
        if t.isInterval then t.rebase p.m_FrameTime :: p.m_NewTimeouts
        else p.m_NewTimeouts } := by
  rw [handleTimersBody_cons env p t rest hp, henv]
  cases p
  simp only at hp hf
  subst hp hf
  by_cases hi : t.isInterval = true <;>
    simp [runCalls, recordFired, afterCallback, hi, rebase_isInterval]

theorem handleTimersLoop_quiet (env : PyEnv) (henv : ∀ f s, env f s = []) :
    ∀ (l : List Timeout) (fuel : Nat) (p : Timers), p.m_PendingTimeouts = l →
      p.m_bCurrentTimeoutDeleted = false → p.m_bStopping = false → l.length ≤ fuel →
      handleTimersLoop env fuel p = some { p with
        m_PendingTimeouts := l.dropWhile (fun t => t.IsReady p.m_FrameTime),
        fired := p.fired ++ l.takeWhile (fun t => t.IsReady p.m_FrameTime),
        m_NewTimeouts :=
          restaged p.m_FrameTime (l.takeWhile (fun t => t.IsReady p.m_FrameTime))
            ++ p.m_NewTimeouts } := by
  intro l
  induction l with
  | nil =>
    intro fuel p hp hf hs _
    have hc := handleTimersCond_nil p hp
    cases p
    simp only at hp
    subst hp
    cases fuel <;> simp [handleTimersLoop, hc, restaged]
  | cons t rest ih =>
    intro fuel p hp hf hs hfuel
    by_cases hr : t.IsReady p.m_FrameTime = true
    · have hc : handleTimersCond p = true := by simp [handleTimersCond, hp, hr, hs]
      cases fuel with
      | zero => simp at hfuel
      | succ n =>
        simp only [handleTimersLoop, hc, if_true]
        rw [handleTimersBody_quiet env henv p t rest hp hf]
        refine Eq.trans (ih n _ rfl hf hs (by simpa using hfuel)) ?_
        by_cases hi : t.isInterval = true <;>
          simp [List.takeWhile, List.dropWhile, hr, hi, restaged, List.filter]
    · have hr2 : t.IsReady p.m_FrameTime = false := by simpa using hr
      have hc : handleTimersCond p = false := by simp [handleTimersCond, hp, hr2]
      cases p
      simp only at hp hr2
      subst hp
      cases fuel <;>
        simp [handleTimersLoop, hc, List.takeWhile, List.dropWhile, hr2, restaged]

/-- A pass whose callbacks make no call into the player fires the ready timeouts at the
front of the queue, in queue order, and merges the periodic ones back. -/
theorem handleTimers_quiet (env : PyEnv) (henv : ∀ f s, env f s = []) (p : Timers)
    (hf : p.m_bCurrentTimeoutDeleted = false) (hs : p.m_bStopping = false) :
    handleTimers env p = some { p with
      m_PendingTimeouts :=
        (restaged p.m_FrameTime
            (p.m_PendingTimeouts.takeWhile (fun t => t.IsReady p.m_FrameTime))
          ++ p.m_NewTimeouts).foldl (fun q t => addTimeout t q)
          (p.m_PendingTimeouts.dropWhile (fun t => t.IsReady p.m_FrameTime)),
      fired := p.fired ++ p.m_PendingTimeouts.takeWhile (fun t => t.IsReady p.m_FrameTime),
      m_NewTimeouts := [],
      m_bInHandleTimers := false } := by
  unfold handleTimers
  have h := handleTimersLoop_quiet env henv p.m_PendingTimeouts
    (p.m_PendingTimeouts.length + 1) { p with m_bInHandleTimers := true } rfl hf hs
    (Nat.le_succ _)
  rw [h]
  simp [finishHandleTimers]

theorem restaged_oneshot (now : Int) (l : List Timeout)
    (h : ∀ t ∈ l, t.isInterval = false) : restaged now l = [] := by
  unfold restaged
  rw [List.filter_eq_nil_iff.2 (fun t ht => by simp [h t ht])]
  rfl

theorem takeWhile_ready_eq_filter (now : Int) (l : List Timeout) (h : Ascending l) :
    l.takeWhile (fun t => t.IsReady now) = l.filter (fun t => t.IsReady now) ∧
    l.dropWhile (fun t => t.IsReady now) = l.filter (fun t => !t.IsReady now) := by
  induction l with
  | nil => simp
  | cons t rest ih =>
    unfold Ascending at h ih
    rw [List.pairwise_cons] at h
    by_cases hr : t.IsReady now = true
    · simp [List.takeWhile, List.dropWhile, List.filter, hr, ih h.2]
    · have hr2 : t.IsReady now = false := by simpa using hr
      have hall : ∀ x ∈ rest, x.IsReady now = false := by
        intro x hx
        have h1 := h.1 x hx
        simp only [Timeout.IsReady, decide_eq_false_iff_not, not_le] at hr2 ⊢
        omega
      have e1 : rest.filter (fun t => t.IsReady now) = [] :=
        List.filter_eq_nil_iff.2 (fun x hx => by simp [hall x hx])
      have e2 : rest.filter (fun t => !t.IsReady now) = rest :=
        List.filter_eq_self.2 (fun x hx => by simp [hall x hx])
      simp [List.takeWhile, List.dropWhile, List.filter, hr2, e1, e2]

theorem scheduleAll_spec : ∀ (reqs : List (Int × Int × Nat)) (p : Timers),
    p.m_bInHandleTimers = false →
    (scheduleAll reqs p).m_PendingTimeouts
      = (createdTimeouts reqs p.lastID).foldl (fun q t => addTimeout t q) p.m_PendingTimeouts ∧
    (scheduleAll reqs p).m_NewTimeouts = p.m_NewTimeouts ∧
    (scheduleAll reqs p).m_bInHandleTimers = false ∧
    (scheduleAll reqs p).m_bCurrentTimeoutDeleted = p.m_bCurrentTimeoutDeleted ∧
    (scheduleAll reqs p).m_bStopping = p.m_bStopping ∧
    (scheduleAll reqs p).fired = p.fired := by
  intro reqs
  induction reqs with
  | nil => intro p h; simp [scheduleAll, createdTimeouts, h]
  | cons r rs ih =>
    intro p h
    obtain ⟨ft, time, f⟩ := r
    have e : ∀ p : Timers, p.m_bInHandleTimers = false →
        (setTimeout time f p).2.m_PendingTimeouts
          = addTimeout (Timeout.create time f false p.m_FrameTime p.lastID) p.m_PendingTimeouts ∧
        (setTimeout time f p).2.lastID = p.lastID + 1 ∧
        (setTimeout time f p).2.m_NewTimeouts = p.m_NewTimeouts ∧
        (setTimeout time f p).2.m_bInHandleTimers = false ∧
        (setTimeout time f p).2.m_bCurrentTimeoutDeleted = p.m_bCurrentTimeoutDeleted ∧
        (setTimeout time f p).2.m_bStopping = p.m_bStopping ∧
        (setTimeout time f p).2.fired = p.fired := by
      intro p h
      simp [setTimeout, h]
    obtain ⟨e1, e2, e3, e4, e5, e6, e7⟩ := e { p with m_FrameTime := ft } h
    obtain ⟨i1, i2, i3, i4, i5, i6⟩ := ih _ e4
    simp only [scheduleAll, createdTimeouts, List.foldl_cons]
    rw [i1, i2, i3, i4, i5, i6, e1, e2, e3, e5, e6, e7]
    simp

theorem createdTimeouts_oneshot : ∀ (reqs : List (Int × Int × Nat)) (n : Nat),
    ∀ t ∈ createdTimeouts reqs n, t.isInterval = false := by
  intro reqs
  induction reqs with
  | nil => intro n t ht; simp [createdTimeouts] at ht
  | cons r rs ih =>
    intro n t ht
    obtain ⟨ft, time, f⟩ := r
    simp only [createdTimeouts, List.mem_cons] at ht
    rcases ht with rfl | ht
    · rfl
    · exact ih _ t ht

theorem ascending_strict (l : List Timeout) (h : Ascending l)
    (hd : (l.map Timeout.nextTimeout).Nodup) :
    l.Pairwise (fun a b => a.nextTimeout < b.nextTimeout) := by
  have h2 : l.Pairwise (fun a b => a.nextTimeout ≠ b.nextTimeout) := by
    have := hd
    rw [List.Nodup, List.pairwise_map] at this
    exact this
  exact (h.and h2).imp (fun hab => lt_of_le_of_ne hab.1 hab.2)

theorem handleTimers_quiet_oneshot (env : PyEnv) (henv : ∀ f s, env f s = []) (p : Timers)
    (hf : p.m_bCurrentTimeoutDeleted = false) (hs : p.m_bStopping = false)
    (hn : p.m_NewTimeouts = []) (hone : ∀ t ∈ p.m_PendingTimeouts, t.isInterval = false) :
    ∃ q, handleTimers env p = some q ∧
      q.fired = p.fired ++ p.m_PendingTimeouts.takeWhile (fun t => t.IsReady p.m_FrameTime) ∧
      q.m_PendingTimeouts
        = p.m_PendingTimeouts.dropWhile (fun t => t.IsReady p.m_FrameTime) ∧
      q.m_NewTimeouts = [] := by
  refine ⟨_, handleTimers_quiet env henv p hf hs, rfl, ?_, rfl⟩
  simp only [hn, List.append_nil]
  rw [restaged_oneshot _ _ (fun t ht => hone t ((List.takeWhile_sublist _).subset ht))]
  rfl

/-- C1: one-shot timeouts with pairwise distinct fire times, scheduled by `setTimeout`
calls outside `handleTimers` into an empty queue; the scheduler is not stopping and the
callbacks make no call into the player. Then `handleTimers` at frame time `now` returns,
and the timeouts it fired are exactly the scheduled ones with fire time `≤ now`, each
once, in strictly ascending fire-time order; none of them is in the queue afterwards,
which holds exactly the timeouts with a later fire time. -/
theorem handleTimers_fires_due_oneshots (env : PyEnv) (henv : ∀ f s, env f s = [])
    (p0 : Timers) (reqs : List (Int × Int × Nat)) (now : Int)
    (hq : p0.m_PendingTimeouts = []) (hn : p0.m_NewTimeouts = [])
    (hin : p0.m_bInHandleTimers = false) (hdel : p0.m_bCurrentTimeoutDeleted = false)
    (hstop : p0.m_bStopping = false)
    (hdist : ((createdTimeouts reqs p0.lastID).map Timeout.nextTimeout).Nodup) :
    ∃ q F, handleTimers env (setFrameTime now (scheduleAll reqs p0)) = some q ∧
      q.fired = p0.fired ++ F ∧
      F.Perm ((createdTimeouts reqs p0.lastID).filter
        (fun t => decide (t.nextTimeout ≤ now))) ∧
      F.Pairwise (fun a b => a.nextTimeout < b.nextTimeout) ∧
      F.Nodup ∧
      (∀ t ∈ F, t ∉ q.m_PendingTimeouts) ∧
      q.m_PendingTimeouts.Perm ((createdTimeouts reqs p0.lastID).filter
        (fun t => decide (now < t.nextTimeout))) ∧
      q.m_NewTimeouts = [] := by
  obtain ⟨hs1, hs2, _, hs4, hs5, hs6⟩ := scheduleAll_spec reqs p0 hin
  rw [hq] at hs1
  set C := createdTimeouts reqs p0.lastID with hC
  set L := C.foldl (fun q t => addTimeout t q) [] with hL
  have hperm : L.Perm C := by
    have := foldl_addTimeout_perm C []
    simpa using this
  have hasc : Ascending L := foldl_addTimeout_ascending C [] (by simp [Ascending])
  have hone : ∀ t ∈ L, t.isInterval = false := fun t ht =>
    createdTimeouts_oneshot reqs p0.lastID t (hperm.mem_iff.1 ht)
  have hnd : (L.map Timeout.nextTimeout).Nodup :=
    ((hperm.map Timeout.nextTimeout).nodup_iff).2 hdist
  have hstrict := ascending_strict L hasc hnd
  obtain ⟨htw, hdw⟩ := takeWhile_ready_eq_filter now L hasc
  have ep : (setFrameTime now (scheduleAll reqs p0)).m_PendingTimeouts = L := hs1
  have et : (setFrameTime now (scheduleAll reqs p0)).m_FrameTime = now := rfl
  have ef : (setFrameTime now (scheduleAll reqs p0)).fired = p0.fired := hs6
  obtain ⟨q, hrun, hfired, hpend, hnew⟩ :=
    handleTimers_quiet_oneshot env henv (setFrameTime now (scheduleAll reqs p0))
      (hs4.trans hdel) (hs5.trans hstop) (hs2.trans hn) (by rw [ep]; exact hone)
  rw [ep, et, ef, htw] at hfired
  rw [ep, et, hdw] at hpend
  refine ⟨q, L.filter (fun t => t.IsReady now), hrun, hfired, ?_, ?_, ?_, ?_, ?_, hnew⟩
  · exact hperm.filter _
  · exact hstrict.sublist (List.filter_sublist _)
  · exact (List.Nodup.of_map _ hnd).sublist (List.filter_sublist _)
  · intro t ht ht2
    rw [hpend] at ht2
    have h1 := (List.mem_filter.1 ht).2
    have h2 := (List.mem_filter.1 ht2).2
    simp [h1] at h2
  · have e : (fun t : Timeout => !t.IsReady now) = (fun t => decide (now < t.nextTimeout)) := by
      funext t
      by_cases hle : t.nextTimeout ≤ now
      · simp [Timeout.IsReady, hle]
      · simp [Timeout.IsReady, hle, not_le.1 hle]
    rw [hpend, e]
    exact hperm.filter _

/-- C1, at the input of the spec: offsets 5, 1, 3 scheduled at frame time 0 on a new
player, pass at frame time 10. The callbacks fire in the order 1, 3, 5. -/
theorem handleTimers_fires_due_oneshots_witness :
    (∃ q F, handleTimers quietEnv
        (setFrameTime 10 (scheduleAll [(0, 5, 7), (0, 1, 8), (0, 3, 9)] Timers.init)) = some q ∧
      q.fired = Timers.init.fired ++ F ∧
      F.Perm ((createdTimeouts [(0, 5, 7), (0, 1, 8), (0, 3, 9)] Timers.init.lastID).filter
        (fun t => decide (t.nextTimeout ≤ 10))) ∧
      F.Pairwise (fun a b => a.nextTimeout < b.nextTimeout) ∧
      F.Nodup ∧
      (∀ t ∈ F, t ∉ q.m_PendingTimeouts) ∧
      q.m_PendingTimeouts.Perm
        ((createdTimeouts [(0, 5, 7), (0, 1, 8), (0, 3, 9)] Timers.init.lastID).filter
          (fun t => decide (10 < t.nextTimeout))) ∧
      q.m_NewTimeouts = []) ∧
    (handleTimers quietEnv
        (setFrameTime 10 (scheduleAll [(0, 5, 7), (0, 1, 8), (0, 3, 9)] Timers.init))).map
      (fun q => (q.fired.map Timeout.interval, q.m_PendingTimeouts)) = some ([1, 3, 5], []) :=
  ⟨handleTimers_fires_due_oneshots quietEnv (fun _ _ => rfl) Timers.init
      [(0, 5, 7), (0, 1, 8), (0, 3, 9)] 10 rfl rfl rfl rfl rfl (by decide),
    by decide⟩

theorem addTimeout_append (t : Timeout) (l1 l2 : List Timeout)
    (h : ∀ x ∈ l1, x.lt t = true) : addTimeout t (l1 ++ l2) = l1 ++ addTimeout t l2 := by
  induction l1 with
  | nil => rfl
  | cons x xs ih =>
    have hx := h x (List.mem_cons_self _ _)
    have e := ih (fun y hy => h y (List.mem_cons_of_mem _ hy))
    simp [addTimeout, hx, e]

theorem takeWhile_all {α : Type} (f : α → Bool) (l : List α) :
    ∀ x ∈ l.takeWhile f, f x = true := by
  induction l with
  | nil => intro x hx; simp at hx
  | cons y ys ih =>
    intro x hx
    by_cases hy : f y = true
    · simp only [List.takeWhile, hy, List.mem_cons] at hx
      rcases hx with rfl | hx
      · exact hy
      · exact ih x hx
    · have hy2 : f y = false := by simpa using hy
      simp [List.takeWhile, hy2] at hx

theorem takeWhile_append_all {α : Type} (f : α → Bool) (l1 l2 : List α)
    (h : ∀ x ∈ l1, f x = true) : (l1 ++ l2).takeWhile f = l1 ++ l2.takeWhile f := by
  induction l1 with
  | nil => rfl
  | cons x xs ih =>
    have hx := h x (List.mem_cons_self _ _)
    have e := ih (fun y hy => h y (List.mem_cons_of_mem _ hy))
    simp [List.takeWhile, hx, e]

/-- C2, as the code has it: `addTimeout` puts the new timeout in front of the queued
timeouts with the same fire time. For every queue and every two timeouts `a`, `b` with
equal fire time, inserting `a` and then `b` leaves `b` directly ahead of `a`, and a pass in
which both are ready (callbacks quiet, scheduler not stopping) fires `b` and then `a`:
the reverse of the insertion order. -/
theorem addTimeout_ties_newest_first (q : List Timeout) (a b : Timeout)
    (h : a.nextTimeout = b.nextTimeout) :
    ∃ l1 l2, q = l1 ++ l2 ∧ addTimeout b (addTimeout a q) = l1 ++ b :: a :: l2 ∧
      ∀ (env : PyEnv) (p : Timers), (∀ f s, env f s = []) →
        p.m_PendingTimeouts = addTimeout b (addTimeout a q) →
        p.m_bCurrentTimeoutDeleted = false → p.m_bStopping = false →
        a.IsReady p.m_FrameTime = true →
        ∃ p1 rest, handleTimers env p = some p1 ∧
          p1.fired = p.fired ++ (l1 ++ b :: a :: rest) := by
  have hl1 : ∀ x ∈ q.takeWhile (fun x => x.lt a), x.lt a = true :=
    takeWhile_all (fun x => x.lt a) q
  have hl1b : ∀ x ∈ q.takeWhile (fun x => x.lt a), x.lt b = true := by
    intro x hx
    have := hl1 x hx
    simpa [Timeout.lt, h] using this
  have hab : a.lt b = false := by simp [Timeout.lt, h]
  have hins : addTimeout b (addTimeout a q)
      = q.takeWhile (fun x => x.lt a) ++ b :: a :: q.dropWhile (fun x => x.lt a) := by
    rw [addTimeout_eq a q, addTimeout_append b _ _ hl1b]
    simp [addTimeout, hab]
  refine ⟨q.takeWhile (fun x => x.lt a), q.dropWhile (fun x => x.lt a),
    (List.takeWhile_append_dropWhile _ _).symm, hins, ?_⟩
  intro env p henv hp hf hs hr
  have hra : a.nextTimeout ≤ p.m_FrameTime := by simpa [Timeout.IsReady] using hr
  have hrb : b.IsReady p.m_FrameTime = true := by simpa [Timeout.IsReady, ← h] using hra
  have hrl : ∀ x ∈ q.takeWhile (fun x => x.lt a), x.IsReady p.m_FrameTime = true := by
    intro x hx
    have : x.nextTimeout < a.nextTimeout := by simpa [Timeout.lt] using hl1 x hx
    simp only [Timeout.IsReady, decide_eq_true_eq]
    omega
  refine ⟨_, (q.dropWhile (fun x => x.lt a)).takeWhile (fun t => t.IsReady p.m_FrameTime),
    handleTimers_quiet env henv p hf hs, ?_⟩
  simp only [hp, hins]
  rw [takeWhile_append_all _ _ _ hrl]
  simp only [List.takeWhile, hrb, hr]

/-- C2, witness: two timeouts with fire time 5 inserted into a queue that holds timeouts
with fire times 3 and 7. -/
theorem addTimeout_ties_newest_first_witness :
    ∃ l1 l2, [Timeout.mk 1 3 3 false 0, Timeout.mk 2 7 7 false 0] = l1 ++ l2 ∧
      addTimeout (Timeout.mk 4 5 5 false 0)
        (addTimeout (Timeout.mk 3 5 5 false 0)
          [Timeout.mk 1 3 3 false 0, Timeout.mk 2 7 7 false 0])
        = l1 ++ Timeout.mk 4 5 5 false 0 :: Timeout.mk 3 5 5 false 0 :: l2 ∧
      ∀ (env : PyEnv) (p : Timers), (∀ f s, env f s = []) →
        p.m_PendingTimeouts = addTimeout (Timeout.mk 4 5 5 false 0)
          (addTimeout (Timeout.mk 3 5 5 false 0)
            [Timeout.mk 1 3 3 false 0, Timeout.mk 2 7 7 false 0]) →
        p.m_bCurrentTimeoutDeleted = false → p.m_bStopping = false →
        (Timeout.mk 3 5 5 false 0).IsReady p.m_FrameTime = true →
        ∃ p1 rest, handleTimers env p = some p1 ∧
          p1.fired = p.fired ++
            (l1 ++ Timeout.mk 4 5 5 false 0 :: Timeout.mk 3 5 5 false 0 :: rest) :=
  addTimeout_ties_newest_first [Timeout.mk 1 3 3 false 0, Timeout.mk 2 7 7 false 0]
    (Timeout.mk 3 5 5 false 0) (Timeout.mk 4 5 5 false 0) rfl

/-- C2 fails as stated: on a new player `setTimeout(5, f1)` and then `setTimeout(5, f2)`,
both at frame time 0, leave the second timeout ahead of the first in the queue, and the
pass at frame time 10 calls `f2` before `f1`. -/
theorem addTimeout_ties_not_stable :
    (setTimeout 5 2 (setTimeout 5 1 Timers.init).2).2.m_PendingTimeouts
      = [Timeout.mk 2 5 5 false 2, Timeout.mk 1 5 5 false 1] ∧
    addTimeout (Timeout.mk 2 5 5 false 2) (addTimeout (Timeout.mk 1 5 5 false 1) [])
      = [Timeout.mk 2 5 5 false 2, Timeout.mk 1 5 5 false 1] ∧
    (handleTimers quietEnv
        (setFrameTime 10 (setTimeout 5 2 (setTimeout 5 1 Timers.init).2).2)).map
      (fun q => q.fired.map Timeout.pyFunc) = some [2, 1] := by
  decide

/-- C6: `clearInterval(id)` returns true exactly when a timeout with that id is in the
queue or in the staging buffer. When it returns true, one timeout with that id is removed
(the first one of the queue, or else the first one of the staging buffer) and all other
timeouts stay where they are, in the same order. When it returns false the player is
unchanged. -/
theorem clearInterval_spec (id : Nat) (p : Timers) :
    ((clearInterval id p).1 = true ↔
      ∃ t ∈ p.m_PendingTimeouts ++ p.m_NewTimeouts, t.id = id) ∧
    ((clearInterval id p).1 = true →
      ∃ l1 t l2, t.id = id ∧ (∀ x ∈ l1, x.id ≠ id) ∧
        ((p.m_PendingTimeouts = l1 ++ t :: l2 ∧
            (clearInterval id p).2.m_PendingTimeouts = l1 ++ l2 ∧
            (clearInterval id p).2.m_NewTimeouts = p.m_NewTimeouts) ∨
         ((∀ x ∈ p.m_PendingTimeouts, x.id ≠ id) ∧ p.m_NewTimeouts = l1 ++ t :: l2 ∧
            (clearInterval id p).2.m_PendingTimeouts = p.m_PendingTimeouts ∧
            (clearInterval id p).2.m_NewTimeouts = l1 ++ l2))) ∧
    ((clearInterval id p).1 = false → (clearInterval id p).2 = p) := by
  rcases clearInterval_cases id p with ⟨l1, t, l2, ht, e, hne, hr⟩ |
    ⟨l1, t, l2, ht, e, hp, hne, hr⟩ | ⟨hp, hn, hr⟩
  · rw [hr]
    refine ⟨⟨fun _ => ⟨t, by simp [e], ht⟩, fun _ => rfl⟩, fun _ => ?_, fun h => by cases h⟩
    exact ⟨l1, t, l2, ht, hne, Or.inl ⟨e, rfl, rfl⟩⟩
  · rw [hr]
    refine ⟨⟨fun _ => ⟨t, by simp [e], ht⟩, fun _ => rfl⟩, fun _ => ?_, fun h => by cases h⟩
    exact ⟨l1, t, l2, ht, hne, Or.inr ⟨hp, e, rfl, rfl⟩⟩
  · rw [hr]
    refine ⟨⟨(fun h => by cases h), ?_⟩, (fun h => by cases h), fun _ => rfl⟩
    rintro ⟨t, ht, hid⟩
    rcases List.mem_append.1 ht with h1 | h1
    · exact absurd hid (hp t h1)
    · exact absurd hid (hn t h1)

/-! ## The event capture table -/

theorem setEventCaptureTimes_same (live : Nat → Bool) (node : Nat) (c : Int)
    (hlive : live node = true) :
    ∀ (n : Nat) (m : CaptureMap) (j : Int), m c = some ⟨node, j⟩ →
      ∃ m1, setEventCaptureTimes live node c n m = (.ok (), m1) ∧
        m1 c = some ⟨node, j + n⟩ ∧ ∀ d, d ≠ c → m1 d = m d := by
  intro n
  induction n with
  | zero => intro m j hm; exact ⟨m, rfl, by simpa using hm, fun _ _ => rfl⟩
  | succ n ih =>
    intro m j hm
    have h1 : setEventCapture live node c m = (.ok (), m.set c ⟨node, j + 1⟩) := by
      simp [setEventCapture, hm, hlive]
    obtain ⟨m1, e1, e2, e3⟩ := ih (m.set c ⟨node, j + 1⟩) (j + 1) (by simp [CaptureMap.set])
    refine ⟨m1, by simp only [setEventCaptureTimes, h1, e1], ?_, ?_⟩
    · rw [e2]; push_cast; congr 2; ring
    · intro d hd; rw [e3 d hd]; simp [CaptureMap.set, hd]

theorem releaseEventCaptureTimes_same (live : Nat → Bool) (node : Nat) (c : Int)
    (hlive : live node = true) :
    ∀ (k : Nat) (m : CaptureMap) (j : Int), m c = some ⟨node, j⟩ → 1 ≤ j → (k : Int) ≤ j →
      ∃ m2, releaseEventCaptureTimes live c k m = (.ok (), m2) ∧
        ((k : Int) < j → m2 c = some ⟨node, j - k⟩) ∧ ((k : Int) = j → m2 c = none) ∧
        ∀ d, d ≠ c → m2 d = m d := by
  intro k
  induction k with
  | zero =>
    intro m j hm h1 _
    exact ⟨m, rfl, fun _ => by simpa using hm, fun h => by simp at h; omega, fun _ _ => rfl⟩
  | succ k ih =>
    intro m j hm h1 hk
    by_cases hj : j - 1 = 0
    · have hr : releaseEventCapture live c m = (.ok (), m.erase c) := by
        simp [releaseEventCapture, hm, hlive, hj]
      have hk0 : k = 0 := by push_cast at hk; omega
      subst hk0
      refine ⟨m.erase c, by simp only [releaseEventCaptureTimes, hr], ?_, ?_, ?_⟩
      · intro h; push_cast at h; omega
      · intro _; simp [CaptureMap.erase]
      · intro d hd; simp [CaptureMap.erase, hd]
    · have hr : releaseEventCapture live c m = (.ok (), m.set c ⟨node, j - 1⟩) := by
        simp [releaseEventCapture, hm, hlive, hj]
      obtain ⟨m2, e1, e2, e3, e4⟩ := ih (m.set c ⟨node, j - 1⟩) (j - 1)
        (by simp [CaptureMap.set]) (by omega) (by push_cast at hk; omega)
      refine ⟨m2, by simp only [releaseEventCaptureTimes, hr, e1], ?_, ?_, ?_⟩
      · intro h
        rw [e2 (by push_cast at h; omega)]
        push_cast; congr 2; ring
      · intro h; exact e3 (by push_cast at h; omega)
      · intro d hd; rw [e4 d hd]; simp [CaptureMap.set, hd]

/-- C7: a live node, a cursor that is not captured (no entry, or an entry whose node has
been destroyed), `n ≥ 1` calls of `setEventCapture(node, cursor)` and then `k ≤ n` calls of
`releaseEventCapture(cursor)`. All calls succeed; for `k < n` the cursor is captured by
the node (with count `n - k`), for `k = n` it has no entry, `isCaptured` is false, and one
more release throws the not-captured error. Other cursors are not touched. -/
theorem capture_release_balance (live : Nat → Bool) (node : Nat) (c : Int) (m : CaptureMap)
    (n k : Nat) (hlive : live node = true)
    (hfree : ∀ info, m c = some info → live info.m_pNode = false)
    (hn : 1 ≤ n) (hk : k ≤ n) :
    ∃ m1 m2, setEventCaptureTimes live node c n m = (.ok (), m1) ∧
      releaseEventCaptureTimes live c k m1 = (.ok (), m2) ∧
      (∀ d, d ≠ c → m2 d = m d) ∧
      (k < n → m2 c = some ⟨node, (n : Int) - k⟩ ∧ isCaptured c m2 = true) ∧
      (k = n → m2 c = none ∧ isCaptured c m2 = false ∧
        releaseEventCapture live c m2 = (.error .notCaptured, m2)) := by
  obtain ⟨n0, rfl⟩ : ∃ n0, n = n0 + 1 := ⟨n - 1, by omega⟩
  have h1 : setEventCapture live node c m = (.ok (), m.set c ⟨node, 1⟩) := by
    cases hm : m c with
    | none => simp [setEventCapture, hm, EventCaptureInfo.create]
    | some info => simp [setEventCapture, hm, hfree info hm, EventCaptureInfo.create]
  obtain ⟨m1, e1, e2, e3⟩ := setEventCaptureTimes_same live node c hlive n0
    (m.set c ⟨node, 1⟩) 1 (by simp [CaptureMap.set])
  obtain ⟨m2, r1, r2, r3, r4⟩ := releaseEventCaptureTimes_same live node c hlive k m1
    (1 + n0) e2 (by omega) (by push_cast at *; omega)
  refine ⟨m1, m2, by simp only [setEventCaptureTimes, h1, e1], r1, ?_, ?_, ?_⟩
  · intro d hd; rw [r4 d hd, e3 d hd]; simp [CaptureMap.set, hd]
  · intro hlt
    have := r2 (by omega)
    refine ⟨by rw [this]; push_cast; congr 2; ring, by simp [isCaptured, this]⟩
  · intro heq
    have := r3 (by omega)
    exact ⟨this, by simp [isCaptured, this], by simp [releaseEventCapture, this]⟩

/-- C7, witness: node 7 captures cursor 0 three times on an empty table, then releases
two times. -/
theorem capture_release_balance_witness :
    ∃ m1 m2, setEventCaptureTimes (fun _ => true) 7 0 3 (fun _ => none) = (.ok (), m1) ∧
      releaseEventCaptureTimes (fun _ => true) 0 2 m1 = (.ok (), m2) ∧
      (∀ d, d ≠ 0 → m2 d = (fun _ => none : CaptureMap) d) ∧
      (2 < 3 → m2 0 = some ⟨7, ((3 : Nat) : Int) - (2 : Nat)⟩ ∧ isCaptured 0 m2 = true) ∧
      (2 = 3 → m2 0 = none ∧ isCaptured 0 m2 = false ∧
        releaseEventCapture (fun _ => true) 0 m2 = (.error .notCaptured, m2)) :=
  capture_release_balance (fun _ => true) 7 0 (fun _ => none) 3 2 rfl
    (fun _ h => by cases h) (by decide) (by decide)

/-- C8: when cursor `c` is captured by the live node `a`, `setEventCapture(b, c)` with
`b ≠ a` throws the already-captured error (naming `b` and `a`) and the capture table is
the one before the call. -/
theorem setEventCapture_other_node (live : Nat → Bool) (a b : Nat) (c : Int)
    (m : CaptureMap) (count : Int) (hm : m c = some ⟨a, count⟩) (hlive : live a = true)
    (hne : b ≠ a) :
    setEventCapture live b c m = (.error (.alreadyCaptured b a), m) ∧
    (setEventCapture live b c m).2 c = some ⟨a, count⟩ := by
  have hne2 : ¬ a = b := fun e => hne e.symm
  have h : setEventCapture live b c m = (.error (.alreadyCaptured b a), m) := by
    simp [setEventCapture, hm, hlive, hne2]
  exact ⟨h, by rw [h]; exact hm⟩

/-- C8, witness: node 1 holds cursor 0 with count 2, node 2 asks for it. -/
theorem setEventCapture_other_node_witness :
    setEventCapture (fun _ => true) 2 0 (CaptureMap.set (fun _ => none) 0 ⟨1, 2⟩)
      = (.error (.alreadyCaptured 2 1), CaptureMap.set (fun _ => none) 0 ⟨1, 2⟩) ∧
    (setEventCapture (fun _ => true) 2 0 (CaptureMap.set (fun _ => none) 0 ⟨1, 2⟩)).2 0
      = some ⟨1, 2⟩ :=
  setEventCapture_other_node (fun _ => true) 1 2 0 (CaptureMap.set (fun _ => none) 0 ⟨1, 2⟩)
    2 rfl rfl (by decide)

/-- C9 fails on the code: node 7 captures cursor 0 and is then destroyed. `isCaptured(0)`
still returns true, and `releaseEventCapture(0)`, which does see that the node has
expired and throws the not-captured error, leaves the stale entry in the table, so that
`isCaptured(0)` is true after it as well. `setEventCapture` and `handleCursorEvent` do
treat the entry as absent: the first replaces it by a new entry with count 1, the second
sends the event to the hit set and erases the entry. -/
theorem isCaptured_stale_entry :
    isCaptured 0 (setEventCapture (fun _ => true) 7 0 (fun _ => none)).2 = true ∧
    (releaseEventCapture (fun _ => false) 0
        (setEventCapture (fun _ => true) 7 0 (fun _ => none)).2).1 = .error .notCaptured ∧
    isCaptured 0 (releaseEventCapture (fun _ => false) 0
        (setEventCapture (fun _ => true) 7 0 (fun _ => none)).2).2 = true ∧
    (setEventCapture (fun n => decide (n = 8)) 8 0
        (setEventCapture (fun _ => true) 7 0 (fun _ => none)).2).1 = .ok () ∧
    (setEventCapture (fun n => decide (n = 8)) 8 0
        (setEventCapture (fun _ => true) 7 0 (fun _ => none)).2).2 0 = some ⟨8, 1⟩ ∧
    (handleCursorEvent_destNodes (fun _ => false) (fun n => [n]) [3, 4] 0
        (setEventCapture (fun _ => true) 7 0 (fun _ => none)).2).1 = [3, 4] ∧
    isCaptured 0 (handleCursorEvent_destNodes (fun _ => false) (fun n => [n]) [3, 4] 0
        (setEventCapture (fun _ => true) 7 0 (fun _ => none)).2).2 = false := by
  refine ⟨rfl, rfl, rfl, rfl, rfl, rfl, rfl⟩

/-! ## The order of the off-screen canvases -/

theorem eraseCanvas_not_mem (x : Nat) : ∀ (l : List Nat), x ∉ l → eraseCanvas x l = (false, l)
  | [], _ => rfl
  | [y], h => by
    have : ¬ x = y := by simpa using h
    simp [eraseCanvas, this]
  | y :: z :: rest, h => by
    have hy : ¬ x = y := fun e => h (by simp [e])
    have ih := eraseCanvas_not_mem x (z :: rest) (fun hm => h (List.mem_cons_of_mem _ hm))
    simp [eraseCanvas, hy, ih]

/-- On a vector without duplicates the first loop of `newCanvasDependency` erases the
canvas, if it is there. -/
theorem eraseCanvas_nodup (x : Nat) : ∀ (l : List Nat), l.Nodup → x ∈ l →
    eraseCanvas x l = (true, l.erase x)
  | [], _, h => by simp at h
  | [y], _, h => by
    have : x = y := by simpa using h
    simp [eraseCanvas, this]
  | y :: z :: rest, hnd, h => by
    by_cases hy : x = y
    · subst hy
      have hn : x ∉ rest := fun hm =>
        (List.nodup_cons.1 hnd).1 (List.mem_cons_of_mem _ hm)
      simp [eraseCanvas, eraseCanvas_not_mem x rest hn]
    · have hm : x ∈ z :: rest := by
        rcases List.mem_cons.1 h with e | e
        · exact absurd e hy
        · exact e
      have ih := eraseCanvas_nodup x (z :: rest) (List.nodup_cons.1 hnd).2 hm
      have hy2 : ¬ y = x := fun e => hy e.symm
      simp [eraseCanvas, hy, ih, List.erase_cons, hy2]

theorem eraseCanvas_found (x : Nat) (l : List Nat) (h : (eraseCanvas x l).1 = true) :
    x ∈ l := by
  by_contra hn
  rw [eraseCanvas_not_mem x l hn] at h
  cases h

theorem firstDependent_none (dep : Nat → Nat → Bool) (x : Nat) :
    ∀ (l : List Nat), firstDependent dep x l = none → ∀ a ∈ l, dep x a = false
  | [], _ => by simp
  | c :: cs, h => by
    by_cases hc : dep x c = true
    · simp [firstDependent, hc] at h
    · have hc2 : dep x c = false := by simpa using hc
      simp only [firstDependent, hc2, Bool.false_eq_true, if_false, Option.map_eq_none'] at h
      intro a ha
      rcases List.mem_cons.1 ha with rfl | ha
      · exact hc2
      · exact firstDependent_none dep x cs h a ha

theorem firstDependent_some (dep : Nat → Nat → Bool) (x : Nat) :
    ∀ (l : List Nat) (i : Nat), firstDependent dep x l = some i →
      ∀ a ∈ l.take i, dep x a = false
  | [], i, h => by simp
  | c :: cs, i, h => by
    by_cases hc : dep x c = true
    · simp only [firstDependent, hc, if_true, Option.some.injEq] at h
      subst h
      simp
    · have hc2 : dep x c = false := by simpa using hc
      simp only [firstDependent, hc2, Bool.false_eq_true, if_false, Option.map_eq_some'] at h
      obtain ⟨j, hj, rfl⟩ := h
      intro a ha
      simp only [List.take_succ_cons, List.mem_cons] at ha
      rcases ha with rfl | ha
      · exact hc2
      · exact firstDependent_some dep x cs j hj a ha

/-- For a sequence without duplicates, being a dependency order means that no canvas
depends on itself and that no canvas depends on one that comes later. -/
theorem dependencyOrder_iff (dep : Nat → Nat → Bool) :
    ∀ (l : List Nat), l.Nodup →
      (DependencyOrder dep l ↔
        (∀ a ∈ l, dep a a = false) ∧ l.Pairwise (fun a b => dep b a = false))
  | [], _ => by simp [DependencyOrder]
  | c :: cs, hnd => by
    have hc : c ∉ cs := (List.nodup_cons.1 hnd).1
    have ih := dependencyOrder_iff dep cs (List.nodup_cons.1 hnd).2
    have idx : ∀ b ∈ cs, (c :: cs).indexOf b = cs.indexOf b + 1 := by
      intro b hb
      have : ¬ c = b := fun e => hc (e ▸ hb)
      simp [List.indexOf_cons, this]
    have idx0 : (c :: cs).indexOf c = 0 := by simp
    constructor
    · intro h
      have htail : DependencyOrder dep cs := by
        intro x hx y hy hd
        have := h x (List.mem_cons_of_mem _ hx) y (List.mem_cons_of_mem _ hy) hd
        rw [idx x hx, idx y hy] at this
        omega
      have hself : dep c c = false := by
        by_contra hcc
        have := h c (List.mem_cons_self _ _) c (List.mem_cons_self _ _) (by simpa using hcc)
        omega
      refine ⟨?_, List.pairwise_cons.2 ⟨?_, (ih.1 htail).2⟩⟩
      · intro a ha
        rcases List.mem_cons.1 ha with rfl | ha
        · exact hself
        · exact (ih.1 htail).1 a ha
      · intro b hb
        by_contra hbc
        have := h b (List.mem_cons_of_mem _ hb) c (List.mem_cons_self _ _) (by simpa using hbc)
        rw [idx0] at this
        omega
    · rintro ⟨hself, hpw⟩
      rw [List.pairwise_cons] at hpw
      have htail := ih.2 ⟨fun a ha => hself a (List.mem_cons_of_mem _ ha), hpw.2⟩
      intro x hx y hy hd
      rcases List.mem_cons.1 hx with hxc | hx <;> rcases List.mem_cons.1 hy with hyc | hy
      · rw [hxc, hyc, hself c (List.mem_cons_self _ _)] at hd; cases hd
      · rw [hxc, idx0, idx y hy]; omega
      · rw [hyc, hpw.1 x hx] at hd; cases hd
      · rw [idx x hx, idx y hy]
        have := htail x hx y hy hd
        omega

/-- C10, as the code has it: the canvas sequence has no duplicates and is a dependency
order for the edges registered so far; a new edge "`Y` depends on `X`" with `Y ≠ X` is
registered. If `newCanvasDependency(X)` returns without an exception, the sequence holds
the same canvases and is a dependency order for all edges, the new one included. -/
theorem newCanvasDependency_keeps_order (dep : Nat → Nat → Bool) (mainCanvas X Y : Nat)
    (cs cs1 : List Nat) (hnd : cs.Nodup) (hXY : Y ≠ X)
    (hold : ∀ x ∈ cs, ∀ y ∈ cs, dep x y = true → (x, y) ≠ (X, Y) →
      cs.indexOf x < cs.indexOf y)
    (hres : newCanvasDependency dep mainCanvas X cs = (.ok (), cs1)) :
    cs1.Perm cs ∧ cs1.Nodup ∧ DependencyOrder dep cs1 := by
  unfold newCanvasDependency at hres
  simp only at hres
  cases hfound : (eraseCanvas X cs).1 with
  | false => simp [hfound] at hres
  | true =>
    have hX : X ∈ cs := eraseCanvas_found X cs hfound
    have hE : eraseCanvas X cs = (true, cs.erase X) := eraseCanvas_nodup X cs hnd hX
    rw [hE] at hres
    simp only [if_true] at hres
    have hXE : X ∉ cs.erase X := fun h => ((List.Nodup.mem_erase_iff hnd).1 h).1 rfl
    have hperm : (X :: cs.erase X).Perm cs := (List.perm_cons_erase hX).symm
    -- the order before the call, for the edges without the new one
    have hold2 : DependencyOrder (fun x y => dep x y && !(decide (x = X) && decide (y = Y)))
        cs := by
      intro x hx y hy hd
      simp only [Bool.and_eq_true, Bool.not_eq_true', Bool.and_eq_false_imp,
        decide_eq_true_eq, decide_eq_false_iff_not] at hd
      refine hold x hx y hy hd.1 ?_
      intro e
      simp only [Prod.mk.injEq] at e
      exact hd.2 e.1 e.2
    obtain ⟨hself0, hpw0⟩ := (dependencyOrder_iff _ cs hnd).1 hold2
    have hself : ∀ a ∈ cs, dep a a = false := by
      intro a ha
      have := hself0 a ha
      simp only [Bool.and_eq_false_imp, Bool.not_eq_false', Bool.and_eq_true,
        decide_eq_true_eq] at this
      by_contra hc
      have h2 := this (by simpa using hc)
      exact hXY (h2.2.symm.trans h2.1)
    have hpwE : (cs.erase X).Pairwise (fun a b => dep b a = false) := by
      refine (hpw0.sublist (List.erase_sublist X cs)).imp_of_mem ?_
      intro a b _ hb h
      have hbX : b ≠ X := fun e => hXE (e ▸ hb)
      simpa [hbX] using h
    have hfinish : ∀ l : List Nat, l.Perm (X :: cs.erase X) →
        l.Pairwise (fun a b => dep b a = false) →
        l.Perm cs ∧ l.Nodup ∧ DependencyOrder dep l := by
      intro l hl hp
      have hlp : l.Perm cs := hl.trans hperm
      have hlnd : l.Nodup := (hlp.nodup_iff).2 hnd
      exact ⟨hlp, hlnd, (dependencyOrder_iff dep l hlnd).2
        ⟨fun a ha => hself a (hlp.mem_iff.1 ha), hp⟩⟩
    cases hfd : firstDependent dep X (cs.erase X) with
    | none =>
      rw [hfd] at hres
      simp only at hres
      by_cases hm : dep X mainCanvas = true
      · simp only [hm, if_true, Prod.mk.injEq, true_and] at hres
        subst hres
        refine hfinish _ (by simp) ?_
        rw [List.pairwise_append]
        refine ⟨hpwE, List.pairwise_singleton _ _, ?_⟩
        intro a ha b hb
        simp only [List.mem_singleton] at hb
        subst hb
        exact firstDependent_none dep b _ hfd a ha
      · simp [hm] at hres
    | some i =>
      rw [hfd] at hres
      simp only at hres
      by_cases hany : ((cs.erase X).drop i).any (fun c => dep c X) = true
      · simp [hany] at hres
      · simp only [hany, Bool.false_eq_true, if_false, Prod.mk.injEq, true_and] at hres
        subst hres
        have hno : ∀ b ∈ (cs.erase X).drop i, dep b X = false := by
          intro b hb
          by_contra hc
          exact hany (List.any_eq_true.2 ⟨b, hb, by simpa using hc⟩)
        have hsplit : (cs.erase X).take i ++ (cs.erase X).drop i = cs.erase X :=
          List.take_append_drop i _
        have hpw2 := hpwE
        rw [← hsplit, List.pairwise_append] at hpw2
        refine hfinish _ ?_ ?_
        · refine List.perm_middle.trans ?_
          rw [hsplit]
        · rw [List.pairwise_append]
          refine ⟨hpw2.1, List.pairwise_cons.2 ⟨hno, hpw2.2.1⟩, ?_⟩
          intro a ha b hb
          rcases List.mem_cons.1 hb with hbx | hb
          · rw [hbx]; exact firstDependent_some dep X _ i hfd a ha
          · exact hpw2.2.2 a ha b hb

/-- C10, witness: canvases 1, 2, 3 in this order, canvas 2 uses canvas 1, and canvas 1 is
made to use canvas 3: canvas 3 moves to the front. -/
theorem newCanvasDependency_keeps_order_witness :
    newCanvasDependency (fun x y => (x == 1 && y == 2) || (x == 3 && y == 1)) 0 3 [1, 2, 3]
      = (.ok (), [3, 1, 2]) ∧
    ([3, 1, 2] : List Nat).Perm [1, 2, 3] ∧ ([3, 1, 2] : List Nat).Nodup ∧
    DependencyOrder (fun x y => (x == 1 && y == 2) || (x == 3 && y == 1)) [3, 1, 2] :=
  ⟨rfl,
    newCanvasDependency_keeps_order (fun x y => (x == 1 && y == 2) || (x == 3 && y == 1))
      0 3 1 [1, 2, 3] [3, 1, 2] (by decide) (by decide) (by decide) rfl⟩

/-- C10 fails as stated for an edge from a canvas to itself: with canvases 1, 2 in this
order, canvas 2 using canvas 1, the sequence is a dependency order. When canvas 1 is made
to use itself, `newCanvasDependency(1)` returns without an exception and leaves the
sequence 1, 2, which is no dependency order of the edges: canvas 1 does not come after
canvas 1. -/
theorem newCanvasDependency_self_edge :
    (∀ x ∈ [1, 2], ∀ y ∈ [1, 2],
      ((x == 1 && y == 2) || (x == 1 && y == 1)) = true → (x, y) ≠ (1, 1) →
        ([1, 2] : List Nat).indexOf x < ([1, 2] : List Nat).indexOf y) ∧
    newCanvasDependency (fun x y => (x == 1 && y == 2) || (x == 1 && y == 1)) 0 1 [1, 2]
      = (.ok (), [1, 2]) ∧
    ¬ DependencyOrder (fun x y => (x == 1 && y == 2) || (x == 1 && y == 1)) [1, 2] := by
  refine ⟨by decide, rfl, ?_⟩
  intro h
  have := h 1 (by simp) 1 (by simp) (by decide)
  simp at this

/-! ## Periodic timeouts, cancellation and scheduling inside a pass -/

/-- C3, as the code has it: a periodic timeout `t` is queued and ready when `handleTimers`
runs at frame time `now`; the queue is in ascending order, ids are not shared, the
deleted flag is clear, the player is not stopping, and no callback stops the player or
cancels `t`. Then `handleTimers` returns, the callback of `t` has been invoked exactly
once more than before, and `t` is in the queue with fire time `now + period`, as the only
timeout with its id. -/
theorem handleTimers_periodic_once (env : PyEnv) (p : Timers) (t : Timeout)
    (hs : ∀ f s, Call.stop ∉ env f s) (hc : ∀ f s, Call.clearInterval t.id ∉ env f s)
    (hdel : p.m_bCurrentTimeoutDeleted = false) (hstop : p.m_bStopping = false)
    (hw : WellFormed p) (hasc : Ascending p.m_PendingTimeouts)
    (ht : t ∈ p.m_PendingTimeouts) (hper : t.isInterval = true)
    (hdue : t.nextTimeout ≤ p.m_FrameTime) :
    ∃ q, handleTimers env p = some q ∧
      firedCount t.id q = firedCount t.id p + 1 ∧
      { t with nextTimeout := t.interval + p.m_FrameTime } ∈ q.m_PendingTimeouts ∧
      (∀ u ∈ q.m_PendingTimeouts, u.id = t.id →
        u = { t with nextTimeout := t.interval + p.m_FrameTime }) := by
  obtain ⟨q, hq, hI, hcnt, _, hnew, _⟩ := handleTimers_fires_once env hs p t hc
    ⟨hdel, hstop, rfl, hw, hasc⟩ ht hdue
  have hreb : t.rebase p.m_FrameTime = { t with nextTimeout := t.interval + p.m_FrameTime } := by
    simp [Timeout.rebase, hper]
  have hmem : t.rebase p.m_FrameTime ∈ (finishHandleTimers q).m_PendingTimeouts :=
    (finishHandleTimers_perm q).mem_iff.2 (List.mem_append_left _ (hnew hper))
  refine ⟨finishHandleTimers q, hq, hcnt, hreb ▸ hmem, ?_⟩
  intro u hu hid
  have hnd : ((finishHandleTimers q).m_PendingTimeouts.map Timeout.id).Nodup :=
    ((finishHandleTimers_ids q).nodup_iff).2 hI.2.2.2.1.1
  rw [← hreb]
  exact List.inj_on_of_nodup_map hnd hu hmem (by rw [hid, rebase_id])

/-- C3, witness: the input of the spec. A timeout with period 10 is set at frame time 0,
the pass runs at frame time 25; afterwards the timeout is queued for 35. -/
theorem handleTimers_periodic_once_witness :
    ∃ q, handleTimers quietEnv (setFrameTime 25 (setInterval 10 1 Timers.init).2) = some q ∧
      firedCount 1 q = firedCount 1 (setFrameTime 25 (setInterval 10 1 Timers.init).2) + 1 ∧
      Timeout.mk 1 10 35 true 1 ∈ q.m_PendingTimeouts ∧
      (∀ u ∈ q.m_PendingTimeouts, u.id = 1 → u = Timeout.mk 1 10 35 true 1) :=
  handleTimers_periodic_once quietEnv (setFrameTime 25 (setInterval 10 1 Timers.init).2)
    (Timeout.mk 1 10 10 true 1) (fun _ _ => List.not_mem_nil _)
    (fun _ _ => List.not_mem_nil _) rfl rfl
    (by unfold WellFormed; decide) (by unfold Ascending; decide) (by decide) rfl (by decide)

/-- C3 fails as stated when a callback stops the player: a periodic timeout (period 10,
callable 1) and a one-shot timeout (delay 0, callable 2) are set at frame time 0 while
playing, and callable 2 calls `stop()`. In the pass at frame time 25 the one-shot timeout
fires first, the loop then ends because `m_bStopping` is set, and the periodic timeout,
which is due, has not fired and is still queued for 10. -/
theorem handleTimers_periodic_not_fired_on_stop :
    (handleTimers (fun f _ => if f = 2 then [Call.stop] else [])
        (setFrameTime 25
          (setTimeout 0 2 (setInterval 10 1 (initPlayback Timers.init)).2).2)).map
      (fun q => (q.fired.map Timeout.pyFunc, q.m_PendingTimeouts, q.m_bStopping))
      = some ([2], [Timeout.mk 1 10 10 true 1], true) ∧
    (setTimeout 0 2 (setInterval 10 1 (initPlayback Timers.init)).2).2.m_PendingTimeouts
      = [Timeout.mk 2 0 0 false 2, Timeout.mk 1 10 10 true 1] := by
  decide

/-- C4, as the code has it: `c` is queued and ready, its callback calls
`clearInterval` with the id of `c`, and no callback stops the player (queue in ascending
order, ids not shared, deleted flag clear, player not stopping). Then the iteration that
fires `c` ends with the deleted flag clear and with a queue that is part of what was
queued behind `c`; `handleTimers` returns; every queued ready timeout other than `c` that
no callback cancels has its callback invoked exactly once; no timeout with the id of `c`
is in the queue afterwards, the staging buffer is empty, and the queue is in ascending
order. -/
theorem handleTimers_self_cancel (env : PyEnv) (p : Timers) (c : Timeout)
    (hs : ∀ f s, Call.stop ∉ env f s)
    (hself : ∀ s, Call.clearInterval c.id ∈ env c.pyFunc s)
    (hdel : p.m_bCurrentTimeoutDeleted = false) (hstop : p.m_bStopping = false)
    (hw : WellFormed p) (hasc : Ascending p.m_PendingTimeouts)
    (hc : c ∈ p.m_PendingTimeouts) (hdue : c.nextTimeout ≤ p.m_FrameTime) :
    ∃ q, handleTimers env p = some q ∧
      (∀ s rest, s.m_bInHandleTimers = true → s.m_bCurrentTimeoutDeleted = false →
        WellFormed s → s.m_PendingTimeouts = c :: rest →
          (handleTimersBody env s).fired = s.fired ++ [c] ∧
          (handleTimersBody env s).m_bCurrentTimeoutDeleted = false ∧
          (handleTimersBody env s).m_PendingTimeouts.Sublist rest ∧
          c.id ∉ (handleTimersBody env s).ids) ∧
      (∀ t ∈ p.m_PendingTimeouts, t.nextTimeout ≤ p.m_FrameTime → t.id ≠ c.id →
        (∀ f s, Call.clearInterval t.id ∉ env f s) →
          firedCount t.id q = firedCount t.id p + 1) ∧
      (∀ u ∈ q.m_PendingTimeouts, u.id ≠ c.id) ∧ q.m_NewTimeouts = [] ∧
      Ascending q.m_PendingTimeouts := by
  have hP : PassInvariant p.m_FrameTime p := ⟨hdel, hstop, rfl, hw, hasc⟩
  have hstep : ∀ s, s.m_bInHandleTimers = true →
      (PassInvariant p.m_FrameTime s ∧
        (c ∈ s.m_PendingTimeouts ∨ (c.id ∉ s.ids ∧ c.id ≤ s.lastID))) →
      handleTimersCond s = true →
      (PassInvariant p.m_FrameTime (handleTimersBody env s) ∧
        (c ∈ (handleTimersBody env s).m_PendingTimeouts ∨
          (c.id ∉ (handleTimersBody env s).ids ∧ c.id ≤ (handleTimersBody env s).lastID))) := by
    intro s hin hIs hcond
    obtain ⟨hPs, hphase⟩ := hIs
    refine ⟨passInvariant_step env hs _ s hin hPs hcond, ?_⟩
    have hne : s.m_PendingTimeouts ≠ [] := by
      intro h; rw [handleTimersCond_nil s h] at hcond; cases hcond
    obtain ⟨h, rest, hp⟩ := List.exists_cons_of_ne_nil hne
    rcases hphase with hm | habs
    · rw [hp] at hm
      rcases List.mem_cons.1 hm with e | hm2
      · subst e
        exact Or.inr (handleTimersBody_head_cancelled env s c rest hin hPs.2.2.2.1 hp (hself s))
      · exact handleTimersBody_mem_or_absent env s h c rest hin hPs.2.2.2.1 hp hm2 hs
    · exact Or.inr (handleTimersBody_absent env s hin c.id habs.1 habs.2)
  obtain ⟨q, hq, hIq, hcq, _⟩ := handleTimers_induct env _ hstep p hdel ⟨hP, Or.inl hc⟩
  have habs : c.id ∉ q.ids := by
    rcases hIq.2 with hm | h1
    · rw [handleTimersCond_of_ready _ q c hIq.1 hm hdue] at hcq
      cases hcq
    · exact h1.1
  refine ⟨finishHandleTimers q, hq, ?_, ?_, ?_, rfl,
    finishHandleTimers_ascending q hIq.1.2.2.2.2⟩
  · intro s rest hin hf hws hp
    exact ⟨handleTimersBody_fired env s c rest hin hp,
      (handleTimersBody_measure env s hin).2.1 (by rw [hp]; exact List.cons_ne_nil _ _),
      handleTimersBody_tail env s c rest hin hf hp,
      (handleTimersBody_head_cancelled env s c rest hin hws hp (hself s)).1⟩
  · intro t ht htdue _ htc
    obtain ⟨q2, hq2, _, hcnt, _⟩ := handleTimers_fires_once env hs p t htc hP ht htdue
    have e : finishHandleTimers q = finishHandleTimers q2 :=
      Option.some.inj (hq.symm.trans hq2)
    have e2 : firedCount t.id (finishHandleTimers q) = firedCount t.id q2 := by
      rw [e]; rfl
    rw [e2, hcnt]
  · intro u hu hid
    apply habs
    rw [← hid]
    exact (finishHandleTimers_ids q).mem_iff.1 (List.mem_map.2 ⟨u, hu, rfl⟩)

/-- C4, witness: timeouts with delays 1, 2, 3 (callables 1, 2, 3) set at frame time 0;
callable 2 cancels its own timeout, id 2. Pass at frame time 10. -/
theorem handleTimers_self_cancel_witness :
    (∃ q, handleTimers (fun f _ => if f = 2 then [Call.clearInterval 2] else [])
        (setFrameTime 10 (scheduleAll [(0, 1, 1), (0, 2, 2), (0, 3, 3)] Timers.init)) = some q ∧
      (∀ s rest, s.m_bInHandleTimers = true → s.m_bCurrentTimeoutDeleted = false →
        WellFormed s → s.m_PendingTimeouts = Timeout.mk 2 2 2 false 2 :: rest →
          (handleTimersBody (fun f _ => if f = 2 then [Call.clearInterval 2] else []) s).fired
            = s.fired ++ [Timeout.mk 2 2 2 false 2] ∧
          (handleTimersBody (fun f _ => if f = 2 then [Call.clearInterval 2] else [])
            s).m_bCurrentTimeoutDeleted = false ∧
          (handleTimersBody (fun f _ => if f = 2 then [Call.clearInterval 2] else [])
            s).m_PendingTimeouts.Sublist rest ∧
          (Timeout.mk 2 2 2 false 2).id ∉
            (handleTimersBody (fun f _ => if f = 2 then [Call.clearInterval 2] else []) s).ids) ∧
      (∀ t ∈ (setFrameTime 10
            (scheduleAll [(0, 1, 1), (0, 2, 2), (0, 3, 3)] Timers.init)).m_PendingTimeouts,
        t.nextTimeout ≤ (setFrameTime 10
            (scheduleAll [(0, 1, 1), (0, 2, 2), (0, 3, 3)] Timers.init)).m_FrameTime →
        t.id ≠ (Timeout.mk 2 2 2 false 2).id →
        (∀ f s, Call.clearInterval t.id ∉
          (fun f _ => if f = 2 then [Call.clearInterval 2] else [] : PyEnv) f s) →
          firedCount t.id q = firedCount t.id (setFrameTime 10
            (scheduleAll [(0, 1, 1), (0, 2, 2), (0, 3, 3)] Timers.init)) + 1) ∧
      (∀ u ∈ q.m_PendingTimeouts, u.id ≠ (Timeout.mk 2 2 2 false 2).id) ∧
      q.m_NewTimeouts = [] ∧ Ascending q.m_PendingTimeouts) ∧
    (handleTimers (fun f _ => if f = 2 then [Call.clearInterval 2] else [])
        (setFrameTime 10 (scheduleAll [(0, 1, 1), (0, 2, 2), (0, 3, 3)] Timers.init))).map
      (fun q => (q.fired.map Timeout.pyFunc, q.m_PendingTimeouts)) = some ([1, 2, 3], []) :=
  ⟨handleTimers_self_cancel (fun f _ => if f = 2 then [Call.clearInterval 2] else [])
      (setFrameTime 10 (scheduleAll [(0, 1, 1), (0, 2, 2), (0, 3, 3)] Timers.init))
      (Timeout.mk 2 2 2 false 2)
      (fun f _ => by by_cases h : f = 2 <;> simp [h])
      (fun _ => by simp) rfl rfl
      (by unfold WellFormed; decide) (by unfold Ascending; decide) (by decide) (by decide),
    by decide⟩

/-- C4 fails as stated when the self-cancelling callback also stops the player: timeouts
with delays 1 and 2 (callables 1 and 2) are set at frame time 0 while playing; callable 1
cancels its own timeout (id 1) and calls `stop()`. In the pass at frame time 10 only
callable 1 runs: the second timeout is due and not cancelled, and it is not fired but
stays in the queue. -/
theorem handleTimers_self_cancel_and_stop :
    (handleTimers (fun f _ => if f = 1 then [Call.clearInterval 1, Call.stop] else [])
        (setFrameTime 10
          (scheduleAll [(0, 1, 1), (0, 2, 2)] (initPlayback Timers.init)))).map
      (fun q => (q.fired.map Timeout.pyFunc, q.m_PendingTimeouts, q.m_bStopping))
      = some ([1], [Timeout.mk 2 2 2 false 2], true) ∧
    (scheduleAll [(0, 1, 1), (0, 2, 2)] (initPlayback Timers.init)).m_PendingTimeouts
      = [Timeout.mk 1 1 1 false 1, Timeout.mk 2 2 2 false 2] := by
  decide

theorem scheduleCall_run (periodic : Bool) (time : Int) (f : Nat) (s : Timers)
    (hin : s.m_bInHandleTimers = true) :
    (scheduleCall periodic time f).run s = { s with
      lastID := s.lastID + 1,
      m_NewTimeouts :=
        s.m_NewTimeouts ++ [Timeout.create time f periodic s.m_FrameTime s.lastID] } := by
  cases periodic <;> simp [scheduleCall, Call.run, Avg.setTimeout, Avg.setInterval, hin]

/-- C5, as the code has it: inside a callback that runs in `handleTimers` (in-pass flag
set, ids not shared, queue in ascending order) a timeout is scheduled with `setTimeout` or
`setInterval`, with any delay. It is appended to the staging buffer and the queue is
unchanged. If neither the rest of the callback nor a later callback cancels its id, the
rest of the pass (the remaining calls of the callback, the end of the iteration, the
remaining iterations and the merge) returns, does not invoke the callback of the new
timeout, and leaves the new timeout in the queue, which is in ascending order. -/
theorem schedule_in_pass_staged (env : PyEnv) (s : Timers) (periodic : Bool) (time : Int)
    (f : Nat) (rest : List Call) (now : Int) (fuel : Nat)
    (hin : s.m_bInHandleTimers = true) (hw : WellFormed s)
    (hasc : Ascending s.m_PendingTimeouts)
    (hrest : Call.clearInterval (s.lastID + 1) ∉ rest)
    (henv : ∀ g s1, Call.clearInterval (s.lastID + 1) ∉ env g s1)
    (hfuel : s.m_PendingTimeouts.length ≤ fuel) :
    ((scheduleCall periodic time f).run s).m_NewTimeouts
      = s.m_NewTimeouts ++ [Timeout.create time f periodic s.m_FrameTime s.lastID] ∧
    ((scheduleCall periodic time f).run s).m_PendingTimeouts = s.m_PendingTimeouts ∧
    ∃ q, (handleTimersLoop env fuel
        (afterCallback now (runCalls rest ((scheduleCall periodic time f).run s)))).map
          finishHandleTimers = some q ∧
      (∃ F, q.fired = s.fired ++ F ∧
        ∀ u ∈ F, u.id ≠ (Timeout.create time f periodic s.m_FrameTime s.lastID).id) ∧
      Timeout.create time f periodic s.m_FrameTime s.lastID ∈ q.m_PendingTimeouts ∧
      Ascending q.m_PendingTimeouts ∧ q.m_NewTimeouts = [] := by
  have hrun := scheduleCall_run periodic time f s hin
  set T := Timeout.create time f periodic s.m_FrameTime s.lastID with hT
  have hTid : T.id = s.lastID + 1 := rfl
  set s1 := (scheduleCall periodic time f).run s with hs1
  have hin1 : s1.m_bInHandleTimers = true := by rw [hrun]; exact hin
  have hnew1 : s1.m_NewTimeouts = s.m_NewTimeouts ++ [T] := by rw [hrun]
  have hpend1 : s1.m_PendingTimeouts = s.m_PendingTimeouts := by rw [hrun]
  have hfired1 : s1.fired = s.fired := by rw [hrun]
  refine ⟨hnew1, hpend1, ?_⟩
  have hids : ∀ u ∈ s.m_PendingTimeouts, u.id ≠ T.id := by
    intro u hu e
    have := hw.2 _ (mem_ids_pending hu)
    rw [e, hTid] at this
    omega
  -- the state at the end of the iteration in which the timeout was scheduled
  set s2 := afterCallback now (runCalls rest s1) with hs2
  have hin2 : s2.m_bInHandleTimers = true := by
    rw [hs2, (afterCallback_basic _ _).2.1]; exact runCalls_inHandle rest s1 hin1
  have hT2 : T ∈ s2.m_NewTimeouts :=
    afterCallback_mem_new _ _ T (runCalls_mem_new rest s1 hin1 T
      (by rw [hnew1]; simp) (by rw [hTid]; exact hrest))
  have hsub2 : s2.m_PendingTimeouts.Sublist s.m_PendingTimeouts := by
    rw [← hpend1]
    exact (afterCallback_sublist _ _).trans (runCalls_sublist rest s1 hin1)
  have hfired2 : s2.fired = s.fired := by
    rw [hs2, (afterCallback_basic _ _).2.2.2.2.1, runCalls_fired rest s1 hin1, hfired1]
  have hstep : ∀ x, x.m_bInHandleTimers = true →
      (T ∈ x.m_NewTimeouts ∧ x.m_PendingTimeouts.Sublist s.m_PendingTimeouts ∧
        ∃ F, x.fired = s.fired ++ F ∧ ∀ u ∈ F, u.id ≠ T.id) →
      handleTimersCond x = true →
      (T ∈ (handleTimersBody env x).m_NewTimeouts ∧
        (handleTimersBody env x).m_PendingTimeouts.Sublist s.m_PendingTimeouts ∧
        ∃ F, (handleTimersBody env x).fired = s.fired ++ F ∧ ∀ u ∈ F, u.id ≠ T.id) := by
    intro x hinx hIx hcond
    obtain ⟨hTx, hsubx, F, hF, hFid⟩ := hIx
    have hne : x.m_PendingTimeouts ≠ [] := by
      intro h; rw [handleTimersCond_nil x h] at hcond; cases hcond
    obtain ⟨h, rest2, hp⟩ := List.exists_cons_of_ne_nil hne
    refine ⟨handleTimersBody_mem_new env x hinx T hTx (by rw [hTid]; exact henv),
      (handleTimersBody_sublist env x hinx).trans hsubx, F ++ [h], ?_, ?_⟩
    · rw [handleTimersBody_fired env x h rest2 hinx hp, hF, List.append_assoc]
    · intro u hu
      rcases List.mem_append.1 hu with h1 | h1
      · exact hFid u h1
      · simp only [List.mem_singleton] at h1
        rw [h1]
        exact hids h (hsubx.subset (by rw [hp]; exact List.mem_cons_self _ _))
  obtain ⟨q, hq, hIq, _, _⟩ := handleTimersLoop_induct env _ hstep fuel s2 hin2
    ⟨hT2, hsub2, [], by simp [hfired2], by simp⟩
    (by
      rw [(afterCallback_basic now (runCalls rest s1)).1]
      simp only [Bool.false_eq_true, if_false, add_zero]
      exact le_trans hsub2.length_le hfuel)
  refine ⟨finishHandleTimers q, by rw [hq]; rfl, hIq.2.2, ?_, ?_, rfl⟩
  · exact (finishHandleTimers_perm q).mem_iff.2 (List.mem_append_left _ hIq.1)
  · exact finishHandleTimers_ascending q (List.Pairwise.sublist hIq.2.1 hasc)

/-- C5, witness: the callback of the only timeout calls `setTimeout(0, f9)` in the pass
at frame time 10. The new timeout (id 2, due at 10, so ready) is staged, not fired, and
queued when the pass is over. -/
theorem schedule_in_pass_staged_witness :
    (((scheduleCall false 0 9).run insideCallback).m_NewTimeouts
        = insideCallback.m_NewTimeouts ++
          [Timeout.create 0 9 false insideCallback.m_FrameTime insideCallback.lastID] ∧
      ((scheduleCall false 0 9).run insideCallback).m_PendingTimeouts
        = insideCallback.m_PendingTimeouts ∧
      ∃ q, (handleTimersLoop quietEnv 1
          (afterCallback 10 (runCalls [] ((scheduleCall false 0 9).run insideCallback)))).map
            finishHandleTimers = some q ∧
        (∃ F, q.fired = insideCallback.fired ++ F ∧
          ∀ u ∈ F, u.id ≠
            (Timeout.create 0 9 false insideCallback.m_FrameTime insideCallback.lastID).id) ∧
        Timeout.create 0 9 false insideCallback.m_FrameTime insideCallback.lastID
          ∈ q.m_PendingTimeouts ∧
        Ascending q.m_PendingTimeouts ∧ q.m_NewTimeouts = []) ∧
    (handleTimers (fun f _ => if f = 1 then [Call.setTimeout 0 9] else [])
        (setFrameTime 10 (setTimeout 0 1 (initPlayback Timers.init)).2)).map
      (fun q => (q.fired.map Timeout.pyFunc, q.m_PendingTimeouts, q.m_NewTimeouts))
      = some ([1], [Timeout.mk 2 0 10 false 9], []) :=
  ⟨schedule_in_pass_staged quietEnv insideCallback false 0 9 [] 10 1 rfl
      (by unfold WellFormed; decide) (by unfold Ascending; decide) (List.not_mem_nil _)
      (fun _ _ => List.not_mem_nil _) (by decide),
    by decide⟩

/-- C5 fails as stated when the callback cancels what it has just scheduled: the callback
of the only timeout calls `setTimeout(0, f9)`, which returns id 2, and then
`clearInterval(2)`. The new timeout is staged by the first call and erased from the
staging buffer by the second, so it is not in the queue when the pass is over. -/
theorem schedule_in_pass_then_cancel :
    (runCalls [Call.setTimeout 0 9] insideCallback).m_NewTimeouts
      = [Timeout.mk 2 0 10 false 9] ∧
    (runCalls [Call.setTimeout 0 9, Call.clearInterval 2] insideCallback).m_NewTimeouts = [] ∧
    (handleTimers (fun f _ => if f = 1 then [Call.setTimeout 0 9, Call.clearInterval 2] else [])
        (setFrameTime 10 (setTimeout 0 1 (initPlayback Timers.init)).2)).map
      (fun q => (q.fired.map Timeout.pyFunc, q.m_PendingTimeouts, q.m_NewTimeouts, q.lastID))
      = some ([1], [], [], 2) := by
  decide

/-! ## Cycles, rejected registrations, deleting a canvas -/

/-- C11, as the code has it: the canvas sequence has no duplicates and is a dependency
order of the edges registered so far; the new edge "`Y` depends on `X`" joins two
different canvases of the sequence and closes a cycle, that is, `X` can be reached from
`Y` along edges between canvases of the sequence. Then `newCanvasDependency(X)` throws
the circular-dependency error. -/
theorem newCanvasDependency_rejects_cycle (dep : Nat → Nat → Bool) (mainCanvas X Y : Nat)
    (cs : List Nat) (hnd : cs.Nodup) (hX : X ∈ cs) (hY : Y ∈ cs) (hXY : Y ≠ X)
    (hold : ∀ x ∈ cs, ∀ y ∈ cs, dep x y = true → (x, y) ≠ (X, Y) →
      cs.indexOf x < cs.indexOf y)
    (hnew : dep X Y = true)
    (hcycle : Relation.ReflTransGen (fun a b => dep a b = true ∧ a ∈ cs ∧ b ∈ cs) Y X) :
    (newCanvasDependency dep mainCanvas X cs).1 = .error .circularDependency := by
  have hE : eraseCanvas X cs = (true, cs.erase X) := eraseCanvas_nodup X cs hnd hX
  have hXE : X ∉ cs.erase X := fun h => ((List.Nodup.mem_erase_iff hnd).1 h).1 rfl
  have hYE : Y ∈ cs.erase X := (List.Nodup.mem_erase_iff hnd).2 ⟨hXY, hY⟩
  have hold2 : DependencyOrder (fun x y => dep x y && !(decide (x = X) && decide (y = Y)))
      cs := by
    intro x hx y hy hd
    simp only [Bool.and_eq_true, Bool.not_eq_true', Bool.and_eq_false_imp,
      decide_eq_true_eq, decide_eq_false_iff_not] at hd
    refine hold x hx y hy hd.1 ?_
    intro e
    simp only [Prod.mk.injEq] at e
    exact hd.2 e.1 e.2
  obtain ⟨_, hpw0⟩ := (dependencyOrder_iff _ cs hnd).1 hold2
  have hpwE : (cs.erase X).Pairwise (fun a b => dep b a = false) := by
    refine (hpw0.sublist (List.erase_sublist X cs)).imp_of_mem ?_
    intro a b _ hb h
    have hbX : b ≠ X := fun e => hXE (e ▸ hb)
    simpa [hbX] using h
  unfold newCanvasDependency
  simp only [hE, if_true]
  cases hfd : firstDependent dep X (cs.erase X) with
  | none =>
    have := firstDependent_none dep X _ hfd Y hYE
    rw [hnew] at this
    cases this
  | some i =>
    simp only
    have hsplit : (cs.erase X).take i ++ (cs.erase X).drop i = cs.erase X :=
      List.take_append_drop i _
    have hpw2 := hpwE
    rw [← hsplit, List.pairwise_append] at hpw2
    have hYdrop : Y ∈ (cs.erase X).drop i := by
      have hm := hYE
      rw [← hsplit] at hm
      rcases List.mem_append.1 hm with h1 | h1
      · have := firstDependent_some dep X _ i hfd Y h1
        rw [hnew] at this
        cases this
      · exact h1
    -- from a canvas behind the insertion point every path leads behind it, or to `X`
    have hpath : ∀ a, Relation.ReflTransGen
        (fun a b => dep a b = true ∧ a ∈ cs ∧ b ∈ cs) a X →
        a ∈ (cs.erase X).drop i → ∃ z ∈ (cs.erase X).drop i, dep z X = true := by
      intro a ha
      induction ha using Relation.ReflTransGen.head_induction_on with
      | refl =>
        intro hm
        exact absurd ((List.drop_sublist i _).subset hm) hXE
      | @head a0 b0 hab _ ih =>
        intro hm
        by_cases hbX : b0 = X
        · exact ⟨a0, hm, by rw [← hbX]; exact hab.1⟩
        · have hbE : b0 ∈ cs.erase X := (List.Nodup.mem_erase_iff hnd).2 ⟨hbX, hab.2.2⟩
          rw [← hsplit] at hbE
          rcases List.mem_append.1 hbE with h1 | h1
          · have := hpw2.2.2 b0 h1 a0 hm
            rw [hab.1] at this
            cases this
          · exact ih h1
    obtain ⟨z, hz, hdz⟩ := hpath Y hcycle hYdrop
    have hany : ((cs.erase X).drop i).any (fun c => dep c X) = true :=
      List.any_eq_true.2 ⟨z, hz, hdz⟩
    simp [hany]

/-- C11, witness: canvases 1, 2, 3 in this order, 2 uses 1 and 3 uses 2; canvas 1 is made
to use canvas 3, which closes a cycle through the three of them. -/
theorem newCanvasDependency_rejects_cycle_witness :
    (newCanvasDependency
      (fun x y => (x == 1 && y == 2) || (x == 2 && y == 3) || (x == 3 && y == 1)) 0 3
      [1, 2, 3]).1 = .error .circularDependency :=
  newCanvasDependency_rejects_cycle
    (fun x y => (x == 1 && y == 2) || (x == 2 && y == 3) || (x == 3 && y == 1)) 0 3 1
    [1, 2, 3] (by decide) (by decide) (by decide) (by decide) (by decide) rfl
    (@Relation.ReflTransGen.head Nat _ 1 2 3 ⟨rfl, by decide, by decide⟩
      (Relation.ReflTransGen.single ⟨rfl, by decide, by decide⟩))

/-- C11 fails as stated for a cycle of length one: canvases 1, 2, 3 in this order, 2 uses
1 and 3 uses 2, a dependency order. Canvas 2 is made to use itself; the new edge closes a
cycle, and `newCanvasDependency(2)` returns without an exception. -/
theorem newCanvasDependency_accepts_self_cycle :
    (∀ x ∈ [1, 2, 3], ∀ y ∈ [1, 2, 3],
      ((x == 1 && y == 2) || (x == 2 && y == 3) || (x == 2 && y == 2)) = true →
        (x, y) ≠ (2, 2) → ([1, 2, 3] : List Nat).indexOf x < ([1, 2, 3] : List Nat).indexOf y) ∧
    (newCanvasDependency
      (fun x y => (x == 1 && y == 2) || (x == 2 && y == 3) || (x == 2 && y == 2)) 0 2
      [1, 2, 3]) = (.ok (), [1, 2, 3]) := by
  exact ⟨by decide, rfl⟩

/-- C12 fails on the code: canvas 1 uses canvas 2, the sequence is 2, 1. When canvas 2 is
made to use canvas 1, `newCanvasDependency(1)` throws the circular-dependency error, and
the sequence after the call is 2 alone: canvas 1 was erased before the check and is not
put back. -/
theorem newCanvasDependency_rejected_loses_canvas :
    newCanvasDependency (fun x y => (x == 2 && y == 1) || (x == 1 && y == 2)) 0 1 [2, 1]
      = (.error .circularDependency, [2]) := by
  rfl

/-- C13: `deleteCanvas(id)` throws the out-of-range error and leaves the sequence as it
is when no canvas has the id. Otherwise, with `c` the first canvas that has the id: if `c`
has a dependent canvas the call throws the invalid-arguments error and leaves the
sequence as it is; if it has none the call erases `c` and keeps the other canvases in
their order. -/
theorem deleteCanvas_spec (getID : Nat → String) (getNumDependentCanvases : Nat → Nat)
    (sID : String) (cs : List Nat) :
    ((∀ c ∈ cs, getID c ≠ sID) →
      deleteCanvas getID getNumDependentCanvases sID cs = (.error .outOfRange, cs)) ∧
    (∀ l1 c l2, cs = l1 ++ c :: l2 → getID c = sID → (∀ x ∈ l1, getID x ≠ sID) →
      (0 < getNumDependentCanvases c →
        deleteCanvas getID getNumDependentCanvases sID cs = (.error .invalidArgs, cs)) ∧
      (getNumDependentCanvases c = 0 →
        deleteCanvas getID getNumDependentCanvases sID cs = (.ok (), l1 ++ l2))) := by
  constructor
  · intro h
    induction cs with
    | nil => rfl
    | cons c cs ih =>
      have hc : ¬ getID c = sID := h c (List.mem_cons_self _ _)
      have := ih (fun x hx => h x (List.mem_cons_of_mem _ hx))
      simp [deleteCanvas, hc, this]
  · intro l1 c l2 e hid hne
    subst e
    induction l1 with
    | nil =>
      constructor
      · intro hpos
        simp [deleteCanvas, hid, hpos]
      · intro hz
        simp [deleteCanvas, hid, hz]
    | cons a l1 ih =>
      have ha : ¬ getID a = sID := hne a (List.mem_cons_self _ _)
      have := ih (fun x hx => hne x (List.mem_cons_of_mem _ hx))
      constructor
      · intro hpos
        simp [deleteCanvas, ha, this.1 hpos]
      · intro hz
        simp [deleteCanvas, ha, this.2 hz]

/-! ## Python handlers while the player is playing -/

theorem step_refl (p : Player) (h : p.timers.m_bIsPlaying = true) : Player.Step [] p p :=
  ⟨p.timers, h, by simp [Player.setTimers, Player.log]⟩

theorem step_log (acts : List Action) (p : Player) (h : p.timers.m_bIsPlaying = true) :
    Player.Step acts p (p.log acts) :=
  ⟨p.timers, h, by simp [Player.setTimers, Player.log]⟩

theorem step_trans {a b : List Action} {p q r : Player} (h1 : Player.Step a p q)
    (h2 : Player.Step b q r) : Player.Step (a ++ b) p r := by
  obtain ⟨t1, _, rfl⟩ := h1
  obtain ⟨t2, h2, rfl⟩ := h2
  exact ⟨t2, h2, by simp [Player.setTimers, Player.log, List.append_assoc]⟩

theorem step_cast {a b : List Action} {p q : Player} (h : Player.Step a p q) (e : a = b) :
    Player.Step b p q := e ▸ h

/-- What a step keeps. -/
theorem step_fields {a : List Action} {p q : Player} (h : Player.Step a p q) :
    q.timers.m_bIsPlaying = true ∧ q.trace = p.trace ++ a ∧
    q.m_EventCaptureInfoMap = p.m_EventCaptureInfoMap ∧
    q.m_pLastCursorStates = p.m_pLastCursorStates ∧
    q.m_pLastMouseEvent = p.m_pLastMouseEvent ∧
    q.m_bStopOnEscape = p.m_bStopOnEscape ∧
    q.m_EventHookPyFunc = p.m_EventHookPyFunc ∧
    q.m_pMainCanvas = p.m_pMainCanvas ∧
    q.m_pEventDispatcher = p.m_pEventDispatcher ∧
    q.m_pCanvases = p.m_pCanvases ∧
    q.m_pDisplayEngine = p.m_pDisplayEngine := by
  obtain ⟨t, ht, rfl⟩ := h
  simp [Player.setTimers, Player.log, ht]

theorem step_ready {a : List Action} {p q : Player} (h : Player.Step a p q)
    (hp : p.Ready) : q.Ready :=
  ⟨(step_fields h).1, by rw [(step_fields h).2.2.2.2.2.2.2.2.1]; exact hp.2⟩

theorem run_playing (c : Call) (p : Timers) (h : p.m_bIsPlaying = true) :
    (c.run p).m_bIsPlaying = true := by
  cases c with
  | setTimeout time f => simp only [Call.run, Avg.setTimeout]; split <;> exact h
  | setInterval time f => simp only [Call.run, Avg.setInterval]; split <;> exact h
  | clearInterval id =>
    simp only [Call.run, Avg.clearInterval]
    split
    · exact h
    · split <;> exact h
  | stop => simp [Call.run, Avg.stop, h]

theorem stop_playing (p : Player) (h : p.timers.m_bIsPlaying = true) :
    Player.stop p = p.setStopping true := by
  simp [Player.stop, h]

theorem runCall_step (c : Call) (p : Player) (h : p.timers.m_bIsPlaying = true) :
    Player.Step [] p (Player.runCall c p) := by
  have key : Player.runCall c p = p.setTimers (c.run p.timers) := by
    cases c with
    | stop => simp [Player.runCall, stop_playing p h, Call.run, Avg.stop, h, Player.setStopping]
    | setTimeout time f => rfl
    | setInterval time f => rfl
    | clearInterval id => rfl
  exact ⟨c.run p.timers, run_playing c p.timers h, by rw [key]; simp [Player.setTimers, Player.log]⟩

theorem runCalls_step (cs : List Call) (p : Player) (h : p.timers.m_bIsPlaying = true) :
    Player.Step [] p (Player.runCalls cs p) := by
  induction cs generalizing p with
  | nil => exact step_refl p h
  | cons c cs ih =>
    have h1 := runCall_step c p h
    exact step_cast (step_trans h1 (ih _ (step_fields h1).1)) rfl

theorem nodeHandleEvent_step (w : World) (node : Nat) (ev : Event) (p : Player)
    (h : p.timers.m_bIsPlaying = true) :
    Player.Step [Action.nodeHandleEvent node ev.type (Player.nodeHandleEvent w node ev p).1] p
      (Player.nodeHandleEvent w node ev p).2 := by
  have h1 := step_log [Action.nodeHandleEvent node ev.type (w.nodeHandleEvent node ev p).handled]
    p h
  have h2 := runCalls_step (w.nodeHandleEvent node ev p).calls _ (step_fields h1).1
  exact step_cast (step_trans h1 h2) (by simp [Player.nodeHandleEvent])

theorem sendOver_step (w : World) (ev : Event) (type : EventType) (n : Nat) (p : Player)
    (h : p.Ready) :
    ∃ q, Player.sendOver w ev type (some n) p = some q ∧
      Player.Step [Action.sendEvent type n] p q := by
  have h1 := step_log [Action.sendEvent type n] p h.1
  have h2 := runCalls_step (w.nodeHandleEvent n (ev.cloneFor type n) p).calls _
    (step_fields h1).1
  refine ⟨_, ?_, step_cast (step_trans h1 h2) (by simp)⟩
  simp [Player.sendOver, Player.sendEvent, h.2, Event.cloneFor]

/-- A loop whose body is a step is a step. -/
theorem forEach_step {α : Type} (f : α → Player → Option Player) (g : α → List Action)
    (xs : List α)
    (hf : ∀ x ∈ xs, ∀ q, q.Ready → ∃ q1, f x q = some q1 ∧ Player.Step (g x) q q1)
    (p : Player) (hp : p.Ready) :
    ∃ q, forEach f xs p = some q ∧ Player.Step (xs.map g).flatten p q := by
  induction xs generalizing p with
  | nil => exact ⟨p, rfl, step_refl p hp.1⟩
  | cons x xs ih =>
    obtain ⟨q1, e1, s1⟩ := hf x (List.mem_cons_self _ _) p hp
    obtain ⟨q, e, s⟩ := ih (fun y hy => hf y (List.mem_cons_of_mem _ hy)) q1 (step_ready s1 hp)
    exact ⟨q, by simp [forEach, e1, e], step_cast (step_trans s1 s) (by simp)⟩

/-! ## The loops of `handleCursorEvent` -/

theorem lock_live (w : World) (n : Nat) (h : w.live n = true) : lock w n = some n := by
  simp [lock, h]

theorem lock_dead (w : World) (n : Nat) (h : w.live n = false) : lock w n = none := by
  simp [lock, h]

theorem outNodes_cons (w : World) (C : List Nat) (last : Nat) (rest : List Nat) :
    outNodes w C (last :: rest) =
      (if C.any (fun cur => lock w cur == lock w last) then []
        else (lock w last).toList) ++ outNodes w C rest := by
  unfold outNodes
  rw [List.filter_cons]
  cases hany : C.any (fun cur => lock w cur == lock w last) with
  | true => simp
  | false =>
    cases hl : lock w last with
    | none => simp [hl]
    | some x => simp [hl]

theorem overNodes_cons (w : World) (P : List Nat) (cur : Nat) (rest : List Nat) :
    overNodes w (cur :: rest) P =
      (if P.any (fun last => lock w last == lock w cur) then []
        else (lock w cur).toList) ++ overNodes w rest P := by
  unfold overNodes
  rw [List.filter_cons]
  cases hany : P.any (fun last => lock w last == lock w cur) with
  | true => simp
  | false =>
    cases hl : lock w cur with
    | none => simp [hl]
    | some x => simp [hl]

theorem forEach_cons_some {α : Type} (f : α → Player → Option Player) (x : α)
    (xs : List α) (p q1 : Player) (h : f x p = some q1) :
    forEach f (x :: xs) p = forEach f xs q1 := by
  simp [forEach, h]

theorem sendOutEvents_step (w : World) (ev : Event) (C P : List Nat) (p : Player)
    (hp : p.Ready) :
    ∃ q, Player.sendOutEvents w ev C P p = some q ∧
      Player.Step ((outNodes w C P).map (Action.sendEvent .CURSOROUT)) p q := by
  induction P generalizing p with
  | nil => exact ⟨p, rfl, step_refl p hp.1⟩
  | cons last rest ih =>
    rw [outNodes_cons]
    cases hany : C.any (fun cur => lock w cur == lock w last) with
    | true =>
      obtain ⟨q, e, s⟩ := ih p hp
      have hb : (if C.any (fun cur => lock w cur == lock w last) = true then some p
          else Player.sendOver w ev .CURSOROUT (lock w last) p) = some p := by
        rw [hany]; rfl
      exact ⟨q, (forEach_cons_some _ _ _ _ _ hb).trans e, step_cast s (by simp)⟩
    | false =>
      cases hl : w.live last with
      | false =>
        obtain ⟨q, e, s⟩ := ih p hp
        have hb : (if C.any (fun cur => lock w cur == lock w last) = true then some p
            else Player.sendOver w ev .CURSOROUT (lock w last) p) = some p := by
          rw [hany, lock_dead w last hl]; rfl
        exact ⟨q, (forEach_cons_some _ _ _ _ _ hb).trans e,
          step_cast s (by simp [lock_dead w last hl])⟩
      | true =>
        obtain ⟨q1, e1, s1⟩ := sendOver_step w ev .CURSOROUT last p hp
        obtain ⟨q, e, s⟩ := ih q1 (step_ready s1 hp)
        have hb : (if C.any (fun cur => lock w cur == lock w last) = true then some p
            else Player.sendOver w ev .CURSOROUT (lock w last) p) = some q1 := by
          rw [hany, lock_live w last hl]; exact e1
        exact ⟨q, (forEach_cons_some _ _ _ _ _ hb).trans e,
          step_cast (step_trans s1 s) (by simp [lock_live w last hl])⟩

theorem sendOverEvents_step (w : World) (ev : Event) (C P : List Nat) (p : Player)
    (hp : p.Ready) :
    ∃ q, Player.sendOverEvents w ev C P p = some q ∧
      Player.Step ((overNodes w C P).map (Action.sendEvent .CURSOROVER)) p q := by
  induction C generalizing p with
  | nil => exact ⟨p, rfl, step_refl p hp.1⟩
  | cons cur rest ih =>
    rw [overNodes_cons]
    cases hany : P.any (fun last => lock w last == lock w cur) with
    | true =>
      obtain ⟨q, e, s⟩ := ih p hp
      have hb : (if P.any (fun last => lock w last == lock w cur) = true then some p
          else Player.sendOver w ev .CURSOROVER (lock w cur) p) = some p := by
        rw [hany]; rfl
      exact ⟨q, (forEach_cons_some _ _ _ _ _ hb).trans e, step_cast s (by simp)⟩
    | false =>
      cases hl : w.live cur with
      | false =>
        obtain ⟨q, e, s⟩ := ih p hp
        have hb : (if P.any (fun last => lock w last == lock w cur) = true then some p
            else Player.sendOver w ev .CURSOROVER (lock w cur) p) = some p := by
          rw [hany, lock_dead w cur hl]; rfl
        exact ⟨q, (forEach_cons_some _ _ _ _ _ hb).trans e,
          step_cast s (by simp [lock_dead w cur hl])⟩
      | true =>
        obtain ⟨q1, e1, s1⟩ := sendOver_step w ev .CURSOROVER cur p hp
        obtain ⟨q, e, s⟩ := ih q1 (step_ready s1 hp)
        have hb : (if P.any (fun last => lock w last == lock w cur) = true then some p
            else Player.sendOver w ev .CURSOROVER (lock w cur) p) = some q1 := by
          rw [hany, lock_live w cur hl]; exact e1
        exact ⟨q, (forEach_cons_some _ _ _ _ _ hb).trans e,
          step_cast (step_trans s1 s) (by simp [lock_live w cur hl])⟩

theorem releaseOut_step (w : World) (ev : Event) (C : List Nat) (p : Player)
    (hp : p.Ready) :
    ∃ q, forEach (fun n q => Player.sendOver w ev .CURSOROUT (lock w n) q) C p = some q ∧
      Player.Step ((C.filterMap (lock w)).map (Action.sendEvent .CURSOROUT)) p q := by
  induction C generalizing p with
  | nil => exact ⟨p, rfl, step_refl p hp.1⟩
  | cons n rest ih =>
    cases hl : w.live n with
    | false =>
      obtain ⟨q, e, s⟩ := ih p hp
      have hb : Player.sendOver w ev .CURSOROUT (lock w n) p = some p := by
        rw [lock_dead w n hl]; rfl
      exact ⟨q, (forEach_cons_some (fun n q => Player.sendOver w ev .CURSOROUT (lock w n) q) n rest
        p _ hb).trans e,
        step_cast s (by simp [lock_dead w n hl])⟩
    | true =>
      obtain ⟨q1, e1, s1⟩ := sendOver_step w ev .CURSOROUT n p hp
      obtain ⟨q, e, s⟩ := ih q1 (step_ready s1 hp)
      have hb : Player.sendOver w ev .CURSOROUT (lock w n) p = some q1 := by
        rw [lock_live w n hl]; exact e1
      exact ⟨q, (forEach_cons_some (fun n q => Player.sendOver w ev .CURSOROUT (lock w n) q) n rest
        p _ hb).trans e,
        step_cast (step_trans s1 s) (by simp [lock_live w n hl])⟩

theorem deliver_step (w : World) (ev : Event) (targets : List Nat) (p : Player)
    (hp : p.timers.m_bIsPlaying = true) :
    ∃ ds, Player.Step (ds.map (fun d => Action.nodeHandleEvent d.1 ev.type d.2)) p
        (Player.deliver w ev targets p) ∧
      DeliveredUpTo (targets.filterMap (lock w)) ds := by
  induction targets generalizing p with
  | nil => exact ⟨[], step_refl p hp, rfl⟩
  | cons n rest ih =>
    cases hl : w.live n with
    | false =>
      obtain ⟨ds, s, d⟩ := ih p hp
      refine ⟨ds, ?_, ?_⟩
      · simpa [Player.deliver, lock, hl] using s
      · simpa [lock, hl] using d
    | true =>
      have s1 := nodeHandleEvent_step w n (ev.cloneFor ev.type n) p hp
      have ht : (ev.cloneFor ev.type n).type = ev.type := rfl
      rw [ht] at s1
      cases hh : (Player.nodeHandleEvent w n (ev.cloneFor ev.type n) p).1 with
      | true =>
        refine ⟨[(n, true)], ?_, ?_⟩
        · rw [hh] at s1
          simpa [Player.deliver, lock, hl, hh] using s1
        · simp [lock, hl, DeliveredUpTo]
      | false =>
        obtain ⟨ds, s, d⟩ := ih _ (step_fields s1).1
        refine ⟨(n, false) :: ds, ?_, ?_⟩
        · rw [hh] at s1
          have := step_trans s1 s
          simpa [Player.deliver, lock, hl, hh] using this
        · simpa [lock, hl, DeliveredUpTo] using d

/-! ## One cursor event -/

theorem contactEvent_fields (w : World) (ev : Event) (b : Bool) (C : List Nat) :
    (contactEvent w ev b C).type = ev.type ∧ (contactEvent w ev b C).source = ev.source ∧
    (contactEvent w ev b C).cursorID = ev.cursorID ∧
    (contactEvent w ev b C).isRelease = ev.isRelease := by
  unfold contactEvent
  cases C with
  | nil => simp
  | cons first rest =>
    simp only
    split <;> simp [Event.isRelease]

theorem notifyContact_step (w : World) (ev : Event) (b : Bool) (C : List Nat) (p : Player)
    (hp : p.timers.m_bIsPlaying = true) :
    Player.Step (contactActions w ev b C) p (Player.notifyContact w ev b C p).2 ∧
    (Player.notifyContact w ev b C p).1 = contactEvent w ev b C := by
  unfold Player.notifyContact contactActions contactEvent
  cases C with
  | nil => exact ⟨step_refl p hp, rfl⟩
  | cons first rest =>
    simp only
    split
    · have h1 := step_log [Action.sendEventToListeners (lock w first)] p hp
      exact ⟨step_cast (step_trans h1 (runCalls_step _ _ (step_fields h1).1)) (by simp), rfl⟩
    · exact ⟨step_refl p hp, rfl⟩

theorem step_setCapture {a : List Action} {p q : Player} (m : CaptureMap)
    (h : Player.Step a p q) : Player.Step a (p.setCapture m) (q.setCapture m) := by
  obtain ⟨t, ht, rfl⟩ := h
  exact ⟨t, ht, rfl⟩

theorem routeCursorEvent_step (w : World) (ev : Event) (b : Bool) (C : List Nat)
    (p : Player) (hp : p.Ready) :
    ∃ q ds, Player.routeCursorEvent w ev b C p = some q ∧
      Player.Step
        ((outNodes w C (Player.lastCursorNodes ev.cursorID p)).map (Action.sendEvent .CURSOROUT) ++
          (overNodes w C (Player.lastCursorNodes ev.cursorID p)).map
            (Action.sendEvent .CURSOROVER) ++
          ds.map (fun d => Action.nodeHandleEvent d.1 ev.type d.2))
        (p.setCapture (handleCursorEvent_destNodes w.live w.getParentChain C ev.cursorID
          p.m_EventCaptureInfoMap).2) q ∧
      (if b = true then ds = [] else
        DeliveredUpTo ((handleCursorEvent_destNodes w.live w.getParentChain C ev.cursorID
          p.m_EventCaptureInfoMap).1.filterMap (lock w)) ds) := by
  have hp1 : (p.setCapture (handleCursorEvent_destNodes w.live w.getParentChain C ev.cursorID
      p.m_EventCaptureInfoMap).2).Ready := hp
  obtain ⟨q2, e2, s2⟩ := sendOutEvents_step w ev C (Player.lastCursorNodes ev.cursorID p) _ hp1
  obtain ⟨q3, e3, s3⟩ := sendOverEvents_step w ev C (Player.lastCursorNodes ev.cursorID p) q2
    (step_ready s2 hp1)
  have hl : ∀ m, Player.lastCursorNodes ev.cursorID (p.setCapture m) =
      Player.lastCursorNodes ev.cursorID p := fun _ => rfl
  cases b with
  | true =>
    refine ⟨q3, [], ?_, step_cast (step_trans s2 s3) (by simp), by simp⟩
    simp only [Player.routeCursorEvent, hl, e2, e3, if_true]
  | false =>
    obtain ⟨ds, s4, d4⟩ := deliver_step w ev (handleCursorEvent_destNodes w.live
      w.getParentChain C ev.cursorID p.m_EventCaptureInfoMap).1 q3 (step_fields s3).1
    refine ⟨_, ds, ?_, step_trans (step_trans s2 s3) s4, by simpa using d4⟩
    simp only [Player.routeCursorEvent, hl, e2, e3, Bool.false_eq_true, if_false]

theorem finishCursorEvent_step (w : World) (ev : Event) (C : List Nat) (p : Player)
    (hp : p.Ready) :
    ∃ q, Player.Step
        (if ev.isRelease then (C.filterMap (lock w)).map (Action.sendEvent .CURSOROUT) else [])
        p q ∧
      Player.finishCursorEvent w ev C p = some (q.setCursorStates
        (if ev.isRelease then cursorErase ev.cursorID p.m_pLastCursorStates
          else cursorSet ev.cursorID (CursorState.mk ev C) p.m_pLastCursorStates)) := by
  by_cases hr : ev.type = .CURSORUP ∧ ev.source ≠ .MOUSE
  · have hi : ev.isRelease = true := by simp [Event.isRelease, hr]
    obtain ⟨q, e, s⟩ := releaseOut_step w ev C p hp
    refine ⟨q, by rw [hi]; exact s, ?_⟩
    simp only [Player.finishCursorEvent, hr, and_self, if_true, e, Option.map_some', hi,
      (step_fields s).2.2.2.1, ne_eq, not_false_eq_true]
  · have hi : ev.isRelease = false := by simp only [Event.isRelease, hr, decide_False]
    refine ⟨p, by rw [hi]; exact step_refl p hp.1, ?_⟩
    simp only [Player.finishCursorEvent, hr, if_false, hi, Bool.false_eq_true]

/-- What `handleCursorEvent` does while the player is playing, with `C` the hit set, `P`
the stored hit set and `ds` the deliveries of the event: the result is the player with
the stale capture entry erased, other timer members (the handlers may have called into
the scheduler), the actions on the trace, and the new table of cursor states. -/
theorem handleCursorEvent_ready (w : World) (ev : Event) (b : Bool) (p : Player) (r : Nat)
    (hp : p.Ready) (hr : Player.eventReceiverNode ev p = some r) :
    ∃ q ds,
      Player.Step
        (cursorEventActions w ev b (w.getElementsByPos r ev.pos)
          (Player.lastCursorNodes ev.cursorID p) ds)
        (p.setCapture (handleCursorEvent_destNodes w.live w.getParentChain
          (w.getElementsByPos r ev.pos) ev.cursorID p.m_EventCaptureInfoMap).2) q ∧
      (if b = true then ds = [] else
        DeliveredUpTo ((handleCursorEvent_destNodes w.live w.getParentChain
          (w.getElementsByPos r ev.pos) ev.cursorID p.m_EventCaptureInfoMap).1.filterMap
            (lock w)) ds) ∧
      Player.handleCursorEvent w ev b p = some (q.setCursorStates
        (cursorStatesAfter w ev b (w.getElementsByPos r ev.pos) p.m_pLastCursorStates)) := by
  obtain ⟨s1, e1⟩ := notifyContact_step w ev b (w.getElementsByPos r ev.pos) p hp.1
  obtain ⟨hty, _, hid, hrel⟩ := contactEvent_fields w ev b (w.getElementsByPos r ev.pos)
  have f1 := step_fields s1
  obtain ⟨q2, ds, e2, s2, d2⟩ := routeCursorEvent_step w
    (Player.notifyContact w ev b (w.getElementsByPos r ev.pos) p).1 b
    (w.getElementsByPos r ev.pos) _ (step_ready s1 hp)
  have hsame : Player.lastCursorNodes ev.cursorID
      (Player.notifyContact w ev b (w.getElementsByPos r ev.pos) p).2 =
      Player.lastCursorNodes ev.cursorID p := by
    simp only [Player.lastCursorNodes, f1.2.2.2.1]
  simp only [e1, hty, hid, f1.2.2.1, hsame] at s2 d2
  obtain ⟨q3, s3, e3⟩ := finishCursorEvent_step w
    (Player.notifyContact w ev b (w.getElementsByPos r ev.pos) p).1
    (w.getElementsByPos r ev.pos) q2 (step_ready s2 (step_ready (step_setCapture _ s1) hp))
  simp only [e1, hrel] at s3 e3
  refine ⟨q3, ds, ?_, d2, ?_⟩
  · exact step_cast (step_trans (step_trans (step_setCapture _ s1) s2) s3)
      (by simp [cursorEventActions, List.append_assoc])
  · have hq2 : q2.m_pLastCursorStates = p.m_pLastCursorStates := by
      rw [(step_fields s2).2.2.2.1]; exact f1.2.2.2.1
    simp only [hid, hq2] at e3
    rw [e1] at e2
    simp only [Player.handleCursorEvent, hr, e1, e2, e3, cursorStatesAfter]

/-! ## Over and out notifications -/

theorem any_lock (w : World) (C : List Nat) (n : Nat) (hC : ∀ c ∈ C, w.live c = true)
    (hn : w.live n = true) :
    C.any (fun cur => lock w cur == lock w n) = decide (n ∈ C) := by
  rw [Bool.eq_iff_iff]
  simp only [List.any_eq_true, decide_eq_true_eq]
  constructor
  · rintro ⟨c, hc, e⟩
    rw [lock_live w c (hC c hc), lock_live w n hn] at e
    have : c = n := by simpa using e
    exact this ▸ hc
  · intro h
    exact ⟨n, h, by simp⟩

theorem outNodes_live (w : World) (C P : List Nat) (hC : ∀ c ∈ C, w.live c = true)
    (hP : ∀ n ∈ P, w.live n = true) :
    outNodes w C P = P.filter (fun n => decide (n ∉ C)) := by
  induction P with
  | nil => rfl
  | cons n rest ih =>
    have hn := hP n (List.mem_cons_self _ _)
    rw [outNodes_cons, any_lock w C n hC hn, lock_live w n hn,
      ih (fun x hx => hP x (List.mem_cons_of_mem _ hx)), List.filter_cons]
    by_cases h : n ∈ C <;> simp [h]

theorem overNodes_live (w : World) (C P : List Nat) (hC : ∀ c ∈ C, w.live c = true)
    (hP : ∀ n ∈ P, w.live n = true) :
    overNodes w C P = C.filter (fun n => decide (n ∉ P)) :=
  outNodes_live w P C hP hC

theorem filterMap_lock (w : World) (l : List Nat) :
    l.filterMap (lock w) = l.filter w.live := by
  induction l with
  | nil => rfl
  | cons n rest ih =>
    cases hl : w.live n with
    | true => simp [List.filterMap_cons, lock_live w n hl, hl, ih]
    | false => simp [List.filterMap_cons, lock_dead w n hl, hl, ih]

theorem filter_notification_sendEvent (type : EventType) (l : List Nat) :
    (l.map (Action.sendEvent type)).filter Action.isNotification =
      l.map (Action.sendEvent type) := by
  induction l with
  | nil => rfl
  | cons n rest ih => simp [List.filter_cons, Action.isNotification, ih]

theorem filter_notification_delivery (type : EventType) (ds : List (Nat × Bool)) :
    (ds.map (fun d => Action.nodeHandleEvent d.1 type d.2)).filter Action.isNotification
      = [] := by
  induction ds with
  | nil => rfl
  | cons d rest ih => simp [List.filter_cons, Action.isNotification, ih]

theorem filter_notification_contact (w : World) (ev : Event) (b : Bool) (C : List Nat) :
    (contactActions w ev b C).filter Action.isNotification = [] := by
  unfold contactActions
  cases C with
  | nil => rfl
  | cons first rest =>
    simp only
    split <;> simp [Action.isNotification]

/-- The notifications of one `handleCursorEvent`. -/
theorem notifications_cursorEventActions (w : World) (ev : Event) (b : Bool)
    (C P : List Nat) (ds : List (Nat × Bool)) :
    (cursorEventActions w ev b C P ds).filter Action.isNotification =
      (outNodes w C P).map (Action.sendEvent .CURSOROUT) ++
      (overNodes w C P).map (Action.sendEvent .CURSOROVER) ++
      (if ev.isRelease then (C.filterMap (lock w)).map (Action.sendEvent .CURSOROUT)
        else []) := by
  unfold cursorEventActions
  simp only [List.filter_append, filter_notification_sendEvent, filter_notification_delivery,
    filter_notification_contact, List.nil_append, List.append_nil]
  cases ev.isRelease with
  | true => simp [filter_notification_sendEvent]
  | false => simp

theorem handleCursorEvent_sends (w : World) (ev : Event) (b : Bool) (p : Player) (r : Nat)
    (hp : p.Ready) (hr : Player.eventReceiverNode ev p = some r) :
    ∃ q, Player.handleCursorEvent w ev b p = some q ∧
      Player.notificationsSince p q =
        (outNodes w (w.getElementsByPos r ev.pos)
          (Player.lastCursorNodes ev.cursorID p)).map (Action.sendEvent .CURSOROUT) ++
        (overNodes w (w.getElementsByPos r ev.pos)
          (Player.lastCursorNodes ev.cursorID p)).map (Action.sendEvent .CURSOROVER) ++
        (if ev.isRelease then
          ((w.getElementsByPos r ev.pos).filterMap (lock w)).map (Action.sendEvent .CURSOROUT)
          else []) := by
  obtain ⟨q, ds, s, _, e⟩ := handleCursorEvent_ready w ev b p r hp hr
  refine ⟨_, e, ?_⟩
  have ht : (q.setCursorStates (cursorStatesAfter w ev b (w.getElementsByPos r ev.pos)
      p.m_pLastCursorStates)).trace = p.trace ++ cursorEventActions w ev b
        (w.getElementsByPos r ev.pos) (Player.lastCursorNodes ev.cursorID p) ds :=
    (step_fields s).2.1
  simp only [Player.notificationsSince, ht, List.drop_left,
    notifications_cursorEventActions]

theorem count_sendEvent_map (type type1 : EventType) (l : List Nat) (n : Nat) :
    (l.map (Action.sendEvent type)).count (Action.sendEvent type1 n) =
      if type = type1 then l.count n else 0 := by
  by_cases h : type = type1
  · subst h
    rw [if_pos rfl]
    exact List.count_map_of_injective l _ (fun a b e => by injection e) n
  · rw [if_neg h]
    apply List.count_eq_zero_of_not_mem
    intro hm
    obtain ⟨x, _, e⟩ := List.mem_map.1 hm
    injection e with e1 _
    exact h e1

theorem count_filter_nodup (l : List Nat) (hl : l.Nodup) (pr : Nat → Bool) (n : Nat) :
    (l.filter pr).count n = if n ∈ l ∧ pr n = true then 1 else 0 := by
  by_cases h : pr n = true
  · rw [List.count_filter h, List.count_eq_of_nodup hl]
    simp [h]
  · rw [List.count_eq_zero_of_not_mem (fun hm => h (List.mem_filter.1 hm).2)]
    simp [h]

/-- C14, as the code has it. The player is playing, `C` is the hit set of the event below
its receiver node and `P` the stored hit set of its cursor, both of live nodes and without
duplicates, and the event is no `CURSORUP` from a source other than the mouse. Then
`handleCursorEvent` returns, and the notifications it has sent are `CURSOROUT` to the
nodes of `P` that are not in `C`, in the order of `P`, followed by `CURSOROVER` to the
nodes of `C` that are not in `P`, in the order of `C`: one `CURSOROUT` for each node of
`P` outside `C` and for no other node, one `CURSOROVER` for each node of `C` outside `P`
and for no other node. The notifications are the same for every capture table. -/
theorem handleCursorEvent_over_out (w : World) (ev : Event) (b : Bool) (p : Player) (r : Nat)
    (hp : p.Ready) (hr : Player.eventReceiverNode ev p = some r)
    (hC : (w.getElementsByPos r ev.pos).Nodup)
    (hP : (Player.lastCursorNodes ev.cursorID p).Nodup)
    (hlC : ∀ n ∈ w.getElementsByPos r ev.pos, w.live n = true)
    (hlP : ∀ n ∈ Player.lastCursorNodes ev.cursorID p, w.live n = true)
    (hrel : ev.isRelease = false) :
    ∃ q, Player.handleCursorEvent w ev b p = some q ∧
      Player.notificationsSince p q =
        ((Player.lastCursorNodes ev.cursorID p).filter
          (fun n => decide (n ∉ w.getElementsByPos r ev.pos))).map
            (Action.sendEvent .CURSOROUT) ++
        ((w.getElementsByPos r ev.pos).filter
          (fun n => decide (n ∉ Player.lastCursorNodes ev.cursorID p))).map
            (Action.sendEvent .CURSOROVER) ∧
      (∀ n, (Player.notificationsSince p q).count (Action.sendEvent .CURSOROUT n) =
        if n ∈ Player.lastCursorNodes ev.cursorID p ∧ n ∉ w.getElementsByPos r ev.pos
          then 1 else 0) ∧
      (∀ n, (Player.notificationsSince p q).count (Action.sendEvent .CURSOROVER n) =
        if n ∈ w.getElementsByPos r ev.pos ∧ n ∉ Player.lastCursorNodes ev.cursorID p
          then 1 else 0) ∧
      (∀ m : CaptureMap, ∃ q1, Player.handleCursorEvent w ev b (p.setCapture m) = some q1 ∧
        Player.notificationsSince (p.setCapture m) q1 = Player.notificationsSince p q) := by
  obtain ⟨q, e, hn⟩ := handleCursorEvent_sends w ev b p r hp hr
  rw [hrel, outNodes_live w _ _ hlC hlP, overNodes_live w _ _ hlC hlP] at hn
  simp only [Bool.false_eq_true, if_false, List.append_nil] at hn
  refine ⟨q, e, hn, ?_, ?_, ?_⟩
  · intro n
    rw [hn, List.count_append, count_sendEvent_map, count_sendEvent_map,
      if_pos rfl, if_neg (by decide), count_filter_nodup _ hP]
    simp
  · intro n
    rw [hn, List.count_append, count_sendEvent_map, count_sendEvent_map,
      if_neg (by decide), if_pos rfl, count_filter_nodup _ hC]
    simp
  · intro m
    obtain ⟨q1, e1, hn1⟩ := handleCursorEvent_sends w ev b (p.setCapture m) r hp hr
    refine ⟨q1, e1, ?_⟩
    rw [hn1, hn, hrel]
    have hl : Player.lastCursorNodes ev.cursorID (p.setCapture m) =
        Player.lastCursorNodes ev.cursorID p := rfl
    rw [hl, outNodes_live w _ _ hlC hlP, overNodes_live w _ _ hlC hlP]
    simp

/-- C14, witness: in the scene of `demoWorld` the touch that was over node 1 moves to the
point over node 2. Node 1 gets `CURSOROUT`, then node 2 gets `CURSOROVER`; the root is
under both points and gets neither. -/
theorem handleCursorEvent_over_out_witness :
    (Player.handleCursorEvent demoWorld (touchEvent .CURSORMOTION (2, 0)) false demoTouched).map
      (fun q => Player.notificationsSince demoTouched q) =
      some [Action.sendEvent .CURSOROUT 1, Action.sendEvent .CURSOROVER 2] := by
  obtain ⟨q, e, hn, _⟩ := handleCursorEvent_over_out demoWorld
    (touchEvent .CURSORMOTION (2, 0)) false demoTouched 0 ⟨rfl, rfl⟩ rfl (by decide) (by decide)
    (fun _ _ => rfl) (fun _ _ => rfl) rfl
  rw [e, Option.map_some', hn]
  rfl

/-- C14 fails as stated for a release that does not come from the mouse: the touch that
was over node 1 and the root ends over node 1. The stored hit set and the new hit set are
the same, and yet node 1 and the root get `CURSOROUT`. -/
theorem handleCursorEvent_release_sends_out :
    Player.lastCursorNodes 5 demoTouched = [1, 0] ∧
    demoWorld.getElementsByPos 0 (1, 0) = [1, 0] ∧
    (Player.handleCursorEvent demoWorld (touchEvent .CURSORUP (1, 0)) false demoTouched).map
      (fun q => Player.notificationsSince demoTouched q) =
      some [Action.sendEvent .CURSOROUT 1, Action.sendEvent .CURSOROUT 0] := by
  refine ⟨rfl, rfl, ?_⟩
  decide

/-! ## The delivery of a cursor event -/

theorem filter_delivery_sendEvent (type : EventType) (l : List Nat) :
    (l.map (Action.sendEvent type)).filter Action.isDelivery = [] := by
  induction l with
  | nil => rfl
  | cons n rest ih => simp [List.filter_cons, Action.isDelivery, ih]

theorem filter_delivery_delivery (type : EventType) (ds : List (Nat × Bool)) :
    (ds.map (fun d => Action.nodeHandleEvent d.1 type d.2)).filter Action.isDelivery =
      ds.map (fun d => Action.nodeHandleEvent d.1 type d.2) := by
  induction ds with
  | nil => rfl
  | cons d rest ih => simp [List.filter_cons, Action.isDelivery, ih]

theorem filter_delivery_contact (w : World) (ev : Event) (b : Bool) (C : List Nat) :
    (contactActions w ev b C).filter Action.isDelivery = [] := by
  unfold contactActions
  cases C with
  | nil => rfl
  | cons first rest =>
    simp only
    split <;> simp [Action.isDelivery]

/-- The deliveries of one `handleCursorEvent`. -/
theorem deliveries_cursorEventActions (w : World) (ev : Event) (b : Bool)
    (C P : List Nat) (ds : List (Nat × Bool)) :
    (cursorEventActions w ev b C P ds).filter Action.isDelivery =
      ds.map (fun d => Action.nodeHandleEvent d.1 ev.type d.2) := by
  unfold cursorEventActions
  simp only [List.filter_append, filter_delivery_sendEvent, filter_delivery_delivery,
    filter_delivery_contact, List.nil_append, List.append_nil]
  cases ev.isRelease with
  | true => simp [filter_delivery_sendEvent]
  | false => simp

/-- Deliveries that go down the targets and end after the first node that reports the
event handled: the nodes are a prefix of the targets, every delivery but the last was
reported not handled, and when a target is left out the last one was reported handled. -/
theorem deliveredUpTo_spec (ts : List Nat) (ds : List (Nat × Bool))
    (h : DeliveredUpTo ts ds) :
    ds.map Prod.fst <+: ts ∧ (∀ d ∈ ds.dropLast, d.2 = false) ∧
    (ds.map Prod.fst ≠ ts → ∃ d, ds.getLast? = some d ∧ d.2 = true) := by
  induction ts generalizing ds with
  | nil =>
    have : ds = [] := h
    subst this
    exact ⟨List.prefix_refl _, (fun _ hd => by cases hd), fun hne => absurd rfl hne⟩
  | cons n ns ih =>
    cases ds with
    | nil => exact absurd h (by simp [DeliveredUpTo])
    | cons d rest =>
      obtain ⟨m, hd⟩ := d
      simp only [DeliveredUpTo] at h
      obtain ⟨rfl, h2⟩ := h
      cases hd with
      | true =>
        simp only [if_true] at h2
        subst h2
        refine ⟨?_, (fun _ hx => by cases hx), fun _ => ⟨(m, true), rfl, rfl⟩⟩
        exact ⟨ns, rfl⟩
      | false =>
        simp only [Bool.false_eq_true, if_false] at h2
        obtain ⟨i1, i2, i3⟩ := ih rest h2
        refine ⟨?_, ?_, ?_⟩
        · simpa [List.cons_prefix_cons] using i1
        · intro x hx
          cases rest with
          | nil => cases hx
          | cons y ys =>
            rw [List.dropLast_cons₂] at hx
            rcases List.mem_cons.1 hx with e | hm
            · rw [e]
            · exact i2 x hm
        · intro hne
          have hne2 : rest.map Prod.fst ≠ ns := fun e => hne (by simp [e])
          obtain ⟨x, hx, hxt⟩ := i3 hne2
          cases rest with
          | nil => cases hx
          | cons y ys => exact ⟨x, by rw [List.getLast?_cons_cons]; exact hx, hxt⟩

/-- C15: for an event that is no re-delivery, while the player is playing,
`handleCursorEvent` returns, and the deliveries `ds` of the event, each a node and what the
node reported, are these: the nodes are a prefix of the live nodes of the target list, in
its order; every node but the last reported the event not handled; and when a live
target got no delivery, the last node that got one reported the event handled. The target
list is the parent chain of the capturing node when the cursor has a capture entry whose
node is alive, and the hit set otherwise. -/
theorem handleCursorEvent_delivery (w : World) (ev : Event) (p : Player) (r : Nat)
    (hp : p.Ready) (hr : Player.eventReceiverNode ev p = some r) :
    ∃ (q : Player) (ds : List (Nat × Bool)) (targets : List Nat),
      Player.handleCursorEvent w ev false p = some q ∧
      (∀ info, p.m_EventCaptureInfoMap ev.cursorID = some info → w.live info.m_pNode = true →
        targets = w.getParentChain info.m_pNode) ∧
      ((∀ info, p.m_EventCaptureInfoMap ev.cursorID = some info →
        w.live info.m_pNode = false) → targets = w.getElementsByPos r ev.pos) ∧
      Player.deliveriesSince p q = ds.map (fun d => Action.nodeHandleEvent d.1 ev.type d.2) ∧
      ds.map Prod.fst <+: targets.filter w.live ∧
      (∀ d ∈ ds.dropLast, d.2 = false) ∧
      (ds.map Prod.fst ≠ targets.filter w.live → ∃ d, ds.getLast? = some d ∧ d.2 = true) := by
  obtain ⟨q, ds, s, hd, e⟩ := handleCursorEvent_ready w ev false p r hp hr
  simp only [Bool.false_eq_true, if_false, filterMap_lock] at hd
  have ht : (q.setCursorStates (cursorStatesAfter w ev false (w.getElementsByPos r ev.pos)
      p.m_pLastCursorStates)).trace = p.trace ++ cursorEventActions w ev false
        (w.getElementsByPos r ev.pos) (Player.lastCursorNodes ev.cursorID p) ds :=
    (step_fields s).2.1
  obtain ⟨d1, d2, d3⟩ := deliveredUpTo_spec _ _ hd
  refine ⟨_, ds, _, e, ?_, ?_, ?_, d1, d2, d3⟩
  · intro info hi hl
    simp [handleCursorEvent_destNodes, hi, hl]
  · intro h
    cases hi : p.m_EventCaptureInfoMap ev.cursorID with
    | none => simp [handleCursorEvent_destNodes, hi]
    | some info => simp [handleCursorEvent_destNodes, hi, h info hi]
  · simp only [Player.deliveriesSince, ht, List.drop_left, deliveries_cursorEventActions]

/-- C15, witness: in the scene of `demoHandling` a touch moves over node 1, which lies in
front of the root. Node 1 reports the event handled, and the root does not get it. -/
theorem handleCursorEvent_delivery_witness :
    (∃ q, Player.handleCursorEvent demoHandling (touchEvent .CURSORMOTION (1, 0)) false
      demoPlayer = some q) ∧
    (Player.handleCursorEvent demoHandling (touchEvent .CURSORMOTION (1, 0)) false
      demoPlayer).map (fun q => Player.deliveriesSince demoPlayer q) =
        some [Action.nodeHandleEvent 1 .CURSORMOTION true] := by
  obtain ⟨q, _, _, e, _⟩ := handleCursorEvent_delivery demoHandling
    (touchEvent .CURSORMOTION (1, 0)) demoPlayer 0 ⟨rfl, rfl⟩ rfl
  exact ⟨⟨q, e⟩, by decide⟩

/-! ## The stored cursor states -/

theorem cursorErase_cons (k k1 : Int) (s1 : CursorState) (rest : List (Int × CursorState)) :
    cursorErase k ((k1, s1) :: rest) =
      if k1 = k then cursorErase k rest else (k1, s1) :: cursorErase k rest := by
  by_cases h : k1 = k <;> simp [cursorErase, List.filter_cons, h]

theorem cursorFind_cons (k k1 : Int) (s1 : CursorState) (rest : List (Int × CursorState)) :
    cursorFind k ((k1, s1) :: rest) = if k1 = k then some s1 else cursorFind k rest := rfl

theorem cursorFind_erase_self (k : Int) (l : List (Int × CursorState)) :
    cursorFind k (cursorErase k l) = none := by
  induction l with
  | nil => rfl
  | cons e rest ih =>
    obtain ⟨k1, s1⟩ := e
    rw [cursorErase_cons]
    by_cases h : k1 = k
    · rw [if_pos h]; exact ih
    · rw [if_neg h, cursorFind_cons, if_neg h]; exact ih

theorem cursorFind_erase_ne (k k1 : Int) (l : List (Int × CursorState)) (hne : k1 ≠ k) :
    cursorFind k1 (cursorErase k l) = cursorFind k1 l := by
  induction l with
  | nil => rfl
  | cons e rest ih =>
    obtain ⟨k2, s2⟩ := e
    rw [cursorErase_cons, cursorFind_cons]
    by_cases h : k2 = k
    · have h2 : ¬ k2 = k1 := fun e => hne (e ▸ h)
      rw [if_pos h, if_neg h2]; exact ih
    · rw [if_neg h, cursorFind_cons]
      by_cases h2 : k2 = k1
      · rw [if_pos h2, if_pos h2]
      · rw [if_neg h2, if_neg h2]; exact ih

theorem cursorFind_set_self (k : Int) (s : CursorState) (l : List (Int × CursorState)) :
    cursorFind k (cursorSet k s l) = some s := by
  induction l with
  | nil => simp [cursorSet, cursorFind]
  | cons e rest ih =>
    obtain ⟨k1, s1⟩ := e
    simp only [cursorSet]
    by_cases h1 : k < k1
    · rw [if_pos h1, cursorFind_cons, if_pos rfl]
    · rw [if_neg h1]
      by_cases h2 : k = k1
      · rw [if_pos h2, cursorFind_cons, if_pos rfl]
      · rw [if_neg h2, cursorFind_cons, if_neg (fun e => h2 e.symm)]; exact ih

theorem cursorFind_set_ne (k k1 : Int) (s : CursorState) (l : List (Int × CursorState))
    (hne : k1 ≠ k) : cursorFind k1 (cursorSet k s l) = cursorFind k1 l := by
  have hne2 : ¬ k = k1 := fun e => hne e.symm
  induction l with
  | nil => simp only [cursorSet]; rw [cursorFind_cons, if_neg hne2]
  | cons e rest ih =>
    obtain ⟨k2, s2⟩ := e
    simp only [cursorSet]
    by_cases h1 : k < k2
    · rw [if_pos h1, cursorFind_cons, if_neg hne2]
    · rw [if_neg h1]
      by_cases h2 : k = k2
      · rw [if_pos h2, cursorFind_cons, if_neg hne2, cursorFind_cons, if_neg (h2 ▸ hne2)]
      · rw [if_neg h2, cursorFind_cons, cursorFind_cons]
        by_cases h3 : k2 = k1
        · rw [if_pos h3, if_pos h3]
        · rw [if_neg h3, if_neg h3]; exact ih

/-- C16: while the player is playing `handleCursorEvent` returns, with `C` the hit set of
the event. After a `CURSORUP` that does not come from the mouse the trace ends with
`CURSOROUT` to every live node of `C`, in the order of `C`, sent after every delivery of
the event itself, and the table holds no state for the cursor of the event. After every
other event the state of that cursor is the event, whose node is the first hit node when
the listeners of its contact got it, together with `C`. The states of all other cursors
are as before. -/
theorem handleCursorEvent_cursor_state (w : World) (ev : Event) (b : Bool) (p : Player)
    (r : Nat) (hp : p.Ready) (hr : Player.eventReceiverNode ev p = some r) :
    ∃ q, Player.handleCursorEvent w ev b p = some q ∧
      (ev.type = .CURSORUP ∧ ev.source ≠ .MOUSE →
        (∃ pre, q.trace = p.trace ++ pre ++
            ((w.getElementsByPos r ev.pos).filter w.live).map (Action.sendEvent .CURSOROUT) ∧
          pre.filter Action.isDelivery = Player.deliveriesSince p q) ∧
        cursorFind ev.cursorID q.m_pLastCursorStates = none) ∧
      (¬ (ev.type = .CURSORUP ∧ ev.source ≠ .MOUSE) →
        cursorFind ev.cursorID q.m_pLastCursorStates =
          some (CursorState.mk (contactEvent w ev b (w.getElementsByPos r ev.pos))
            (w.getElementsByPos r ev.pos))) ∧
      (∀ k, k ≠ ev.cursorID →
        cursorFind k q.m_pLastCursorStates = cursorFind k p.m_pLastCursorStates) ∧
      (contactEvent w ev b (w.getElementsByPos r ev.pos) = ev ∨
        ∃ n, contactEvent w ev b (w.getElementsByPos r ev.pos) = { ev with node := n }) := by
  obtain ⟨q, ds, s, _, e⟩ := handleCursorEvent_ready w ev b p r hp hr
  have ht : (q.setCursorStates (cursorStatesAfter w ev b (w.getElementsByPos r ev.pos)
      p.m_pLastCursorStates)).trace = p.trace ++ cursorEventActions w ev b
        (w.getElementsByPos r ev.pos) (Player.lastCursorNodes ev.cursorID p) ds :=
    (step_fields s).2.1
  have hs : (q.setCursorStates (cursorStatesAfter w ev b (w.getElementsByPos r ev.pos)
      p.m_pLastCursorStates)).m_pLastCursorStates =
      cursorStatesAfter w ev b (w.getElementsByPos r ev.pos) p.m_pLastCursorStates := rfl
  refine ⟨_, e, ?_, ?_, ?_, ?_⟩
  · intro hrel
    have hi : ev.isRelease = true := by simp [Event.isRelease, hrel]
    refine ⟨⟨contactActions w ev b (w.getElementsByPos r ev.pos) ++
      (outNodes w (w.getElementsByPos r ev.pos)
        (Player.lastCursorNodes ev.cursorID p)).map (Action.sendEvent .CURSOROUT) ++
      (overNodes w (w.getElementsByPos r ev.pos)
        (Player.lastCursorNodes ev.cursorID p)).map (Action.sendEvent .CURSOROVER) ++
      ds.map (fun d => Action.nodeHandleEvent d.1 ev.type d.2), ?_, ?_⟩, ?_⟩
    · rw [ht]
      simp only [cursorEventActions, hi, if_true, filterMap_lock, List.append_assoc]
    · simp only [Player.deliveriesSince, ht, List.drop_left, deliveries_cursorEventActions,
        List.filter_append, filter_delivery_sendEvent, filter_delivery_delivery,
        filter_delivery_contact, List.nil_append, List.append_nil]
    · rw [hs]
      simp only [cursorStatesAfter, hi, if_true]
      exact cursorFind_erase_self _ _
  · intro hrel
    have hi : ev.isRelease = false := by simp only [Event.isRelease, hrel, decide_False]
    rw [hs]
    simp only [cursorStatesAfter, hi, Bool.false_eq_true, if_false]
    exact cursorFind_set_self _ _ _
  · intro k hk
    rw [hs]
    unfold cursorStatesAfter
    split
    · exact cursorFind_erase_ne _ _ _ hk
    · exact cursorFind_set_ne _ _ _ _ hk
  · unfold contactEvent
    cases w.getElementsByPos r ev.pos with
    | nil => exact Or.inl rfl
    | cons first rest =>
      simp only
      split
      · exact Or.inr ⟨_, rfl⟩
      · exact Or.inl rfl

/-- C16, witness: in the scene of `demoWorld` the touch that was over node 1 ends there.
Node 1 and the root get the event, then both get `CURSOROUT`, and no state is left in the
table. -/
theorem handleCursorEvent_cursor_state_witness :
    (∃ q, Player.handleCursorEvent demoWorld (touchEvent .CURSORUP (1, 0)) false demoTouched
      = some q) ∧
    (Player.handleCursorEvent demoWorld (touchEvent .CURSORUP (1, 0)) false demoTouched).map
      (fun q => (q.trace, q.m_pLastCursorStates)) =
      some ([Action.nodeHandleEvent 1 .CURSORUP false, Action.nodeHandleEvent 0 .CURSORUP false,
        Action.sendEvent .CURSOROUT 1, Action.sendEvent .CURSOROUT 0], []) := by
  obtain ⟨q, e, _⟩ := handleCursorEvent_cursor_state demoWorld (touchEvent .CURSORUP (1, 0))
    false demoTouched 0 ⟨rfl, rfl⟩ rfl
  exact ⟨⟨q, e⟩, by decide⟩

/-! ## Key events and the event hook -/

theorem cleanupActions_no_delivery (p : Player) :
    (Player.cleanupActions p).filter Action.isDelivery = [] ∧
    (Player.cleanupActions p).filter Action.isNotification = [] := by
  have h : ∀ a ∈ Player.cleanupActions p,
      a.isDelivery = false ∧ a.isNotification = false := by
    intro a ha
    simp only [Player.cleanupActions, List.mem_append, List.mem_map] at ha
    rcases ha with ((ha | ⟨c, _, rfl⟩) | ha) | ha
    · split at ha
      · rw [List.mem_singleton.1 ha]; exact ⟨rfl, rfl⟩
      · cases ha
    · exact ⟨rfl, rfl⟩
    · split at ha
      · rcases List.mem_cons.1 ha with e | ha
        · rw [e]; exact ⟨rfl, rfl⟩
        · rw [List.mem_singleton.1 ha]; exact ⟨rfl, rfl⟩
      · cases ha
    · split at ha
      · rw [List.mem_singleton.1 ha]; exact ⟨rfl, rfl⟩
      · cases ha
  exact ⟨List.filter_eq_nil_iff.2 (fun a ha => by simp [(h a ha).1]),
    List.filter_eq_nil_iff.2 (fun a ha => by simp [(h a ha).2])⟩

/-- While the player is playing, a call of Python code into the player acts on the timer
members only. -/
theorem runCall_timers (c : Call) (p : Player) (h : p.timers.m_bIsPlaying = true) :
    Player.runCall c p = p.setTimers (c.run p.timers) := by
  cases c with
  | stop => simp [Player.runCall, stop_playing p h, Call.run, Avg.stop, h, Player.setStopping]
  | setTimeout time f => rfl
  | setInterval time f => rfl
  | clearInterval id => rfl

theorem runCalls_timers (cs : List Call) (p : Player) (h : p.timers.m_bIsPlaying = true) :
    Player.runCalls cs p = p.setTimers (runCalls cs p.timers) := by
  induction cs generalizing p with
  | nil => rfl
  | cons c cs ih =>
    simp only [Player.runCalls, runCalls]
    rw [runCall_timers c p h, ih _ (run_playing c p.timers h)]
    rfl

/-- The calls of Python code put no delivery and no notification on the trace, whether the
player is playing or not. -/
theorem runCalls_no_delivery (cs : List Call) (p : Player) :
    (Player.runCalls cs p).trace.filter Action.isDelivery = p.trace.filter Action.isDelivery ∧
    (Player.runCalls cs p).trace.filter Action.isNotification
      = p.trace.filter Action.isNotification := by
  induction cs generalizing p with
  | nil => exact ⟨rfl, rfl⟩
  | cons c cs ih =>
    have h1 : (Player.runCall c p).trace.filter Action.isDelivery
          = p.trace.filter Action.isDelivery ∧
        (Player.runCall c p).trace.filter Action.isNotification
          = p.trace.filter Action.isNotification := by
      by_cases hp : p.timers.m_bIsPlaying = true
      · rw [runCall_timers c p hp]; exact ⟨rfl, rfl⟩
      · cases c with
        | stop =>
          simp only [Player.runCall, Player.stop, hp, Bool.false_eq_true, if_false,
            Player.cleanup, List.filter_append, (cleanupActions_no_delivery p).1,
            (cleanupActions_no_delivery p).2, List.append_nil, and_self]
        | setTimeout time f => exact ⟨rfl, rfl⟩
        | setInterval time f => exact ⟨rfl, rfl⟩
        | clearInterval id => exact ⟨rfl, rfl⟩
    simp only [Player.runCalls]
    exact ⟨(ih _).1.trans h1.1, (ih _).2.trans h1.2⟩

/-- While the player is playing, the event hook leaves the player as it is but for the
timer members. -/
theorem callEventHook_step (w : World) (ev : Event) (p : Player)
    (h : p.timers.m_bIsPlaying = true) :
    Player.Step [] p (Player.callEventHook w ev p).2 := by
  unfold Player.callEventHook
  split
  · exact runCalls_step _ p h
  · exact step_refl p h

theorem callEventHook_no_delivery (w : World) (ev : Event) (p : Player) :
    (Player.callEventHook w ev p).2.trace.filter Action.isDelivery
      = p.trace.filter Action.isDelivery ∧
    (Player.callEventHook w ev p).2.trace.filter Action.isNotification
      = p.trace.filter Action.isNotification := by
  unfold Player.callEventHook
  split
  · exact runCalls_no_delivery _ p
  · exact ⟨rfl, rfl⟩

/-- C17, as the code has it: a key event that the hook does not consume, while the player
is playing a scene with root node `root`. With `p1` the player after the hook has made its
calls (the player itself when there is no hook, or a hook that makes none):
`handleEvent` delivers the event to the root node and to no other node, and leaves the
capture table and the cursor states alone. With `q0` the player after the handlers of the
root node have run on `p1`: when stop-on-escape is set and the event is a `KEYDOWN` of the
escape key, `handleEvent` calls `stop` on `q0` and the stopping flag is set, whatever the
root node reported; otherwise the result is `q0`. -/
theorem handleEvent_key (w : World) (ev : Event) (p : Player) (root : Nat)
    (hcls : ev.cls = .keyEvent) (hhook : (Player.callEventHook w ev p).1 = false)
    (hroot : p.m_pMainCanvas = some root) (hp : p.timers.m_bIsPlaying = true) :
    ∃ q, Player.handleEvent w ev p = some (true, q) ∧
      q.trace = p.trace ++
        [Action.nodeHandleEvent root ev.type
          (w.nodeHandleEvent root ev (Player.callEventHook w ev p).2).handled] ∧
      q.m_EventCaptureInfoMap = p.m_EventCaptureInfoMap ∧
      q.m_pLastCursorStates = p.m_pLastCursorStates ∧
      (p.m_bStopOnEscape = true ∧ ev.type = .KEYDOWN ∧ ev.keyCode = w.KEY_ESCAPE →
        q = Player.stop (Player.nodeHandleEvent w root ev (Player.callEventHook w ev p).2).2 ∧
        q.timers.m_bStopping = true) ∧
      (¬ (p.m_bStopOnEscape = true ∧ ev.type = .KEYDOWN ∧ ev.keyCode = w.KEY_ESCAPE) →
        q = (Player.nodeHandleEvent w root ev (Player.callEventHook w ev p).2).2) := by
  have f0 := step_fields (callEventHook_step w ev p hp)
  have hhe : Player.handleEvent w ev p
      = Player.routeEvent w ev (Player.callEventHook w ev p).2 := by
    simp [Player.handleEvent, hhook, hcls]
  rw [hhe]
  generalize (Player.callEventHook w ev p).2 = p1 at f0 ⊢
  have hroot1 : p1.m_pMainCanvas = some root := f0.2.2.2.2.2.2.2.1.trans hroot
  have ht1 : p1.trace = p.trace := by rw [f0.2.1, List.append_nil]
  have s1 := nodeHandleEvent_step w root ev p1 f0.1
  have f1 := step_fields s1
  have hh : (Player.nodeHandleEvent w root ev p1).1 = (w.nodeHandleEvent root ev p1).handled :=
    rfl
  rw [hh, ht1, f0.2.2.1, f0.2.2.2.1] at f1
  by_cases hc : p.m_bStopOnEscape = true ∧ ev.type = .KEYDOWN ∧ ev.keyCode = w.KEY_ESCAPE
  · have hc1 : (Player.nodeHandleEvent w root ev p1).2.m_bStopOnEscape = true ∧
        ev.type = .KEYDOWN ∧ ev.keyCode = w.KEY_ESCAPE := by
      rw [f1.2.2.2.2.2.1, f0.2.2.2.2.2.1]; exact hc
    refine ⟨Player.stop (Player.nodeHandleEvent w root ev p1).2, ?_, ?_, ?_, ?_,
      fun _ => ⟨rfl, ?_⟩, fun h => absurd hc h⟩
    · simp [Player.routeEvent, hcls, hroot1, hc1]
    · rw [stop_playing _ f1.1]; exact f1.2.1
    · rw [stop_playing _ f1.1]; exact f1.2.2.1
    · rw [stop_playing _ f1.1]; exact f1.2.2.2.1
    · rw [stop_playing _ f1.1]; rfl
  · have hc1 : ¬ ((Player.nodeHandleEvent w root ev p1).2.m_bStopOnEscape = true ∧
        ev.type = .KEYDOWN ∧ ev.keyCode = w.KEY_ESCAPE) := by
      rw [f1.2.2.2.2.2.1, f0.2.2.2.2.2.1]; exact hc
    refine ⟨(Player.nodeHandleEvent w root ev p1).2, ?_, f1.2.1, f1.2.2.1, f1.2.2.2.1,
      fun h => absurd h hc, fun _ => rfl⟩
    simp [Player.routeEvent, hcls, hroot1, hc1]

/-- C17, witness: in the scene of `demoWorld` the escape key goes down. The root node gets
the event, and the stopping flag is set. -/
theorem handleEvent_key_witness :
    (∃ q, Player.handleEvent demoWorld (keyEvent .KEYDOWN 27) demoPlayer = some (true, q)) ∧
    (Player.handleEvent demoWorld (keyEvent .KEYDOWN 27) demoPlayer).map
      (fun r => (r.2.trace, r.2.timers.m_bStopping)) =
      some ([Action.nodeHandleEvent 0 .KEYDOWN false], true) := by
  obtain ⟨q, e, _⟩ := handleEvent_key demoWorld (keyEvent .KEYDOWN 27) demoPlayer 0 rfl rfl
    rfl rfl
  exact ⟨⟨q, e⟩, by decide⟩

/-- C17 fails as stated when the root node handles the escape key: in the scene of
`demoAllHandling` the escape key goes down while stop-on-escape is set and the player is
not stopping. The root node reports the event handled, and the stopping flag is set all
the same. -/
theorem handleEvent_key_handled_stops :
    demoPlayer.m_bStopOnEscape = true ∧ demoPlayer.timers.m_bStopping = false ∧
    (Player.handleEvent demoAllHandling (keyEvent .KEYDOWN 27) demoPlayer).map
      (fun r => (r.2.trace, r.2.timers.m_bStopping)) =
      some ([Action.nodeHandleEvent 0 .KEYDOWN true], true) := by
  decide

/-! ## Timers and events in one frame -/

theorem keeps_refl (p : Player) (h : p.timers.m_bIsPlaying = true) : Player.FrameKeeps p p :=
  ⟨h, rfl, rfl, rfl, rfl⟩

theorem keeps_trans {p q r : Player} (h1 : Player.FrameKeeps p q)
    (h2 : Player.FrameKeeps q r) : Player.FrameKeeps p r :=
  ⟨h2.1, h2.2.1.trans h1.2.1, h2.2.2.1.trans h1.2.2.1, h2.2.2.2.1.trans h1.2.2.2.1,
    h2.2.2.2.2.trans h1.2.2.2.2⟩

theorem keeps_inFrame {p q : Player} (hp : p.InFrame) (h : Player.FrameKeeps p q) :
    q.InFrame :=
  ⟨h.1, h.2.1.trans hp.2.1, by rw [h.2.2.1]; exact hp.2.2.1, h.2.2.2.1.trans hp.2.2.2⟩

theorem step_keeps {a : List Action} {p q : Player} (h : Player.Step a p q) :
    Player.FrameKeeps p q :=
  have f := step_fields h
  ⟨f.1, f.2.2.2.2.2.2.2.2.1, f.2.2.2.2.2.2.2.1, f.2.2.2.2.2.2.2.2.2.2, f.2.2.2.2.2.2.2.2.2.1⟩

theorem inFrame_ready {p : Player} (hp : p.InFrame) : p.Ready := ⟨hp.1, hp.2.1⟩

theorem inFrame_receiver (ev : Event) {p : Player} (hp : p.InFrame) :
    ∃ r, Player.eventReceiverNode ev p = some r := by
  unfold Player.eventReceiverNode
  cases ev.receiverNode with
  | some r => exact ⟨r, rfl⟩
  | none => exact Option.isSome_iff_exists.1 hp.2.2.1

theorem handleCursorEvent_keeps (w : World) (ev : Event) (b : Bool) (p : Player)
    (hp : p.InFrame) :
    ∃ q, Player.handleCursorEvent w ev b p = some q ∧ Player.FrameKeeps p q := by
  obtain ⟨r, hr⟩ := inFrame_receiver ev hp
  obtain ⟨q, ds, s, _, e⟩ := handleCursorEvent_ready w ev b p r (inFrame_ready hp) hr
  have k := step_keeps s
  exact ⟨_, e, ⟨k.1, k.2.1, k.2.2.1, k.2.2.2.1, k.2.2.2.2⟩⟩

theorem routeEvent_keeps (w : World) (ev : Event) (p : Player) (hp : p.InFrame)
    (hev : ev.Routable) :
    ∃ r, Player.routeEvent w ev p = some r ∧ Player.FrameKeeps p r.2 := by
  obtain ⟨root, hroot⟩ := Option.isSome_iff_exists.1 hp.2.2.1
  by_cases hc : ev.cls = .mouseEvent ∨ ev.cls = .cursorEvent
  · by_cases ht : ev.type = .CURSOROUT ∨ ev.type = .CURSOROVER
    · obtain ⟨n, hn⟩ := Option.isSome_iff_exists.1 (hev hc ht)
      refine ⟨(true, (Player.nodeHandleEvent w n ev p).2), ?_,
        step_keeps (nodeHandleEvent_step w n ev p hp.1)⟩
      simp only [Player.routeEvent, hc, ht, if_true, hn]
    · obtain ⟨q, e, k⟩ := handleCursorEvent_keeps w ev false p hp
      refine ⟨(true, q), ?_, k⟩
      simp only [Player.routeEvent, hc, ht, if_true, if_false, e, Option.map_some']
  · have s1 := nodeHandleEvent_step w root ev p hp.1
    by_cases hk : ev.cls = .keyEvent
    · by_cases hs : (Player.nodeHandleEvent w root ev p).2.m_bStopOnEscape = true
          ∧ ev.type = .KEYDOWN ∧ ev.keyCode = w.KEY_ESCAPE
      · refine ⟨(true, Player.stop (Player.nodeHandleEvent w root ev p).2), ?_, ?_⟩
        · unfold Player.routeEvent
          rw [if_neg hc, if_pos hk]
          simp only [hroot, hs, and_self, if_true]
        · rw [stop_playing _ (step_fields s1).1]
          exact keeps_trans (step_keeps s1) ⟨(step_fields s1).1, rfl, rfl, rfl, rfl⟩
      · refine ⟨(true, (Player.nodeHandleEvent w root ev p).2), ?_, step_keeps s1⟩
        unfold Player.routeEvent
        rw [if_neg hc, if_pos hk]
        simp only [hroot, hs, if_false]
    · by_cases hq : ev.type = .QUIT
      · refine ⟨(true, Player.stop p), ?_, ?_⟩
        · simp only [Player.routeEvent, hc, hk, hq, if_false, ne_eq, not_true_eq_false]
        · rw [stop_playing _ hp.1]
          exact ⟨hp.1, rfl, rfl, rfl, rfl⟩
      · refine ⟨(true, (Player.nodeHandleEvent w root ev p).2), ?_, step_keeps s1⟩
        simp only [Player.routeEvent, hc, hk, hq, if_false, ne_eq, not_false_eq_true,
          if_true, hroot]

theorem handleEvent_keeps (w : World) (ev : Event) (p : Player) (hp : p.InFrame)
    (hev : ev.Routable) :
    ∃ r, Player.handleEvent w ev p = some r ∧ Player.FrameKeeps p r.2 := by
  have k0 := step_keeps (callEventHook_step w ev p hp.1)
  have hp1 := keeps_inFrame hp k0
  cases hh : (Player.callEventHook w ev p).1 with
  | true =>
    exact ⟨(true, (Player.callEventHook w ev p).2), by simp [Player.handleEvent, hh], k0⟩
  | false =>
    by_cases hm : ev.cls = .mouseEvent
    · obtain ⟨r, e, k⟩ := routeEvent_keeps w ev
        ((Player.callEventHook w ev p).2.setLastMouseEvent ev) hp1 hev
      exact ⟨r, by simp only [Player.handleEvent, hh, Bool.false_eq_true, if_false, hm,
        if_true, e], keeps_trans k0 ⟨k.1, k.2.1, k.2.2.1, k.2.2.2.1, k.2.2.2.2⟩⟩
    · obtain ⟨r, e, k⟩ := routeEvent_keeps w ev (Player.callEventHook w ev p).2 hp1 hev
      exact ⟨r, by simp only [Player.handleEvent, hh, Bool.false_eq_true, if_false, hm, e],
        keeps_trans k0 k⟩

theorem forEach_keeps {α : Type} (f : α → Player → Option Player) (xs : List α)
    (hf : ∀ x ∈ xs, ∀ q, q.InFrame → ∃ q1, f x q = some q1 ∧ Player.FrameKeeps q q1)
    (p : Player) (hp : p.InFrame) :
    ∃ q, forEach f xs p = some q ∧ Player.FrameKeeps p q := by
  induction xs generalizing p with
  | nil => exact ⟨p, rfl, keeps_refl p hp.1⟩
  | cons x xs ih =>
    obtain ⟨q1, e1, k1⟩ := hf x (List.mem_cons_self _ _) p hp
    obtain ⟨q, e, k⟩ := ih (fun y hy => hf y (List.mem_cons_of_mem _ hy)) q1
      (keeps_inFrame hp k1)
    exact ⟨q, (forEach_cons_some f x xs p q1 e1).trans e, keeps_trans k1 k⟩

theorem dispatch_keeps (w : World) (events : List Event) (p : Player) (hp : p.InFrame)
    (hev : ∀ ev ∈ events, ev.Routable) :
    ∃ q, Player.dispatch w events p = some q ∧ Player.FrameKeeps p q := by
  obtain ⟨q, e, k⟩ := forEach_keeps
    (fun ev q => (Player.handleEvent w ev q).map (fun r => r.2)) events
    (fun ev hm q hq => by
      obtain ⟨r, e, k⟩ := handleEvent_keeps w ev q hq (hev ev hm)
      exact ⟨r.2, by simp only [e, Option.map_some'], k⟩) p hp
  exact ⟨q, by simp only [Player.dispatch, hp.2.1, if_true, e], k⟩

theorem sendFakeEvents_keeps (w : World) (p : Player) (hp : p.InFrame) :
    ∃ q, Player.sendFakeEvents w p = some q ∧ Player.FrameKeeps p q :=
  forEach_keeps
    (fun (e : Int × CursorState) q => Player.handleCursorEvent w e.2.m_pLastEvent true q)
    p.m_pLastCursorStates
    (fun e _ q hq => handleCursorEvent_keeps w e.2.m_pLastEvent true q hq) p hp

theorem runCalls_playing (cs : List Call) (p : Timers) (h : p.m_bIsPlaying = true) :
    (runCalls cs p).m_bIsPlaying = true := by
  induction cs generalizing p with
  | nil => exact h
  | cons c cs ih => exact ih _ (run_playing c p h)

theorem handleTimersBody_playing (env : PyEnv) (p : Timers) (h : p.m_bIsPlaying = true) :
    (handleTimersBody env p).m_bIsPlaying = true := by
  by_cases hne : p.m_PendingTimeouts = []
  · rw [handleTimersBody_nil env p hne]; exact h
  · obtain ⟨t, rest, hp⟩ := List.exists_cons_of_ne_nil hne
    rw [handleTimersBody_cons env p t rest hp, (afterCallback_basic _ _).2.2.2.2.2.2]
    exact runCalls_playing _ _ h

/-- `handleTimers` returns, and the player is still playing afterwards. -/
theorem handleTimers_playing (env : PyEnv) (p : Timers) (h : p.m_bIsPlaying = true) :
    ∃ q, handleTimers env p = some q ∧ q.m_bIsPlaying = true := by
  obtain ⟨q, hq, hI, _⟩ := handleTimersLoop_induct env (fun s => s.m_bIsPlaying = true)
    (fun s _ hs _ => handleTimersBody_playing env s hs)
    (p.m_PendingTimeouts.length + 1) { p with m_bInHandleTimers := true } rfl h
    (by simp only; split <;> omega)
  exact ⟨finishHandleTimers q, by simp [handleTimers, hq], hI⟩

/-- Timers and events of one frame: `handleInput` returns, and the player keeps playing
with the canvases it had. -/
theorem handleInput_keeps (w : World) (inp : FrameInput) (p : Player) (hp : p.InFrame)
    (hev : ∀ ev ∈ inp.events, ev.Routable) :
    ∃ q, Player.handleInput w inp p = some q ∧ Player.FrameKeeps p q := by
  have ha : (Player.advanceFrameTime inp p).timers.m_bIsPlaying = true := by
    unfold Player.advanceFrameTime
    split <;> exact hp.1
  have hk : ∀ t : Timers, t.m_bIsPlaying = true →
      Player.FrameKeeps p ((Player.advanceFrameTime inp p).setTimers t) := by
    intro t ht
    unfold Player.advanceFrameTime
    split <;> exact ⟨ht, rfl, rfl, rfl, rfl⟩
  obtain ⟨t, et, ht⟩ := handleTimers_playing w.pyEnv _ ha
  obtain ⟨q1, e1, k1⟩ := dispatch_keeps w inp.events _ (keeps_inFrame hp (hk t ht)) hev
  obtain ⟨q2, e2, k2⟩ := sendFakeEvents_keeps w q1
    (keeps_inFrame (keeps_inFrame hp (hk t ht)) k1)
  exact ⟨q2, by simp only [Player.handleInput, et, e1, e2], keeps_trans (hk t ht) (keeps_trans k1 k2)⟩

theorem renderFrame_inFrame (w : World) (inp : FrameInput) (p : Player) (hp : p.InFrame) :
    Player.renderFrame w inp p = some (p.log (renderActions w inp p.m_pCanvases)) := by
  simp [Player.renderFrame, hp.2.2.1, hp.2.2.2]

theorem playLoop_stopping (w : World) (inp : Nat → FrameInput) (fuel k : Nat) (p : Player)
    (h : p.timers.m_bStopping = true) : Player.playLoop w inp fuel k p = some p := by
  cases fuel <;> simp [Player.playLoop, h]

/-! ## Stopping and starting the frame loop -/

theorem count_canvasDoFrame_replicate (c d n : Nat) :
    ((List.replicate n [Action.canvasDoFrame d, Action.updateCameraImage d]).flatten).count
      (Action.canvasDoFrame c) = if d = c then n else 0 := by
  induction n with
  | zero => simp
  | succ n ih =>
    rw [List.replicate_succ, List.flatten_cons, List.count_append, ih]
    by_cases e : d = c
    · simp [e, List.count_cons, Nat.add_comm]
    · simp [e, List.count_cons]

/-- How often one off-screen canvas renders in a frame: a canvas that does not render
automatically never, one with a camera once for each camera image that is available,
every other one once. -/
theorem count_canvasDoFrame_dispatch (w : World) (inp : FrameInput) (c d : Nat) :
    (dispatchOffscreenRendering w inp d).count (Action.canvasDoFrame c)
      = if d = c then
          (if w.getAutoRender c = true then
            (if w.hasRegisteredCamera c = true then inp.cameraImages c else 1) else 0)
        else 0 := by
  unfold dispatchOffscreenRendering
  by_cases e : d = c
  · subst e
    by_cases ha : w.getAutoRender d = true
    · by_cases hcam : w.hasRegisteredCamera d = true
      · simp [ha, hcam, List.count_cons, count_canvasDoFrame_replicate]
      · simp [ha, hcam, List.count_cons]
    · simp [ha]
  · by_cases ha : w.getAutoRender d = true
    · by_cases hcam : w.hasRegisteredCamera d = true
      · simp [e, ha, hcam, List.count_cons, count_canvasDoFrame_replicate]
      · simp [e, ha, hcam, List.count_cons]
    · simp [e, ha]

theorem count_canvasDoFrame_render (w : World) (inp : FrameInput) (c : Nat) (cs : List Nat) :
    (renderActions w inp cs).count (Action.canvasDoFrame c)
      = cs.count c *
          (if w.getAutoRender c = true then
            (if w.hasRegisteredCamera c = true then inp.cameraImages c else 1) else 0) := by
  have h : ∀ (n : Nat), (∀ d, (dispatchOffscreenRendering w inp d).count
        (Action.canvasDoFrame c) = if d = c then n else 0) → ∀ l : List Nat,
      ((l.map (dispatchOffscreenRendering w inp)).flatten).count (Action.canvasDoFrame c)
        = l.count c * n := by
    intro n hn l
    induction l with
    | nil => simp
    | cons d l ih =>
      rw [List.map_cons, List.flatten_cons, List.count_append, ih, hn, List.count_cons]
      by_cases e : d = c
      · simp only [e, if_true, beq_self_eq_true]
        ring
      · simp [e]
  simp only [renderActions, endFrame, List.count_append,
    h _ (count_canvasDoFrame_dispatch w inp c) cs]
  simp [List.count_cons]

/-- C19, as the code has it: the player runs frame `k` of `play`, not stopping so far, and
the events of the frame can be routed. A `stop()` while the player is playing changes the
stopping flag and nothing else. Timers and events of the frame run to their end, to a
state `q1` that is still playing, and whatever the stopping flag is then, `doFrame` goes on
to render: an off-screen canvas that renders automatically renders once when it has no
camera and once for each available camera image when it has one (so not at all when no
image is available), a canvas that does not render automatically does not render; then
the main canvas renders, and `endFrame` waits, swaps the buffers and checks the jitter.
When the stopping flag is set in `q1`, the loop of `play` ends with the state at the end of
frame `k`: no further frame is on the trace, the player is still playing there, and the
`cleanup` that follows the loop ends the playing. -/
theorem stop_during_frame (w : World) (inp : Nat → FrameInput) (k : Nat) (p : Player)
    (hp : p.InFrame) (hns : p.timers.m_bStopping = false)
    (hev : ∀ ev ∈ (inp k).events, ev.Routable) :
    (∀ s : Player, s.timers.m_bIsPlaying = true →
      Player.stop s = s.setStopping true) ∧
    ∃ q1, Player.handleInput w (inp k) p = some q1 ∧
      q1.timers.m_bIsPlaying = true ∧
      Player.doFrame w (inp k) false p =
        some (q1.log (renderActions w (inp k) p.m_pCanvases)) ∧
      (∀ c, (renderActions w (inp k) p.m_pCanvases).count (Action.canvasDoFrame c)
        = p.m_pCanvases.count c *
          (if w.getAutoRender c = true then
            (if w.hasRegisteredCamera c = true then (inp k).cameraImages c else 1)
          else 0)) ∧
      (∀ c ∈ p.m_pCanvases, w.getAutoRender c = true → w.hasRegisteredCamera c = false →
        Action.canvasDoFrame c ∈ renderActions w (inp k) p.m_pCanvases) ∧
      (∃ offscreen, renderActions w (inp k) p.m_pCanvases = offscreen ++
        [Action.mainCanvasDoFrame, Action.frameWait, Action.swapBuffers, Action.checkJitter]) ∧
      (q1.timers.m_bStopping = true → ∀ fuel,
        Player.playLoop w inp (fuel + 1) k p =
          some (q1.log (renderActions w (inp k) p.m_pCanvases)) ∧
        (q1.log (renderActions w (inp k) p.m_pCanvases)).timers.m_bIsPlaying = true ∧
        (Player.cleanup (q1.log (renderActions w (inp k) p.m_pCanvases))).timers.m_bIsPlaying
          = false) := by
  refine ⟨fun s hs => stop_playing s hs, ?_⟩
  obtain ⟨q1, e1, k1⟩ := handleInput_keeps w (inp k) p hp hev
  have hr := renderFrame_inFrame w (inp k) q1 (keeps_inFrame hp k1)
  rw [k1.2.2.2.2] at hr
  have hd : Player.doFrame w (inp k) false p =
      some (q1.log (renderActions w (inp k) p.m_pCanvases)) := by
    simp only [Player.doFrame, Bool.false_eq_true, if_false, e1, hr]
  refine ⟨q1, e1, k1.1, hd, fun c => count_canvasDoFrame_render w (inp k) c p.m_pCanvases, ?_,
    ⟨(p.m_pCanvases.map (dispatchOffscreenRendering w (inp k))).flatten,
      by simp [renderActions, endFrame]⟩, ?_⟩
  · intro c hc ha hcam
    simp only [renderActions, List.mem_append, List.mem_flatten, List.mem_map]
    exact Or.inl (Or.inl ⟨_, ⟨c, hc, rfl⟩, by simp [dispatchOffscreenRendering, ha, hcam]⟩)
  · intro hs fuel
    refine ⟨?_, k1.1, rfl⟩
    simp only [Player.playLoop, hns, Bool.false_eq_true, if_false, hd]
    exact playLoop_stopping w inp fuel (k + 1) _ hs

/-- C19, witness: in the scene of `demoStopping` a key goes down in frame 1 and the handler
of the root node calls `stop()`. Frame 1 goes on to render the off-screen canvas 7 and
the main canvas and to swap the buffers; then the loop ends, with the player still
playing. -/
theorem stop_during_frame_witness :
    (∃ q1, Player.handleInput demoStopping (demoFrames 1) demoWithCanvas = some q1) ∧
    (Player.playLoop demoStopping demoFrames 3 1 demoWithCanvas).map
      (fun q => (q.trace, q.timers.m_bStopping, q.timers.m_bIsPlaying)) =
      some ([Action.nodeHandleEvent 0 .KEYDOWN false, Action.canvasDoFrame 7,
        Action.mainCanvasDoFrame, Action.frameWait, Action.swapBuffers, Action.checkJitter],
        true, true) := by
  obtain ⟨_, q1, e1, _⟩ := stop_during_frame demoStopping demoFrames 1 demoWithCanvas
    ⟨rfl, rfl, rfl, rfl⟩ rfl (fun ev hev => by
      intro hc
      have : ev = keyEvent .KEYDOWN 65 := by simpa [demoFrames] using hev
      subst this
      simp [keyEvent] at hc)
  exact ⟨⟨q1, e1⟩, by decide⟩

/-- C19 fails as stated for a canvas that is fed by a camera: in the scene of
`demoCameraStopping` the off-screen canvas 7 renders automatically and has a camera, and no
camera image is available in frame 1. A key goes down and the handler of the root node
calls `stop()`. Frame 1 polls the camera of canvas 7, does not render that canvas,
renders the main canvas and presents; then the loop ends. -/
theorem stop_during_frame_camera_idle :
    demoCameraStopping.getAutoRender 7 = true ∧
    demoCameraStopping.hasRegisteredCamera 7 = true ∧
    (demoFrames 1).cameraImages 7 = 0 ∧
    (Player.playLoop demoCameraStopping demoFrames 3 1 demoWithCanvas).map
      (fun q => (q.trace, q.timers.m_bStopping, q.timers.m_bIsPlaying)) =
      some ([Action.nodeHandleEvent 0 .KEYDOWN false, Action.updateCameraImage 7,
        Action.mainCanvasDoFrame, Action.frameWait, Action.swapBuffers, Action.checkJitter],
        true, true) := by
  decide

/-- C18 fails on the code when the audio engine cannot be initialised: `play` is called
with a scene, the display engine initialises and `init` of the audio engine throws. Then
`play` throws that exception with the display engine initialised and not torn down (its
`init` is the last action on the trace); the player is not playing, and no frame has
run. -/
theorem play_audio_failure (w : World) (inp : Nat → FrameInput) (fuel : Nat) (p : Player)
    (root : Nat) (hm : p.m_pMainCanvas = some root) (hd : w.fails .displayInit = false)
    (ha : w.fails .audioInit = true) :
    ∃ q, Player.play w inp fuel p = some (.error (.failed .audioInit), q) ∧
      q.trace = p.trace ++ [Action.displayInit] ∧ q.m_pDisplayEngine = true ∧
      q.timers.m_bIsPlaying = false := by
  have hi : Player.initPlayback w p = (.error (.failed .audioInit),
      (((p.setPlaying true).createDisplayEngine).log
        [Action.displayInit]).createAudioEngine) := by
    simp only [Player.initPlayback, Player.initGraphics, Player.attempt, hd,
      Bool.false_eq_true, if_false, Player.initAudio, ha, if_true]
  refine ⟨Player.setPlaying false (((p.setPlaying true).createDisplayEngine).log
    [Action.displayInit]).createAudioEngine, by simp only [Player.play, hm, hi], ?_, ?_, ?_⟩
  · simp [Player.setPlaying, Player.setTimers, Player.log, Player.createDisplayEngine,
      Player.createAudioEngine]
  · simp [Player.setPlaying, Player.setTimers, Player.log, Player.createDisplayEngine,
      Player.createAudioEngine]
  · simp [Player.setPlaying, Player.setTimers]

/-- C18, witness: `play` on the loaded scene of `demoAudioFails` throws with the display
engine initialised and not torn down; when instead `initPlayback` of the main canvas
throws, in `demoCanvasFails`, `cleanup` runs and tears down display and audio. -/
theorem play_audio_failure_witness :
    (∃ q, Player.play demoAudioFails demoFrames 0 demoLoaded =
      some (.error (.failed .audioInit), q)) ∧
    (Player.play demoAudioFails demoFrames 0 demoLoaded).map
      (fun r => (r.2.trace, r.2.m_pDisplayEngine, r.2.timers.m_bIsPlaying)) =
      some ([Action.displayInit], true, false) ∧
    (Player.play demoCanvasFails demoFrames 0 demoLoaded).map
      (fun r => (r.2.trace, r.2.timers.m_bIsPlaying)) =
      some ([Action.displayInit, Action.audioInit, Action.audioPlay, Action.mainStopPlayback,
        Action.deinitRender, Action.displayTeardown, Action.audioTeardown], false) := by
  obtain ⟨q, e, _⟩ := play_audio_failure demoAudioFails demoFrames 0 demoLoaded 0 rfl rfl rfl
  exact ⟨⟨q, e⟩, by decide, by decide⟩

/-! ## The termination event and the steps of a frame -/

/-- C21: an event of type `QUIT` that is no cursor event and no key event and that the hook
does not consume. With `p1` the player after the hook has made its calls (the player
itself when there is no hook, or a hook that makes none): whatever the stop-on-escape
flag, the capture table and the cursor states are, `handleEvent` returns with the player
that `stop()` gives on `p1`: no node has got the event or a notification, and while the
player is playing the stopping flag is set and nothing else has changed. -/
theorem handleEvent_quit (w : World) (ev : Event) (p : Player)
    (hcls : ev.cls = .otherEvent) (hty : ev.type = .QUIT)
    (hhook : (Player.callEventHook w ev p).1 = false) :
    Player.handleEvent w ev p = some (true, Player.stop (Player.callEventHook w ev p).2) ∧
    (Player.stop (Player.callEventHook w ev p).2).trace.filter Action.isDelivery
      = p.trace.filter Action.isDelivery ∧
    (Player.stop (Player.callEventHook w ev p).2).trace.filter Action.isNotification =
      p.trace.filter Action.isNotification ∧
    (p.timers.m_bIsPlaying = true →
      Player.stop (Player.callEventHook w ev p).2
        = (Player.callEventHook w ev p).2.setStopping true ∧
      (Player.stop (Player.callEventHook w ev p).2).timers.m_bStopping = true ∧
      (Player.stop (Player.callEventHook w ev p).2).trace = p.trace) ∧
    ((Player.callEventHook w ev p).2 = p →
      Player.handleEvent w ev p = some (true, Player.stop p)) := by
  have hhe : Player.handleEvent w ev p
      = some (true, Player.stop (Player.callEventHook w ev p).2) := by
    simp [Player.handleEvent, Player.routeEvent, hhook, hcls, hty]
  have hnd := callEventHook_no_delivery w ev p
  have hst : ∀ s : Player,
      (Player.stop s).trace.filter Action.isDelivery = s.trace.filter Action.isDelivery ∧
      (Player.stop s).trace.filter Action.isNotification
        = s.trace.filter Action.isNotification := by
    intro s
    by_cases hs : s.timers.m_bIsPlaying = true
    · rw [stop_playing s hs]; exact ⟨rfl, rfl⟩
    · simp only [Player.stop, hs, Bool.false_eq_true, if_false, Player.cleanup,
        List.filter_append, (cleanupActions_no_delivery s).1,
        (cleanupActions_no_delivery s).2, List.append_nil, and_self]
  refine ⟨hhe, (hst _).1.trans hnd.1, (hst _).2.trans hnd.2, ?_, ?_⟩
  · intro hp
    have f0 := step_fields (callEventHook_step w ev p hp)
    rw [stop_playing _ f0.1]
    refine ⟨rfl, rfl, ?_⟩
    show (Player.callEventHook w ev p).2.trace = p.trace
    rw [f0.2.1, List.append_nil]
  · intro h0
    rw [hhe, h0]

/-- C21, witness: the termination event arrives while a touch is tracked; the stopping flag
is set and nothing is delivered. -/
theorem handleEvent_quit_witness :
    Player.handleEvent demoWorld quitEvent demoTouched = some (true, Player.stop demoTouched) ∧
    (Player.handleEvent demoWorld quitEvent demoTouched).map
      (fun r => (r.2.trace, r.2.timers.m_bStopping)) = some ([], true) :=
  ⟨(handleEvent_quit demoWorld quitEvent demoTouched rfl rfl rfl).1, by decide⟩

theorem mem_outNodes (w : World) (C P : List Nat) (n : Nat) (h : n ∈ outNodes w C P) :
    n ∈ P ∧ n ∉ C := by
  unfold outNodes at h
  obtain ⟨a, ha, hl⟩ := List.mem_filterMap.1 h
  obtain ⟨haP, hf⟩ := List.mem_filter.1 ha
  have han : a = n := by
    unfold lock at hl
    split at hl
    · exact Option.some.inj hl
    · cases hl
  subst han
  refine ⟨haP, fun hc => ?_⟩
  have : C.any (fun cur => lock w cur == lock w a) = true :=
    List.any_eq_true.2 ⟨a, hc, by simp⟩
  rw [this] at hf
  cases hf

theorem mem_overNodes (w : World) (C P : List Nat) (n : Nat) (h : n ∈ overNodes w C P) :
    n ∈ C ∧ n ∉ P :=
  mem_outNodes w P C n h

theorem outNodes_self (w : World) (C : List Nat) : outNodes w C C = [] :=
  List.eq_nil_iff_forall_not_mem.2 (fun n h => (mem_outNodes w C C n h).2 (mem_outNodes w C C n h).1)

theorem overNodes_self (w : World) (C : List Nat) : overNodes w C C = [] :=
  outNodes_self w C

theorem contactActions_redelivery (w : World) (ev : Event) (C : List Nat) :
    contactActions w ev true C = [] ∧ contactEvent w ev true C = ev := by
  unfold contactActions contactEvent
  cases C with
  | nil => exact ⟨rfl, rfl⟩
  | cons first rest => simp

/-- One re-delivery while the player is playing: no listener of a contact and no node
gets the event. -/
theorem redelivery_step (w : World) (ev : Event) (s : Player) (r : Nat) (hs : s.Ready)
    (hr : Player.eventReceiverNode ev s = some r) :
    ∃ q, Player.handleCursorEvent w ev true s = some q ∧
      q.trace = s.trace ++
        ((outNodes w (w.getElementsByPos r ev.pos)
          (Player.lastCursorNodes ev.cursorID s)).map (Action.sendEvent .CURSOROUT) ++
        (overNodes w (w.getElementsByPos r ev.pos)
          (Player.lastCursorNodes ev.cursorID s)).map (Action.sendEvent .CURSOROVER) ++
        (if ev.isRelease then
          ((w.getElementsByPos r ev.pos).filterMap (lock w)).map (Action.sendEvent .CURSOROUT)
          else [])) ∧
      q.m_pLastCursorStates =
        (if ev.isRelease then cursorErase ev.cursorID s.m_pLastCursorStates
          else cursorSet ev.cursorID (CursorState.mk ev (w.getElementsByPos r ev.pos))
            s.m_pLastCursorStates) ∧
      Player.FrameKeeps s q := by
  obtain ⟨q, ds, st, hd, e⟩ := handleCursorEvent_ready w ev true s r hs hr
  simp only [if_true] at hd
  subst hd
  have k := step_keeps st
  refine ⟨_, e, ?_, ?_, ⟨k.1, k.2.1, k.2.2.1, k.2.2.2.1, k.2.2.2.2⟩⟩
  · have ht : (q.setCursorStates (cursorStatesAfter w ev true (w.getElementsByPos r ev.pos)
        s.m_pLastCursorStates)).trace = s.trace ++ cursorEventActions w ev true
          (w.getElementsByPos r ev.pos) (Player.lastCursorNodes ev.cursorID s) [] :=
      (step_fields st).2.1
    rw [ht]
    simp only [cursorEventActions, (contactActions_redelivery w ev _).1, List.nil_append,
      List.map_nil, List.append_nil, List.append_assoc]
  · show cursorStatesAfter w ev true (w.getElementsByPos r ev.pos) s.m_pLastCursorStates = _
    simp only [cursorStatesAfter, (contactActions_redelivery w ev _).2]

theorem cursorFind_of_mem (l : List (Int × CursorState))
    (hl : (l.map Prod.fst).Pairwise (fun a b => a < b)) (e : Int × CursorState)
    (he : e ∈ l) : cursorFind e.1 l = some e.2 := by
  induction l with
  | nil => cases he
  | cons x rest ih =>
    obtain ⟨k1, s1⟩ := x
    simp only [List.map_cons, List.pairwise_cons] at hl
    rw [cursorFind_cons]
    rcases List.mem_cons.1 he with e1 | hm
    · subst e1; rw [if_pos rfl]
    · have hlt : k1 < e.1 := hl.1 e.1 (List.mem_map.2 ⟨e, hm, rfl⟩)
      rw [if_neg (ne_of_lt hlt)]
      exact ih hl.2 hm

theorem receiver_of_keeps (ev : Event) {s q : Player} (k : Player.FrameKeeps s q) :
    Player.eventReceiverNode ev q = Player.eventReceiverNode ev s := by
  unfold Player.eventReceiverNode
  rw [k.2.2.1]

/-- One re-delivery of the stored event of a cursor: the notifications go to the nodes
that have left or entered the hit set, and nothing happens when the hit set is the stored
one. -/
theorem redelivery_entry (w : World) (k : Int) (st : CursorState) (s : Player) (r : Nat)
    (hs : s.Ready) (hf : cursorFind k s.m_pLastCursorStates = some st)
    (hk : st.m_pLastEvent.cursorID = k) (hrel : st.m_pLastEvent.isRelease = false)
    (hr : Player.eventReceiverNode st.m_pLastEvent s = some r) :
    ∃ q, Player.handleCursorEvent w st.m_pLastEvent true s = some q ∧
      q.trace = s.trace ++
        ((outNodes w (w.getElementsByPos r st.m_pLastEvent.pos) st.m_pNodes).map
          (Action.sendEvent .CURSOROUT) ++
        (overNodes w (w.getElementsByPos r st.m_pLastEvent.pos) st.m_pNodes).map
          (Action.sendEvent .CURSOROVER)) ∧
      Player.FrameKeeps s q ∧
      (w.getElementsByPos r st.m_pLastEvent.pos = st.m_pNodes →
        q.trace = s.trace ∧
        ∀ k1, cursorFind k1 q.m_pLastCursorStates = cursorFind k1 s.m_pLastCursorStates) := by
  obtain ⟨q, e, ht, hst, hkeep⟩ := redelivery_step w st.m_pLastEvent s r hs hr
  have hP : Player.lastCursorNodes st.m_pLastEvent.cursorID s = st.m_pNodes := by
    simp only [Player.lastCursorNodes, hk, hf]
  rw [hP, hrel] at ht
  simp only [Bool.false_eq_true, if_false, List.append_nil] at ht
  rw [hrel, hk] at hst
  simp only [Bool.false_eq_true, if_false] at hst
  refine ⟨q, e, ht, hkeep, ?_⟩
  intro hC
  constructor
  · rw [ht, hC, outNodes_self, overNodes_self]; simp
  · intro k1
    rw [hst, hC]
    by_cases h1 : k1 = k
    · subst h1
      rw [cursorFind_set_self, hf]
    · exact cursorFind_set_ne _ _ _ _ h1

theorem redelivery_loop (w : World) (l : List (Int × CursorState)) (s : Player)
    (hs : s.InFrame) :
    ∃ q acts,
      forEach (fun (e : Int × CursorState) q =>
        Player.handleCursorEvent w e.2.m_pLastEvent true q) l s = some q ∧
      q.trace = s.trace ++ acts ∧
      (∀ a ∈ acts, ∃ n, a = Action.sendEvent .CURSOROUT n ∨ a = Action.sendEvent .CURSOROVER n) ∧
      Player.FrameKeeps s q := by
  induction l generalizing s with
  | nil => exact ⟨s, [], rfl, by simp, (fun _ h => by cases h), keeps_refl s hs.1⟩
  | cons e rest ih =>
    obtain ⟨r, hr⟩ := inFrame_receiver e.2.m_pLastEvent hs
    obtain ⟨q1, e1, ht1, _, k1⟩ := redelivery_step w e.2.m_pLastEvent s r (inFrame_ready hs) hr
    obtain ⟨q, acts, e2, ht2, ha2, k2⟩ := ih q1 (keeps_inFrame hs k1)
    refine ⟨q, _, (forEach_cons_some _ e rest s q1 e1).trans e2,
      by rw [ht2, ht1, List.append_assoc], ?_, keeps_trans k1 k2⟩
    intro a ha
    rcases List.mem_append.1 ha with h1 | h1
    · rcases List.mem_append.1 h1 with h2 | h2
      · rcases List.mem_append.1 h2 with h3 | h3
        · obtain ⟨n, _, rfl⟩ := List.mem_map.1 h3
          exact ⟨n, Or.inl rfl⟩
        · obtain ⟨n, _, rfl⟩ := List.mem_map.1 h3
          exact ⟨n, Or.inr rfl⟩
      · split at h2
        · obtain ⟨n, _, rfl⟩ := List.mem_map.1 h2
          exact ⟨n, Or.inl rfl⟩
        · cases h2
    · exact ha2 a h1

theorem redelivery_loop_unchanged (w : World) (l : List (Int × CursorState)) (s : Player)
    (hs : s.InFrame)
    (hl : ∀ e ∈ l, e.2.m_pLastEvent.cursorID = e.1 ∧ e.2.m_pLastEvent.isRelease = false)
    (hfind : ∀ e ∈ l, cursorFind e.1 s.m_pLastCursorStates = some e.2)
    (hsame : ∀ e ∈ l, ∀ r, Player.eventReceiverNode e.2.m_pLastEvent s = some r →
      w.getElementsByPos r e.2.m_pLastEvent.pos = e.2.m_pNodes) :
    ∃ q,
      forEach (fun (e : Int × CursorState) q =>
        Player.handleCursorEvent w e.2.m_pLastEvent true q) l s = some q ∧
      q.trace = s.trace ∧
      (∀ k, cursorFind k q.m_pLastCursorStates = cursorFind k s.m_pLastCursorStates) ∧
      Player.FrameKeeps s q := by
  induction l generalizing s with
  | nil => exact ⟨s, rfl, rfl, fun _ => rfl, keeps_refl s hs.1⟩
  | cons e rest ih =>
    have he := List.mem_cons_self e rest
    obtain ⟨r, hr⟩ := inFrame_receiver e.2.m_pLastEvent hs
    obtain ⟨q1, e1, _, k1, hu⟩ := redelivery_entry w e.1 e.2 s r (inFrame_ready hs)
      (hfind e he) (hl e he).1 (hl e he).2 hr
    obtain ⟨ht1, hf1⟩ := hu (hsame e he r hr)
    obtain ⟨q, e2, ht2, hf2, k2⟩ := ih q1 (keeps_inFrame hs k1)
      (fun x hx => hl x (List.mem_cons_of_mem _ hx))
      (fun x hx => by rw [hf1]; exact hfind x (List.mem_cons_of_mem _ hx))
      (fun x hx r1 hr1 => hsame x (List.mem_cons_of_mem _ hx) r1
        (by rw [← receiver_of_keeps x.2.m_pLastEvent k1]; exact hr1))
    exact ⟨q, (forEach_cons_some _ e rest s q1 e1).trans e2, ht2.trans ht1,
      fun k => (hf2 k).trans (hf1 k), keeps_trans k1 k2⟩

/-- C24: the player is in a frame and its table of cursor states is as `handleCursorEvent`
fills it. Then `sendFakeEvents` returns and puts on the trace only `CURSOROUT` and
`CURSOROVER` notifications; no node gets a stored event itself. The re-delivery for one
stored state, in whatever state of the frame it runs, sends `CURSOROUT` to nodes of the
stored hit set that are not in the new hit set and `CURSOROVER` to nodes of the new hit
set that are not in the stored one, and nothing else; when the new hit set is the stored
one it sends nothing and leaves every stored cursor state as it is. When that holds for
every stored state, the whole of `sendFakeEvents` leaves the trace and the stored cursor
states as they are. -/
theorem sendFakeEvents_redelivery (w : World) (p : Player) (hp : p.InFrame)
    (hok : p.StatesOk) :
    (∃ q acts, Player.sendFakeEvents w p = some q ∧ q.trace = p.trace ++ acts ∧
      Player.deliveriesSince p q = [] ∧
      ∀ a ∈ acts, ∃ n, a = Action.sendEvent .CURSOROUT n ∨ a = Action.sendEvent .CURSOROVER n) ∧
    (∀ e ∈ p.m_pLastCursorStates, ∀ (s : Player) (r : Nat), s.Ready →
      cursorFind e.1 s.m_pLastCursorStates = some e.2 →
      Player.eventReceiverNode e.2.m_pLastEvent s = some r →
      ∃ (q : Player) (outs overs : List Nat),
        Player.handleCursorEvent w e.2.m_pLastEvent true s = some q ∧
        q.trace = s.trace ++ (outs.map (Action.sendEvent .CURSOROUT) ++
          overs.map (Action.sendEvent .CURSOROVER)) ∧
        (∀ n ∈ outs, n ∈ e.2.m_pNodes ∧ n ∉ w.getElementsByPos r e.2.m_pLastEvent.pos) ∧
        (∀ n ∈ overs, n ∈ w.getElementsByPos r e.2.m_pLastEvent.pos ∧ n ∉ e.2.m_pNodes) ∧
        (w.getElementsByPos r e.2.m_pLastEvent.pos = e.2.m_pNodes →
          q.trace = s.trace ∧ ∀ k,
            cursorFind k q.m_pLastCursorStates = cursorFind k s.m_pLastCursorStates)) ∧
    ((∀ e ∈ p.m_pLastCursorStates, ∀ r,
        Player.eventReceiverNode e.2.m_pLastEvent p = some r →
        w.getElementsByPos r e.2.m_pLastEvent.pos = e.2.m_pNodes) →
      ∃ q, Player.sendFakeEvents w p = some q ∧ q.trace = p.trace ∧
        ∀ k, cursorFind k q.m_pLastCursorStates = cursorFind k p.m_pLastCursorStates) := by
  refine ⟨?_, ?_, ?_⟩
  · obtain ⟨q, acts, e, ht, ha, _⟩ := redelivery_loop w p.m_pLastCursorStates p hp
    refine ⟨q, acts, e, ht, ?_, ha⟩
    simp only [Player.deliveriesSince, ht, List.drop_left]
    refine List.filter_eq_nil_iff.2 (fun a h => ?_)
    obtain ⟨n, rfl | rfl⟩ := ha a h <;> simp [Action.isDelivery]
  · intro e he s r hs hf hr
    obtain ⟨q, e1, ht, _, hu⟩ := redelivery_entry w e.1 e.2 s r hs hf (hok.2 e he).1
      (hok.2 e he).2 hr
    exact ⟨q, outNodes w (w.getElementsByPos r e.2.m_pLastEvent.pos) e.2.m_pNodes,
      overNodes w (w.getElementsByPos r e.2.m_pLastEvent.pos) e.2.m_pNodes, e1, ht,
      fun n hn => mem_outNodes w _ _ n hn, fun n hn => mem_overNodes w _ _ n hn, hu⟩
  · intro hsame
    obtain ⟨q, e, ht, hf, _⟩ := redelivery_loop_unchanged w p.m_pLastCursorStates p hp hok.2
      (fun e he => cursorFind_of_mem _ hok.1 e he) hsame
    exact ⟨q, e, ht, hf⟩

/-- C24, witness: the touch of `demoTouched` rests over node 1; the re-delivery sends
nothing and the table stays as it is. -/
theorem sendFakeEvents_redelivery_witness :
    (∃ q, Player.sendFakeEvents demoWorld demoTouched = some q ∧ q.trace = demoTouched.trace) ∧
    (Player.sendFakeEvents demoWorld demoTouched).map
      (fun q => (q.trace, q.m_pLastCursorStates)) =
      some ([], demoTouched.m_pLastCursorStates) := by
  obtain ⟨_, _, h⟩ := sendFakeEvents_redelivery demoWorld demoTouched ⟨rfl, rfl, rfl, rfl⟩
    ⟨by simp [demoTouched, Player.setCursorStates], by
      intro e he
      have : e = (5, CursorState.mk (touchEvent .CURSORMOTION (1, 0)) [1, 0]) := by
        simpa [demoTouched, Player.setCursorStates] using he
      subst this
      exact ⟨rfl, rfl⟩⟩
  obtain ⟨q, e, ht, _⟩ := h (by
    intro e he r hr
    have : e = (5, CursorState.mk (touchEvent .CURSORMOTION (1, 0)) [1, 0]) := by
      simpa [demoTouched, Player.setCursorStates] using he
    subst this
    have hr0 : r = 0 := by
      have : some (0 : Nat) = some r := hr
      exact (Option.some.inj this).symm
    subst hr0
    rfl)
  exact ⟨⟨q, e, ht⟩, by decide⟩

theorem mem_cursorSet (k : Int) (s : CursorState) (l : List (Int × CursorState))
    (e : Int × CursorState) (h : e ∈ cursorSet k s l) : e = (k, s) ∨ e ∈ l := by
  induction l with
  | nil => exact Or.inl (List.mem_singleton.1 h)
  | cons x rest ih =>
    obtain ⟨k1, s1⟩ := x
    simp only [cursorSet] at h
    split at h
    · rcases List.mem_cons.1 h with e1 | hm
      · exact Or.inl e1
      · exact Or.inr hm
    · split at h
      · rcases List.mem_cons.1 h with e1 | hm
        · exact Or.inl e1
        · exact Or.inr (List.mem_cons_of_mem _ hm)
      · rcases List.mem_cons.1 h with e1 | hm
        · exact Or.inr (e1 ▸ List.mem_cons_self _ _)
        · rcases ih hm with e2 | hm2
          · exact Or.inl e2
          · exact Or.inr (List.mem_cons_of_mem _ hm2)

theorem cursorSet_sorted (k : Int) (s : CursorState) (l : List (Int × CursorState))
    (hl : (l.map Prod.fst).Pairwise (fun a b => a < b)) :
    ((cursorSet k s l).map Prod.fst).Pairwise (fun a b => a < b) := by
  induction l with
  | nil => simp [cursorSet]
  | cons x rest ih =>
    obtain ⟨k1, s1⟩ := x
    simp only [List.map_cons, List.pairwise_cons] at hl
    simp only [cursorSet]
    split
    · rename_i h1
      simp only [List.map_cons, List.pairwise_cons]
      refine ⟨?_, hl.1, hl.2⟩
      intro a ha
      rcases List.mem_cons.1 ha with e1 | hm
      · rw [e1]; exact h1
      · exact lt_trans h1 (hl.1 a hm)
    · split
      · rename_i h1 h2
        simp only [List.map_cons, List.pairwise_cons]
        exact ⟨fun a ha => h2 ▸ hl.1 a ha, hl.2⟩
      · rename_i h1 h2
        simp only [List.map_cons, List.pairwise_cons]
        refine ⟨?_, ih hl.2⟩
        intro a ha
        obtain ⟨e, he, rfl⟩ := List.mem_map.1 ha
        rcases mem_cursorSet k s rest e he with e1 | hm
        · rw [e1]
          exact lt_of_le_of_ne (not_lt.1 h1) (fun e2 => h2 e2.symm)
        · exact hl.1 e.1 (List.mem_map.2 ⟨e, hm, rfl⟩)

/-- The table of cursor states stays a well-formed map when `handleCursorEvent` writes
it. -/
theorem handleCursorEvent_statesOk (w : World) (ev : Event) (b : Bool) (p : Player) (r : Nat)
    (hp : p.Ready) (hr : Player.eventReceiverNode ev p = some r) (hok : p.StatesOk) :
    ∃ q, Player.handleCursorEvent w ev b p = some q ∧ q.StatesOk := by
  obtain ⟨q, ds, _, _, e⟩ := handleCursorEvent_ready w ev b p r hp hr
  refine ⟨_, e, ?_⟩
  show ((cursorStatesAfter w ev b (w.getElementsByPos r ev.pos)
      p.m_pLastCursorStates).map Prod.fst).Pairwise (fun a b => a < b) ∧
    ∀ x ∈ cursorStatesAfter w ev b (w.getElementsByPos r ev.pos) p.m_pLastCursorStates,
      x.2.m_pLastEvent.cursorID = x.1 ∧ x.2.m_pLastEvent.isRelease = false
  unfold cursorStatesAfter
  cases hrel : ev.isRelease with
  | true =>
    simp only [if_true]
    constructor
    · exact hok.1.sublist ((List.filter_sublist _).map _)
    · intro x hx
      exact hok.2 x (List.mem_of_mem_filter hx)
  | false =>
    simp only [Bool.false_eq_true, if_false]
    refine ⟨cursorSet_sorted _ _ _ hok.1, ?_⟩
    intro x hx
    rcases mem_cursorSet _ _ _ x hx with e1 | hm
    · rw [e1]
      have hf := contactEvent_fields w ev b (w.getElementsByPos r ev.pos)
      exact ⟨hf.2.2.1, hf.2.2.2.trans hrel⟩
    · exact hok.2 x hm

/-! ## A callback that stops the player while it is playing -/

theorem run_withStopping (c : Call) (b : Bool) (p : Timers) (hc : c ≠ .stop) :
    c.run (withStopping b p) = withStopping b (c.run p) := by
  cases c with
  | setTimeout time f =>
    simp only [Call.run, Avg.setTimeout, withStopping]
    split <;> rfl
  | setInterval time f =>
    simp only [Call.run, Avg.setInterval, withStopping]
    split <;> rfl
  | clearInterval id =>
    simp only [Call.run, Avg.clearInterval, withStopping]
    split
    · rfl
    · split <;> rfl
  | stop => exact absurd rfl hc

theorem run_stopping_eq (c : Call) (p : Timers) (hc : c ≠ .stop) :
    (c.run p).m_bStopping = p.m_bStopping := by
  cases c with
  | setTimeout time f => simp only [Call.run, Avg.setTimeout]; split <;> rfl
  | setInterval time f => simp only [Call.run, Avg.setInterval]; split <;> rfl
  | clearInterval id =>
    simp only [Call.run, Avg.clearInterval]
    split
    · rfl
    · split <;> rfl
  | stop => exact absurd rfl hc

theorem withStopping_self (p : Timers) : withStopping p.m_bStopping p = p := rfl

theorem withStopping_twice (a b : Bool) (p : Timers) :
    withStopping a (withStopping b p) = withStopping a p := rfl

theorem runCalls_withStopping (cs : List Call) (b : Bool) (p : Timers)
    (hs : Call.stop ∉ cs) :
    runCalls cs (withStopping b p) = withStopping b (runCalls cs p) := by
  induction cs generalizing p with
  | nil => rfl
  | cons c cs ih =>
    simp only [runCalls]
    rw [run_withStopping c b p (fun e => hs (e ▸ List.mem_cons_self _ _)),
      ih _ (fun h => hs (List.mem_cons_of_mem _ h))]

theorem stop_not_mem_withoutStop (cs : List Call) : Call.stop ∉ withoutStop cs := by
  intro h
  have := (List.mem_filter.1 h).2
  simp at this

theorem mem_withoutStop {cs : List Call} {c : Call} (h : c ∈ withoutStop cs) : c ∈ cs :=
  (List.mem_filter.1 h).1

/-- While the player is playing, the `stop()` calls of a callback set the stopping flag and
do nothing else: the other calls of the callback act as if they were alone. -/
theorem runCalls_playing_stop (cs : List Call) (p : Timers) (hp : p.m_bIsPlaying = true) :
    runCalls cs p =
      withStopping (p.m_bStopping || decide (Call.stop ∈ cs)) (runCalls (withoutStop cs) p) := by
  induction cs generalizing p with
  | nil => simp [runCalls, withoutStop, withStopping_self]
  | cons c cs ih =>
    by_cases hc : c = .stop
    · subst hc
      have hstop : Call.stop.run p = withStopping true p := by
        simp [Call.run, Avg.stop, hp, withStopping]
      have hw : withoutStop (Call.stop :: cs) = withoutStop cs := by
        simp [withoutStop, List.filter_cons]
      simp only [runCalls, hstop, hw]
      rw [ih (withStopping true p) hp,
        runCalls_withStopping _ true p (stop_not_mem_withoutStop cs), withStopping_twice]
      simp [withStopping]
    · have hw : withoutStop (c :: cs) = c :: withoutStop cs := by
        simp [withoutStop, List.filter_cons, hc]
      simp only [runCalls, hw]
      rw [ih (c.run p) (run_playing c p hp), run_stopping_eq c p hc]
      have : (Call.stop ∈ c :: cs) ↔ (Call.stop ∈ cs) := by
        constructor
        · intro h
          rcases List.mem_cons.1 h with e | h
          · exact absurd e.symm hc
          · exact h
        · exact List.mem_cons_of_mem _
      simp only [this]

theorem afterCallback_withStopping (now : Int) (b : Bool) (p : Timers) :
    afterCallback now (withStopping b p) = withStopping b (afterCallback now p) := by
  simp only [afterCallback, withStopping]
  split
  · rfl
  · split
    · rfl
    · split <;> rfl

/-- One iteration of the loop of `handleTimers` while the player is playing: the result is
that of the same callback without its `stop()` calls, with the stopping flag set when the
callback has called `stop()`. -/
theorem handleTimersBody_playing_stop (env : PyEnv) (s : Timers) (h : Timeout)
    (rest : List Timeout) (hp : s.m_PendingTimeouts = h :: rest)
    (hplay : s.m_bIsPlaying = true) :
    handleTimersBody env s =
      withStopping (s.m_bStopping || decide (Call.stop ∈ env h.pyFunc s))
        (handleTimersBody (onlyCallback env h.pyFunc s) s) ∧
    handleTimersBody (noStop env) s = handleTimersBody (onlyCallback env h.pyFunc s) s := by
  have e1 : onlyCallback env h.pyFunc s h.pyFunc s = withoutStop (env h.pyFunc s) := by
    simp [onlyCallback]
  constructor
  · rw [handleTimersBody_cons env s h rest hp,
      handleTimersBody_cons (onlyCallback env h.pyFunc s) s h rest hp, e1,
      runCalls_playing_stop _ _ (show (recordFired h s).m_bIsPlaying = true from hplay),
      afterCallback_withStopping]
    rfl
  · rw [handleTimersBody_cons (noStop env) s h rest hp,
      handleTimersBody_cons (onlyCallback env h.pyFunc s) s h rest hp, e1]
    rfl

theorem handleTimersCond_stopping (p : Timers) (h : p.m_bStopping = true) :
    handleTimersCond p = false := by
  unfold handleTimersCond
  split
  · rfl
  · simp [h]

theorem handleTimersLoop_stopping (env : PyEnv) (fuel : Nat) (p : Timers)
    (h : p.m_bStopping = true) : handleTimersLoop env fuel p = some p := by
  cases fuel <;> simp [handleTimersLoop, handleTimersCond_stopping p h]

theorem mem_finishHandleTimers (q : Timers) (t : Timeout) :
    t ∈ (finishHandleTimers q).m_PendingTimeouts ↔
      t ∈ q.m_NewTimeouts ∨ t ∈ q.m_PendingTimeouts := by
  rw [(finishHandleTimers_perm q).mem_iff, List.mem_append]

/-- C23, as the code has it: the playing player is inside a pass, between two iterations,
with unique timeout ids; the timeout `h` at the head of the queue is due and its callback
calls `stop()`. Then the loop ends after this iteration, whatever fuel is left: the
callback has made all its calls, `h` is the last timeout that the pass fires, every
timeout queued behind `h` that this callback does not cancel is in the queue after the
pass and has not fired, and the staging buffer has been merged into the queue and is
empty. -/
theorem stop_ends_pass (env : PyEnv) (s : Timers) (h : Timeout) (rest : List Timeout)
    (hin : s.m_bInHandleTimers = true) (hplay : s.m_bIsPlaying = true) (hw : WellFormed s)
    (hp : s.m_PendingTimeouts = h :: rest) (hc : handleTimersCond s = true)
    (hstop : Call.stop ∈ env h.pyFunc s) :
    (∀ fuel, handleTimersLoop env (fuel + 1) s = some (handleTimersBody env s)) ∧
    handleTimersBody env s =
      afterCallback s.m_FrameTime (runCalls (env h.pyFunc s) (recordFired h s)) ∧
    (finishHandleTimers (handleTimersBody env s)).fired = s.fired ++ [h] ∧
    (∀ t ∈ rest, Call.clearInterval t.id ∉ env h.pyFunc s →
      t ∈ (finishHandleTimers (handleTimersBody env s)).m_PendingTimeouts ∧ t.id ≠ h.id) ∧
    (∀ u ∈ (handleTimersBody env s).m_NewTimeouts,
      u ∈ (finishHandleTimers (handleTimersBody env s)).m_PendingTimeouts) ∧
    (finishHandleTimers (handleTimersBody env s)).m_NewTimeouts = [] ∧
    (finishHandleTimers (handleTimersBody env s)).m_bInHandleTimers = false := by
  have hb := (handleTimersBody_playing_stop env s h rest hp hplay).1
  have hst : (handleTimersBody env s).m_bStopping = true := by
    rw [hb]; simp [withStopping, hstop]
  refine ⟨?_, handleTimersBody_cons env s h rest hp, ?_, ?_, ?_, rfl, rfl⟩
  · intro fuel
    simp only [handleTimersLoop, hc, if_true]
    exact handleTimersLoop_stopping env fuel _ hst
  · show (handleTimersBody env s).fired = s.fired ++ [h]
    exact handleTimersBody_fired env s h rest hin hp
  · intro t ht hct
    constructor
    · rw [mem_finishHandleTimers]
      right
      rw [hb]
      show t ∈ (handleTimersBody (onlyCallback env h.pyFunc s) s).m_PendingTimeouts
      refine handleTimersBody_mem_pending _ s h t rest hin hw hp ht ?_ ?_
      · intro f s1 hm
        unfold onlyCallback at hm
        split at hm
        · rename_i hfs
          rw [hfs.1, hfs.2] at hm
          exact hct (mem_withoutStop hm)
        · cases hm
      · intro f s1 hm
        unfold onlyCallback at hm
        split at hm
        · exact stop_not_mem_withoutStop _ hm
        · cases hm
    · intro e
      apply head_id_unique hw hp
      rw [← e]
      exact List.mem_map.2 ⟨t, List.mem_append_left _ ht, rfl⟩
  · intro u hu
    rw [mem_finishHandleTimers]
    exact Or.inl hu

/-- C23, witness: at frame time 10 the timeouts 1 and 2 are due; the callback of timeout 1
calls `stop()` and then schedules a timeout. Timeout 2 stays queued and unfired, the new
timeout is merged into the queue. -/
theorem stop_ends_pass_witness :
    (∀ fuel, handleTimersLoop (fun f _ => if f = 1 then [Call.stop, Call.setTimeout 0 3] else [])
      (fuel + 1) stoppingPass =
        some (handleTimersBody
          (fun f _ => if f = 1 then [Call.stop, Call.setTimeout 0 3] else []) stoppingPass)) ∧
    ((finishHandleTimers (handleTimersBody
        (fun f _ => if f = 1 then [Call.stop, Call.setTimeout 0 3] else [])
        stoppingPass)).fired.map Timeout.id,
      (finishHandleTimers (handleTimersBody
        (fun f _ => if f = 1 then [Call.stop, Call.setTimeout 0 3] else [])
        stoppingPass)).m_PendingTimeouts.map Timeout.id) = ([1], [2, 3]) :=
  ⟨(stop_ends_pass (fun f _ => if f = 1 then [Call.stop, Call.setTimeout 0 3] else [])
      stoppingPass (Timeout.mk 1 1 1 false 1) [Timeout.mk 2 2 2 false 2] rfl rfl
      (by unfold WellFormed; decide) rfl (by decide) (by decide)).1, by decide⟩

/-- C23 fails as stated when the stopping callback also cancels: the playing player has
scheduled the timeouts 1 and 2, both are due at frame time 10, and the callback of timeout
1 calls `stop()` and `clearInterval(2)`. After the pass timeout 2 has not fired and is not
in the queue. -/
theorem stop_and_cancel_empties_queue :
    (setFrameTime 10 (scheduleAll [(0, 1, 1), (0, 2, 2)]
      (initPlayback Timers.init))).m_PendingTimeouts.map
        (fun t => (t.id, t.IsReady 10)) = [(1, true), (2, true)] ∧
    (handleTimers (fun f _ => if f = 1 then [Call.stop, Call.clearInterval 2] else [])
      (setFrameTime 10 (scheduleAll [(0, 1, 1), (0, 2, 2)] (initPlayback Timers.init)))).map
        (fun q => (q.fired.map Timeout.id, q.m_PendingTimeouts.map Timeout.id, q.m_bStopping))
      = some ([1], [], true) := by
  decide

/-! ## The pass ends -/

/-- A pass that starts with the deleted flag clear returns, and the timeouts it has fired
are a sub-sequence of the queue as it was when the pass began. -/
theorem handleTimers_fired_sublist (env : PyEnv) (p : Timers)
    (hdel : p.m_bCurrentTimeoutDeleted = false) :
    ∃ q new, handleTimers env p = some q ∧ q.fired = p.fired ++ new ∧
      new.Sublist p.m_PendingTimeouts ∧
      q.m_bInHandleTimers = false ∧ q.m_bCurrentTimeoutDeleted = false := by
  have hstep : ∀ s : Timers, s.m_bInHandleTimers = true →
      (s.m_bCurrentTimeoutDeleted = false ∧ ∃ new, s.fired = p.fired ++ new ∧
        (new ++ s.m_PendingTimeouts).Sublist p.m_PendingTimeouts) →
      handleTimersCond s = true →
      ((handleTimersBody env s).m_bCurrentTimeoutDeleted = false ∧ ∃ new,
        (handleTimersBody env s).fired = p.fired ++ new ∧
        (new ++ (handleTimersBody env s).m_PendingTimeouts).Sublist p.m_PendingTimeouts) := by
    intro s hin hI hc
    obtain ⟨hf, new, hfired, hsub⟩ := hI
    have hne : s.m_PendingTimeouts ≠ [] := by
      intro h; rw [handleTimersCond_nil s h] at hc; cases hc
    obtain ⟨h, rest, hp⟩ := List.exists_cons_of_ne_nil hne
    refine ⟨(handleTimersBody_measure env s hin).2.1 hne, new ++ [h], ?_, ?_⟩
    · rw [handleTimersBody_fired env s h rest hin hp, hfired, List.append_assoc]
    · rw [hp] at hsub
      refine List.Sublist.trans ?_ hsub
      rw [List.append_assoc]
      exact List.Sublist.append_left
        (List.Sublist.cons₂ h (handleTimersBody_tail env s h rest hin hf hp)) new
  obtain ⟨q, hq, ⟨hfq, new, hfired, hsub⟩, _, _⟩ := handleTimers_induct env
    (fun s => s.m_bCurrentTimeoutDeleted = false ∧ ∃ new, s.fired = p.fired ++ new ∧
      (new ++ s.m_PendingTimeouts).Sublist p.m_PendingTimeouts)
    hstep p hdel ⟨hdel, [], by simp, by simp⟩
  exact ⟨finishHandleTimers q, new, hq, hfired,
    List.Sublist.trans (List.sublist_append_left _ _) hsub, rfl, hfq⟩

/-- C26: a pass that starts with the deleted flag clear returns, whatever the callbacks do
(schedule with delay 0, cancel, stop) and whatever the periods are. The timeouts it has
fired are a sub-sequence of the queue as it was when the pass began, so there are at most
as many callbacks as the queue held, and with unique timeout ids no timeout has fired
twice. After the pass the in-pass flag and the deleted flag are clear. -/
theorem handleTimers_terminates (env : PyEnv) (p : Timers)
    (hdel : p.m_bCurrentTimeoutDeleted = false) :
    ∃ q new, handleTimers env p = some q ∧ q.fired = p.fired ++ new ∧
      new.Sublist p.m_PendingTimeouts ∧
      new.length ≤ p.m_PendingTimeouts.length ∧
      (WellFormed p → (new.map Timeout.id).Nodup) ∧
      q.m_bInHandleTimers = false ∧ q.m_bCurrentTimeoutDeleted = false := by
  obtain ⟨q, new, hq, hfired, hnew, h1, h2⟩ := handleTimers_fired_sublist env p hdel
  refine ⟨q, new, hq, hfired, hnew, hnew.length_le, ?_, h1, h2⟩
  intro hw
  have h1 : (p.m_PendingTimeouts.map Timeout.id).Nodup := by
    have := hw.1
    simp only [Timers.ids, List.map_append] at this
    exact (List.nodup_append.1 this).1
  exact h1.sublist (hnew.map _)

/-- C26, witness: the per-frame handler of `busyQueue` has period 0, schedules a timeout
with delay 0 for its own callable and cancels timeout 2. The pass fires timeouts 1 and 3
and ends; the handler and the new timeout wait in the queue for the next pass. -/
theorem handleTimers_terminates_witness :
    (∃ q new, handleTimers
        (fun f _ => if f = 1 then [Call.setTimeout 0 1, Call.clearInterval 2] else [])
        busyQueue = some q ∧ q.fired = busyQueue.fired ++ new ∧
      new.length ≤ busyQueue.m_PendingTimeouts.length) ∧
    (handleTimers (fun f _ => if f = 1 then [Call.setTimeout 0 1, Call.clearInterval 2] else [])
      busyQueue).map (fun q => (q.fired.map Timeout.id, q.m_PendingTimeouts.map Timeout.id))
      = some ([1, 3], [4, 1]) := by
  obtain ⟨q, new, e, hf, _, hl, _⟩ := handleTimers_terminates
    (fun f _ => if f = 1 then [Call.setTimeout 0 1, Call.clearInterval 2] else [])
    busyQueue rfl
  exact ⟨⟨q, new, e, hf, hl⟩, by decide⟩

/-! ## A chain that is reported as a cycle -/

/-- A graph whose edges all go upwards in some ranking has no cycle. -/
theorem acyclic_of_rank (dep : Nat → Nat → Bool) (rank : Nat → Nat)
    (h : ∀ a b, dep a b = true → rank a < rank b) (a : Nat) :
    ¬ Relation.TransGen (fun a b => dep a b = true) a a := by
  have hlt : ∀ x y, Relation.TransGen (fun a b => dep a b = true) x y → rank x < rank y := by
    intro x y hxy
    induction hxy with
    | single hab => exact h _ _ hab
    | tail _ hbc ih => exact lt_trans ih (h _ _ hbc)
  intro hc
  exact lt_irrefl _ (hlt a a hc)

/-- C27 fails as stated: canvases 1, 3, 2 are registered in this order, then canvas 3 is
made to use canvas 2; `newCanvasDependency(2)` returns and the sequence is 1, 2, 3, a
dependency order of the one edge. Then canvas 1 is made to use canvas 3. The graph with the
new edge is the chain 2, 3, 1 and has no cycle, yet `newCanvasDependency(3)` throws the
circular-dependency error (and leaves the sequence 1, 2 without canvas 3): the new
dependent 1 stands ahead of canvas 2, which canvas 3 depends on. -/
theorem newCanvasDependency_rejects_chain :
    newCanvasDependency (fun x y => x == 2 && y == 3) 0 2 [1, 3, 2] = (.ok (), [1, 2, 3]) ∧
    DependencyOrder (fun x y => x == 2 && y == 3) [1, 2, 3] ∧
    (∀ a, ¬ Relation.TransGen
      (fun a b => ((a == 2 && b == 3) || (a == 3 && b == 1)) = true) a a) ∧
    newCanvasDependency (fun x y => (x == 2 && y == 3) || (x == 3 && y == 1)) 0 3 [1, 2, 3]
      = (.error .circularDependency, [1, 2]) := by
  refine ⟨rfl, ?_, ?_, rfl⟩
  · unfold DependencyOrder
    decide
  · refine acyclic_of_rank (fun a b => (a == 2 && b == 3) || (a == 3 && b == 1))
      (fun n => if n = 2 then 0 else if n = 3 then 1 else 2) ?_
    intro a b hab
    simp only [Bool.or_eq_true, Bool.and_eq_true, beq_iff_eq] at hab
    rcases hab with ⟨rfl, rfl⟩ | ⟨rfl, rfl⟩ <;> decide

/-! ## The order of periodic timeouts with the same period -/

/-- In a list without duplicates, two elements do not occur in both orders. -/
theorem pair_sublist_nodup {α : Type} [DecidableEq α] (L : List α) (hN : L.Nodup) (a b : α)
    (h1 : [a, b].Sublist L) : ¬ [b, a].Sublist L := by
  intro h2
  have hne : a ≠ b := by
    have := hN.sublist h1
    simp only [List.nodup_cons, List.mem_singleton, List.not_mem_nil, not_false_eq_true,
      List.nodup_nil, and_true] at this
    exact this
  have hF : (L.filter (fun x => decide (x = a ∨ x = b))).length ≤ 2 := by
    have hsp : (L.filter (fun x => decide (x = a ∨ x = b))).Subperm [a, b] := by
      refine List.subperm_of_subset (hN.filter _) ?_
      intro x hx
      have := (List.mem_filter.1 hx).2
      simp only [decide_eq_true_eq] at this
      simpa using this
    simpa using hsp.length_le
  have e1 : [a, b] = L.filter (fun x => decide (x = a ∨ x = b)) := by
    refine List.Sublist.eq_of_length_le ?_ (by simpa using hF)
    have := h1.filter (fun x => decide (x = a ∨ x = b))
    simpa using this
  have e2 : [b, a] = L.filter (fun x => decide (x = a ∨ x = b)) := by
    refine List.Sublist.eq_of_length_le ?_ (by simpa using hF)
    have := h2.filter (fun x => decide (x = a ∨ x = b))
    simpa using this
  have := e1.trans e2.symm
  simp only [List.cons.injEq, and_true] at this
  exact hne this.1

/-- One element ahead of another: the list splits around the two. -/
theorem pair_sublist_split {α : Type} (a b : α) : ∀ (L : List α), [a, b].Sublist L →
    ∃ l1 l2 l3, L = l1 ++ a :: l2 ++ b :: l3 := by
  intro L
  induction L with
  | nil => intro h; cases h
  | cons x xs ih =>
    intro h
    cases h with
    | cons _ h1 =>
      obtain ⟨l1, l2, l3, e⟩ := ih h1
      exact ⟨x :: l1, l2, l3, by simp [e]⟩
    | cons₂ _ h1 =>
      obtain ⟨l2, l3, e⟩ := List.append_of_mem (List.singleton_sublist.1 h1)
      exact ⟨[], l2, l3, by simp [e]⟩

theorem addTimeout_sublist (t : Timeout) : ∀ (q : List Timeout), q.Sublist (addTimeout t q) := by
  intro q
  induction q with
  | nil => simp [addTimeout]
  | cons x xs ih =>
    simp only [addTimeout]
    split
    · exact ih.cons₂ x
    · exact List.sublist_cons_self t _

theorem foldl_addTimeout_sublist : ∀ (ts q : List Timeout),
    q.Sublist (ts.foldl (fun q t => addTimeout t q) q) := by
  intro ts
  induction ts with
  | nil => intro q; exact List.Sublist.refl _
  | cons t ts ih => intro q; exact (addTimeout_sublist t q).trans (ih _)

/-- A timeout that is added to the queue lands ahead of every queued timeout with the same
fire time. -/
theorem addTimeout_tie_ahead (a b : Timeout) (hlt : b.lt a = false) :
    ∀ (q : List Timeout), b ∈ q → [a, b].Sublist (addTimeout a q) := by
  intro q
  induction q with
  | nil => intro h; cases h
  | cons x xs ih =>
    intro hm
    simp only [addTimeout]
    split
    · rename_i hx
      rcases List.mem_cons.1 hm with e | h1
      · rw [← e, hlt] at hx; cases hx
      · exact (ih h1).cons x
    · exact (List.singleton_sublist.2 hm).cons₂ a

/-- The merge at the end of a pass: when `b` is staged ahead of `a` and never behind it,
and both have the same fire time, `a` is ahead of `b` in the queue after the merge. -/
theorem merge_ahead (a b : Timeout) (hne : a ≠ b) (hlt : b.lt a = false) :
    ∀ (st q : List Timeout), st.Pairwise (fun x y => ¬(x = a ∧ y = b)) → a ∈ st → b ∈ st →
      [a, b].Sublist (st.foldl (fun q t => addTimeout t q) q) := by
  have h2 : ∀ (st q : List Timeout), b ∈ q → a ∈ st →
      [a, b].Sublist (st.foldl (fun q t => addTimeout t q) q) := by
    intro st
    induction st with
    | nil => intro q _ h; cases h
    | cons t ts ih =>
      intro q hb ha
      simp only [List.foldl_cons]
      by_cases e : t = a
      · subst e
        exact (addTimeout_tie_ahead t b hlt q hb).trans (foldl_addTimeout_sublist ts _)
      · have ha2 : a ∈ ts := by
          rcases List.mem_cons.1 ha with h1 | h1
          · exact absurd h1.symm e
          · exact h1
        exact ih _ (mem_addTimeout.2 (Or.inr hb)) ha2
  intro st
  induction st with
  | nil => intro q _ h; cases h
  | cons t ts ih =>
    intro q hpw ha hb
    simp only [List.foldl_cons]
    rw [List.pairwise_cons] at hpw
    by_cases eb : t = b
    · subst eb
      have ha2 : a ∈ ts := by
        rcases List.mem_cons.1 ha with h1 | h1
        · exact absurd h1 hne
        · exact h1
      exact h2 ts _ (mem_addTimeout.2 (Or.inl rfl)) ha2
    · have hb2 : b ∈ ts := by
        rcases List.mem_cons.1 hb with h1 | h1
        · exact absurd h1.symm eb
        · exact h1
      by_cases ea : t = a
      · exact absurd ⟨ea, rfl⟩ (hpw.1 b hb2)
      · have ha2 : a ∈ ts := by
          rcases List.mem_cons.1 ha with h1 | h1
          · exact absurd h1.symm ea
          · exact h1
        exact ih _ hpw.2 ha2 hb2

/-- With unique ids, no staged timeout has the id of a queued one. -/
theorem wellFormed_disjoint {s : Timers} (hw : WellFormed s) {t u : Timeout}
    (ht : t ∈ s.m_PendingTimeouts) (hu : u ∈ s.m_NewTimeouts) : u.id ≠ t.id := by
  have hnd := hw.1
  simp only [Timers.ids, List.map_append] at hnd
  have hdis := (List.nodup_append.1 hnd).2.2
  intro e
  exact hdis (List.mem_map.2 ⟨t, ht, rfl⟩) (List.mem_map.2 ⟨u, hu, e⟩)

/-- With unique ids, two queued timeouts with the same id are the same timeout. -/
theorem nodup_ids_inj {l : List Timeout} (hnd : (l.map Timeout.id).Nodup) {x y : Timeout}
    (hx : x ∈ l) (hy : y ∈ l) (e : x.id = y.id) : x = y :=
  List.inj_on_of_nodup_map hnd hx hy e

/-- The staging buffer after one iteration of the loop: what the callback of the head `h`
left of it, with the rebased `h` in front when `h` is moved there. -/
theorem handleTimersBody_new_cases (env : PyEnv) (s : Timers) (h : Timeout)
    (rest : List Timeout) (hin : s.m_bInHandleTimers = true)
    (hp : s.m_PendingTimeouts = h :: rest) (hs : Call.stop ∉ env h.pyFunc s) :
    (handleTimersBody env s).m_NewTimeouts
        = (runCalls (env h.pyFunc s) (recordFired h s)).m_NewTimeouts ∨
    ((runCalls (env h.pyFunc s) (recordFired h s)).m_bCurrentTimeoutDeleted = false ∧
      (handleTimersBody env s).m_NewTimeouts
        = h.rebase s.m_FrameTime ::
          (runCalls (env h.pyFunc s) (recordFired h s)).m_NewTimeouts) := by
  rw [handleTimersBody_cons env s h rest hp]
  cases hf : (runCalls (env h.pyFunc s) (recordFired h s)).m_bCurrentTimeoutDeleted with
  | true => exact Or.inl (afterCallback_deleted _ _ hf).2
  | false =>
    have hh := runCalls_head_of_flag (env h.pyFunc s) (recordFired h s) hin hs hf
    have hp2 : (recordFired h s).m_PendingTimeouts = h :: rest := hp
    rw [hp2, List.head?_cons] at hh
    cases hr : (runCalls (env h.pyFunc s) (recordFired h s)).m_PendingTimeouts with
    | nil => rw [hr] at hh; cases hh
    | cons t rest1 =>
      rw [hr, List.head?_cons, Option.some.injEq] at hh
      subst hh
      have := (afterCallback_cons s.m_FrameTime _ t rest1 hf hr).2
      rw [this]
      by_cases hi : t.isInterval = true
      · rw [if_pos hi]; exact Or.inr ⟨rfl, rfl⟩
      · rw [if_neg hi]; exact Or.inl rfl

/-- The calls of a callback never put `x` ahead of `y` in the staging buffer when `y` has
an id that was handed out before. -/
theorem runCalls_new_pairwise (x y : Timeout) (cs : List Call) (p : Timers)
    (hin : p.m_bInHandleTimers = true) (hl : y.id ≤ p.lastID)
    (hpw : p.m_NewTimeouts.Pairwise (fun u v => ¬(u = x ∧ v = y))) :
    (runCalls cs p).m_NewTimeouts.Pairwise (fun u v => ¬(u = x ∧ v = y)) := by
  refine (runCalls_induct (fun s => s.m_NewTimeouts.Pairwise (fun u v => ¬(u = x ∧ v = y)) ∧
    y.id ≤ s.lastID) cs p hin ⟨hpw, hl⟩ ?_).1.1
  intro c _ s hin2 hj
  rcases run_shape c s hin2 with ⟨T, hT, _, hr⟩ | ⟨l1, t, l2, _, _, _, hr⟩ |
    ⟨l1, t, l2, _, e, _, _, hr⟩ | ⟨id, _, _, _, hr⟩ | ⟨_, hr⟩
  · rw [hr]
    refine ⟨?_, Nat.le_succ_of_le hj.2⟩
    show (s.m_NewTimeouts ++ [T]).Pairwise _
    rw [List.pairwise_append]
    refine ⟨hj.1, List.pairwise_singleton _ _, ?_⟩
    intro u _ v hv hc
    rw [List.mem_singleton] at hv
    have : T.id = y.id := by rw [← hc.2, hv]
    have := hj.2
    omega
  · rw [hr]; exact hj
  · rw [hr]
    refine ⟨?_, hj.2⟩
    show (l1 ++ l2).Pairwise _
    have h1 := hj.1
    rw [e] at h1
    exact h1.sublist (List.Sublist.append_left (List.sublist_cons_self t l2) l1)
  · rw [hr]; exact hj
  · rcases stop_cases s with hs | hs
    · rw [hr, hs]; exact hj
    · rw [hr, hs]; exact hj

theorem orderKept_step (env : PyEnv) (p : Timers) (a b : Timeout)
    (hnd : (p.m_PendingTimeouts.map Timeout.id).Nodup)
    (ha_mem : a ∈ p.m_PendingTimeouts) (hab : a.id ≠ b.id)
    (hord : ¬ [b, a].Sublist p.m_PendingTimeouts)
    (ha : a.isInterval = true) (hb : b.isInterval = true)
    (hca : ∀ f s, Call.clearInterval a.id ∉ env f s)
    (hcb : ∀ f s, Call.clearInterval b.id ∉ env f s)
    (s : Timers) (hin : s.m_bInHandleTimers = true) (hI : OrderKept p a b s)
    (hc : handleTimersCond s = true) : OrderKept p a b (handleTimersBody env s) := by
  obtain ⟨hf, hplay, hft, hw, new, hfired, hsub, hTA, hTB, hORD, hPW⟩ := hI
  have hne : s.m_PendingTimeouts ≠ [] := by
    intro h; rw [handleTimersCond_nil s h] at hc; cases hc
  obtain ⟨h, rest, hp⟩ := List.exists_cons_of_ne_nil hne
  have hb1 := handleTimersBody_playing_stop env s h rest hp hplay
  have heq : handleTimersBody env s
      = withStopping (s.m_bStopping || decide (Call.stop ∈ env h.pyFunc s))
          (handleTimersBody (noStop env) s) := by
    rw [hb1.2]; exact hb1.1
  have hP : (handleTimersBody env s).m_PendingTimeouts
      = (handleTimersBody (noStop env) s).m_PendingTimeouts := by rw [heq]; rfl
  have hN : (handleTimersBody env s).m_NewTimeouts
      = (handleTimersBody (noStop env) s).m_NewTimeouts := by rw [heq]; rfl
  have hFT : (handleTimersBody env s).m_FrameTime
      = (handleTimersBody (noStop env) s).m_FrameTime := by rw [heq]; rfl
  have hEs : ∀ f s1, Call.stop ∉ noStop env f s1 := fun f s1 => stop_not_mem_withoutStop _
  have hEa : ∀ f s1, Call.clearInterval a.id ∉ noStop env f s1 :=
    fun f s1 hm => hca f s1 (mem_withoutStop hm)
  have hEb : ∀ f s1, Call.clearInterval b.id ∉ noStop env f s1 :=
    fun f s1 hm => hcb f s1 (mem_withoutStop hm)
  have hEa2 : ∀ f s1, Call.clearInterval (a.rebase p.m_FrameTime).id ∉ noStop env f s1 := by
    rw [rebase_id]; exact hEa
  have hEb2 : ∀ f s1, Call.clearInterval (b.rebase p.m_FrameTime).id ∉ noStop env f s1 := by
    rw [rebase_id]; exact hEb
  have hsP : s.m_PendingTimeouts.Sublist p.m_PendingTimeouts :=
    (List.sublist_append_right new _).trans hsub
  have hw1 : WellFormed (handleTimersBody env s) := handleTimersBody_wellFormed env s hin hw
  have htail := handleTimersBody_tail env s h rest hin hf hp
  -- a timeout that is still queued has no staged form
  have hnoA : a ∈ s.m_PendingTimeouts → a.rebase p.m_FrameTime ∉ s.m_NewTimeouts :=
    fun h1 h2 => wellFormed_disjoint hw h1 h2 (rebase_id a _)
  have hAB : a ∈ s.m_PendingTimeouts → b ∈ s.m_PendingTimeouts := by
    intro h1
    rcases hTB with h2 | h2
    · exact h2.1
    · exact absurd (hORD h2) (hnoA h1)
  -- the head, when it is `a` or `b`, is staged in its rebased form
  have hheadA : a = h → a.rebase p.m_FrameTime ∈ (handleTimersBody env s).m_NewTimeouts := by
    intro e
    rw [hN, ← hft, e]
    exact (handleTimersBody_head (noStop env) s h rest hin hw hf hp
      (by rw [← e]; exact hEa) hEs).2.1 (by rw [← e]; exact ha)
  have hheadB : b = h → b.rebase p.m_FrameTime ∈ (handleTimersBody env s).m_NewTimeouts := by
    intro e
    rw [hN, ← hft, e]
    exact (handleTimersBody_head (noStop env) s h rest hin hw hf hp
      (by rw [← e]; exact hEb) hEs).2.1 (by rw [← e]; exact hb)
  have hTA1 : a ∈ (handleTimersBody env s).m_PendingTimeouts ∨
      a.rebase p.m_FrameTime ∈ (handleTimersBody env s).m_NewTimeouts := by
    rcases hTA with h1 | h1
    · by_cases e : a = h
      · exact Or.inr (hheadA e)
      · left
        rw [hP]
        have h2 : a ∈ rest := by
          rw [hp] at h1
          rcases List.mem_cons.1 h1 with h3 | h3
          · exact absurd h3 e
          · exact h3
        exact handleTimersBody_mem_pending (noStop env) s h a rest hin hw hp h2 hEa hEs
    · right
      rw [hN]
      exact handleTimersBody_mem_new (noStop env) s hin _ h1 hEa2
  have hTB1 : (b ∈ (handleTimersBody env s).m_PendingTimeouts ∧ b ∉ new ++ [h]) ∨
      b.rebase p.m_FrameTime ∈ (handleTimersBody env s).m_NewTimeouts := by
    rcases hTB with ⟨h1, hnb⟩ | h1
    · by_cases e : b = h
      · exact Or.inr (hheadB e)
      · left
        have h2 : b ∈ rest := by
          rw [hp] at h1
          rcases List.mem_cons.1 h1 with h3 | h3
          · exact absurd h3 e
          · exact h3
        refine ⟨?_, ?_⟩
        · rw [hP]
          exact handleTimersBody_mem_pending (noStop env) s h b rest hin hw hp h2 hEb hEs
        · simp [hnb, e]
    · right
      rw [hN]
      exact handleTimersBody_mem_new (noStop env) s hin _ h1 hEb2
  refine ⟨(handleTimersBody_measure env s hin).2.1 hne, handleTimersBody_playing env s hplay,
    ?_, hw1, new ++ [h], ?_, ?_, hTA1, hTB1, ?_, ?_⟩
  · rw [hFT, (handleTimersBody_frame (noStop env) s hin hEs).1, hft]
  · rw [handleTimersBody_fired env s h rest hin hp, hfired, List.append_assoc]
  · rw [hp] at hsub
    refine List.Sublist.trans ?_ hsub
    rw [List.append_assoc]
    exact List.Sublist.append_left (List.Sublist.cons₂ h htail) new
  · intro hb2
    rcases hTA1 with h1 | h1
    · exfalso
      have ha_rest : a ∈ rest := htail.subset h1
      have ha_s : a ∈ s.m_PendingTimeouts := by rw [hp]; exact List.mem_cons_of_mem _ ha_rest
      have hb_s := hAB ha_s
      by_cases e : b = h
      · apply hord
        refine List.Sublist.trans ?_ hsP
        rw [hp, ← e]
        exact (List.singleton_sublist.2 ha_rest).cons₂ b
      · have h2 : b ∈ rest := by
          rw [hp] at hb_s
          rcases List.mem_cons.1 hb_s with h3 | h3
          · exact absurd h3 e
          · exact h3
        have h3 : b ∈ (handleTimersBody env s).m_PendingTimeouts := by
          rw [hP]
          exact handleTimersBody_mem_pending (noStop env) s h b rest hin hw hp h2 hEb hEs
        exact wellFormed_disjoint hw1 h3 hb2 (rebase_id b _)
    · exact h1
  · have hbid : (b.rebase p.m_FrameTime).id ≤ s.lastID := by
      apply hw.2
      rcases hTB with h1 | h1
      · rw [rebase_id]; exact mem_ids_pending h1.1
      · exact mem_ids_new h1
    have hrpw := runCalls_new_pairwise (a.rebase p.m_FrameTime) (b.rebase p.m_FrameTime)
      (noStop env h.pyFunc s) (recordFired h s) hin hbid hPW
    rcases handleTimersBody_new_cases (noStop env) s h rest hin hp (hEs _ _) with e | ⟨_, e⟩
    · rw [hN, e]; exact hrpw
    · rw [hN, e]
      refine List.pairwise_cons.2 ⟨?_, hrpw⟩
      intro y hy hc2
      obtain ⟨e1, e2⟩ := hc2
      have hid : h.id = a.id := by
        have := congrArg Timeout.id e1
        rwa [rebase_id, rebase_id] at this
      have hh_mem : h ∈ p.m_PendingTimeouts := hsP.subset (by rw [hp]; exact List.mem_cons_self _ _)
      have hha : h = a := nodup_ids_inj hnd hh_mem ha_mem hid
      have ha_s : a ∈ s.m_PendingTimeouts := by rw [hp, hha]; exact List.mem_cons_self _ _
      have hb_s := hAB ha_s
      have h2 : b ∈ rest := by
        rw [hp] at hb_s
        rcases List.mem_cons.1 hb_s with h3 | h3
        · exact absurd (by rw [h3, hha]) hab
        · exact h3
      have h3 : b ∈ (runCalls (noStop env h.pyFunc s) (recordFired h s)).m_PendingTimeouts :=
        runCalls_mem_pending _ (recordFired h s) hin b
          (show b ∈ s.m_PendingTimeouts by rw [hp]; exact List.mem_cons_of_mem _ h2)
          (hEb _ _) (hEs _ _)
      have hwr : WellFormed (runCalls (noStop env h.pyFunc s) (recordFired h s)) :=
        runCalls_wellFormed _ (recordFired h s) hin hw
      rw [e2] at hy
      exact wellFormed_disjoint hwr h3 hy (rebase_id b _)

/-- The pass with two periodic timeouts of the same period, `a` ahead of `b` in the queue,
neither cancelled by a callback: when `b` has fired in the pass, the rebased `a` is ahead
of the rebased `b` in the queue after the pass. -/
theorem handleTimers_order (env : PyEnv) (p : Timers) (a b : Timeout)
    (hplay : p.m_bIsPlaying = true) (hdel : p.m_bCurrentTimeoutDeleted = false)
    (hw : WellFormed p) (hfirst : [a, b].Sublist p.m_PendingTimeouts)
    (ha : a.isInterval = true) (hb : b.isInterval = true) (hper : a.interval = b.interval)
    (hca : ∀ f s, Call.clearInterval a.id ∉ env f s)
    (hcb : ∀ f s, Call.clearInterval b.id ∉ env f s) :
    ∃ q new, handleTimers env p = some q ∧ q.fired = p.fired ++ new ∧
      (q.m_PendingTimeouts.map Timeout.id).Nodup ∧
      (b ∈ new →
        [a.rebase p.m_FrameTime, b.rebase p.m_FrameTime].Sublist q.m_PendingTimeouts) := by
  have hnd : (p.m_PendingTimeouts.map Timeout.id).Nodup := by
    have := hw.1
    simp only [Timers.ids, List.map_append] at this
    exact (List.nodup_append.1 this).1
  have hndl : p.m_PendingTimeouts.Nodup := List.Nodup.of_map _ hnd
  have ha_mem : a ∈ p.m_PendingTimeouts := hfirst.subset (by simp)
  have hb_mem : b ∈ p.m_PendingTimeouts := hfirst.subset (by simp)
  have hne : a ≠ b := by
    have := hndl.sublist hfirst
    simp only [List.nodup_cons, List.mem_singleton, List.not_mem_nil, not_false_eq_true,
      List.nodup_nil, and_true] at this
    exact this
  have hab : a.id ≠ b.id := fun e => hne (nodup_ids_inj hnd ha_mem hb_mem e)
  have hord := pair_sublist_nodup _ hndl a b hfirst
  have h0 : OrderKept p a b { p with m_bInHandleTimers := true } := by
    refine ⟨hdel, hplay, rfl, hw, [], by simp, by simp, Or.inl ha_mem,
      Or.inl ⟨hb_mem, by simp⟩, ?_, ?_⟩
    · intro h
      exact absurd (rebase_id b _) (wellFormed_disjoint hw hb_mem h)
    · refine List.pairwise_of_forall_mem_list ?_
      intro x hx y _ hc
      rw [hc.1] at hx
      exact absurd (rebase_id a _) (wellFormed_disjoint hw ha_mem hx)
  obtain ⟨q, hq, hIq, _, _⟩ := handleTimers_induct env (OrderKept p a b)
    (orderKept_step env p a b hnd ha_mem hab hord ha hb hca hcb) p hdel h0
  obtain ⟨_, _, _, hwq, new, hfired, _, _, hTB, hORD, hPW⟩ := hIq
  refine ⟨finishHandleTimers q, new, hq, hfired, ?_, ?_⟩
  · exact (finishHandleTimers_ids q).nodup_iff.2 hwq.1
  · intro hbn
    have hb2 : b.rebase p.m_FrameTime ∈ q.m_NewTimeouts := by
      rcases hTB with h1 | h1
      · exact absurd hbn h1.2
      · exact h1
    have ha2 := hORD hb2
    have hne2 : a.rebase p.m_FrameTime ≠ b.rebase p.m_FrameTime := by
      intro e
      have := congrArg Timeout.id e
      rw [rebase_id, rebase_id] at this
      exact hab this
    have hlt : (b.rebase p.m_FrameTime).lt (a.rebase p.m_FrameTime) = false := by
      simp [Timeout.lt, Timeout.rebase, ha, hb, hper]
    exact merge_ahead _ _ hne2 hlt q.m_NewTimeouts q.m_PendingTimeouts hPW ha2 hb2

/-- C29, with the proviso that the code needs: the player is playing, ids are unique, the
pass starts with the deleted flag clear; `a` and `b` are periodic with the same period,
and no callback cancels either of them. Then the pass returns, and if `a` and `b` both
fire in it, `a` first, the queue after the pass holds the rebased `a` ahead of the rebased
`b` (ids in the queue are unique, so each occurs once). The two are again periodic with the
same period, so the same holds for the next pass. -/
theorem periodic_order_kept (env : PyEnv) (p : Timers) (a b : Timeout)
    (hplay : p.m_bIsPlaying = true) (hdel : p.m_bCurrentTimeoutDeleted = false)
    (hw : WellFormed p)
    (ha : a.isInterval = true) (hb : b.isInterval = true) (hper : a.interval = b.interval)
    (hca : ∀ f s, Call.clearInterval a.id ∉ env f s)
    (hcb : ∀ f s, Call.clearInterval b.id ∉ env f s) :
    ∃ q new, handleTimers env p = some q ∧ q.fired = p.fired ++ new ∧
      ([a, b].Sublist new →
        [a.rebase p.m_FrameTime, b.rebase p.m_FrameTime].Sublist q.m_PendingTimeouts ∧
        (q.m_PendingTimeouts.map Timeout.id).Nodup ∧
        (a.rebase p.m_FrameTime).isInterval = true ∧
        (b.rebase p.m_FrameTime).isInterval = true ∧
        (a.rebase p.m_FrameTime).interval = (b.rebase p.m_FrameTime).interval) := by
  obtain ⟨q, new, hq, hfired, hsub, _, _⟩ := handleTimers_fired_sublist env p hdel
  refine ⟨q, new, hq, hfired, ?_⟩
  intro hab
  obtain ⟨q2, new2, hq2, hfired2, hnd, hres⟩ := handleTimers_order env p a b hplay hdel hw
    (hab.trans hsub) ha hb hper hca hcb
  have e : q2 = q := Option.some.inj (hq2.symm.trans hq)
  subst e
  have e2 : new2 = new := List.append_cancel_left (hfired2.symm.trans hfired)
  subst e2
  refine ⟨hres (hab.subset (by simp)), hnd, ?_, ?_, ?_⟩
  · rw [rebase_isInterval]; exact ha
  · rw [rebase_isInterval]; exact hb
  · simp [Timeout.rebase, ha, hb, hper]

/-- C29, witness: two per-frame handlers; the queue holds timeout 2 ahead of timeout 1.
The callback of timeout 2 schedules a timeout with delay 0, the callback of timeout 1
registers another per-frame handler and stops the player. Both handlers fire, 2 first, and
after the pass timeout 2 is again ahead of timeout 1. -/
theorem periodic_order_kept_witness :
    (∃ q new, handleTimers
        (fun f _ => if f = 2 then [Call.setTimeout 0 3] else
          if f = 1 then [Call.setInterval 0 4, Call.stop] else [])
        twoHandlers = some q ∧ q.fired = twoHandlers.fired ++ new ∧
      ([Timeout.mk 2 0 0 true 2, Timeout.mk 1 0 0 true 1].Sublist new →
        [(Timeout.mk 2 0 0 true 2).rebase twoHandlers.m_FrameTime,
          (Timeout.mk 1 0 0 true 1).rebase twoHandlers.m_FrameTime].Sublist
            q.m_PendingTimeouts ∧
        (q.m_PendingTimeouts.map Timeout.id).Nodup ∧
        ((Timeout.mk 2 0 0 true 2).rebase twoHandlers.m_FrameTime).isInterval = true ∧
        ((Timeout.mk 1 0 0 true 1).rebase twoHandlers.m_FrameTime).isInterval = true ∧
        ((Timeout.mk 2 0 0 true 2).rebase twoHandlers.m_FrameTime).interval
          = ((Timeout.mk 1 0 0 true 1).rebase twoHandlers.m_FrameTime).interval)) ∧
    twoHandlers.m_PendingTimeouts = [Timeout.mk 2 0 0 true 2, Timeout.mk 1 0 0 true 1] ∧
    (handleTimers
        (fun f _ => if f = 2 then [Call.setTimeout 0 3] else
          if f = 1 then [Call.setInterval 0 4, Call.stop] else [])
        twoHandlers).map (fun q => (q.fired, q.m_PendingTimeouts.map Timeout.id))
      = some ([Timeout.mk 2 0 0 true 2, Timeout.mk 1 0 0 true 1], [4, 3, 2, 1]) :=
  ⟨periodic_order_kept
      (fun f _ => if f = 2 then [Call.setTimeout 0 3] else
        if f = 1 then [Call.setInterval 0 4, Call.stop] else [])
      twoHandlers (Timeout.mk 2 0 0 true 2) (Timeout.mk 1 0 0 true 1) rfl rfl
      (by unfold WellFormed; decide) rfl rfl rfl
      (by intro f s; simp only []; split_ifs <;> simp)
      (by intro f s; simp only []; split_ifs <;> simp),
    by decide, by decide⟩

/-- C29 fails as stated when a handler cancels itself: two per-frame handlers, timeout 2
ahead of timeout 1 in the queue, and the callback of timeout 2 calls `clearInterval(2)`.
Both fire in the pass, timeout 2 first, and after the pass the queue holds timeout 1
alone: the timeout that fired first is not ahead of the other, it is not queued at all. -/
theorem periodic_self_cancel_leaves_queue :
    twoHandlers.m_PendingTimeouts = [Timeout.mk 2 0 0 true 2, Timeout.mk 1 0 0 true 1] ∧
    (handleTimers (fun f _ => if f = 2 then [Call.clearInterval 2] else []) twoHandlers).map
        (fun q => (q.fired, q.m_PendingTimeouts))
      = some ([Timeout.mk 2 0 0 true 2, Timeout.mk 1 0 0 true 1],
          [Timeout.mk 1 0 0 true 1]) := by
  decide

/-! ## A pass that a failing callback abandons -/

/-- With callbacks that never fail the pass is the one of `handleTimers`. -/
theorem handleTimersLoopRaising_never (env : PyEnv) : ∀ (n : Nat) (p : Timers),
    handleTimersLoopRaising env (fun _ _ => false) n p
      = (handleTimersLoop env n p).map (PassEnd.mk false) := by
  intro n
  induction n with
  | zero =>
    intro p
    simp only [handleTimersLoopRaising, handleTimersLoop]
    split <;> rfl
  | succ n ih =>
    intro p
    simp only [handleTimersLoopRaising, handleTimersLoop]
    by_cases hc : handleTimersCond p = true
    · rw [if_pos hc, if_pos hc]
      cases hp : p.m_PendingTimeouts with
      | nil => rw [handleTimersCond_nil p hp] at hc; cases hc
      | cons t rest => simp [ih]
    · rw [if_neg hc, if_neg hc]; rfl

theorem handleTimersRaising_never (env : PyEnv) (p : Timers) :
    handleTimersRaising env (fun _ _ => false) p
      = (handleTimers env p).map (PassEnd.mk false) := by
  unfold handleTimersRaising handleTimers
  rw [handleTimersLoopRaising_never]
  cases handleTimersLoop env (p.m_PendingTimeouts.length + 1)
    { p with m_bInHandleTimers := true } <;> rfl

/-- C28 fails on the code: a playing player has a per-frame handler (timeout 1) and a
one-shot timeout 2, both due at frame time 10. The pass fires timeout 1 and stages it;
the callback of timeout 2 cancels its own timeout and then fails. The exception leaves
`handleTimers`, `play` calls `cleanup()` and rethrows. After the teardown no pass is
executing, yet the in-pass flag and the deleted flag are set and the staging buffer still
holds timeout 1. When the player is played again, the first pass merges timeout 1 into the
queue, and at frame time 20 the stale deleted flag makes it fire twice in one pass. -/
theorem abandoned_pass_survives_cleanup :
    (beforeFailure.m_PendingTimeouts.map Timeout.id, beforeFailure.m_NewTimeouts,
      beforeFailure.m_bInHandleTimers, beforeFailure.m_bCurrentTimeoutDeleted)
      = ([1, 2], [], false, false) ∧
    (passInPlay failingEnv failingRaises beforeFailure).map
      (fun r => (r.threw, r.state.m_bIsPlaying, r.state.m_bInHandleTimers,
        r.state.m_bCurrentTimeoutDeleted)) = some (true, false, true, true) ∧
    (passInPlay failingEnv failingRaises beforeFailure).map
      (fun r => (r.state.m_PendingTimeouts, r.state.m_NewTimeouts))
      = some ([], [Timeout.mk 1 0 10 true 1]) ∧
    ((passInPlay failingEnv failingRaises beforeFailure).bind
      (fun r => handleTimers quietEnv (initPlayback r.state))).map
      (fun s => (s.m_PendingTimeouts, s.m_bCurrentTimeoutDeleted))
      = some ([Timeout.mk 1 0 10 true 1], true) ∧
    (((passInPlay failingEnv failingRaises beforeFailure).bind
      (fun r => handleTimers quietEnv (initPlayback r.state))).bind
      (fun s => handleTimers quietEnv (setFrameTime 20 s))).map
      (fun q => q.fired.map Timeout.id) = some [1, 2, 1, 1] := by
  refine ⟨?_, ?_, ?_, ?_, ?_⟩ <;> decide

/-! ## The frame time at a fake frame rate -/

/-- The cast of a non-negative fraction is its floor. -/
theorem truncate_nonneg (q : ℚ) (h : 0 ≤ q) : truncate q = ⌊q⌋ := by
  unfold truncate
  rw [Rat.floor_def]
  exact Int.tdiv_eq_ediv (Rat.num_nonneg.2 h) (by exact_mod_cast Nat.zero_le _)

/-- With the quotient taken without rounding, the frame time of the frame with count `k`
at the fake frame rate `fps > 0` is the floor of `k * 1000 / fps`. The source takes the
quotient in `double`; the rounding of that division is not part of this statement. -/
theorem advanceFrameTime_fake (inp : FrameInput) (p : Player) (hf : p.m_bFakeFPS = true)
    (hfps : 0 < p.m_FakeFPS) :
    (Player.advanceFrameTime inp p).m_NumFrames = p.m_NumFrames + 1 ∧
    (Player.advanceFrameTime inp p).timers.m_FrameTime
      = ⌊((p.m_NumFrames + 1 : Nat) : ℚ) * 1000 / p.m_FakeFPS⌋ := by
  have h0 : (0 : ℚ) ≤ ((p.m_NumFrames + 1 : Nat) : ℚ) * 1000 / p.m_FakeFPS := by positivity
  unfold Player.advanceFrameTime
  rw [if_pos hf]
  exact ⟨rfl, truncate_nonneg _ h0⟩

/-! ## The mouse cursor bitmap -/

theorem packBits_lt (f : Nat → Bool) : ∀ c, packBits f c < 2 ^ c := by
  intro c
  induction c with
  | zero => simp [packBits]
  | succ c ih => simp only [packBits]; exact Nat.bit_lt_two_pow_succ_iff.2 ih

theorem packBits_testBit (f : Nat → Bool) : ∀ c k, k < c →
    (packBits f c).testBit (c - 1 - k) = f k := by
  intro c
  induction c with
  | zero => intro k hk; omega
  | succ c ih =>
    intro k hk
    simp only [packBits]
    by_cases e : k = c
    · subst e
      have : k + 1 - 1 - k = 0 := by omega
      rw [this, Nat.testBit_bit_zero]
    · have hk2 : k < c := by omega
      have : c + 1 - 1 - k = (c - 1 - k) + 1 := by omega
      rw [this, Nat.testBit_bit_succ, ih k hk2]

/-- Shifting a byte below 128 and setting its lowest bit appends a binary digit. -/
theorem or1_shl1 (v : Nat) (hv : v < 128) (b : Bool) :
    (if b then or1 (shl1 v) else shl1 v) = Nat.bit b v := by
  have h1 : shl1 v = Nat.bit false v := by
    unfold shl1
    rw [Nat.mod_eq_of_lt (by omega)]
    simp [Nat.bit_val, Nat.mul_comm]
  cases b with
  | false => simp [h1]
  | true =>
    simp only [if_true, h1, or1]
    have : (1 : Nat) = Nat.bit true 0 := by simp [Nat.bit_val]
    rw [this, Nat.lor_bit]
    simp

theorem modify_nat (a : Bytes) (B : Nat) (f : Nat → Nat) (hB : B < a.size) :
    a.modify (B : Int) f = some ⟨a.size, Function.update a.get B (f (a.get B))⟩ := by
  unfold Bytes.modify
  rw [if_pos ⟨by omega, by exact_mod_cast hB⟩]
  simp

/-- Writing the byte of pixel `n` keeps the array right, for one pixel more. -/
theorem packed_step (g : Nat → Bool) (n : Nat) (a : Bytes) (hinv : Packed g n a) (v : Nat)
    (hv : v = if n % 8 = 0 then Nat.bit (g n) 0 else Nat.bit (g n) (a.get (n / 8))) :
    Packed g (n + 1) ⟨a.size, Function.update a.get (n / 8) v⟩ := by
  have hnB : 8 * (n / 8) + n % 8 = n := Nat.div_add_mod n 8
  have hv2 : v = packBits (fun k => g (8 * (n / 8) + k)) (n % 8 + 1) := by
    rw [hv]
    simp only [packBits, hnB]
    by_cases h0 : n % 8 = 0
    · rw [if_pos h0, h0]; rfl
    · rw [if_neg h0, hinv.2 h0]
  constructor
  · intro j hj
    by_cases e : j = n / 8
    · subst e
      show Function.update a.get (n / 8) v (n / 8) = _
      rw [Function.update_same, hv2]
      have : n % 8 + 1 = 8 := by omega
      rw [this]
    · show Function.update a.get (n / 8) v j = _
      rw [Function.update_noteq e]
      exact hinv.1 j (by omega)
  · intro h1
    have e1 : (n + 1) / 8 = n / 8 := by omega
    have e2 : (n + 1) % 8 = n % 8 + 1 := by omega
    show Function.update a.get (n / 8) v ((n + 1) / 8) = _
    rw [e1, e2, Function.update_same, hv2]

theorem scan_mod (w y x : Nat) (hw : w % 8 = 0) :
    (y * w + x) % 8 = x % 8 ∧ (y * w + x) / 8 = y * (w / 8) + x / 8 := by
  obtain ⟨W, rfl⟩ := Nat.dvd_of_mod_eq_zero hw
  have e : y * (8 * W) = 8 * (y * W) := by ring
  rw [e, Nat.mul_div_cancel_left W (by norm_num : 0 < 8)]
  omega

theorem scan_pixel (w y x : Nat) (hx : x < w) :
    (y * w + x) % w = x ∧ (y * w + x) / w = y := by
  have hw : 0 < w := by omega
  constructor
  · rw [Nat.add_comm, Nat.add_mul_mod_self_right]
    exact Nat.mod_eq_of_lt hx
  · rw [Nat.add_comm, Nat.add_mul_div_right _ _ hw, Nat.div_eq_of_lt hx, Nat.zero_add]

theorem modify_fresh (a : Bytes) (B : Nat) (hB : B < a.size) (b : Bool) :
    (a.modify (B : Int) (fun _ => 0)).bind
        (fun a1 => if b then a1.modify (B : Int) or1 else some a1)
      = some ⟨a.size, Function.update a.get B (Nat.bit b 0)⟩ := by
  rw [modify_nat a B _ hB]
  cases b with
  | false => simp [Nat.bit_val]
  | true =>
    simp only [Option.some_bind, if_true]
    rw [modify_nat ⟨a.size, Function.update a.get B 0⟩ B or1 hB]
    simp [or1, Nat.bit_val]

theorem modify_shift (a : Bytes) (B : Nat) (hB : B < a.size) (hv : a.get B < 128) (b : Bool) :
    (a.modify (B : Int) shl1).bind
        (fun a1 => if b then a1.modify (B : Int) or1 else some a1)
      = some ⟨a.size, Function.update a.get B (Nat.bit b (a.get B))⟩ := by
  rw [modify_nat a B _ hB, ← or1_shl1 (a.get B) hv b]
  cases b with
  | false => simp
  | true =>
    simp only [Option.some_bind, if_true]
    rw [modify_nat ⟨a.size, Function.update a.get B (shl1 (a.get B))⟩ B or1 hB]
    simp

theorem modify_div (a : Bytes) (n : Nat) (f : Nat → Nat) (hB : n / 8 < a.size) :
    a.modify ((n : Int) / 8) f
      = some ⟨a.size, Function.update a.get (n / 8) (f (a.get (n / 8)))⟩ := by
  have := modify_nat a (n / 8) f hB
  simpa using this

/-- The body of the inner loop, for the pixel with number `n` in scan order: both arrays
are written at the byte `n / 8`, inside their bounds, and are right for one pixel more. -/
theorem setCursorPixel_inv (bmp : Bitmap) (N y x : Nat) (s : CursorLoop)
    (hw : bmp.size.1 % 8 = 0) (hx : x < bmp.size.1) (hN : y * bmp.size.1 + x < 8 * N)
    (hI : CursorInv bmp N (y * bmp.size.1 + x) s) :
    ∃ s1, setCursorPixel bmp y x s = some s1 ∧
      CursorInv bmp N (y * bmp.size.1 + x + 1) s1 := by
  obtain ⟨hi, hsd, hsm, hd, hm⟩ := hI
  have hmod := (scan_mod bmp.size.1 y x hw).1
  have hpix := scan_pixel bmp.size.1 y x hx
  generalize hn : y * bmp.size.1 + x = n at *
  have hmb : maskBit bmp n = decide (bmp.getA x y > 127) := by
    unfold maskBit; rw [hpix.1, hpix.2]
  have hdb : dataBit bmp n = (decide (bmp.getA x y > 127) && decide (bmp.getR x y < 128)) := by
    unfold dataBit; rw [hpix.1, hpix.2]
  have hBd : n / 8 < s.pData.size := by rw [hsd]; omega
  have hBm : n / 8 < s.pMask.size := by rw [hsm]; omega
  have hres : setCursorPixel bmp y x s = some
      { i := ((n / 8 : Nat) : Int),
        pData := ⟨s.pData.size, Function.update s.pData.get (n / 8)
          (if n % 8 = 0 then Nat.bit (dataBit bmp n) 0
            else Nat.bit (dataBit bmp n) (s.pData.get (n / 8)))⟩,
        pMask := ⟨s.pMask.size, Function.update s.pMask.get (n / 8)
          (if n % 8 = 0 then Nat.bit (maskBit bmp n) 0
            else Nat.bit (maskBit bmp n) (s.pMask.get (n / 8)))⟩ } := by
    by_cases h0 : x % 8 = 0
    · have hn0 : n % 8 = 0 := by rw [hmod]; exact h0
      have hi1 : s.i + 1 = ((n / 8 : Nat) : Int) := by rw [hi]; omega
      have e1 : or1 0 = Nat.bit true 0 := by decide
      have e0 : (0 : Nat) = Nat.bit false 0 := by decide
      unfold setCursorPixel
      rw [if_pos h0, hi1, modify_nat s.pData _ _ hBd, modify_nat s.pMask _ _ hBm]
      by_cases hA : bmp.getA x y > 127 <;> by_cases hR : bmp.getR x y < 128 <;>
        simp [hA, hR, hn0, hdb, hmb, modify_div, hBd, hBm, e1]
    · have hn0 : n % 8 ≠ 0 := by rw [hmod]; exact h0
      have hi1 : s.i = ((n / 8 : Nat) : Int) := by rw [hi]; omega
      have hvd : s.pData.get (n / 8) < 128 := by
        rw [hd.2 hn0]
        refine lt_of_lt_of_le (packBits_lt _ _) ?_
        exact le_trans (Nat.pow_le_pow_right (by norm_num) (show n % 8 ≤ 7 by omega))
          (by norm_num)
      have hvm : s.pMask.get (n / 8) < 128 := by
        rw [hm.2 hn0]
        refine lt_of_lt_of_le (packBits_lt _ _) ?_
        exact le_trans (Nat.pow_le_pow_right (by norm_num) (show n % 8 ≤ 7 by omega))
          (by norm_num)
      have dF : shl1 (s.pData.get (n / 8)) = 2 * s.pData.get (n / 8) := by
        simpa [Nat.bit_val] using or1_shl1 _ hvd false
      have dT : or1 (2 * s.pData.get (n / 8)) = 2 * s.pData.get (n / 8) + 1 := by
        have := or1_shl1 _ hvd true
        simpa [dF, Nat.bit_val] using this
      have mF : shl1 (s.pMask.get (n / 8)) = 2 * s.pMask.get (n / 8) := by
        simpa [Nat.bit_val] using or1_shl1 _ hvm false
      have mT : or1 (2 * s.pMask.get (n / 8)) = 2 * s.pMask.get (n / 8) + 1 := by
        have := or1_shl1 _ hvm true
        simpa [mF, Nat.bit_val] using this
      unfold setCursorPixel
      rw [if_neg h0, hi1, modify_nat s.pData _ _ hBd, modify_nat s.pMask _ _ hBm]
      by_cases hA : bmp.getA x y > 127 <;> by_cases hR : bmp.getR x y < 128 <;>
        simp [hA, hR, hn0, hdb, hmb, modify_div, hBd, hBm, dT, dF, mT, mF]
  refine ⟨_, hres, ?_, hsd, hsm, packed_step _ n s.pData hd _ rfl,
    packed_step _ n s.pMask hm _ rfl⟩
  show ((n / 8 : Nat) : Int) = (((n + 1 + 7) / 8 : Nat) : Int) - 1
  omega

theorem setCursorPixels_inv (bmp : Bitmap) (N y : Nat) (hw : bmp.size.1 % 8 = 0)
    (hN : y * bmp.size.1 + bmp.size.1 ≤ 8 * N) :
    ∀ (x : Nat), x ≤ bmp.size.1 → ∀ (s : CursorLoop), CursorInv bmp N (y * bmp.size.1) s →
      ∃ s1, setCursorPixels bmp y x s = some s1 ∧ CursorInv bmp N (y * bmp.size.1 + x) s1 := by
  intro x
  induction x with
  | zero => intro _ s hI; exact ⟨s, rfl, hI⟩
  | succ x ih =>
    intro hx s hI
    obtain ⟨s1, hs1, hI1⟩ := ih (by omega) s hI
    obtain ⟨s2, hs2, hI2⟩ := setCursorPixel_inv bmp N y x s1 hw (by omega) (by omega) hI1
    refine ⟨s2, ?_, hI2⟩
    simp only [setCursorPixels, hs1, Option.some_bind, hs2]

theorem setCursorLines_inv (bmp : Bitmap) (N : Nat) (hw : bmp.size.1 % 8 = 0) :
    ∀ (y : Nat), y * bmp.size.1 ≤ 8 * N → ∀ (s : CursorLoop), CursorInv bmp N 0 s →
      ∃ s1, setCursorLines bmp y s = some s1 ∧ CursorInv bmp N (y * bmp.size.1) s1 := by
  intro y
  induction y with
  | zero => intro _ s hI; exact ⟨s, rfl, by simpa using hI⟩
  | succ y ih =>
    intro hy s hI
    rw [Nat.succ_mul] at hy
    obtain ⟨s1, hs1, hI1⟩ := ih (by omega) s hI
    obtain ⟨s2, hs2, hI2⟩ := setCursorPixels_inv bmp N y hw hy bmp.size.1 (le_refl _) s1 hI1
    refine ⟨s2, ?_, ?_⟩
    · simp only [setCursorLines, hs1, Option.some_bind, hs2]
    · rw [Nat.succ_mul]; exact hI2

/-- C30: `setCursor` throws the invalid-arguments error when the width or the height of
the bitmap is not a multiple of 8 or the format is not RGBA. For a bitmap that passes this
test (and whose pixel count fits the `int` in which the code computes it) the call reaches
`SDL_CreateCursor` without an access outside the two arrays, whatever they held when they
were allocated; both arrays have `w*h/8` bytes, the byte of pixel `(x, y)` is inside them,
and bit `7 - x mod 8` of byte `y*(w/8) + x/8` of the mask is set exactly when the alpha
of the pixel is above 127, that of the data array exactly when moreover its red is below
128. -/
theorem setCursor_spec (bmp : Bitmap) (garbageData garbageMask : Nat → Nat) :
    ((bmp.size.1 % 8 ≠ 0 ∨ bmp.size.2 % 8 ≠ 0 ∨ bmp.isR8G8B8A8 = false) →
      setCursor bmp garbageData garbageMask = .error .invalidArgs) ∧
    (bmp.size.1 % 8 = 0 → bmp.size.2 % 8 = 0 → bmp.isR8G8B8A8 = true →
      bmp.size.1 * bmp.size.2 < 2 ^ 31 →
      ∃ pData pMask, setCursor bmp garbageData garbageMask = .ok (pData, pMask) ∧
        pData.size = bmp.size.1 * bmp.size.2 / 8 ∧
        pMask.size = bmp.size.1 * bmp.size.2 / 8 ∧
        ∀ x y, x < bmp.size.1 → y < bmp.size.2 →
          y * (bmp.size.1 / 8) + x / 8 < bmp.size.1 * bmp.size.2 / 8 ∧
          (pMask.get (y * (bmp.size.1 / 8) + x / 8)).testBit (7 - x % 8)
            = decide (bmp.getA x y > 127) ∧
          (pData.get (y * (bmp.size.1 / 8) + x / 8)).testBit (7 - x % 8)
            = (decide (bmp.getA x y > 127) && decide (bmp.getR x y < 128))) := by
  constructor
  · intro h
    unfold setCursor
    rw [if_pos h]
  · intro hw hh hf hfit
    have h8 : 8 * (bmp.size.1 * bmp.size.2 / 8) = bmp.size.2 * bmp.size.1 := by
      obtain ⟨W, hW⟩ := Nat.dvd_of_mod_eq_zero hw
      rw [hW, Nat.mul_assoc, Nat.mul_div_cancel_left _ (by norm_num : 0 < 8)]
      ring
    have hguard : ¬(bmp.size.1 % 8 ≠ 0 ∨ bmp.size.2 % 8 ≠ 0 ∨ bmp.isR8G8B8A8 = false) := by
      simp [hw, hh, hf]
    have h0 : CursorInv bmp (bmp.size.1 * bmp.size.2 / 8) 0
        { i := -1, pData := ⟨bmp.size.1 * bmp.size.2 / 8, garbageData⟩,
          pMask := ⟨bmp.size.1 * bmp.size.2 / 8, garbageMask⟩ } := by
      refine ⟨by norm_num, rfl, rfl, ⟨?_, ?_⟩, ⟨?_, ?_⟩⟩
      · intro j hj; omega
      · intro h; exact absurd rfl h
      · intro j hj; omega
      · intro h; exact absurd rfl h
    obtain ⟨s1, hs1, hi, hsd, hsm, hd, hm⟩ := setCursorLines_inv bmp
      (bmp.size.1 * bmp.size.2 / 8) hw bmp.size.2 (le_of_eq h8.symm) _ h0
    refine ⟨s1.pData, s1.pMask, ?_, hsd, hsm, ?_⟩
    · unfold setCursor
      rw [if_neg hguard, if_neg (by omega), hs1]
    · intro x y hx hy
      have hsm8 := scan_mod bmp.size.1 y x hw
      have hpix := scan_pixel bmp.size.1 y x hx
      have hlt : y * bmp.size.1 + x < bmp.size.2 * bmp.size.1 := by
        have : (y + 1) * bmp.size.1 ≤ bmp.size.2 * bmp.size.1 :=
          Nat.mul_le_mul_right _ hy
        rw [Nat.succ_mul] at this
        omega
      have hj : (y * bmp.size.1 + x) / 8 < bmp.size.2 * bmp.size.1 / 8 := by
        have : (bmp.size.2 * bmp.size.1) % 8 = 0 := by rw [← h8]; simp
        omega
      have hcomm : bmp.size.1 * bmp.size.2 = bmp.size.2 * bmp.size.1 := Nat.mul_comm _ _
      have hrec : 8 * ((y * bmp.size.1 + x) / 8) + x % 8 = y * bmp.size.1 + x := by
        rw [← hsm8.1]; exact Nat.div_add_mod _ 8
      rw [← hsm8.2]
      refine ⟨by rw [hcomm]; exact hj, ?_, ?_⟩
      · rw [hm.1 _ hj]
        have := packBits_testBit
          (fun k => maskBit bmp (8 * ((y * bmp.size.1 + x) / 8) + k)) 8 (x % 8) (by omega)
        simp only [hrec] at this
        rw [show 7 - x % 8 = 8 - 1 - x % 8 by omega, this]
        unfold maskBit
        rw [hpix.1, hpix.2]
      · rw [hd.1 _ hj]
        have := packBits_testBit
          (fun k => dataBit bmp (8 * ((y * bmp.size.1 + x) / 8) + k)) 8 (x % 8) (by omega)
        simp only [hrec] at this
        rw [show 7 - x % 8 = 8 - 1 - x % 8 by omega, this]
        unfold dataBit
        rw [hpix.1, hpix.2]

/-- C30, witness: the bitmap of 8 by 8 pixels that is opaque on and below the diagonal and
black in the even columns, with arrays that hold 255 in every byte when they are
allocated. Line `y` of the mask has its first `y + 1` bits set, line `y` of the data the
bits of the even columns among them. -/
theorem setCursor_spec_witness :
    (∃ pData pMask, setCursor demoBitmap (fun _ => 255) (fun _ => 255) = .ok (pData, pMask) ∧
      pData.size = demoBitmap.size.1 * demoBitmap.size.2 / 8 ∧
      pMask.size = demoBitmap.size.1 * demoBitmap.size.2 / 8 ∧
      ∀ x y, x < demoBitmap.size.1 → y < demoBitmap.size.2 →
        y * (demoBitmap.size.1 / 8) + x / 8 < demoBitmap.size.1 * demoBitmap.size.2 / 8 ∧
        (pMask.get (y * (demoBitmap.size.1 / 8) + x / 8)).testBit (7 - x % 8)
          = decide (demoBitmap.getA x y > 127) ∧
        (pData.get (y * (demoBitmap.size.1 / 8) + x / 8)).testBit (7 - x % 8)
          = (decide (demoBitmap.getA x y > 127) && decide (demoBitmap.getR x y < 128))) ∧
    cursorBytes (setCursor demoBitmap (fun _ => 255) (fun _ => 255))
      = some ([128, 128, 160, 160, 168, 168, 170, 170],
          [128, 192, 224, 240, 248, 252, 254, 255]) ∧
    cursorBytes (setCursor { demoBitmap with size := (8, 4) } (fun _ => 255) (fun _ => 255))
      = none :=
  ⟨(setCursor_spec demoBitmap (fun _ => 255) (fun _ => 255)).2 rfl rfl rfl (by decide),
    by decide, by decide⟩

/-! ## An event that the hook consumes -/

/-- C20, as the code has it: the player has an event hook, and the hook reports the event
consumed. `handleEvent` returns `true` with the player as the hook has left it: nothing is
done after the hook has returned. No node gets the event or a notification. While the
player is playing, trace, last mouse event, cursor states and capture table are as before
the call, and the stopping flag is set after the call exactly when it was set before or the
hook has called `stop()`. A hook that makes no calls leaves the player as it was. -/
theorem handleEvent_hook_consumes (w : World) (ev : Event) (p : Player) (hook : Nat)
    (hh : p.m_EventHookPyFunc = some hook) (hc : (w.eventHook hook ev p).handled = true) :
    Player.handleEvent w ev p
      = some (true, Player.runCalls (w.eventHook hook ev p).calls p) ∧
    (Player.runCalls (w.eventHook hook ev p).calls p).trace.filter Action.isDelivery
      = p.trace.filter Action.isDelivery ∧
    (Player.runCalls (w.eventHook hook ev p).calls p).trace.filter Action.isNotification
      = p.trace.filter Action.isNotification ∧
    (p.timers.m_bIsPlaying = true → ∀ r, Player.handleEvent w ev p = some r →
      r.2.trace = p.trace ∧ r.2.m_pLastMouseEvent = p.m_pLastMouseEvent ∧
      r.2.m_pLastCursorStates = p.m_pLastCursorStates ∧
      r.2.m_EventCaptureInfoMap = p.m_EventCaptureInfoMap ∧
      r.2.timers.m_bStopping
        = (p.timers.m_bStopping || decide (Call.stop ∈ (w.eventHook hook ev p).calls))) ∧
    ((w.eventHook hook ev p).calls = [] → Player.handleEvent w ev p = some (true, p)) := by
  have e : Player.handleEvent w ev p
      = some (true, Player.runCalls (w.eventHook hook ev p).calls p) := by
    simp [Player.handleEvent, Player.callEventHook, hh, hc]
  refine ⟨e, (runCalls_no_delivery _ p).1, (runCalls_no_delivery _ p).2, ?_, ?_⟩
  · intro hp r hr
    rw [e] at hr
    cases hr
    have f := step_fields (runCalls_step (w.eventHook hook ev p).calls p hp)
    refine ⟨by rw [f.2.1, List.append_nil], f.2.2.2.2.1, f.2.2.2.1, f.2.2.1, ?_⟩
    show (Player.runCalls (w.eventHook hook ev p).calls p).timers.m_bStopping = _
    rw [runCalls_timers _ p hp, runCalls_playing_stop _ _ hp]
    rfl
  · intro h0
    rw [e, h0]
    rfl

/-- C20, witness: the hook of `demoHookSchedules` schedules a timeout and consumes a motion
of the mouse. The timeout is queued; the last mouse event and the stopping flag are as
before, and no node has got the event. With the hook of `demoConsuming`, which makes no
calls, the player stays as it was. -/
theorem handleEvent_hook_consumes_witness :
    Player.handleEvent demoHookSchedules (mouseMotion (1, 0)) demoHooked
      = some (true, Player.runCalls [Call.setTimeout 5 3] demoHooked) ∧
    (Player.handleEvent demoHookSchedules (mouseMotion (1, 0)) demoHooked).map
      (fun r => (r.2.trace, r.2.timers.m_PendingTimeouts.map Timeout.id,
        r.2.timers.m_bStopping, decide (r.2.m_pLastMouseEvent = demoHooked.m_pLastMouseEvent)))
      = some ([], [1], false, true) ∧
    Player.handleEvent demoConsuming (mouseMotion (1, 0)) demoHooked
      = some (true, demoHooked) :=
  ⟨(handleEvent_hook_consumes demoHookSchedules (mouseMotion (1, 0)) demoHooked 7 rfl rfl).1,
    by decide,
    (handleEvent_hook_consumes demoConsuming (mouseMotion (1, 0)) demoHooked 7 rfl
      rfl).2.2.2.2 rfl⟩

/-- C20 fails as stated when the hook calls into the player: the hook of `demoHookStops`
calls `stop()` and reports the event consumed. The player was not stopping before the call
of `handleEvent` and is stopping after it. -/
theorem handleEvent_hook_stops :
    demoHooked.timers.m_bIsPlaying = true ∧ demoHooked.timers.m_bStopping = false ∧
    (Player.handleEvent demoHookStops (mouseMotion (1, 0)) demoHooked).map
      (fun r => (r.1, r.2.trace, r.2.timers.m_bStopping)) = some (true, [], true) := by
  decide

/-! ## When the circular-dependency error is raised -/

theorem firstDependent_append (dep : Nat → Nat → Bool) (x : Nat) (A L : List Nat)
    (hA : ∀ a ∈ A, dep x a = false) :
    firstDependent dep x (A ++ L) = (firstDependent dep x L).map (· + A.length) := by
  induction A with
  | nil => simp
  | cons a A ih =>
    have ha := hA a (List.mem_cons_self _ _)
    show firstDependent dep x (a :: (A ++ L)) = _
    simp only [firstDependent, ha, Bool.false_eq_true, if_false]
    rw [ih (fun b hb => hA b (List.mem_cons_of_mem _ hb))]
    cases firstDependent dep x L with
    | none => rfl
    | some i => simp [Nat.add_assoc]

/-- C27, as the code has it: the canvas sequence has no duplicates and is a dependency
order of the edges registered so far, and the new edge "`Y` depends on `X`" joins two
different canvases of the sequence. Then `newCanvasDependency(X)` throws the
circular-dependency error exactly when some canvas that `X` depends on is `Y` or stands
behind `Y` in the sequence, and returns without an exception otherwise. A cycle through the
new edge is one way for this to happen, a chain whose new dependent stands too far ahead
is another. -/
theorem newCanvasDependency_circular_iff (dep : Nat → Nat → Bool) (mainCanvas X Y : Nat)
    (cs : List Nat) (hnd : cs.Nodup) (hX : X ∈ cs) (hY : Y ∈ cs) (hXY : Y ≠ X)
    (hold : ∀ x ∈ cs, ∀ y ∈ cs, dep x y = true → (x, y) ≠ (X, Y) →
      cs.indexOf x < cs.indexOf y)
    (hnew : dep X Y = true) :
    ((newCanvasDependency dep mainCanvas X cs).1 = .error .circularDependency ↔
      ∃ c ∈ cs, dep c X = true ∧ (c = Y ∨ [Y, c].Sublist cs)) ∧
    ((newCanvasDependency dep mainCanvas X cs).1 = .ok () ↔
      ¬ ∃ c ∈ cs, dep c X = true ∧ (c = Y ∨ [Y, c].Sublist cs)) := by
  have hE : eraseCanvas X cs = (true, cs.erase X) := eraseCanvas_nodup X cs hnd hX
  have key : ∀ i, firstDependent dep X (cs.erase X) = some i →
      (newCanvasDependency dep mainCanvas X cs).1
        = if ((cs.erase X).drop i).any (fun c => dep c X) then .error .circularDependency
          else .ok () := by
    intro i hi
    unfold newCanvasDependency
    simp only [hE, if_true, hi]
    split <;> rfl
  have hold2 : DependencyOrder (fun x y => dep x y && !(decide (x = X) && decide (y = Y)))
      cs := by
    intro x hx y hy hd
    simp only [Bool.and_eq_true, Bool.not_eq_true', Bool.and_eq_false_imp,
      decide_eq_true_eq, decide_eq_false_iff_not] at hd
    refine hold x hx y hy hd.1 ?_
    intro e
    simp only [Prod.mk.injEq] at e
    exact hd.2 e.1 e.2
  obtain ⟨hself, hpw0⟩ := (dependencyOrder_iff _ cs hnd).1 hold2
  have hXX : dep X X = false := by
    have := hself X hX
    have hne : ¬ X = Y := fun e => hXY e.symm
    simpa [hne] using this
  obtain ⟨A, B, hcs⟩ := List.append_of_mem hX
  subst hcs
  have hndA := (List.nodup_append.1 hnd).1
  have hndXB := (List.nodup_append.1 hnd).2.1
  have hdisj : ∀ a ∈ A, a ∉ X :: B := fun a ha hb => (List.nodup_append.1 hnd).2.2 ha hb
  have hXA : X ∉ A := fun h => hdisj X h (List.mem_cons_self _ _)
  have herase : (A ++ X :: B).erase X = A ++ B := by
    rw [List.erase_append_right _ hXA, List.erase_cons_head]
  rw [List.pairwise_append] at hpw0
  have hAdep : ∀ a ∈ A, dep X a = true → a = Y := by
    intro a ha hd
    have := hpw0.2.2 a ha X (List.mem_cons_self _ _)
    by_contra hne
    simp [hd, hne] at this
  have hBdep : ∀ b ∈ B, dep b X = false := by
    intro b hb
    have := (List.pairwise_cons.1 hpw0.2.1).1 b hb
    have hne : ¬ X = Y := fun e => hXY e.symm
    simpa [hne] using this
  have hcA : ∀ c ∈ A ++ X :: B, dep c X = true → c ∈ A := by
    intro c hc hd
    rcases List.mem_append.1 hc with h | h
    · exact h
    · rcases List.mem_cons.1 h with h | h
      · rw [h, hXX] at hd; cases hd
      · rw [hBdep c h] at hd; cases hd
  have hYmem : Y ∈ A ∨ Y ∈ B := by
    rcases List.mem_append.1 hY with h | h
    · exact Or.inl h
    · rcases List.mem_cons.1 h with h | h
      · exact absurd h hXY
      · exact Or.inr h
  rw [herase] at key
  rcases hYmem with hYA | hYB
  · obtain ⟨A1, A2, hA⟩ := List.append_of_mem hYA
    subst hA
    have hYA1 : Y ∉ A1 := fun h =>
      (List.nodup_append.1 hndA).2.2 h (List.mem_cons_self _ _)
    have hA1 : ∀ a ∈ A1, dep X a = false := by
      intro a ha
      by_contra hd
      have := hAdep a (List.mem_append_left _ ha) (by simpa using hd)
      exact hYA1 (this ▸ ha)
    have hfd : firstDependent dep X (A1 ++ Y :: A2 ++ B) = some A1.length := by
      rw [List.append_assoc, firstDependent_append dep X A1 _ hA1]
      simp [firstDependent, hnew]
    have hdrop : (A1 ++ Y :: A2 ++ B).drop A1.length = Y :: (A2 ++ B) := by
      rw [List.append_assoc, List.drop_left]
      rfl
    have hres := key _ hfd
    rw [hdrop] at hres
    have hiff : ((Y :: (A2 ++ B)).any (fun c => dep c X) = true) ↔
        ∃ c ∈ A1 ++ Y :: A2 ++ X :: B, dep c X = true ∧
          (c = Y ∨ [Y, c].Sublist (A1 ++ Y :: A2 ++ X :: B)) := by
      rw [List.any_eq_true]
      constructor
      · rintro ⟨c, hc, hd⟩
        rcases List.mem_cons.1 hc with h | h
        · exact ⟨c, by rw [h]; exact hY, hd, Or.inl h⟩
        · rcases List.mem_append.1 h with h | h
          · refine ⟨c, by simp [h], hd, Or.inr ?_⟩
            rw [List.append_assoc]
            refine List.Sublist.trans ?_ (List.sublist_append_right A1 _)
            exact (List.singleton_sublist.2 (List.mem_append_left _ h)).cons₂ Y
          · rw [hBdep c h] at hd; cases hd
      · rintro ⟨c, hc, hd, hpos⟩
        have hcA1 := hcA c hc hd
        rcases List.mem_append.1 hcA1 with h | h
        · rcases hpos with e | hs
          · exact absurd (e ▸ h) hYA1
          · exfalso
            refine pair_sublist_nodup _ hnd c Y ?_ hs
            rw [List.append_assoc]
            have h1 : [c].Sublist A1 := List.singleton_sublist.2 h
            have h2 : [Y].Sublist (Y :: A2 ++ X :: B) :=
              List.singleton_sublist.2 (List.mem_cons_self _ _)
            exact h1.append h2
        · refine ⟨c, ?_, hd⟩
          rcases List.mem_cons.1 h with h | h
          · rw [h]; exact List.mem_cons_self _ _
          · exact List.mem_cons_of_mem _ (List.mem_append_left _ h)
    rw [hres]
    constructor
    · rw [← hiff]
      cases (Y :: (A2 ++ B)).any (fun c => dep c X) <;> simp
    · rw [← hiff]
      cases (Y :: (A2 ++ B)).any (fun c => dep c X) <;> simp
  · have hYA : Y ∉ A := fun h => hdisj Y h (List.mem_cons_of_mem _ hYB)
    have hA0 : ∀ a ∈ A, dep X a = false := by
      intro a ha
      by_contra hd
      have := hAdep a ha (by simpa using hd)
      exact hYA (this ▸ ha)
    cases hfB : firstDependent dep X B with
    | none =>
      have := firstDependent_none dep X B hfB Y hYB
      rw [hnew] at this
      cases this
    | some j =>
      have hfd : firstDependent dep X (A ++ B) = some (j + A.length) := by
        rw [firstDependent_append dep X A B hA0, hfB]
        rfl
      have hres := key _ hfd
      have hany : ((A ++ B).drop (j + A.length)).any (fun c => dep c X) = false := by
        rw [List.any_eq_false]
        intro c hc
        have hcB : c ∈ B := by
          have : (A ++ B).drop (j + A.length) = B.drop j := by
            rw [Nat.add_comm, List.drop_append]
          rw [this] at hc
          exact (List.drop_sublist j B).subset hc
        simp [hBdep c hcB]
      rw [hany] at hres
      have hnot : ¬ ∃ c ∈ A ++ X :: B, dep c X = true ∧
          (c = Y ∨ [Y, c].Sublist (A ++ X :: B)) := by
        rintro ⟨c, hc, hd, hpos⟩
        have hcA1 := hcA c hc hd
        rcases hpos with e | hs
        · exact hYA (e ▸ hcA1)
        · refine pair_sublist_nodup _ hnd c Y ?_ hs
          have h1 : [c].Sublist A := List.singleton_sublist.2 hcA1
          have h2 : [Y].Sublist (X :: B) :=
            List.singleton_sublist.2 (List.mem_cons_of_mem _ hYB)
          exact h1.append h2
      have hok : (newCanvasDependency dep mainCanvas X (A ++ X :: B)).1 = .ok () := by
        rw [hres]; rfl
      have hne : (newCanvasDependency dep mainCanvas X (A ++ X :: B)).1
          ≠ .error .circularDependency := by
        rw [hok]; intro h; cases h
      exact ⟨⟨fun h => absurd h hne, fun h => absurd h hnot⟩,
        ⟨fun _ => hnot, fun _ => hok⟩⟩

/-- C27, witness: canvases 1, 2, 3 in this order, canvas 2 uses canvas 1; canvas 3 is made
to use canvas 2. The new dependent 3 stands behind canvas 1, the only canvas that canvas 2
depends on, and `newCanvasDependency(2)` returns with the sequence 1, 2, 3. -/
theorem newCanvasDependency_circular_iff_witness :
    (newCanvasDependency (fun x y => (x == 1 && y == 2) || (x == 2 && y == 3)) 0 2
      [1, 2, 3]).1 = .ok () ∧
    newCanvasDependency (fun x y => (x == 1 && y == 2) || (x == 2 && y == 3)) 0 2 [1, 2, 3]
      = (.ok (), [1, 2, 3]) :=
  ⟨(newCanvasDependency_circular_iff
      (fun x y => (x == 1 && y == 2) || (x == 2 && y == 3)) 0 2 3 [1, 2, 3]
      (by decide) (by decide) (by decide) (by decide) (by decide) rfl).2.2
      (by
        rintro ⟨c, hc, hd, hpos⟩
        have h1 : c = 1 := by
          simp only [List.mem_cons, List.mem_singleton, List.not_mem_nil, or_false] at hc
          rcases hc with rfl | rfl | rfl <;> simp at hd ⊢
        subst h1
        rcases hpos with e | hs
        · exact absurd e (by decide)
        · exact pair_sublist_nodup [1, 2, 3] (by decide) 1 3
            (by decide) hs),
    rfl⟩

end Avg
